import Mathlib

/-!
# nanoparquet: the Parquet reader of `src/lib/ParquetFile.cpp`

A shallow embedding of `ParquetFile` and `ColumnScan`.

* Bytes are natural numbers below 256; a buffer is a `List Nat`.
* A pointer into a buffer is an integer offset from the start of its allocation.
  Pointer arithmetic is integer arithmetic; dereferencing an offset outside the
  allocation is `Outcome.undefined`.
* Every member function that mutates objects takes them as arguments and returns
  them in an `Outcome`; a C++ exception is `Outcome.thrown`, carrying the objects as
  they are when the exception leaves the function.
* The Thrift deserializer, Snappy and `RleBpDecoder` are not part of the translated
  sources; they are the fields of `Externals`, and every theorem holds for all of them,
  unless it states an assumption on one of them.
-/

namespace nanoparquet

/-! ## Outcomes -/

/-- The exceptions of the reader, one for each `throw` site (the message text and the
file name are not kept), and the exceptions of the libraries it calls. -/
inductive Err where
  | cantOpen
  | noLeadingMagic
  | noTrailingMagic
  | footerLengthZero
  | couldNotReadFooter
  | thriftDeserialize
  | encrypted
  | needAtLeastOneColumn
  | onlyFlatTables
  | dictPageHeaderMismatch
  | dictPageEncoding
  | multipleDictPages
  | dictUnsupportedType
  | stringLengthExceedsPayload
  | dataPageHeaderMismatch
  | dataPageV2Header
  | defLevelEncoding
  | dataPageEncoding
  | plainUnsupportedType
  | missingDictPage
  | dictDataUnsupportedType
  | cleanupUnsupportedType
  | onlyInlined
  | onlyFlatFiles
  | couldNotReadChunk
  | decompressionFailure
  | unsupportedCodec
  | v2DataPage
  | noTypeLength
  | initUnsupportedType
  | eofWhileReading
  | unexpectedEndOfFile
  | badAlloc
  | rleDecoder
  | dictOffsetOutOfBounds
  deriving DecidableEq, Repr

/-- What a call does to the objects `σ` it works on. -/
inductive Outcome (σ : Type) where
  /-- normal return -/
  | ok (s : σ) : Outcome σ
  /-- an exception leaves the call; `s` is the state at the `throw` -/
  | thrown (e : Err) (s : σ) : Outcome σ
  /-- a memory access outside an allocation, or a read of an indeterminate value -/
  | undefined : Outcome σ
  deriving DecidableEq, Repr

/-- Sequencing of two steps on the same objects. -/
def Outcome.andThen {σ : Type} (o : Outcome σ) (f : σ → Outcome σ) : Outcome σ :=
  match o with
  | .ok s => f s
  | .thrown e s => .thrown e s
  | .undefined => .undefined

/-- The objects after a normal return (`d` otherwise). -/
def Outcome.getD {σ : Type} (o : Outcome σ) (d : σ) : σ :=
  match o with
  | .ok s => s
  | _ => d

/-- The call returned normally. -/
def Outcome.isOk {σ : Type} : Outcome σ → Bool
  | .ok _ => true
  | _ => false

/-- The call ended with an exception. -/
def Outcome.isThrown {σ : Type} : Outcome σ → Bool
  | .thrown _ _ => true
  | _ => false

/-- Apply a function to the objects an outcome holds. -/
def Outcome.map {σ : Type} (f : σ → σ) (o : Outcome σ) : Outcome σ :=
  match o with
  | .ok s => .ok (f s)
  | .thrown e s => .thrown e (f s)
  | .undefined => .undefined

/-- The objects an outcome holds, if any, satisfy `p`. -/
def Outcome.satisfies {σ : Type} (o : Outcome σ) (p : σ → Prop) : Prop :=
  match o with
  | .ok s => p s
  | .thrown _ s => p s
  | .undefined => True

/-! ## Machine integers and memory -/

def two32 : Int := 4294967296

def two64 : Int := 18446744073709551616

/-- Conversion of an integer to `uint64_t`. -/
def toU64 (x : Int) : Int := x % two64

/-- Conversion of an integer to `uint32_t`. -/
def toU32 (x : Int) : Int := x % two32

/-- Conversion of a `uint32_t` bit pattern to `int32_t`. -/
def toI32 (x : Int) : Int := if x % two32 < 2147483648 then x % two32 else x % two32 - two32

/-- The values of an `int32_t`. -/
def is_int32 (x : Int) : Prop := -2147483648 ≤ x ∧ x < 2147483648

instance (x : Int) : Decidable (is_int32 x) := by
  unfold is_int32
  infer_instance

/-- Little-endian value of a byte string. -/
def leNat : List Nat → Nat
  | [] => 0
  | b :: bs => b + 256 * leNat bs

/-- An allocation request `new T[n]` / `vector::resize(n)` with the size already
converted to `uint64_t`: requests of 2^63 elements or more cannot be served. -/
def allocFails (n : Int) : Bool := decide (9223372036854775808 ≤ n)

/-- The `n` bytes at offset `pos` of an allocation; `none` when the range is not
inside the allocation. -/
def readBytes (mem : List Nat) (pos : Int) (n : Nat) : Option (List Nat) :=
  if 0 ≤ pos ∧ pos.toNat + n ≤ mem.length then some ((mem.drop pos.toNat).take n) else none

/-- Element `i` of an array, `none` when `i` is outside it. -/
def readAt {α : Type} (mem : List α) (i : Int) : Option α :=
  if 0 ≤ i then mem[i.toNat]? else none

/-- Store `v` in element `i` of an array, `none` when `i` is outside it. -/
def writeAt {α : Type} (mem : List α) (i : Int) (v : α) : Option (List α) :=
  if 0 ≤ i ∧ i.toNat < mem.length then some (mem.set i.toNat v) else none

/-- Store the values `vs` in the elements `i, i+1, ...` of an array. -/
def writeRange {α : Type} (mem : List α) (i : Int) (vs : List α) : Option (List α) :=
  if 0 ≤ i ∧ i.toNat + vs.length ≤ mem.length then
    some (mem.take i.toNat ++ vs ++ mem.drop (i.toNat + vs.length))
  else none

/-! ## Thrift records (`parquet::format`) -/

/-- Physical types, `parquet::format::Type`. An integer that names no type is kept. -/
inductive PType where
  | BOOLEAN | INT32 | INT64 | INT96 | FLOAT | DOUBLE | BYTE_ARRAY | FIXED_LEN_BYTE_ARRAY
  | other (v : Int)
  deriving DecidableEq, Repr

inductive Encoding where
  | PLAIN | PLAIN_DICTIONARY | RLE | BIT_PACKED | DELTA_BINARY_PACKED
  | DELTA_LENGTH_BYTE_ARRAY | DELTA_BYTE_ARRAY | RLE_DICTIONARY | BYTE_STREAM_SPLIT
  | other (v : Int)
  deriving DecidableEq, Repr

inductive CompressionCodec where
  | UNCOMPRESSED | SNAPPY | GZIP | LZO | BROTLI | LZ4 | ZSTD | LZ4_RAW
  | other (v : Int)
  deriving DecidableEq, Repr

inductive PageType where
  | DATA_PAGE | INDEX_PAGE | DICTIONARY_PAGE | DATA_PAGE_V2
  | other (v : Int)
  deriving DecidableEq, Repr

inductive FieldRepetitionType where
  | REQUIRED | OPTIONAL | REPEATED
  | other (v : Int)
  deriving DecidableEq, Repr

/-- The fields of `SchemaElement` the reader looks at. An optional Thrift field is a
value together with its `__isset` flag. -/
structure SchemaElement where
  name : String := ""
  type : PType := PType.BOOLEAN
  isset_type : Bool := false
  type_length : Int := 0
  isset_type_length : Bool := false
  repetition_type : FieldRepetitionType := FieldRepetitionType.REQUIRED
  num_children : Int := 0
  deriving DecidableEq, Repr

structure ColumnMetaData where
  path_in_schema : List String := []
  codec : CompressionCodec := CompressionCodec.UNCOMPRESSED
  total_compressed_size : Int := 0
  data_page_offset : Int := 0
  dictionary_page_offset : Int := 0
  isset_dictionary_page_offset : Bool := false
  deriving DecidableEq, Repr

structure ColumnChunk where
  isset_file_path : Bool := false
  meta_data : ColumnMetaData := {}
  deriving DecidableEq, Repr

structure RowGroup where
  columns : List ColumnChunk := []
  num_rows : Int := 0
  deriving DecidableEq, Repr

structure FileMetaData where
  schema : List SchemaElement := []
  num_rows : Int := 0
  row_groups : List RowGroup := []
  isset_encryption_algorithm : Bool := false
  deriving DecidableEq, Repr

structure DataPageHeader where
  num_values : Int := 0
  encoding : Encoding := Encoding.PLAIN
  definition_level_encoding : Encoding := Encoding.PLAIN
  deriving DecidableEq, Repr

structure DictionaryPageHeader where
  num_values : Int := 0
  encoding : Encoding := Encoding.PLAIN
  deriving DecidableEq, Repr

structure PageHeader where
  type : PageType := PageType.DATA_PAGE
  uncompressed_page_size : Int := 0
  compressed_page_size : Int := 0
  data_page_header : DataPageHeader := {}
  isset_data_page_header : Bool := false
  dictionary_page_header : DictionaryPageHeader := {}
  isset_dictionary_page_header : Bool := false
  isset_data_page_header_v2 : Bool := false
  deriving DecidableEq, Repr

/-! ## External collaborators -/

/-- What one call of an `RleBpDecoder` batch function does: the values it stores in the
first slots of its output array, an exception, or an access outside its input. -/
inductive Decoded where
  /-- normal return; `vs` are the contents of the first `vs.length` output slots -/
  | values (vs : List Nat)
  /-- an exception, after `written` was stored in the first output slots -/
  | throws (written : List Nat)
  | undefined
  deriving DecidableEq, Repr

/-- The libraries the reader calls and whose code is not translated here.

* `unpack_file_meta_data`, `unpack_page_header`: the Thrift compact-protocol `read` of
  a fresh `FileMetaData` / `PageHeader` from a buffer; `none` when it throws, else the
  record and the number of buffer bytes consumed.
* `snappy_GetUncompressedLength`, `snappy_RawUncompress`: `none` when they return false.
* `rle_GetBatch mem buffer_len bit_width batch_size`: `RleBpDecoder(mem, buffer_len,
  bit_width).GetBatch(out, batch_size)`, `mem` being the memory readable from the
  buffer pointer.
* `rle_GetBatchSpaced mem buffer_len bit_width batch_size null_count defined`:
  the same for `GetBatchSpaced(batch_size, null_count, defined, out)`. -/
structure Externals where
  unpack_file_meta_data : List Nat → Option (FileMetaData × Nat)
  unpack_page_header : List Nat → Option (PageHeader × Nat)
  snappy_GetUncompressedLength : List Nat → Option Nat
  snappy_RawUncompress : List Nat → Option (List Nat)
  rle_GetBatch : List Nat → Int → Nat → Int → Decoded
  rle_GetBatchSpaced : List Nat → Int → Nat → Int → Int → List Nat → Decoded

/-! ## The input stream `pfile` -/

/-- A `std::ifstream` opened on a file: its bytes, the read position, and whether
`failbit` is set (every operation on a failed stream does nothing). -/
structure IFStream where
  bytes : List Nat := []
  pos : Nat := 0
  failed : Bool := false
  deriving DecidableEq, Repr

/-- The call `seekg(off, ios_base::end)`. -/
def IFStream.seekg_end (f : IFStream) (off : Int) : IFStream :=
  if f.failed then f
  else if 0 ≤ (f.bytes.length : Int) + off then { f with pos := ((f.bytes.length : Int) + off).toNat }
  else { f with failed := true }

/-- The call `seekg(pos)` / `seekg(pos, ios_base::beg)`. -/
def IFStream.seekg (f : IFStream) (pos : Int) : IFStream :=
  if f.failed then f
  else if 0 ≤ pos then { f with pos := pos.toNat }
  else { f with failed := true }

/-- The call `tellg()`. -/
def IFStream.tellg (f : IFStream) : Int :=
  if f.failed then -1 else (f.pos : Int)

/-- The call `read(ptr, n)`: the bytes stored at `ptr` (fewer than `n` at the end of the
file, none on a failed stream) and the stream afterwards. -/
def IFStream.read (f : IFStream) (n : Nat) : List Nat × IFStream :=
  if f.failed then ([], f)
  else
    let got := (f.bytes.drop f.pos).take n
    (got, { f with pos := f.pos + got.length, failed := decide (got.length < n) })

/-- Contents of a buffer after `got` was read into its first bytes. -/
def overwrite (buf got : List Nat) : List Nat := got ++ buf.drop got.length

/-! ## `ParquetFile` -/

/-- A leaf schema element with its column id. `schema_element` points into
`file_meta_data.schema`; the element it points to is kept here. -/
structure ParquetColumn where
  id : Nat := 0
  name : String := ""
  type : PType := PType.BOOLEAN
  schema_element : SchemaElement := {}
  deriving DecidableEq, Repr

structure ParquetFile where
  file_meta_data : FileMetaData := {}
  columns : List ParquetColumn := []
  nrow : Int := 0
  file_size : Int := 0
  pfile : IFStream := {}
  deriving DecidableEq, Repr

/-- The bytes of the string "PAR1". -/
def magic : List Nat := [80, 65, 82, 49]

/-- The loop of `initialize` that appends one column descriptor per schema element from
index `col_idx` on; `rest` is `schema` without its first `col_idx` elements. -/
def build_columns (col_idx : Nat) (rest : List SchemaElement) (columns : List ParquetColumn) :
    List ParquetColumn :=
  match rest with
  | [] => columns
  | s_ele :: tl =>
    build_columns (col_idx + 1) tl
      (columns ++ [{ id := col_idx - 1, name := s_ele.name, schema_element := s_ele,
                     type := s_ele.type }])

/-- `ParquetFile::initialize(filename)`; `file` is what the file system holds under
`filename` (`none`: the file cannot be opened). -/
def ParquetFile.initialize (ext : Externals) (self : ParquetFile) (file : Option (List Nat)) :
    Outcome ParquetFile :=
  match file with
  | none => .thrown .cantOpen { self with pfile := { self.pfile with failed := true } }
  | some bytes =>
    let pfile : IFStream := { bytes := bytes, pos := 0, failed := false }
    -- buf.resize(4); memset(buf.ptr, 0, 4); pfile.read(buf.ptr, 4)
    let r1 := pfile.read 4
    let buf := overwrite [0, 0, 0, 0] r1.1
    if buf ≠ magic then .thrown .noLeadingMagic { self with pfile := r1.2 }
    else
      let pfile := r1.2.seekg_end 0
      let file_size := pfile.tellg
      let r2 := (pfile.seekg_end (-4)).read 4
      let buf := overwrite buf r2.1
      if buf ≠ magic then
        .thrown .noTrailingMagic { self with pfile := r2.2, file_size := file_size }
      else
        let r3 := (r2.2.seekg_end (-8)).read 4
        let buf := overwrite buf r3.1
        let footer_len := toI32 (leNat buf)
        let self := { self with pfile := r3.2, file_size := file_size }
        if footer_len = 0 then .thrown .footerLengthZero self
        else if allocFails (toU64 footer_len) then .thrown .badAlloc self
        else if 2147483647 < footer_len + 8 then .undefined
        else
          let r4 := (r3.2.seekg_end (-(footer_len + 8))).read footer_len.toNat
          let self := { self with pfile := r4.2 }
          if r4.2.failed then .thrown .couldNotReadFooter self
          else
            match ext.unpack_file_meta_data r4.1 with
            | none => .thrown .thriftDeserialize self
            | some (fmd, _) =>
              .ok { self with
                    file_meta_data := fmd,
                    columns := build_columns 1 (fmd.schema.drop 1) self.columns,
                    nrow := fmd.num_rows }

/-- `ParquetFile::read_checks()`: the loop over the schema elements from index 1 on. -/
def read_checks_leaves : List SchemaElement → Bool
  | [] => true
  | s_ele :: tl =>
    if !s_ele.isset_type || decide (0 < s_ele.num_children) then false
    else read_checks_leaves tl

/-- `ParquetFile::read_checks()`. The comparison of `schema[0].num_children` (an `int32_t`)
with `schema.size() - 1` is made in `uint64_t`. -/
def ParquetFile.read_checks (self : ParquetFile) : Outcome ParquetFile :=
  if self.file_meta_data.isset_encryption_algorithm then .thrown .encrypted self
  else if self.file_meta_data.schema.length < 2 then .thrown .needAtLeastOneColumn self
  else
    match self.file_meta_data.schema with
    | [] => .undefined
    | root :: leaves =>
      if toU64 root.num_children ≠ toU64 ((self.file_meta_data.schema.length : Int) - 1) then
        .thrown .onlyFlatTables self
      else if read_checks_leaves leaves then .ok self
      else .thrown .onlyFlatTables self

/-! ## `ResultColumn` and `ColumnScan` -/

/-- A `char *` into a string heap chunk of a result column: the index of the chunk in
`string_heap_chunks` and the offset in it. -/
structure StrPtr where
  chunk : Nat
  off : Nat
  deriving DecidableEq, Repr

/-- One element of a typed array (`T *`): the `sizeof(T)` bytes of a fixed-width value,
a `char *` (`none` is `nullptr`), or an element nothing was stored in yet. -/
inductive Slot where
  | uninit
  | raw (bytes : List Nat)
  | ptr (p : Option StrPtr)
  deriving DecidableEq, Repr

/-- A string heap chunk `new char[capacity]`. The decoders fill a chunk front to back,
`bytes` is what they stored so far; the next string goes to offset `bytes.length`. -/
structure HeapChunk where
  capacity : Nat := 0
  bytes : List Nat := []
  deriving DecidableEq, Repr

structure ResultColumn where
  id : Nat := 0
  data : List Slot := []
  col : ParquetColumn := {}
  defined : List Nat := []
  string_heap_chunks : List HeapChunk := []
  dict : Option (List Slot) := none
  deriving DecidableEq, Repr

structure ResultChunk where
  cols : List ResultColumn := []
  nrows : Int := 0
  deriving DecidableEq, Repr

structure ScanState where
  row_group_idx : Nat := 0
  deriving DecidableEq, Repr

/-- The members of `class ColumnScan`. `page_buf` is the allocation `page_buf_ptr` points
into and the pointers are offsets in it; `defined_ptr` is an offset in
`result_col.defined`; `dict` is the `dict` vector of the `Dictionary<T>` behind the
`void *` (`none` is `nullptr`). Members without an initializer start at 0. -/
structure ColumnScan where
  page_header : PageHeader := {}
  seen_dict : Bool := false
  page_buf : List Nat := []
  page_buf_ptr : Int := 0
  page_buf_end_ptr : Int := 0
  dict : Option (List Slot) := none
  dict_size : Int := 0
  page_buf_len : Int := 0
  page_start_row : Int := 0
  defined_ptr : Int := 0
  type_len : Int := 0
  deriving DecidableEq, Repr

/-- The memory readable from an offset of an allocation. -/
def memFrom (mem : List Nat) (pos : Int) : List Nat :=
  if 0 ≤ pos then mem.drop pos.toNat else []

def sizeof_bool : Nat := 1
def sizeof_int32 : Nat := 4
def sizeof_int64 : Nat := 8
def sizeof_Int96 : Nat := 12
def sizeof_float : Nat := 4
def sizeof_double : Nat := 8
def sizeof_ptr : Nat := 8

/-- The loop of `fill_dict<T>`, `n` iterations from index `dict_index` on; `sz` is
`sizeof(T)`. -/
def ColumnScan.fill_dict_loop (sz : Nat) : Nat → Nat → ColumnScan → Outcome ColumnScan
  | 0, _, cs => .ok cs
  | n + 1, dict_index, cs =>
    match readBytes cs.page_buf cs.page_buf_ptr sz, cs.dict with
    | some val, some d =>
      if dict_index < d.length then
        ColumnScan.fill_dict_loop sz n (dict_index + 1)
          { cs with page_buf_ptr := cs.page_buf_ptr + (sz : Int),
                    dict := some (d.set dict_index (.raw val)) }
      else .undefined
    | _, _ => .undefined

/-- `ColumnScan::fill_dict<T>()`, `sz` is `sizeof(T)`. `Dictionary<T>(n)` holds a vector
of `n` value-initialized elements. -/
def ColumnScan.fill_dict (sz : Nat) (cs : ColumnScan) : Outcome ColumnScan :=
  let dict_size := cs.page_header.dictionary_page_header.num_values
  if allocFails (toU64 dict_size) then .thrown .badAlloc cs
  else
    ColumnScan.fill_dict_loop sz dict_size.toNat 0
      { cs with dict := some (List.replicate dict_size.toNat (.raw (List.replicate sz 0))) }

/-- Run a step that only touches the `ColumnScan`. -/
def Outcome.withCol (o : Outcome ColumnScan) (result_col : ResultColumn) :
    Outcome (ColumnScan × ResultColumn) :=
  match o with
  | .ok cs => .ok (cs, result_col)
  | .thrown e cs => .thrown e (cs, result_col)
  | .undefined => .undefined

/-- Append a string and its terminating NUL to a heap chunk: `memcpy(str_ptr, src, len);
str_ptr[len] = 0; str_ptr += len + 1`. `none` when that writes past the chunk. -/
def HeapChunk.push (c : HeapChunk) (str : List Nat) : Option HeapChunk :=
  if c.bytes.length + str.length + 1 ≤ c.capacity then
    some { c with bytes := c.bytes ++ str ++ [0] }
  else none

/-- The loop over the entries of a BYTE_ARRAY dictionary page (`scan_dict_page`):
`n` iterations from `dict_index` on, writing to heap chunk `k` of the result column. -/
def ColumnScan.scan_dict_strings (k : Nat) :
    Nat → Nat → ColumnScan → ResultColumn → Outcome (ColumnScan × ResultColumn)
  | 0, _, cs, result_col => .ok (cs, result_col)
  | n + 1, dict_index, cs, result_col =>
    match readBytes cs.page_buf cs.page_buf_ptr 4 with
    | none => .undefined
    | some lenBytes =>
      let str_len := leNat lenBytes
      let cs := { cs with page_buf_ptr := cs.page_buf_ptr + 4 }
      if cs.page_buf_ptr + (str_len : Int) > cs.page_buf_end_ptr then
        .thrown .stringLengthExceedsPayload (cs, result_col)
      else
        match cs.dict, result_col.string_heap_chunks[k]?,
              readBytes cs.page_buf cs.page_buf_ptr str_len with
        | some d, some chunk, some str =>
          if dict_index < d.length then
            match chunk.push str with
            | none => .undefined
            | some chunk' =>
              ColumnScan.scan_dict_strings k n (dict_index + 1)
                { cs with
                  dict := some (d.set dict_index (.ptr (some ⟨k, chunk.bytes.length⟩))),
                  page_buf_ptr := cs.page_buf_ptr + (str_len : Int) }
                { result_col with
                  string_heap_chunks := result_col.string_heap_chunks.set k chunk' }
          else .undefined
        | _, _, _ => .undefined

/-- `ColumnScan::scan_dict_page(result_col)`. -/
def ColumnScan.scan_dict_page (cs : ColumnScan) (result_col : ResultColumn) :
    Outcome (ColumnScan × ResultColumn) :=
  if cs.page_header.isset_data_page_header || !cs.page_header.isset_dictionary_page_header then
    .thrown .dictPageHeaderMismatch (cs, result_col)
  else
    match cs.page_header.dictionary_page_header.encoding with
    | .PLAIN | .PLAIN_DICTIONARY =>
      if cs.seen_dict then .thrown .multipleDictPages (cs, result_col)
      else
        let cs := { cs with seen_dict := true,
                            dict_size := toU64 cs.page_header.dictionary_page_header.num_values }
        match result_col.col.type with
        | .BOOLEAN => (cs.fill_dict sizeof_bool).withCol result_col
        | .INT32 => (cs.fill_dict sizeof_int32).withCol result_col
        | .INT64 => (cs.fill_dict sizeof_int64).withCol result_col
        | .INT96 => (cs.fill_dict sizeof_Int96).withCol result_col
        | .FLOAT => (cs.fill_dict sizeof_float).withCol result_col
        | .DOUBLE => (cs.fill_dict sizeof_double).withCol result_col
        | .BYTE_ARRAY =>
          if allocFails (toU64 cs.page_header.uncompressed_page_size) then
            .thrown .badAlloc (cs, result_col)
          else
            let k := result_col.string_heap_chunks.length
            let result_col := { result_col with
              string_heap_chunks := result_col.string_heap_chunks ++
                [{ capacity := cs.page_header.uncompressed_page_size.toNat, bytes := [] }] }
            if allocFails cs.dict_size then .thrown .badAlloc (cs, result_col)
            else
              ColumnScan.scan_dict_strings k cs.dict_size.toNat 0
                { cs with dict := some (List.replicate cs.dict_size.toNat (.ptr none)) } result_col
        | _ => .thrown .dictUnsupportedType (cs, result_col)
    | _ => .thrown .dictPageEncoding (cs, result_col)

/-- The loop of `fill_values_plain<T>`: `n` iterations from `val_offset` on; `sz` is
`sizeof(T)`. -/
def ColumnScan.fill_values_plain_loop (sz : Nat) :
    Nat → Int → ColumnScan → ResultColumn → Outcome (ColumnScan × ResultColumn)
  | 0, _, cs, result_col => .ok (cs, result_col)
  | n + 1, val_offset, cs, result_col =>
    match readAt result_col.defined (cs.defined_ptr + val_offset) with
    | none => .undefined
    | some d =>
      if d = 0 then
        ColumnScan.fill_values_plain_loop sz n (val_offset + 1) cs result_col
      else
        let row_idx := toU64 (cs.page_start_row + val_offset)
        match readBytes cs.page_buf cs.page_buf_ptr sz with
        | none => .undefined
        | some val =>
          match writeAt result_col.data row_idx (.raw val) with
          | none => .undefined
          | some data =>
            ColumnScan.fill_values_plain_loop sz n (val_offset + 1)
              { cs with page_buf_ptr := cs.page_buf_ptr + (sz : Int) }
              { result_col with data := data }

/-- `ColumnScan::fill_values_plain<T>(result_col)`, `sz` is `sizeof(T)`. -/
def ColumnScan.fill_values_plain (sz : Nat) (cs : ColumnScan) (result_col : ResultColumn) :
    Outcome (ColumnScan × ResultColumn) :=
  ColumnScan.fill_values_plain_loop sz cs.page_header.data_page_header.num_values.toNat 0
    cs result_col

/-- The BOOLEAN loop of `scan_data_page_plain`: `n` iterations from `idx` on, `byte_pos`
the current bit position. -/
def ColumnScan.plain_bool_loop :
    Nat → Int → Nat → ColumnScan → ResultColumn → Outcome (ColumnScan × ResultColumn)
  | 0, _, _, cs, result_col => .ok (cs, result_col)
  | n + 1, idx, byte_pos, cs, result_col =>
    match readAt result_col.defined (cs.defined_ptr + idx) with
    | none => .undefined
    | some d =>
      if d = 0 then ColumnScan.plain_bool_loop n (idx + 1) byte_pos cs result_col
      else
        match readAt cs.page_buf cs.page_buf_ptr with
        | none => .undefined
        | some b =>
          match writeAt result_col.data (toU64 (cs.page_start_row + idx))
                  (.raw [(b / 2 ^ byte_pos) % 2]) with
          | none => .undefined
          | some data =>
            if byte_pos + 1 = 8 then
              ColumnScan.plain_bool_loop n (idx + 1) 0
                { cs with page_buf_ptr := cs.page_buf_ptr + 1 } { result_col with data := data }
            else
              ColumnScan.plain_bool_loop n (idx + 1) (byte_pos + 1) cs
                { result_col with data := data }

/-- The BYTE_ARRAY / FIXED_LEN_BYTE_ARRAY loop of `scan_data_page_plain`: `n` iterations
from `val_offset` on, writing to heap chunk `k`; `str_len` is the current value of the
local of that name. -/
def ColumnScan.plain_strings_loop (k : Nat) :
    Nat → Int → Nat → ColumnScan → ResultColumn → Outcome (ColumnScan × ResultColumn)
  | 0, _, _, cs, result_col => .ok (cs, result_col)
  | n + 1, val_offset, str_len, cs, result_col =>
    match readAt result_col.defined (cs.defined_ptr + val_offset) with
    | none => .undefined
    | some d =>
      if d = 0 then ColumnScan.plain_strings_loop k n (val_offset + 1) str_len cs result_col
      else
        let row_idx := toU64 (cs.page_start_row + val_offset)
        let lenRead : Option (Nat × ColumnScan) :=
          if result_col.col.type = PType.BYTE_ARRAY then
            (readBytes cs.page_buf cs.page_buf_ptr 4).map
              (fun bs => (leNat bs, { cs with page_buf_ptr := cs.page_buf_ptr + 4 }))
          else some (str_len, cs)
        match lenRead with
        | none => .undefined
        | some (str_len, cs) =>
          if cs.page_buf_ptr + (str_len : Int) > cs.page_buf_end_ptr then
            .thrown .stringLengthExceedsPayload (cs, result_col)
          else
            match result_col.string_heap_chunks[k]? with
            | none => .undefined
            | some chunk =>
              match writeAt result_col.data row_idx (.ptr (some ⟨k, chunk.bytes.length⟩)),
                    readBytes cs.page_buf cs.page_buf_ptr str_len with
              | some data, some str =>
                match chunk.push str with
                | none => .undefined
                | some chunk' =>
                  ColumnScan.plain_strings_loop k n (val_offset + 1) str_len
                    { cs with page_buf_ptr := cs.page_buf_ptr + (str_len : Int) }
                    { result_col with
                      data := data,
                      string_heap_chunks := result_col.string_heap_chunks.set k chunk' }
              | _, _ => .undefined

/-- `ColumnScan::scan_data_page_plain(result_col)`. -/
def ColumnScan.scan_data_page_plain (cs : ColumnScan) (result_col : ResultColumn) :
    Outcome (ColumnScan × ResultColumn) :=
  let num_values := cs.page_header.data_page_header.num_values
  match result_col.col.type with
  | .BOOLEAN => ColumnScan.plain_bool_loop num_values.toNat 0 0 cs result_col
  | .INT32 => cs.fill_values_plain sizeof_int32 result_col
  | .INT64 => cs.fill_values_plain sizeof_int64 result_col
  | .INT96 => cs.fill_values_plain sizeof_Int96 result_col
  | .FLOAT => cs.fill_values_plain sizeof_float result_col
  | .DOUBLE => cs.fill_values_plain sizeof_double result_col
  | .FIXED_LEN_BYTE_ARRAY | .BYTE_ARRAY =>
    let str_len := toU32 cs.type_len
    let shc_len :=
      if result_col.col.type = PType.FIXED_LEN_BYTE_ARRAY then
        toU64 (toU64 cs.page_header.uncompressed_page_size + toU64 num_values)
      else toU64 cs.page_header.uncompressed_page_size
    if allocFails shc_len then .thrown .badAlloc (cs, result_col)
    else
      let k := result_col.string_heap_chunks.length
      ColumnScan.plain_strings_loop k num_values.toNat 0 str_len.toNat cs
        { result_col with
          string_heap_chunks := result_col.string_heap_chunks ++
            [{ capacity := shc_len.toNat, bytes := [] }] }
  | _ => .thrown .plainUnsupportedType (cs, result_col)

/-- `Dictionary<T>::get(offset)` (declared in a header that is not among the translated
sources): the entry, or an exception for an offset outside the dictionary. -/
def Dictionary.get (dict : List Slot) (offset : Nat) : Except Err Slot :=
  match dict[offset]? with
  | some v => .ok v
  | none => .error .dictOffsetOutOfBounds

/-- The loop of `fill_values_dict<T>`: `n` iterations from `val_offset` on. -/
def ColumnScan.fill_values_dict_loop (offsets : List Nat) :
    Nat → Int → ColumnScan → ResultColumn → Outcome (ColumnScan × ResultColumn)
  | 0, _, cs, result_col => .ok (cs, result_col)
  | n + 1, val_offset, cs, result_col =>
    let row_idx := toU64 (cs.page_start_row + val_offset)
    match readAt result_col.defined (cs.defined_ptr + val_offset) with
    | none => .undefined
    | some d =>
      if d ≠ 0 then
        match readAt offsets val_offset, cs.dict with
        | some offset, some dict =>
          match Dictionary.get dict offset with
          | .error e => .thrown e (cs, result_col)
          | .ok v =>
            match writeAt result_col.data row_idx v with
            | none => .undefined
            | some data =>
              ColumnScan.fill_values_dict_loop offsets n (val_offset + 1) cs
                { result_col with data := data }
        | _, _ => .undefined
      else ColumnScan.fill_values_dict_loop offsets n (val_offset + 1) cs result_col

/-- `ColumnScan::fill_values_dict<T>(result_col, offsets)`. -/
def ColumnScan.fill_values_dict (cs : ColumnScan) (result_col : ResultColumn)
    (offsets : List Nat) : Outcome (ColumnScan × ResultColumn) :=
  ColumnScan.fill_values_dict_loop offsets cs.page_header.data_page_header.num_values.toNat 0
    cs result_col

/-- The BYTE_ARRAY loop of `scan_data_page_dict`: `n` iterations from `val_offset` on. -/
def ColumnScan.dict_strings_loop (offsets : List Nat) :
    Nat → Int → ColumnScan → ResultColumn → Outcome (ColumnScan × ResultColumn)
  | 0, _, cs, result_col => .ok (cs, result_col)
  | n + 1, val_offset, cs, result_col =>
    match readAt result_col.defined (cs.defined_ptr + val_offset) with
    | none => .undefined
    | some d =>
      if d ≠ 0 then
        match readAt offsets val_offset, cs.dict with
        | some offset, some dict =>
          match Dictionary.get dict offset with
          | .error e => .thrown e (cs, result_col)
          | .ok v =>
            match writeAt result_col.data (toU64 (cs.page_start_row + val_offset)) v with
            | none => .undefined
            | some data =>
              ColumnScan.dict_strings_loop offsets n (val_offset + 1) cs
                { result_col with data := data }
        | _, _ => .undefined
      else
        match writeAt result_col.data (toU64 (cs.page_start_row + val_offset)) (.ptr none) with
        | none => .undefined
        | some data =>
          ColumnScan.dict_strings_loop offsets n (val_offset + 1) cs
            { result_col with data := data }

/-- The loop of `scan_data_page_dict` that counts the nulls among `defined_ptr[0 .. n)`;
`none` when it reads outside the `defined` array. -/
def count_nulls (defined : List Nat) (defined_ptr : Int) : Nat → Int → Option Nat
  | 0, _ => some 0
  | n + 1, i =>
    match readAt defined (defined_ptr + i), count_nulls defined defined_ptr n (i + 1) with
    | some d, some c => some (if d = 0 then c + 1 else c)
    | _, _ => none

/-- The first part of `scan_data_page_dict`: the index array `offsets` of the page, and
the `ColumnScan` with the cursor behind the bit-width byte. -/
def ColumnScan.read_offsets (ext : Externals) (cs : ColumnScan) (result_col : ResultColumn) :
    Outcome (ColumnScan × ResultColumn) × List Nat :=
  let num_values := cs.page_header.data_page_header.num_values
  if allocFails (toU64 num_values) then (.thrown .badAlloc (cs, result_col), [])
  else
    match readAt cs.page_buf cs.page_buf_ptr with
    | none => (.undefined, [])
    | some enc_length =>
      let cs := { cs with page_buf_ptr := cs.page_buf_ptr + 1 }
      if 0 < enc_length then
        match count_nulls result_col.defined cs.defined_ptr num_values.toNat 0 with
        | none => (.undefined, [])
        | some null_count =>
          let decoded :=
            if 0 < null_count then
              ext.rle_GetBatchSpaced (memFrom cs.page_buf cs.page_buf_ptr) (toU32 cs.page_buf_len)
                enc_length (toU32 num_values) null_count (memFrom result_col.defined cs.defined_ptr)
            else
              ext.rle_GetBatch (memFrom cs.page_buf cs.page_buf_ptr) (toU32 cs.page_buf_len)
                enc_length (toU32 num_values)
          match decoded with
          | .values vs =>
            if vs.length ≤ num_values.toNat then (.ok (cs, result_col), vs)
            else (.undefined, [])
          | .throws _ => (.thrown .rleDecoder (cs, result_col), [])
          | .undefined => (.undefined, [])
      else (.ok (cs, result_col), List.replicate num_values.toNat 0)

/-- `ColumnScan::scan_data_page_dict(result_col)`. -/
def ColumnScan.scan_data_page_dict (ext : Externals) (cs : ColumnScan)
    (result_col : ResultColumn) : Outcome (ColumnScan × ResultColumn) :=
  if !cs.seen_dict then .thrown .missingDictPage (cs, result_col)
  else
    let num_values := cs.page_header.data_page_header.num_values
    let r := cs.read_offsets ext result_col
    r.1.andThen fun st =>
      match st.2.col.type with
      | .INT32 | .INT64 | .INT96 | .FLOAT | .DOUBLE => st.1.fill_values_dict st.2 r.2
      | .BYTE_ARRAY => ColumnScan.dict_strings_loop r.2 num_values.toNat 0 st.1 st.2
      | _ => .thrown .dictDataUnsupportedType st

/-- The definition-level part of `scan_data_page`: fills `defined_ptr[0 .. num_values)`. -/
def ColumnScan.scan_def_levels (ext : Externals) (cs : ColumnScan) (result_col : ResultColumn)
    (has_def_levels : Bool) : Outcome (ColumnScan × ResultColumn) :=
  let num_values := cs.page_header.data_page_header.num_values
  if has_def_levels then
    match cs.page_header.data_page_header.definition_level_encoding with
    | .RLE =>
      match readBytes cs.page_buf cs.page_buf_ptr 4 with
      | none => .undefined
      | some lenBytes =>
        let def_length := leNat lenBytes
        let cs := { cs with page_buf_ptr := cs.page_buf_ptr + 4 }
        match ext.rle_GetBatch (memFrom cs.page_buf cs.page_buf_ptr) def_length 1
                (toU32 num_values) with
        | .values vs =>
          match writeRange result_col.defined cs.defined_ptr (vs.map (· % 256)) with
          | none => .undefined
          | some defined =>
            .ok ({ cs with page_buf_ptr := cs.page_buf_ptr + (def_length : Int) },
                 { result_col with defined := defined })
        | .throws written =>
          match writeRange result_col.defined cs.defined_ptr (written.map (· % 256)) with
          | none => .undefined
          | some defined => .thrown .rleDecoder (cs, { result_col with defined := defined })
        | .undefined => .undefined
    | _ => .thrown .defLevelEncoding (cs, result_col)
  else
    if num_values < 0 then .undefined
    else
      match writeRange result_col.defined cs.defined_ptr (List.replicate num_values.toNat 1) with
      | none => .undefined
      | some defined => .ok (cs, { result_col with defined := defined })

/-- `ColumnScan::scan_data_page(result_col, has_def_levels)`. -/
def ColumnScan.scan_data_page (ext : Externals) (cs : ColumnScan) (result_col : ResultColumn)
    (has_def_levels : Bool) : Outcome (ColumnScan × ResultColumn) :=
  if !cs.page_header.isset_data_page_header || cs.page_header.isset_dictionary_page_header then
    .thrown .dataPageHeaderMismatch (cs, result_col)
  else if cs.page_header.isset_data_page_header_v2 then
    .thrown .dataPageV2Header (cs, result_col)
  else
    let num_values := cs.page_header.data_page_header.num_values
    ((cs.scan_def_levels ext result_col has_def_levels).andThen fun st =>
      match st.1.page_header.data_page_header.encoding with
      | .RLE_DICTIONARY | .PLAIN_DICTIONARY => st.1.scan_data_page_dict ext st.2
      | .PLAIN => st.1.scan_data_page_plain st.2
      | _ => .thrown .dataPageEncoding st).andThen fun st =>
        .ok ({ st.1 with defined_ptr := st.1.defined_ptr + num_values,
                         page_start_row := toU64 (st.1.page_start_row + num_values) }, st.2)

/-- `ColumnScan::cleanup(result_col)`. -/
def ColumnScan.cleanup (cs : ColumnScan) (result_col : ResultColumn) :
    Outcome (ColumnScan × ResultColumn) :=
  match result_col.col.type with
  | .BOOLEAN | .INT32 | .INT64 | .INT96 | .FLOAT | .DOUBLE =>
    .ok ({ cs with dict := none }, result_col)
  | .BYTE_ARRAY | .FIXED_LEN_BYTE_ARRAY => .ok (cs, { result_col with dict := cs.dict })
  | _ => .thrown .cleanupUnsupportedType (cs, result_col)

/-! ## `ParquetFile::scan_column` -/

/-- The objects `scan_column` works on: the stream of the file, the result column, and
its locals `cs`, `chunk_buf` (the allocation and `chunk_buf.ptr` as an offset in it) and
`bytes_to_read`. -/
structure ColumnRun where
  pfile : IFStream := {}
  result_col : ResultColumn := {}
  cs : ColumnScan := {}
  chunk_buf : List Nat := []
  chunk_ptr : Int := 0
  bytes_to_read : Int := 0
  deriving DecidableEq, Repr

/-- Run a `ColumnScan` step inside `scan_column`. -/
def ColumnRun.step (st : ColumnRun) (o : Outcome (ColumnScan × ResultColumn)) :
    Outcome ColumnRun :=
  match o with
  | .ok r => .ok { st with cs := r.1, result_col := r.2 }
  | .thrown e r => .thrown e { st with cs := r.1, result_col := r.2 }
  | .undefined => .undefined

/-- The part of the loop body of `scan_column` that selects the page buffer for the
codec (the `switch (chunk.meta_data.codec)`). -/
def select_page_buf (ext : Externals) (codec : CompressionCodec) (st : ColumnRun) :
    Outcome ColumnRun :=
  match codec with
  | .UNCOMPRESSED =>
    .ok { st with cs := { st.cs with
            page_buf := st.chunk_buf,
            page_buf_ptr := st.chunk_ptr,
            page_buf_len := toU64 st.cs.page_header.compressed_page_size,
            page_buf_end_ptr := st.chunk_ptr + st.cs.page_header.compressed_page_size } }
  | .SNAPPY =>
    if st.cs.page_header.compressed_page_size < 0 then .undefined
    else
      match readBytes st.chunk_buf st.chunk_ptr st.cs.page_header.compressed_page_size.toNat with
      | none => .undefined
      | some input =>
        match ext.snappy_GetUncompressedLength input with
        | none => .undefined
        | some decompressed_size =>
          if allocFails (toU64 ((decompressed_size : Int) + 1)) then .thrown .badAlloc st
          else
            match ext.snappy_RawUncompress input with
            | none => .thrown .decompressionFailure st
            | some out =>
              if decompressed_size + 1 < out.length then .undefined
              else
                .ok { st with cs := { st.cs with
                        page_buf := out,
                        page_buf_ptr := 0,
                        page_buf_len := toU64 st.cs.page_header.uncompressed_page_size,
                        page_buf_end_ptr := st.cs.page_header.uncompressed_page_size } }
  | _ => .thrown .unsupportedCodec st

/-- One iteration of the page loop of `scan_column`. The header length is written through
a `uint32_t *` into the 64-bit `page_header_len`, which keeps the upper half it was
initialised with. -/
def scan_page (ext : Externals) (codec : CompressionCodec) (has_def_levels : Bool)
    (st : ColumnRun) : Outcome ColumnRun :=
  let st := { st with cs := { st.cs with page_header := {} } }
  match readBytes st.chunk_buf st.chunk_ptr (toU32 st.bytes_to_read).toNat with
  | none => .undefined
  | some buf =>
    match ext.unpack_page_header buf with
    | none => .thrown .thriftDeserialize st
    | some (page_header, consumed) =>
      let page_header_len := st.bytes_to_read - toU32 st.bytes_to_read + (consumed : Int)
      let st := { st with cs := { st.cs with page_header := page_header },
                          chunk_ptr := st.chunk_ptr + page_header_len,
                          bytes_to_read := st.bytes_to_read - page_header_len }
      let payload_end_ptr := st.chunk_ptr + page_header.compressed_page_size
      ((select_page_buf ext codec st).andThen fun st =>
        match st.cs.page_header.type with
        | .DICTIONARY_PAGE => st.step (st.cs.scan_dict_page st.result_col)
        | .DATA_PAGE => st.step (st.cs.scan_data_page ext st.result_col has_def_levels)
        | .DATA_PAGE_V2 => .thrown .v2DataPage st
        | _ => .ok st).andThen fun st =>
          .ok { st with chunk_ptr := payload_end_ptr,
                        bytes_to_read := st.bytes_to_read - page_header.compressed_page_size }

/-- The page loop of `scan_column`, `while (bytes_to_read > 0)`, run for at most `fuel`
iterations; `none` when the loop has not ended after `fuel` iterations. -/
def scan_pages (ext : Externals) (codec : CompressionCodec) (has_def_levels : Bool) :
    Nat → ColumnRun → Option (Outcome ColumnRun)
  | fuel, st =>
    if 0 < st.bytes_to_read then
      match fuel with
      | 0 => none
      | fuel + 1 =>
        match scan_page ext codec has_def_levels st with
        | .ok st => scan_pages ext codec has_def_levels fuel st
        | .thrown e st => some (.thrown e st)
        | .undefined => some .undefined
    else some (.ok st)

/-- The objects of `scan_column` when its page loop starts: the chunk is in `chunk_buf`,
`ColumnScan cs` is new but for `type_len`, `page_start_row` and `defined_ptr`. -/
def scan_column_locals (pfile : IFStream) (chunk_buf : List Nat) (chunk_len : Int)
    (result_col : ResultColumn) : ColumnRun :=
  { pfile := pfile
    result_col := result_col
    cs := { type_len :=
              if result_col.col.type = PType.FIXED_LEN_BYTE_ARRAY then
                result_col.col.schema_element.type_length
              else 0
            page_start_row := 0
            defined_ptr := 0 }
    chunk_buf := chunk_buf
    chunk_ptr := 0
    bytes_to_read := chunk_len }

/-- The local `chunk_start` of `scan_column`: where the pages of a chunk begin. -/
def chunk_start (chunk : ColumnChunk) : Int :=
  if chunk.meta_data.isset_dictionary_page_offset ∧
      4 ≤ chunk.meta_data.dictionary_page_offset then
    chunk.meta_data.dictionary_page_offset
  else chunk.meta_data.data_page_offset

/-- The bytes `scan_column` reads into `chunk_buf` for a chunk, when the read succeeds. -/
def ParquetFile.chunk_bytes (self : ParquetFile) (chunk : ColumnChunk) : List Nat :=
  ((self.pfile.seekg (chunk_start chunk)).read chunk.meta_data.total_compressed_size.toNat).1

/-- `ParquetFile::scan_column(state, result_col)`, its page loop run for at most `fuel`
iterations (`none`: the loop has not ended by then). The outcome holds the stream and
the result column together with the locals of the function when it ends. -/
def ParquetFile.scan_column (ext : Externals) (fuel : Nat) (self : ParquetFile)
    (state : ScanState) (result_col : ResultColumn) : Option (Outcome ColumnRun) :=
  match self.file_meta_data.row_groups[state.row_group_idx]? with
  | none => some .undefined
  | some row_group =>
    match row_group.columns[result_col.id]? with
    | none => some .undefined
    | some chunk =>
      let st : ColumnRun := { pfile := self.pfile, result_col := result_col }
      if chunk.isset_file_path then some (.thrown .onlyInlined st)
      else if chunk.meta_data.path_in_schema.length ≠ 1 then some (.thrown .onlyFlatFiles st)
      else
        let chunk_len := chunk.meta_data.total_compressed_size
        let pfile := self.pfile.seekg (chunk_start chunk)
        if allocFails (toU64 chunk_len) then some (.thrown .badAlloc { st with pfile := pfile })
        else
          let r := pfile.read chunk_len.toNat
          if r.2.failed then some (.thrown .couldNotReadChunk { st with pfile := r.2 })
          else
            match self.file_meta_data.schema[result_col.id + 1]? with
            | none => some .undefined
            | some sch =>
              let has_def_levels := decide (sch.repetition_type ≠ FieldRepetitionType.REQUIRED)
              (scan_pages ext chunk.meta_data.codec has_def_levels fuel
                (scan_column_locals r.2 r.1 chunk_len result_col)).map fun o =>
                o.andThen fun st => st.step (st.cs.cleanup st.result_col)

/-! ## `ParquetFile::scan` -/

/-- Modelled from the spec: `ByteBuffer::resize` (declared in a header that is not among
the translated sources) allocates the buffer of a column sink, "a typed contiguous
buffer sized rows × sizeof(T)"; here `len` is the size in bytes and `sz` is `sizeof(T)`.
Nothing has been stored in a fresh slot. -/
def ByteBuffer.resize_data (len : Int) (sz : Nat) : List Slot :=
  List.replicate (len.toNat / sz) Slot.uninit

/-- `ParquetFile::initialize_column(col, num_rows)`, `num_rows` already converted to
`uint64_t`. -/
def ParquetFile.initialize_column (self : ParquetFile) (col : ResultColumn) (num_rows : Int) :
    Outcome ResultColumn :=
  if allocFails num_rows then .thrown .badAlloc col
  else
    let col := { col with defined := List.replicate num_rows.toNat 0, string_heap_chunks := [] }
    let resize (sz : Nat) : Outcome ResultColumn :=
      if allocFails (toU64 (sz * num_rows)) then .thrown .badAlloc col
      else .ok { col with data := ByteBuffer.resize_data (toU64 (sz * num_rows)) sz }
    match col.col.type with
    | .BOOLEAN => resize sizeof_bool
    | .INT32 => resize sizeof_int32
    | .INT64 => resize sizeof_int64
    | .INT96 => resize sizeof_Int96
    | .FLOAT => resize sizeof_float
    | .DOUBLE => resize sizeof_double
    | .BYTE_ARRAY => resize sizeof_ptr
    | .FIXED_LEN_BYTE_ARRAY =>
      match self.columns[col.id]? with
      | none => .undefined
      | some c =>
        if !c.schema_element.isset_type_length then .thrown .noTypeLength col
        else resize sizeof_ptr
    | _ => .thrown .initUnsupportedType col

/-- `ParquetFile::initialize_result(result)`: one result column for each column of the
file. -/
def ParquetFile.initialize_result (self : ParquetFile) (result : ResultChunk) : ResultChunk :=
  { nrows := 0
    cols := (List.range self.columns.length).map fun col_idx =>
      { ((result.cols[col_idx]?).getD {}) with
        col := (self.columns[col_idx]?).getD {}, id := col_idx } }

/-- The objects `scan` works on, and its return value (meaningful after a normal
return). -/
structure ScanRun where
  pfile : IFStream := {}
  s : ScanState := {}
  result : ResultChunk := {}
  ret : Bool := false
  deriving DecidableEq, Repr

/-- The loop `for (auto &result_col : result.cols)` of `scan`: `done` are the columns
already scanned, `todo` the ones still to do. -/
def scan_cols (ext : Externals) (fuel : Nat) (self : ParquetFile) (s : ScanState)
    (num_rows : Int) (nrows : Int) :
    IFStream → List ResultColumn → List ResultColumn → Option (Outcome ScanRun)
  | pfile, done, [] =>
    some (.ok { pfile := pfile, s := s, result := { cols := done, nrows := nrows } })
  | pfile, done, result_col :: todo =>
    let at_throw (pfile : IFStream) (c : ResultColumn) : ScanRun :=
      { pfile := pfile, s := s, result := { cols := done ++ c :: todo, nrows := nrows } }
    match self.initialize_column result_col (toU64 num_rows) with
    | .ok c1 =>
      match ParquetFile.scan_column ext fuel { self with pfile := pfile } s c1 with
      | none => none
      | some (.ok st) =>
        scan_cols ext fuel self s num_rows nrows st.pfile (done ++ [st.result_col]) todo
      | some (.thrown e st) => some (.thrown e (at_throw st.pfile st.result_col))
      | some .undefined => some .undefined
    | .thrown e c1 => some (.thrown e (at_throw pfile c1))
    | .undefined => some .undefined

/-- `ParquetFile::scan(s, result)`, the page loop of each column run for at most `fuel`
iterations (`none`: one of them has not ended by then). -/
def ParquetFile.scan (ext : Externals) (fuel : Nat) (self : ParquetFile) (s : ScanState)
    (result : ResultChunk) : Option (Outcome ScanRun) :=
  if self.file_meta_data.row_groups.length ≤ s.row_group_idx then
    some (.ok { pfile := self.pfile, s := s, result := { result with nrows := 0 },
                ret := false })
  else
    match self.file_meta_data.row_groups[s.row_group_idx]? with
    | none => some .undefined
    | some row_group =>
      (scan_cols ext fuel self s row_group.num_rows row_group.num_rows self.pfile []
          result.cols).map fun o =>
        o.andThen fun st =>
          .ok { st with s := { st.s with row_group_idx := st.s.row_group_idx + 1 },
                        ret := true }

/-! ## `ParquetFile::read_page_header` -/

/-- What a call of `read_page_header` leaves and returns: the stream, the value of `len`
(the number of bytes asked from the stream), the bytes the read stored in `tmp_buf`, and
the pair `(ph, ph_size)` it returns. -/
structure PageHeaderRead where
  pfile : IFStream := {}
  len : Int := 0
  tmp_buf : List Nat := []
  ph : PageHeader := {}
  ph_size : Int := 0
  deriving DecidableEq, Repr

/-- The value of `len` in `read_page_header(pos)` when the stream is read: 2048, or
`file_size - pos - 4` converted to `uint32_t` when `2048 > file_size - pos`. -/
def read_page_header_len (file_size pos : Int) : Int :=
  let len : Int := 2048
  if len > file_size - pos then toU32 (file_size - pos - 4) else len

/-- `ParquetFile::read_page_header(pos)`; `len` is a `uint32_t`, `file_size` and `pos`
are 64-bit integers. `seekg` clears `eofbit`, so `pfile.eof()` holds
after the read exactly when the read was started on a good stream and met the end of
the file. On a stream that had failed nothing is stored in `tmp_buf`, and what
`thrift_unpack` then reads is not determined. -/
def ParquetFile.read_page_header (ext : Externals) (self : ParquetFile) (pos : Int) :
    Outcome PageHeaderRead :=
  let len := read_page_header_len self.file_size pos
  let pfile := self.pfile.seekg pos
  let r := pfile.read len.toNat
  let st : PageHeaderRead := { pfile := r.2, len := len, tmp_buf := r.1 }
  if !pfile.failed && decide (r.1.length < len.toNat) then .thrown .eofWhileReading st
  else if r.1.length < len.toNat then .undefined
  else
    match ext.unpack_page_header r.1 with
    | none => .thrown .thriftDeserialize st
    | some (ph, consumed) => .ok { st with ph := ph, ph_size := (consumed : Int) }

/-! ## The collaborators of the worked examples

The theorems below hold for every `Externals`. The worked examples run the reader on
the bytes of small Parquet files; for them the
collaborators are modelled from the spec (§4.1, §4.2, §4.4, §4.5). -/

/-- Modelled from the spec: `BitReader.read_unsigned_varint`, not among the translated
sources: base-128 digits, least significant first, the top bit of a byte saying that
another byte follows; at most `fuel` bytes. -/
def read_unsigned_varint : Nat → List Nat → Option (Nat × List Nat)
  | 0, _ => none
  | _ + 1, [] => none
  | fuel + 1, b :: rest =>
    if b < 128 then some (b, rest)
    else
      match read_unsigned_varint fuel rest with
      | some (v, rest) => some (b % 128 + 128 * v, rest)
      | none => none

/-- Zigzag decoding of a varint. -/
def zigzag (n : Nat) : Int :=
  if n % 2 = 0 then ((n / 2 : Nat) : Int) else -(((n + 1) / 2 : Nat) : Int)

/-- Modelled from the spec: `BitReader.read_zigzag_varint`, not among the translated
sources. -/
def read_zigzag_varint (bytes : List Nat) : Option (Int × List Nat) :=
  match read_unsigned_varint 10 bytes with
  | some (v, rest) => some (zigzag v, rest)
  | none => none

/-- A value of the compact Thrift encoding. -/
inductive TValue where
  | bool (b : Bool)
  | int (v : Int)
  | double (bytes : List Nat)
  | binary (bytes : List Nat)
  | list (elems : List TValue)
  | struct (fields : List (Nat × TValue))

/-- What `thrift_read` is reading: a value of a wire type, the remaining fields of a
struct (after the field with id `last_id`), or the remaining `count` elements of a list. -/
inductive TMode where
  | value (type : Nat)
  | fields (last_id : Nat)
  | elems (type : Nat) (count : Nat)

/-- Modelled from the spec: the ThriftReader (§4.4), not among the translated sources.
Wire types: 1/2 bool true/false, 3 byte, 4/5/6 i16/i32/i64 (zigzag varint), 7 double,
8 binary (varint length + bytes), 9/10 list/set (header byte: upper nibble the size, or
15 and a varint; lower nibble the element type), 12 struct (field headers: upper nibble
the field-id delta, or 0 and a zigzag id; lower nibble the type; stop byte 0). Maps do
not occur in the messages of a Parquet file and are refused. Returns the value and the
bytes behind it. -/
def thrift_read : Nat → TMode → List Nat → Option (TValue × List Nat)
  | 0, _, _ => none
  | fuel + 1, .value type, bytes =>
    if type = 1 then some (.bool true, bytes)
    else if type = 2 then some (.bool false, bytes)
    else if type = 3 then
      match bytes with
      | b :: rest => some (.int (if b < 128 then (b : Int) else (b : Int) - 256), rest)
      | [] => none
    else if type = 4 ∨ type = 5 ∨ type = 6 then
      match read_zigzag_varint bytes with
      | some (v, rest) => some (.int v, rest)
      | none => none
    else if type = 7 then
      if 8 ≤ bytes.length then some (.double (bytes.take 8), bytes.drop 8) else none
    else if type = 8 then
      match read_unsigned_varint 10 bytes with
      | some (len, rest) =>
        if len ≤ rest.length then some (.binary (rest.take len), rest.drop len) else none
      | none => none
    else if type = 9 ∨ type = 10 then
      match bytes with
      | [] => none
      | h :: rest =>
        if h / 16 = 15 then
          match read_unsigned_varint 10 rest with
          | some (n, rest) => thrift_read fuel (.elems (h % 16) n) rest
          | none => none
        else thrift_read fuel (.elems (h % 16) (h / 16)) rest
    else if type = 12 then thrift_read fuel (.fields 0) bytes
    else none
  | fuel + 1, .fields last_id, bytes =>
    match bytes with
    | [] => none
    | h :: rest =>
      if h = 0 then some (.struct [], rest)
      else
        let header : Option (Nat × List Nat) :=
          if h / 16 = 0 then
            match read_zigzag_varint rest with
            | some (id, rest) => some (id.toNat, rest)
            | none => none
          else some (last_id + h / 16, rest)
        match header with
        | none => none
        | some (id, rest) =>
          match thrift_read fuel (.value (h % 16)) rest with
          | none => none
          | some (v, rest) =>
            match thrift_read fuel (.fields id) rest with
            | some (.struct fs, rest) => some (.struct ((id, v) :: fs), rest)
            | _ => none
  | fuel + 1, .elems type count, bytes =>
    match count with
    | 0 => some (.list [], bytes)
    | count + 1 =>
      match thrift_read fuel (.value type) bytes with
      | none => none
      | some (v, rest) =>
        match thrift_read fuel (.elems type count) rest with
        | some (.list vs, rest) => some (.list (v :: vs), rest)
        | _ => none

/-- The field with id `id` of a struct. -/
def TValue.field (v : TValue) (id : Nat) : Option TValue :=
  match v with
  | .struct fs => (fs.find? (fun f => f.1 = id)).map (fun f => f.2)
  | _ => none

/-- An `i32` field. -/
def TValue.i32 (v : TValue) (id : Nat) : Option Int :=
  match v.field id with
  | some (.int x) => some (toI32 x)
  | _ => none

/-- An `i64` field. -/
def TValue.i64 (v : TValue) (id : Nat) : Option Int :=
  match v.field id with
  | some (.int x) => some x
  | _ => none

/-- A list field. -/
def TValue.elems (v : TValue) (id : Nat) : Option (List TValue) :=
  match v.field id with
  | some (.list l) => some l
  | _ => none

/-- Convert every element, failing when one fails. -/
def mapOpt {α β : Type} (f : α → Option β) : List α → Option (List β)
  | [] => some []
  | a :: l =>
    match f a, mapOpt f l with
    | some b, some bs => some (b :: bs)
    | _, _ => none

/-- An optional struct field: absent (the default value, not set), or present and read
by `f` (`none` when `f` fails). -/
def optStruct {α : Type} (v : Option TValue) (dflt : α) (f : TValue → Option α) :
    Option (α × Bool) :=
  match v with
  | none => some (dflt, false)
  | some x => (f x).map (fun a => (a, true))

def PType.ofInt (x : Int) : PType :=
  if x = 0 then .BOOLEAN else if x = 1 then .INT32 else if x = 2 then .INT64
  else if x = 3 then .INT96 else if x = 4 then .FLOAT else if x = 5 then .DOUBLE
  else if x = 6 then .BYTE_ARRAY else if x = 7 then .FIXED_LEN_BYTE_ARRAY else .other x

def Encoding.ofInt (x : Int) : Encoding :=
  if x = 0 then .PLAIN else if x = 2 then .PLAIN_DICTIONARY else if x = 3 then .RLE
  else if x = 4 then .BIT_PACKED else if x = 5 then .DELTA_BINARY_PACKED
  else if x = 6 then .DELTA_LENGTH_BYTE_ARRAY else if x = 7 then .DELTA_BYTE_ARRAY
  else if x = 8 then .RLE_DICTIONARY else if x = 9 then .BYTE_STREAM_SPLIT else .other x

def CompressionCodec.ofInt (x : Int) : CompressionCodec :=
  if x = 0 then .UNCOMPRESSED else if x = 1 then .SNAPPY else if x = 2 then .GZIP
  else if x = 3 then .LZO else if x = 4 then .BROTLI else if x = 5 then .LZ4
  else if x = 6 then .ZSTD else if x = 7 then .LZ4_RAW else .other x

def PageType.ofInt (x : Int) : PageType :=
  if x = 0 then .DATA_PAGE else if x = 1 then .INDEX_PAGE else if x = 2 then .DICTIONARY_PAGE
  else if x = 3 then .DATA_PAGE_V2 else .other x

def FieldRepetitionType.ofInt (x : Int) : FieldRepetitionType :=
  if x = 0 then .REQUIRED else if x = 1 then .OPTIONAL else if x = 2 then .REPEATED
  else .other x

/-- `DataPageHeader`: 1 num_values, 2 encoding, 3 definition_level_encoding,
4 repetition_level_encoding, all required. -/
def DataPageHeader.ofThrift (v : TValue) : Option DataPageHeader :=
  match v.i32 1, v.i32 2, v.i32 3, v.i32 4 with
  | some nv, some enc, some dle, some _ =>
    some { num_values := nv, encoding := Encoding.ofInt enc,
           definition_level_encoding := Encoding.ofInt dle }
  | _, _, _, _ => none

/-- `DictionaryPageHeader`: 1 num_values, 2 encoding, both required. -/
def DictionaryPageHeader.ofThrift (v : TValue) : Option DictionaryPageHeader :=
  match v.i32 1, v.i32 2 with
  | some nv, some enc => some { num_values := nv, encoding := Encoding.ofInt enc }
  | _, _ => none

/-- `PageHeader`: 1 type, 2 uncompressed_page_size, 3 compressed_page_size (required),
5 data_page_header, 7 dictionary_page_header, 8 data_page_header_v2 (optional). -/
def PageHeader.ofThrift (v : TValue) : Option PageHeader :=
  match v.i32 1, v.i32 2, v.i32 3,
        optStruct (v.field 5) {} DataPageHeader.ofThrift,
        optStruct (v.field 7) {} DictionaryPageHeader.ofThrift with
  | some t, some u, some c, some dph, some dict =>
    some { type := PageType.ofInt t, uncompressed_page_size := u, compressed_page_size := c,
           data_page_header := dph.1, isset_data_page_header := dph.2,
           dictionary_page_header := dict.1, isset_dictionary_page_header := dict.2,
           isset_data_page_header_v2 := (v.field 8).isSome }
  | _, _, _, _, _ => none

/-- `SchemaElement`: 1 type, 2 type_length, 3 repetition_type, 4 name (required),
5 num_children. -/
def SchemaElement.ofThrift (v : TValue) : Option SchemaElement :=
  match v.field 4 with
  | some (.binary name) =>
    some { name := String.mk (name.map Char.ofNat),
           type := PType.ofInt ((v.i32 1).getD 0), isset_type := (v.i32 1).isSome,
           type_length := (v.i32 2).getD 0, isset_type_length := (v.i32 2).isSome,
           repetition_type := FieldRepetitionType.ofInt ((v.i32 3).getD 0),
           num_children := (v.i32 5).getD 0 }
  | _ => none

/-- A string of a list of strings. -/
def TValue.string (v : TValue) : Option String :=
  match v with
  | .binary b => some (String.mk (b.map Char.ofNat))
  | _ => none

/-- `ColumnMetaData`: 1 type, 2 encodings, 3 path_in_schema, 4 codec, 5 num_values,
6 total_uncompressed_size, 7 total_compressed_size, 9 data_page_offset (required),
11 dictionary_page_offset (optional). -/
def ColumnMetaData.ofThrift (v : TValue) : Option ColumnMetaData :=
  match v.i32 1, v.elems 2, (v.elems 3).bind (mapOpt TValue.string), v.i32 4, v.i64 5,
        v.i64 6, v.i64 7, v.i64 9 with
  | some _, some _, some path, some codec, some _, some _, some tcs, some dpo =>
    some { path_in_schema := path, codec := CompressionCodec.ofInt codec,
           total_compressed_size := tcs, data_page_offset := dpo,
           dictionary_page_offset := (v.i64 11).getD 0,
           isset_dictionary_page_offset := (v.i64 11).isSome }
  | _, _, _, _, _, _, _, _ => none

/-- `ColumnChunk`: 1 file_path (optional), 2 file_offset (required), 3 meta_data. -/
def ColumnChunk.ofThrift (v : TValue) : Option ColumnChunk :=
  match v.i64 2, optStruct (v.field 3) {} ColumnMetaData.ofThrift with
  | some _, some md =>
    some { isset_file_path := (v.field 1).isSome, meta_data := md.1 }
  | _, _ => none

/-- `RowGroup`: 1 columns, 2 total_byte_size, 3 num_rows, all required. -/
def RowGroup.ofThrift (v : TValue) : Option RowGroup :=
  match (v.elems 1).bind (mapOpt ColumnChunk.ofThrift), v.i64 2, v.i64 3 with
  | some cols, some _, some n => some { columns := cols, num_rows := n }
  | _, _, _ => none

/-- `FileMetaData`: 1 version, 2 schema, 3 num_rows, 4 row_groups (required),
8 encryption_algorithm (optional). -/
def FileMetaData.ofThrift (v : TValue) : Option FileMetaData :=
  match v.i32 1, (v.elems 2).bind (mapOpt SchemaElement.ofThrift), v.i64 3,
        (v.elems 4).bind (mapOpt RowGroup.ofThrift) with
  | some _, some schema, some n, some rgs =>
    some { schema := schema, num_rows := n, row_groups := rgs,
           isset_encryption_algorithm := (v.field 8).isSome }
  | _, _, _, _ => none

/-- Modelled from the spec: `parse_file_metadata(bytes)` (§4.4), the parsed metadata and
the number of bytes consumed. -/
def parse_file_metadata (bytes : List Nat) : Option (FileMetaData × Nat) :=
  match thrift_read (4 * bytes.length + 8) (.fields 0) bytes with
  | some (v, rest) => (FileMetaData.ofThrift v).map (fun m => (m, bytes.length - rest.length))
  | none => none

/-- Modelled from the spec: `parse_page_header(bytes)` (§4.4), the header and its exact
length. -/
def parse_page_header (bytes : List Nat) : Option (PageHeader × Nat) :=
  match thrift_read (4 * bytes.length + 8) (.fields 0) bytes with
  | some (v, rest) => (PageHeader.ofThrift v).map (fun h => (h, bytes.length - rest.length))
  | none => none

/-- Modelled from the spec: the runs of the RLE / bit-packed hybrid (§4.2), the decoder
is not among the translated sources. Each run starts with a varint header; lowest bit 0:
an RLE run of `header / 2` copies of one value stored in `ceil(bit_width / 8)`
little-endian bytes; lowest bit 1: `header / 2` groups of 8 values of `bit_width` bits
each, packed from the least significant bit on. Decodes `n` values; `none` when the
input ends first. -/
def rle_runs (bit_width : Nat) : Nat → List Nat → Nat → Option (List Nat)
  | 0, _, _ => none
  | fuel + 1, bytes, n =>
    if n = 0 then some []
    else
      match read_unsigned_varint 5 bytes with
      | none => none
      | some (header, rest) =>
        if header % 2 = 0 then
          let width := (bit_width + 7) / 8
          if rest.length < width then none
          else
            let k := min (header / 2) n
            match rle_runs bit_width fuel (rest.drop width) (n - k) with
            | some vs => some (List.replicate k (leNat (rest.take width)) ++ vs)
            | none => none
        else
          let nbytes := (header / 2) * bit_width
          if rest.length < nbytes then none
          else
            let k := min ((header / 2) * 8) n
            let packed := leNat (rest.take nbytes)
            match rle_runs bit_width fuel (rest.drop nbytes) (n - k) with
            | some vs =>
              some ((List.range k).map
                (fun i => (packed / 2 ^ (bit_width * i)) % 2 ^ bit_width) ++ vs)
            | none => none

/-- Modelled from the spec: `RleBpDecoder.get_batch(out, n)` (§4.2) on a buffer of
declared length `buffer_len`. A bit width of 0 yields zeros without consuming bytes; a
read past the declared end throws; a declared end past the memory is an access outside
it. -/
def rle_get_batch (mem : List Nat) (buffer_len : Int) (bit_width : Nat) (batch_size : Int) :
    Decoded :=
  if bit_width = 0 then .values (List.replicate batch_size.toNat 0)
  else
    match rle_runs bit_width (batch_size.toNat + 1) (mem.take buffer_len.toNat)
            batch_size.toNat with
    | some vs => .values vs
    | none => if (mem.length : Int) < buffer_len then .undefined else .throws []

/-- Put the decoded values at the defined positions, in order; an undefined position
keeps 0. -/
def scatter : List Nat → List Nat → List Nat
  | [], _ => []
  | d :: defined, vs =>
    if d = 0 then 0 :: scatter defined vs
    else
      match vs with
      | [] => 0 :: scatter defined []
      | v :: vs => v :: scatter defined vs

/-- Modelled from the spec: `RleBpDecoder.get_batch_spaced(n, null_count, defined, out)`
(§4.2): `n - null_count` values are decoded and stored at the positions with
`defined[i] == 1`. -/
def rle_get_batch_spaced (mem : List Nat) (buffer_len : Int) (bit_width : Nat)
    (batch_size null_count : Int) (defined : List Nat) : Decoded :=
  match rle_get_batch mem buffer_len bit_width (batch_size - null_count) with
  | .values vs => .values (scatter (defined.take batch_size.toNat) vs)
  | .throws w => .throws w
  | .undefined => .undefined

/-- The collaborators of the worked examples: the Thrift reader and the RLE / bit-packed
decoder modelled from the spec. The examples with Snappy pages use `spec_ext_snappy`. -/
def spec_ext : Externals where
  unpack_file_meta_data := parse_file_metadata
  unpack_page_header := parse_page_header
  snappy_GetUncompressedLength := fun _ => none
  snappy_RawUncompress := fun _ => none
  rle_GetBatch := rle_get_batch
  rle_GetBatchSpaced := rle_get_batch_spaced

/-- Modelled from the spec: the elements of a Snappy block (§4.5), the decoder is not
among the translated sources. The two low bits of a tag byte say what follows: 0 a
literal (length - 1 in the upper six bits, or 60..63 for a length - 1 in the next 1..4
bytes), 1 a copy with a 3-bit length - 4 and an 11-bit offset, 2 and 3 a copy with a
6-bit length - 1 and a 2-byte or 4-byte offset. A copy whose offset is zero or reaches
before the start of the output is refused. -/
def snappy_elements : Nat → List Nat → List Nat → Option (List Nat)
  | 0, _, _ => none
  | _ + 1, [], out => some out
  | fuel + 1, tag :: rest, out =>
    let copy (len offset : Nat) (rest : List Nat) : Option (List Nat) :=
      if offset = 0 ∨ out.length < offset then none
      else
        let pattern := out.drop (out.length - offset)
        snappy_elements fuel rest
          (out ++ (List.range len).map (fun i => (pattern[i % offset]?).getD 0))
    if tag % 4 = 0 then
      let extra := if tag / 4 < 60 then 0 else tag / 4 - 59
      if rest.length < extra then none
      else
        let len := (if tag / 4 < 60 then tag / 4 else leNat (rest.take extra)) + 1
        if (rest.drop extra).length < len then none
        else snappy_elements fuel ((rest.drop extra).drop len) (out ++ (rest.drop extra).take len)
    else if tag % 4 = 1 then
      match rest with
      | [] => none
      | b :: rest => copy (4 + (tag / 4) % 8) ((tag / 32) * 256 + b) rest
    else
      let width := if tag % 4 = 2 then 2 else 4
      if rest.length < width then none
      else copy (1 + tag / 4) (leNat (rest.take width)) (rest.drop width)

/-- Modelled from the spec: the uncompressed length a Snappy block declares in its
header, a varint (§4.5). -/
def snappy_uncompressed_length (input : List Nat) : Option Nat :=
  (read_unsigned_varint 5 input).map (fun r => r.1)

/-- Modelled from the spec: the SnappyDecoder (§4.5) on one block: the output, or `none`
for a block that does not decode or decodes to another length than its header says. -/
def snappy_raw_uncompress (input : List Nat) : Option (List Nat) :=
  match read_unsigned_varint 5 input with
  | none => none
  | some (n, rest) =>
    match snappy_elements (rest.length + 1) rest [] with
    | none => none
    | some out => if out.length = n then some out else none

/-- The collaborators of the worked examples with Snappy pages. -/
def spec_ext_snappy : Externals :=
  { spec_ext with
    snappy_GetUncompressedLength := snappy_uncompressed_length
    snappy_RawUncompress := snappy_raw_uncompress }

/-! ## The RLE entry points of `encodings.cpp` -/

/-- What a `.Call` entry point of the R package does: it returns a value, raises an R
error, or has undefined behaviour. -/
inductive RCall (α : Type) where
  | value (v : α)
  | error
  | undefined
  deriving DecidableEq, Repr

/-- Modelled from the spec: an unsigned varint as `read_unsigned_varint` (§4.1) reads
it, in at most `fuel` bytes. -/
def write_unsigned_varint : Nat → Nat → List Nat
  | 0, _ => []
  | fuel + 1, v =>
    if v < 128 then [v] else (v % 128 + 128) :: write_unsigned_varint fuel (v / 128)

/-- The `width` little-endian bytes of a value. -/
def leBytes : Nat → Nat → List Nat
  | 0, _ => []
  | width + 1, v => v % 256 :: leBytes width (v / 256)

/-- Modelled from the spec: values of `bit_width` bits packed one after the other from
the least significant bit on (§4.2, "each group packs 8 values little-endian using
`bit_width` bits per value"). -/
def bit_pack (bit_width : Nat) : List Nat → Nat
  | [] => 0
  | v :: vs => v + 2 ^ bit_width * bit_pack bit_width vs

/-- Modelled from the spec: the runs `RleBpEncode` writes (§4.3), the encoder is not
among the translated sources. "Prefer RLE for runs of length ≥ 8": when the next value
is repeated 8 times or more, an RLE run (§4.2: header `2 * run_length`, then the value in
`ceil(bit_width / 8)` little-endian bytes); "otherwise emit bit-packed groups of 8
(padding the trailing short group with zeros, recording only the full group count)": a
bit-packed run of one group of the next 8 values, a short last group filled up with zeros
to a full group (§4.2: header `2 * groups + 1`, then `bit_width` bytes for each group).
`fuel` bounds the number of runs. -/
def rle_bp_runs (bit_width : Nat) : Nat → List Nat → List Nat
  | 0, _ => []
  | _ + 1, [] => []
  | fuel + 1, x :: rest =>
    let run := 1 + (rest.takeWhile (fun y => decide (y = x))).length
    if 8 ≤ run then
      write_unsigned_varint 5 (2 * run) ++ leBytes ((bit_width + 7) / 8) x ++
        rle_bp_runs bit_width fuel ((x :: rest).drop run)
    else
      let group := (x :: rest).take 8
      write_unsigned_varint 5 (2 * 1 + 1) ++
        leBytes bit_width (bit_pack bit_width (group ++ List.replicate (8 - group.length) 0)) ++
        rle_bp_runs bit_width fuel ((x :: rest).drop 8)

/-- Modelled from the spec: `RleBpEncode(input, input_len, bit_width, output, output_len)`
(§4.3), the bytes it writes to `output`; the `int` values are taken as unsigned 32-bit
numbers. -/
def RleBpEncode (input : List Int) (bit_width : Nat) : List Nat :=
  rle_bp_runs bit_width input.length (input.map (fun v => (toU32 v).toNat))

/-- `nanoparquet_rle_encode_int(x, bit_width)` of `encodings.cpp`. `MaxRleBpSize` is
declared in a header that is not among the translated sources and is a parameter: the
size of the buffer the encoder writes to. -/
def nanoparquet_rle_encode_int (MaxRleBpSize : List Int → Nat → Nat) (x : List Int)
    (bit_width : Int) : RCall (List Nat) :=
  let bw := (toU32 bit_width % 256).toNat
  let os := MaxRleBpSize x bw
  let output := RleBpEncode x bw
  if os < output.length then .undefined else .value output

/-- `nanoparquet_rle_decode_int(x, bit_width, includes_length, length)` of
`encodings.cpp`; `GetBatch` is the batch function of the `RleBpDecoder`, with the
arguments of `Externals.rle_GetBatch`. The decoder gets `buf` and the length `len` of the
whole of `x`, also when `buf` has moved behind a length prefix. -/
def nanoparquet_rle_decode_int (GetBatch : List Nat → Int → Nat → Int → Decoded)
    (x : List Nat) (bit_width : Int) (includes_length : Bool) (length : Int) :
    RCall (List Int) :=
  let len : Int := x.length
  let run (buf : List Nat) (num_values : Int) : RCall (List Int) :=
    match GetBatch buf len (toU32 bit_width).toNat num_values with
    | .values vs =>
      if vs.length = num_values.toNat then .value (vs.map (fun (v : Nat) => toI32 (v : Int)))
      else .undefined
    | .throws _ => .error
    | .undefined => .undefined
  if includes_length then
    if len < 4 then .error
    else run (x.drop 4) (toU32 (toI32 (leNat (x.take 4))))
  else run x (toU32 length)

/-! ## Notions used in the statements -/

/-- The pages of a column chunk, as the loop of `scan_column` finds them: the header at
the cursor, then the next one `compressed_page_size` bytes behind the end of that header,
while bytes remain and for at most `fuel` pages. -/
def chunk_pages (ext : Externals) (chunk_buf : List Nat) : Nat → Int → Int → List PageHeader
  | fuel, chunk_ptr, bytes_to_read =>
    if 0 < bytes_to_read then
      match fuel with
      | 0 => []
      | fuel + 1 =>
        match readBytes chunk_buf chunk_ptr (toU32 bytes_to_read).toNat with
        | none => []
        | some buf =>
          match ext.unpack_page_header buf with
          | none => []
          | some (page_header, consumed) =>
            let page_header_len := bytes_to_read - toU32 bytes_to_read + (consumed : Int)
            page_header ::
              chunk_pages ext chunk_buf fuel
                (chunk_ptr + page_header_len + page_header.compressed_page_size)
                (bytes_to_read - page_header_len - page_header.compressed_page_size)
    else []

/-- The pages of type DATA_PAGE among `pages`. -/
def data_pages (pages : List PageHeader) : List PageHeader :=
  pages.filter (fun ph => decide (ph.type = PageType.DATA_PAGE))

/-- The pages of type DICTIONARY_PAGE among `pages`. -/
def dict_pages (pages : List PageHeader) : List PageHeader :=
  pages.filter (fun ph => decide (ph.type = PageType.DICTIONARY_PAGE))

/-- Sum of `data_page_header.num_values` over `pages`. -/
def sum_num_values (pages : List PageHeader) : Int :=
  (pages.map (fun ph => ph.data_page_header.num_values)).sum

/-- The bytes `defined_ptr[0 .. n)` of a result column. -/
def defined_window (cs : ColumnScan) (result_col : ResultColumn) (n : Nat) : List Nat :=
  (result_col.defined.drop cs.defined_ptr.toNat).take n

/-- The value payload of a page: the bytes from the page cursor on. -/
def ColumnScan.payload (cs : ColumnScan) : List Nat := memFrom cs.page_buf cs.page_buf_ptr

/-- The `sz` bytes at offset `j * sz` of a payload. -/
def value_at (payload : List Nat) (sz j : Nat) : List Nat := (payload.drop (j * sz)).take sz

/-- The number of defined positions among the first `i` positions of a page: position
`i`, when defined, is the `defined_rank w i`-th defined position. -/
def defined_rank (w : List Nat) (i : Nat) : Nat :=
  (w.take i).countP (fun d => decide (d ≠ 0))

/-- The scanner with another page header. -/
def ColumnScan.with_header (cs : ColumnScan) (ph : PageHeader) : ColumnScan :=
  { cs with page_header := ph }

/-- A page header with another `data_page_header.definition_level_encoding`. -/
def PageHeader.with_def_level_encoding (ph : PageHeader) (enc : Encoding) : PageHeader :=
  { ph with data_page_header := { ph.data_page_header with definition_level_encoding := enc } }

/-- The schema with the `repetition_type` of element `i` replaced by `r`. -/
def set_repetition_type (r : FieldRepetitionType) : Nat → List SchemaElement → List SchemaElement
  | _, [] => []
  | 0, e :: l => { e with repetition_type := r } :: l
  | i + 1, e :: l => e :: set_repetition_type r i l

/-- The file object with the `repetition_type` of schema element `i` replaced by `r`. -/
def ParquetFile.with_repetition_type (self : ParquetFile) (i : Nat) (r : FieldRepetitionType) :
    ParquetFile :=
  { self with file_meta_data :=
      { self.file_meta_data with schema := set_repetition_type r i self.file_meta_data.schema } }

/-- The locals of `scan_column` behind the header `ph` of a page, `consumed` bytes long:
`cs.page_header` is the header, and the cursor and `bytes_to_read` have moved by
`page_header_len`. -/
def after_header (st : ColumnRun) (ph : PageHeader) (consumed : Nat) : ColumnRun :=
  let page_header_len := st.bytes_to_read - toU32 st.bytes_to_read + (consumed : Int)
  { st with cs := { st.cs with page_header := ph }
            chunk_ptr := st.chunk_ptr + page_header_len
            bytes_to_read := st.bytes_to_read - page_header_len }

/-- The locals of `scan_column` after `k` iterations of its page loop that returned
normally, `none` when the loop ends or is left before that. -/
def scan_pages_upto (ext : Externals) (codec : CompressionCodec) (has_def_levels : Bool) :
    Nat → ColumnRun → Option ColumnRun
  | 0, st => some st
  | k + 1, st =>
    if 0 < st.bytes_to_read then
      match scan_page ext codec has_def_levels st with
      | .ok st => scan_pages_upto ext codec has_def_levels k st
      | _ => none
    else none

/-- What the page loop of `scan_column` starts with, when `scan_column` gets there: the
codec of the chunk, `has_def_levels`, and the locals. -/
def ParquetFile.page_loop (self : ParquetFile) (state : ScanState) (result_col : ResultColumn) :
    Option (CompressionCodec × Bool × ColumnRun) :=
  match self.file_meta_data.row_groups[state.row_group_idx]? with
  | none => none
  | some row_group =>
    match row_group.columns[result_col.id]? with
    | none => none
    | some chunk =>
      if chunk.isset_file_path ∨ chunk.meta_data.path_in_schema.length ≠ 1 ∨
          allocFails (toU64 chunk.meta_data.total_compressed_size) then none
      else
        let r := (self.pfile.seekg (chunk_start chunk)).read
          chunk.meta_data.total_compressed_size.toNat
        if r.2.failed then none
        else
          match self.file_meta_data.schema[result_col.id + 1]? with
          | none => none
          | some sch =>
            some (chunk.meta_data.codec,
              decide (sch.repetition_type ≠ FieldRepetitionType.REQUIRED),
              scan_column_locals r.2 r.1 chunk.meta_data.total_compressed_size result_col)

/-- The size of one element of the value array of a column: `sizeof(T)` for the
fixed-width types, the width of a pointer for the two byte-array types. -/
def slot_size : PType → Nat
  | .BOOLEAN => sizeof_bool
  | .INT32 => sizeof_int32
  | .INT64 => sizeof_int64
  | .INT96 => sizeof_Int96
  | .FLOAT => sizeof_float
  | .DOUBLE => sizeof_double
  | .BYTE_ARRAY => sizeof_ptr
  | .FIXED_LEN_BYTE_ARRAY => sizeof_ptr
  | .other _ => 0

/-- The strings `strs` lie one after the other in `mem` from offset `p` on: for a
BYTE_ARRAY column (`byte_array`) each as its length in 4 little-endian bytes and then its
bytes, for a FIXED_LEN_BYTE_ARRAY column each as `str_len` bytes. -/
def strings_at (byte_array : Bool) (str_len : Nat) (mem : List Nat) :
    Int → List (List Nat) → Bool
  | _, [] => true
  | p, s :: rest =>
    if byte_array then
      decide ((readBytes mem p 4).map leNat = some s.length) &&
        decide (readBytes mem (p + 4) s.length = some s) &&
        strings_at byte_array str_len mem (p + 4 + (s.length : Int)) rest
    else
      decide (s.length = str_len) && decide (readBytes mem p str_len = some s) &&
        strings_at byte_array str_len mem (p + (str_len : Int)) rest

/-- The offset behind the strings `strs` that start at offset `p`. -/
def strings_end (byte_array : Bool) : Int → List (List Nat) → Int
  | p, [] => p
  | p, s :: rest =>
    strings_end byte_array (p + (if byte_array then 4 else 0) + (s.length : Int)) rest

/-- The bytes of a string heap chunk that holds the strings `strs`, each followed by a
NUL byte. -/
def heap_bytes : List (List Nat) → List Nat
  | [] => []
  | s :: rest => s ++ [0] ++ heap_bytes rest

/-- Where string `j` of `strs` starts in `heap_bytes strs`. -/
def heap_offset (strs : List (List Nat)) (j : Nat) : Nat :=
  (heap_bytes (strs.take j)).length

/-- The result column with another `dict`. -/
def ResultColumn.with_dict (rc : ResultColumn) (d : Option (List Slot)) : ResultColumn :=
  { rc with dict := d }

/-- The locals of `scan_column` with another `dict` in the result column. -/
def ColumnRun.with_dict (st : ColumnRun) (d : Option (List Slot)) : ColumnRun :=
  { st with result_col := st.result_col.with_dict d }

/-! ## Worked examples

Byte sequences of small Parquet files (compact Thrift footers and page headers) and
scanner states, on which the statements below are evaluated. -/

/-- A file with one REQUIRED INT32 column `a`, one row group of 5 rows, and in its chunk
(37 bytes at offset 4) one PLAIN data page with the values 1 to 5. -/
def file_plain_int32 : List Nat :=
  [80, 65, 82, 49, 21, 0, 21, 40, 21, 40, 44, 21, 10, 21, 0, 21, 6, 21, 6, 0, 0, 1, 0, 0, 0,
   2, 0, 0, 0, 3, 0, 0, 0, 4, 0, 0, 0, 5, 0, 0, 0, 21, 2, 25, 44, 72, 1, 114, 21, 2, 0, 21, 2,
   37, 0, 24, 1, 97, 0, 22, 10, 25, 28, 25, 28, 38, 8, 28, 21, 2, 25, 21, 0, 25, 24, 1, 97,
   21, 0, 22, 10, 22, 74, 22, 74, 38, 8, 0, 0, 22, 74, 22, 10, 0, 0, 54, 0, 0, 0, 80, 65, 82,
   49]

/-- A file whose row group declares 5 rows while the only data page of its chunk (29
bytes at offset 4) has `num_values = 3`. -/
def file_short_page : List Nat :=
  [80, 65, 82, 49, 21, 0, 21, 24, 21, 24, 44, 21, 6, 21, 0, 21, 6, 21, 6, 0, 0, 1, 0, 0, 0,
   2, 0, 0, 0, 3, 0, 0, 0, 21, 2, 25, 44, 72, 1, 114, 21, 2, 0, 21, 2, 37, 0, 24, 1, 97, 0,
   22, 10, 25, 28, 25, 28, 38, 8, 28, 21, 2, 25, 21, 0, 25, 24, 1, 97, 21, 0, 22, 10, 22, 58,
   22, 58, 38, 8, 0, 0, 22, 58, 22, 10, 0, 0, 54, 0, 0, 0, 80, 65, 82, 49]

/-- A file whose chunk (34 bytes at offset 4) is two dictionary pages of one INT32 value
each. -/
def file_two_dict_pages : List Nat :=
  [80, 65, 82, 49, 21, 4, 21, 8, 21, 8, 76, 21, 2, 21, 0, 0, 0, 7, 0, 0, 0, 21, 4, 21, 8, 21,
   8, 76, 21, 2, 21, 0, 0, 0, 9, 0, 0, 0, 21, 2, 25, 44, 72, 1, 114, 21, 2, 0, 21, 2, 37, 0,
   24, 1, 97, 0, 22, 0, 25, 28, 25, 28, 38, 8, 28, 21, 2, 25, 21, 0, 25, 24, 1, 97, 21, 0, 22,
   0, 22, 68, 22, 68, 38, 8, 0, 0, 22, 68, 22, 0, 0, 0, 54, 0, 0, 0, 80, 65, 82, 49]

/-- A file without row groups whose schema is a root with one child and an INT32 leaf
`a` with `num_children = -1`. -/
def file_negative_children : List Nat :=
  [80, 65, 82, 49, 21, 2, 25, 44, 72, 1, 114, 21, 2, 0, 21, 2, 37, 0, 24, 1, 97, 21, 1, 0, 22,
   0, 25, 12, 0, 25, 0, 0, 0, 80, 65, 82, 49]

/-- The object `ParquetFile(filename)` constructs for a file with the given bytes (a new
object when the constructor throws). -/
def opened (file : List Nat) : ParquetFile :=
  ( ParquetFile.initialize spec_ext {} (some file)).getD {}

/-- The result chunk a caller prepares for a file: `initialize_result`, then the buffers
of every column sized for `num_rows` rows. -/
def prepared (file : List Nat) (num_rows : Int) : List ResultColumn :=
  ((opened file).initialize_result {}).cols.map fun c =>
    ((opened file).initialize_column c num_rows).getD c

/-- The scanner at the values of a PLAIN page of 4 positions of which 0, 2 and 3 are
defined: the payload holds the INT32 values 10, 20, 30. -/
def plain_page_cs : ColumnScan :=
  { page_header := { data_page_header := { num_values := 4 } }
    page_buf := [10, 0, 0, 0, 20, 0, 0, 0, 30, 0, 0, 0]
    page_buf_len := 12 }

/-- A result column of 4 rows with nothing stored yet, rows 0, 2 and 3 defined. -/
def optional_int32_rc : ResultColumn :=
  { data := List.replicate 4 Slot.uninit
    col := { type := PType.INT32 }
    defined := [1, 0, 1, 1] }

/-- The scanner at the indices of a dictionary-encoded page of 4 positions, after a
dictionary page with the INT32 values 10 and 20: bit width 1, then one bit-packed run
with the indices 0, 1, 1 of the three defined positions. -/
def dict_data_cs : ColumnScan :=
  { page_header := { data_page_header := { num_values := 4, encoding := Encoding.RLE_DICTIONARY } }
    seen_dict := true
    dict := some [Slot.raw [10, 0, 0, 0], Slot.raw [20, 0, 0, 0]]
    dict_size := 2
    page_buf := [1, 3, 6]
    page_buf_len := 3 }

/-- The scanner at a dictionary-encoded data page of an OPTIONAL column, no dictionary
page seen: the header is a data page header (and no other), the payload holds the
definition levels 1, 0, 1, 1 (length 2, one bit-packed run), then the indices as in
`dict_data_cs`. -/
def no_dict_cs : ColumnScan :=
  { page_header :=
      { type := PageType.DATA_PAGE
        uncompressed_page_size := 9
        compressed_page_size := 9
        isset_data_page_header := true
        data_page_header :=
          { num_values := 4, encoding := Encoding.RLE_DICTIONARY,
            definition_level_encoding := Encoding.RLE } }
    page_buf := [2, 0, 0, 0, 3, 13, 1, 3, 6]
    page_buf_end_ptr := 9
    page_buf_len := 9 }

/-- A result column of type INT32 with 4 rows, nothing stored and no row marked as
defined yet. -/
def blank_int32_rc : ResultColumn :=
  { data := List.replicate 4 Slot.uninit
    col := { type := PType.INT32 }
    defined := [0, 0, 0, 0] }

/-- The first row group of a file. -/
def first_row_group (file : List Nat) : RowGroup :=
  ((opened file).file_meta_data.row_groups[0]?).getD {}

/-- The chunk of the first column in the first row group of a file. -/
def first_chunk (file : List Nat) : ColumnChunk :=
  ((first_row_group file).columns[0]?).getD {}

/-- The result column a caller prepares for the first column of a file, sized for the
first row group. -/
def first_column (file : List Nat) : ResultColumn :=
  (prepared file (toU64 (first_row_group file).num_rows)).headD {}

/-- The pages of the first chunk of a file, as the loop of `scan_column` finds them. -/
def first_chunk_pages (file : List Nat) : List PageHeader :=
  chunk_pages spec_ext ((opened file).chunk_bytes (first_chunk file)) 10 0
    (first_chunk file).meta_data.total_compressed_size

/-- The locals of `scan_column` when it ends on the first column of the first row group
of a file. -/
def first_column_run (file : List Nat) : ColumnRun :=
  ((ParquetFile.scan_column spec_ext 10 (opened file) {} (first_column file)).getD
    Outcome.undefined).getD (scan_column_locals {} [] 0 {})

/-- A file with one REPEATED INT32 column `a`, one row group of 4 rows, and in its chunk
(35 bytes at offset 4) one PLAIN data page: definition levels 1, 0, 1, 1 and the values
10, 20, 30. -/
def file_repeated : List Nat :=
  [80, 65, 82, 49, 21, 0, 21, 36, 21, 36, 44, 21, 8, 21, 0, 21, 6, 21, 6, 0, 0, 2, 0, 0, 0,
   3, 13, 10, 0, 0, 0, 20, 0, 0, 0, 30, 0, 0, 0, 21, 2, 25, 44, 72, 1, 114, 21, 2, 0, 21, 2,
   37, 4, 24, 1, 97, 0, 22, 8, 25, 28, 25, 28, 38, 8, 28, 21, 2, 25, 21, 0, 25, 24, 1, 97,
   21, 0, 22, 8, 22, 70, 22, 70, 38, 8, 0, 0, 22, 70, 22, 8, 0, 0, 54, 0, 0, 0, 80, 65, 82,
   49]

/-- A file with one OPTIONAL INT32 column whose chunk (47 bytes) is a dictionary page
with the values 10, 20 at offset 4 and a dictionary-encoded data page at offset 25;
`dictionary_page_offset = 4` and `data_page_offset = 25` are both set. -/
def file_dict_offset : List Nat :=
  [80, 65, 82, 49, 21, 4, 21, 16, 21, 16, 76, 21, 4, 21, 0, 0, 0, 10, 0, 0, 0, 20, 0, 0, 0,
   21, 0, 21, 18, 21, 18, 44, 21, 8, 21, 4, 21, 6, 21, 6, 0, 0, 2, 0, 0, 0, 3, 13, 1, 3, 6,
   21, 2, 25, 44, 72, 1, 114, 21, 2, 0, 21, 2, 37, 2, 24, 1, 97, 0, 22, 8, 25, 28, 25, 28,
   38, 50, 28, 21, 2, 25, 21, 0, 25, 24, 1, 97, 21, 0, 22, 8, 22, 94, 22, 94, 38, 50, 38, 8,
   0, 0, 22, 94, 22, 8, 0, 0, 56, 0, 0, 0, 80, 65, 82, 49]

/-- The file `file_plain_int32` with `file_path = "x"` set in its column chunk. -/
def file_external_chunk : List Nat :=
  [80, 65, 82, 49, 21, 0, 21, 40, 21, 40, 44, 21, 10, 21, 0, 21, 6, 21, 6, 0, 0, 1, 0, 0, 0,
   2, 0, 0, 0, 3, 0, 0, 0, 4, 0, 0, 0, 5, 0, 0, 0, 21, 2, 25, 44, 72, 1, 114, 21, 2, 0, 21,
   2, 37, 0, 24, 1, 97, 0, 22, 10, 25, 28, 25, 28, 24, 1, 120, 22, 8, 28, 21, 2, 25, 21, 0,
   25, 24, 1, 97, 21, 0, 22, 10, 22, 74, 22, 74, 38, 8, 0, 0, 22, 74, 22, 10, 0, 0, 57, 0,
   0, 0, 80, 65, 82, 49]

/-- The scanner at a data page of 3 values with encoding DELTA_BINARY_PACKED, at row 1
of a REQUIRED column. -/
def delta_page_cs : ColumnScan :=
  { page_header :=
      { type := PageType.DATA_PAGE
        isset_data_page_header := true
        data_page_header := { num_values := 3, encoding := Encoding.DELTA_BINARY_PACKED } }
    page_buf := [10, 0, 0, 0, 20, 0, 0, 0, 30, 0, 0, 0]
    page_buf_len := 12
    page_start_row := 1
    defined_ptr := 1 }

/-- The scanner at a PLAIN data page of 3 INT32 values, at row 1 of a REQUIRED column;
the `definition_level_encoding` of the header is RLE. -/
def required_page_cs : ColumnScan :=
  { page_header :=
      { type := PageType.DATA_PAGE
        isset_data_page_header := true
        data_page_header := { num_values := 3, definition_level_encoding := Encoding.RLE } }
    page_buf := [10, 0, 0, 0, 20, 0, 0, 0, 30, 0, 0, 0]
    page_buf_len := 12
    page_start_row := 1
    defined_ptr := 1 }

/-- The scanner at a data page of 4 values of an OPTIONAL column whose definition levels
are BIT_PACKED. -/
def bit_packed_levels_cs : ColumnScan :=
  { page_header :=
      { type := PageType.DATA_PAGE
        isset_data_page_header := true
        data_page_header := { num_values := 4, definition_level_encoding := Encoding.BIT_PACKED } }
    page_buf := [13, 10, 0, 0, 0, 20, 0, 0, 0, 30, 0, 0, 0]
    page_buf_len := 13 }

/-- The scanner at a dictionary page of 2 values with encoding RLE. -/
def rle_dict_page_cs : ColumnScan :=
  { page_header :=
      { type := PageType.DICTIONARY_PAGE
        isset_dictionary_page_header := true
        dictionary_page_header := { num_values := 2, encoding := Encoding.RLE } }
    page_buf := [10, 0, 0, 0, 20, 0, 0, 0]
    page_buf_len := 8 }

/-- A result column of 5 rows of an INT32 column; row 0 holds the value 7. -/
def int32_rc : ResultColumn :=
  { data := [Slot.raw [7, 0, 0, 0], Slot.uninit, Slot.uninit, Slot.uninit, Slot.uninit]
    col := { type := PType.INT32 }
    defined := [1, 0, 0, 0, 0] }

/-- The file `file_plain_int32` cut to 2 rows, with a second page in its chunk (34 bytes
at offset 4): a page header of type DATA_PAGE_V2 without payload. -/
def file_v2_page : List Nat :=
  [80, 65, 82, 49, 21, 0, 21, 16, 21, 16, 44, 21, 4, 21, 0, 21, 6, 21, 6, 0, 0, 1, 0, 0, 0,
   2, 0, 0, 0, 21, 6, 21, 0, 21, 0, 92, 0, 0, 21, 2, 25, 44, 72, 1, 114, 21, 2, 0, 21, 2,
   37, 0, 24, 1, 97, 0, 22, 4, 25, 28, 25, 28, 38, 8, 28, 21, 2, 25, 21, 0, 25, 24, 1, 97,
   21, 0, 22, 4, 22, 68, 22, 68, 38, 8, 0, 0, 22, 68, 22, 4, 0, 0, 54, 0, 0, 0, 80, 65, 82,
   49]

/-- The file `file_plain_int32` with codec SNAPPY: the payload of its page is a Snappy
block of 22 bytes (the length 20, one literal of 20 bytes) that decompresses to the 20
bytes of the values 1 to 5, while the page header says `uncompressed_page_size = 24`. -/
def file_snappy_mismatch : List Nat :=
  [80, 65, 82, 49, 21, 0, 21, 48, 21, 44, 44, 21, 10, 21, 0, 21, 6, 21, 6, 0, 0, 20, 76, 1,
   0, 0, 0, 2, 0, 0, 0, 3, 0, 0, 0, 4, 0, 0, 0, 5, 0, 0, 0, 21, 2, 25, 44, 72, 1, 114, 21,
   2, 0, 21, 2, 37, 0, 24, 1, 97, 0, 22, 10, 25, 28, 25, 28, 38, 8, 28, 21, 2, 25, 21, 0,
   25, 24, 1, 97, 21, 2, 22, 10, 22, 78, 22, 78, 38, 8, 0, 0, 22, 78, 22, 10, 0, 0, 54, 0,
   0, 0, 80, 65, 82, 49]

/-- A file with codec SNAPPY whose page has a payload of 5 bytes that is no Snappy
block: it declares 20 bytes and a literal of 20 bytes, of which 3 are there. -/
def file_snappy_bad : List Nat :=
  [80, 65, 82, 49, 21, 0, 21, 40, 21, 10, 44, 21, 10, 21, 0, 21, 6, 21, 6, 0, 0, 20, 76, 1,
   2, 3, 21, 2, 25, 44, 72, 1, 114, 21, 2, 0, 21, 2, 37, 0, 24, 1, 97, 0, 22, 10, 25, 28,
   25, 28, 38, 8, 28, 21, 2, 25, 21, 0, 25, 24, 1, 97, 21, 2, 22, 10, 22, 44, 22, 44, 38, 8,
   0, 0, 22, 44, 22, 10, 0, 0, 54, 0, 0, 0, 80, 65, 82, 49]

/-- The locals of `scan_column` when its page loop starts on the first column of the
first row group of a file. -/
def first_page_loop (file : List Nat) : ColumnRun :=
  (((opened file).page_loop {} (first_column file)).map (fun r => r.2.2)).getD {}

/-- The locals of `scan_column` when it ends on the first column of the first row group
of a file, with the collaborators `ext`. -/
def column_run_with (ext : Externals) (file : List Nat) : ColumnRun :=
  ((ParquetFile.scan_column ext 10 (opened file) {} (first_column file)).getD
    Outcome.undefined).getD (scan_column_locals {} [] 0 {})

/-- The page header at the cursor of the page loop and its length. -/
def header_at (st : ColumnRun) : PageHeader × Nat :=
  ((readBytes st.chunk_buf st.chunk_ptr (toU32 st.bytes_to_read).toNat).bind
    spec_ext.unpack_page_header).getD ({}, 0)

/-- The scanner at the payload of a dictionary page of an INT96 column: 2 values of 12
bytes. -/
def int96_dict_cs : ColumnScan :=
  { page_header :=
      { type := PageType.DICTIONARY_PAGE
        uncompressed_page_size := 24
        compressed_page_size := 24
        dictionary_page_header := { num_values := 2 }
        isset_dictionary_page_header := true }
    page_buf := [1, 2, 3, 4, 5, 6, 7, 8, 9, 10, 11, 12, 13, 14, 15, 16, 17, 18, 19, 20, 21,
      22, 23, 24]
    page_buf_end_ptr := 24
    page_buf_len := 24 }

/-- A result column of type INT96 without rows. -/
def int96_rc : ResultColumn :=
  { col := { type := PType.INT96 } }

/-- The scanner at the payload of a dictionary page of a BYTE_ARRAY column: the strings
"hi" and "!", each behind its length in 4 bytes. -/
def string_dict_cs : ColumnScan :=
  { page_header :=
      { type := PageType.DICTIONARY_PAGE
        uncompressed_page_size := 11
        compressed_page_size := 11
        dictionary_page_header := { num_values := 2 }
        isset_dictionary_page_header := true }
    page_buf := [2, 0, 0, 0, 104, 105, 1, 0, 0, 0, 33]
    page_buf_end_ptr := 11
    page_buf_len := 11 }

/-- The scanner at the values of a PLAIN page of 3 positions of a BYTE_ARRAY column, with
the payload of `string_dict_cs`. -/
def string_page_cs : ColumnScan :=
  { page_header :=
      { uncompressed_page_size := 11
        compressed_page_size := 11
        data_page_header := { num_values := 3 }
        isset_data_page_header := true }
    page_buf := [2, 0, 0, 0, 104, 105, 1, 0, 0, 0, 33]
    page_buf_end_ptr := 11
    page_buf_len := 11 }

/-- A result column of type BYTE_ARRAY with 3 rows, nothing stored yet, rows 0 and 2
defined. -/
def byte_array_rc : ResultColumn :=
  { data := List.replicate 3 Slot.uninit
    col := { type := PType.BYTE_ARRAY }
    defined := [1, 0, 1] }

/-- The scanner at the values of a PLAIN page of 2 positions of a FIXED_LEN_BYTE_ARRAY
column with `type_length = 4`: the strings de ad be ef and ca fe ba be. -/
def flba_page_cs : ColumnScan :=
  { page_header :=
      { uncompressed_page_size := 8
        compressed_page_size := 8
        data_page_header := { num_values := 2 }
        isset_data_page_header := true }
    page_buf := [222, 173, 190, 239, 202, 254, 186, 190]
    page_buf_end_ptr := 8
    page_buf_len := 8
    type_len := 4 }

/-- The scanner at the payload of `flba_page_cs`, behind the header of a dictionary page
of 2 values. -/
def flba_dict_cs : ColumnScan :=
  { flba_page_cs with
    page_header :=
      { type := PageType.DICTIONARY_PAGE
        uncompressed_page_size := 8
        compressed_page_size := 8
        dictionary_page_header := { num_values := 2 }
        isset_dictionary_page_header := true } }

/-- A result column of type FIXED_LEN_BYTE_ARRAY with `type_length = 4` and 2 rows,
nothing stored yet, both rows defined. -/
def flba_rc : ResultColumn :=
  { data := List.replicate 2 Slot.uninit
    col := { type := PType.FIXED_LEN_BYTE_ARRAY
             schema_element := { type_length := 4, isset_type_length := true } }
    defined := [1, 1] }

/-- The scanner at the values of a PLAIN page of 10 positions of a BOOLEAN column: the
bits 1, 0, 1, 0, 1, 1, 0, 1 in the first byte of the payload and the bit 1 in the
second. -/
def bool_page_cs : ColumnScan :=
  { page_header :=
      { uncompressed_page_size := 2
        compressed_page_size := 2
        data_page_header := { num_values := 10 }
        isset_data_page_header := true }
    page_buf := [181, 1]
    page_buf_end_ptr := 2
    page_buf_len := 2 }

/-- A result column of type BOOLEAN with 10 rows, nothing stored yet, all rows but row 1
defined. -/
def bool_rc : ResultColumn :=
  { data := List.replicate 10 Slot.uninit
    col := { type := PType.BOOLEAN }
    defined := [1, 0, 1, 1, 1, 1, 1, 1, 1, 1] }

/-- A file with one OPTIONAL BYTE_ARRAY column `a` and one row group of 3 rows; its chunk
(50 bytes at offset 4) is a dictionary page with the strings "hi" and "!" and a
dictionary-encoded data page: definition levels 1, 0, 1 and the indices 0, 1. -/
def file_strings : List Nat :=
  [80, 65, 82, 49, 21, 4, 21, 22, 21, 22, 76, 21, 4, 21, 0, 0, 0, 2, 0, 0, 0, 104, 105, 1,
   0, 0, 0, 33, 21, 0, 21, 18, 21, 18, 44, 21, 6, 21, 16, 21, 6, 21, 6, 0, 0, 2, 0, 0, 0, 3,
   5, 1, 3, 2, 21, 2, 25, 44, 72, 1, 114, 21, 2, 0, 21, 12, 37, 2, 24, 1, 97, 0, 22, 6, 25,
   28, 25, 28, 38, 56, 28, 21, 12, 25, 21, 0, 25, 24, 1, 97, 21, 0, 22, 6, 22, 100, 22, 100,
   38, 56, 38, 8, 0, 0, 22, 100, 22, 6, 0, 0, 56, 0, 0, 0, 80, 65, 82, 49]

/-- What the first call of `scan` leaves, for a file and the result chunk of
`initialize_result`. -/
def first_scan (file : List Nat) : ScanRun :=
  ((ParquetFile.scan spec_ext 10 (opened file) {} ((opened file).initialize_result {})).getD
    Outcome.undefined).getD {}

/-- The scanner at the payload of a dictionary-encoded page of 4 positions whose
bit-width byte is 0, after a dictionary page with the one INT32 value 7. -/
def width_zero_cs : ColumnScan :=
  { page_header := { data_page_header := { num_values := 4, encoding := Encoding.RLE_DICTIONARY } }
    seen_dict := true
    dict := some [Slot.raw [7, 0, 0, 0]]
    dict_size := 1
    page_buf := [0]
    page_buf_end_ptr := 1
    page_buf_len := 1 }

/-- A file with one REQUIRED BOOLEAN column `a` and one row group of 2 rows; its chunk
(32 bytes at offset 4) is a PLAIN dictionary page with the one value `true` (14 bytes)
and a data page of 2 values with encoding RLE_DICTIONARY whose payload is the bit-width
byte 0. -/
def file_bool_dict : List Nat :=
  [80, 65, 82, 49, 21, 4, 21, 2, 21, 2, 76, 21, 2, 21, 0, 0, 0, 1, 21, 0, 21, 2, 21, 2, 44,
   21, 4, 21, 16, 21, 6, 21, 6, 0, 0, 0, 21, 2, 25, 44, 72, 1, 114, 21, 2, 0, 21, 0, 37, 0,
   24, 1, 97, 0, 22, 4, 25, 28, 25, 28, 38, 36, 28, 21, 0, 25, 21, 0, 25, 24, 1, 97, 21, 0,
   22, 4, 22, 64, 22, 64, 38, 36, 38, 8, 0, 0, 22, 64, 22, 4, 0, 0, 56, 0, 0, 0, 80, 65, 82,
   49]

/-- A file with one REQUIRED BYTE_ARRAY column `a` and a row group of 0 rows; its chunk
(19 bytes at offset 4, codec UNCOMPRESSED) is a PLAIN dictionary page with the one string
"hi" whose header says `compressed_page_size = 6` and `uncompressed_page_size = 1`. -/
def file_heap_overrun : List Nat :=
  [80, 65, 82, 49, 21, 4, 21, 2, 21, 12, 76, 21, 2, 21, 0, 0, 0, 2, 0, 0, 0, 104, 105, 21,
   2, 25, 44, 72, 1, 114, 21, 2, 0, 21, 12, 37, 0, 24, 1, 97, 0, 22, 0, 25, 28, 25, 28, 38,
   46, 28, 21, 12, 25, 21, 0, 25, 24, 1, 97, 21, 0, 22, 0, 22, 38, 22, 38, 38, 46, 38, 8, 0,
   0, 22, 38, 22, 0, 0, 0, 56, 0, 0, 0, 80, 65, 82, 49]

/-- A file with one REQUIRED INT32 column `a` and one row group of 2 rows; its chunk (27
bytes at offset 4, codec UNCOMPRESSED) is one PLAIN data page: a header of 19 bytes that
says `compressed_page_size = 100`, and the 8 bytes of the values 1 and 2. -/
def file_oversized_page : List Nat :=
  [80, 65, 82, 49, 21, 0, 21, 200, 1, 21, 200, 1, 44, 21, 4, 21, 0, 21, 6, 21, 6, 0, 0, 1,
   0, 0, 0, 2, 0, 0, 0, 21, 2, 25, 44, 72, 1, 114, 21, 2, 0, 21, 2, 37, 0, 24, 1, 97, 0, 22,
   4, 25, 28, 25, 28, 38, 8, 28, 21, 2, 25, 21, 0, 25, 24, 1, 97, 21, 0, 22, 4, 22, 54, 22,
   54, 38, 8, 0, 0, 22, 54, 22, 4, 0, 0, 54, 0, 0, 0, 80, 65, 82, 49]

/-- The file `file_oversized_page` with `num_values = 25` in the page header and 25 rows
in the row group: the page still has the 8 bytes of the values 1 and 2. -/
def file_oversized_page_read : List Nat :=
  [80, 65, 82, 49, 21, 0, 21, 200, 1, 21, 200, 1, 44, 21, 50, 21, 0, 21, 6, 21, 6, 0, 0, 1,
   0, 0, 0, 2, 0, 0, 0, 21, 2, 25, 44, 72, 1, 114, 21, 2, 0, 21, 2, 37, 0, 24, 1, 97, 0, 22,
   50, 25, 28, 25, 28, 38, 8, 28, 21, 2, 25, 21, 0, 25, 24, 1, 97, 21, 0, 22, 50, 22, 54,
   22, 54, 38, 8, 0, 0, 22, 54, 22, 50, 0, 0, 54, 0, 0, 0, 80, 65, 82, 49]

/-- A file with one REQUIRED INT32 column `a` and one row group of 2 rows; its chunk (28
bytes at offset 4, codec UNCOMPRESSED) has two pages: a PLAIN data page with
`num_values = 2` and `compressed_page_size = 4` whose payload is the value 1 (header of 17
bytes), and an INDEX_PAGE header of 7 bytes, 21 2 21 0 21 0 0, without payload. -/
def file_short_payload : List Nat :=
  [80, 65, 82, 49, 21, 0, 21, 8, 21, 8, 44, 21, 4, 21, 0, 21, 6, 21, 6, 0, 0, 1, 0, 0, 0,
   21, 2, 21, 0, 21, 0, 0, 21, 2, 25, 44, 72, 1, 114, 21, 2, 0, 21, 2, 37, 0, 24, 1, 97, 0,
   22, 4, 25, 28, 25, 28, 38, 8, 28, 21, 2, 25, 21, 0, 25, 24, 1, 97, 21, 0, 22, 4, 22, 56,
   22, 56, 38, 8, 0, 0, 22, 56, 22, 4, 0, 0, 54, 0, 0, 0, 80, 65, 82, 49]

/-- The scanner at the payload of a PLAIN dictionary page of an INT32 column with
`num_values = 2` and a payload of 4 bytes (`page_buf_end_ptr = 4`), in a buffer that
holds 4 more bytes behind the page. -/
def short_dict_cs : ColumnScan :=
  { page_header :=
      { type := PageType.DICTIONARY_PAGE
        uncompressed_page_size := 4
        compressed_page_size := 4
        dictionary_page_header := { num_values := 2 }
        isset_dictionary_page_header := true }
    page_buf := [1, 0, 0, 0, 21, 2, 21, 0]
    page_buf_end_ptr := 4
    page_buf_len := 4 }

/-- A file of 2052 bytes with one REQUIRED INT32 column `a` and one row group of 490
rows; its chunk (1980 bytes at offset 4) is one PLAIN data page, a header of 20 bytes and
490 values 0. The footer has 60 bytes. -/
def file_long_page : List Nat :=
  [80, 65, 82, 49, 21, 0, 21, 208, 30, 21, 208, 30, 44, 21, 212, 7, 21, 0, 21, 6, 21, 6, 0,
   0] ++ List.replicate 1960 0 ++
  [21, 2, 25, 44, 72, 1, 114, 21, 2, 0, 21, 2, 37, 0, 24, 1, 97, 0, 22, 212, 7, 25, 28, 25,
   28, 38, 8, 28, 21, 2, 25, 21, 0, 25, 24, 1, 97, 21, 0, 22, 212, 7, 22, 248, 30, 22, 248,
   30, 38, 8, 0, 0, 22, 248, 30, 22, 212, 7, 0, 0, 60, 0, 0, 0, 80, 65, 82, 49]

/-- A file with two REQUIRED INT32 columns `a` and `b` and one row group of 2 rows. The
chunk of `a` (34 bytes at offset 4) is a PLAIN data page with the values 1 and 2 and a
page header of type DATA_PAGE_V2; the chunk of `b` (25 bytes at offset 38) is a PLAIN data
page with the values 3 and 4. -/
def file_bad_first_column : List Nat :=
  [80, 65, 82, 49, 21, 0, 21, 16, 21, 16, 44, 21, 4, 21, 0, 21, 6, 21, 6, 0, 0, 1, 0, 0, 0,
   2, 0, 0, 0, 21, 6, 21, 0, 21, 0, 92, 0, 0, 21, 0, 21, 16, 21, 16, 44, 21, 4, 21, 0, 21,
   6, 21, 6, 0, 0, 3, 0, 0, 0, 4, 0, 0, 0, 21, 2, 25, 60, 72, 1, 114, 21, 4, 0, 21, 2, 37,
   0, 24, 1, 97, 0, 21, 2, 37, 0, 24, 1, 98, 0, 22, 4, 25, 28, 25, 44, 38, 8, 28, 21, 2, 25,
   21, 0, 25, 24, 1, 97, 21, 0, 22, 4, 22, 68, 22, 68, 38, 8, 0, 0, 38, 76, 28, 21, 2, 25,
   21, 0, 25, 24, 1, 98, 21, 0, 22, 4, 22, 50, 22, 50, 38, 76, 0, 0, 22, 118, 22, 4, 0, 0,
   86, 0, 0, 0, 80, 65, 82, 49]

/-- The objects an outcome holds when the call ended with an exception (`d` otherwise). -/
def thrown_state {σ : Type} (o : Option (Outcome σ)) (d : σ) : σ :=
  match o with
  | some (.thrown _ s) => s
  | _ => d

/-! ## Theorems -/

/-! ### Opening a file -/

theorem magic_length : magic.length = 4 := rfl

theorem read_start (bytes : List Nat) :
    IFStream.read { bytes := bytes, pos := 0, failed := false } 4 =
      (bytes.take 4, { bytes := bytes, pos := (bytes.take 4).length,
                       failed := decide ((bytes.take 4).length < 4) }) := by
  simp [IFStream.read]

theorem overwrite_full (buf got : List Nat) (h : buf.length ≤ got.length) :
    overwrite buf got = got := by
  simp [overwrite, List.drop_eq_nil_of_le h]

theorem overwrite_short_ne_magic (got : List Nat) (h : got.length < 4) :
    overwrite [0, 0, 0, 0] got ≠ magic := by
  match got, h with
  | [], _ => simp [overwrite, magic]
  | [a], _ => simp [overwrite, magic]
  | [a, b], _ => simp [overwrite, magic]
  | [a, b, c], _ => simp [overwrite, magic]

theorem seek_tail (bytes : List Nat) (p : Nat) (h : 4 ≤ bytes.length) :
    (IFStream.seekg_end (IFStream.seekg_end { bytes := bytes, pos := p, failed := false } 0) (-4)) =
      { bytes := bytes, pos := bytes.length - 4, failed := false } := by
  have e : ((bytes.length : Int) + -4).toNat = bytes.length - 4 := by omega
  simp [IFStream.seekg_end, h, e]

theorem read_tail (bytes : List Nat) (h : 4 ≤ bytes.length) :
    (IFStream.read { bytes := bytes, pos := bytes.length - 4, failed := false } 4).1 =
      bytes.drop (bytes.length - 4) := by
  have hl : (bytes.drop (bytes.length - 4)).length ≤ 4 := by simp; omega
  simp [IFStream.read, List.take_of_length_le hl]

/-- C1. A file whose first four bytes are not "PAR1" or whose last four bytes are not
"PAR1" (a file shorter than four bytes is such a file) makes `initialize` throw the
leading-magic or the trailing-magic exception. At the throw only the stream and
`file_size` of the object differ from what they were: `columns` is the list it was (empty
for a new object) and `file_meta_data` is untouched, whatever the Thrift deserializer
`ext` is, so no footer byte was deserialized. -/
theorem initialize_rejects_bad_magic (self : ParquetFile) (bytes : List Nat)
    (h : bytes.take 4 ≠ magic ∨ bytes.drop (bytes.length - 4) ≠ magic) :
    ∃ (e : Err) (pf : IFStream) (fs : Int),
      (e = Err.noLeadingMagic ∨ e = Err.noTrailingMagic) ∧
      ∀ ext : Externals,
        ParquetFile.initialize ext self (some bytes) =
          Outcome.thrown e { self with pfile := pf, file_size := fs } := by
  by_cases h1 : bytes.take 4 = magic
  · have hlen : 4 ≤ bytes.length := by
      have := congrArg List.length h1
      simp [magic] at this
      omega
    have h2 : bytes.drop (bytes.length - 4) ≠ magic := by
      rcases h with h | h
      · exact absurd h1 h
      · exact h
    have hl2 : (bytes.drop (bytes.length - 4)).length = 4 := by simp; omega
    have e1 := read_start bytes
    rw [h1] at e1
    have e0 : overwrite [0, 0, 0, 0] magic = magic := rfl
    have e2 : overwrite magic (bytes.drop (bytes.length - 4)) = bytes.drop (bytes.length - 4) :=
      overwrite_full _ _ (by rw [hl2, magic_length])
    have e3 : decide (4 < 4) = false := rfl
    refine ⟨Err.noTrailingMagic,
      (IFStream.read { bytes := bytes, pos := bytes.length - 4, failed := false } 4).2,
      (IFStream.seekg_end { bytes := bytes, pos := 4, failed := false } 0).tellg,
      Or.inr rfl, fun ext => ?_⟩
    simp only [ ParquetFile.initialize, e1, magic_length, e0, e3, seek_tail bytes 4 hlen,
      read_tail bytes hlen, e2]
    simp only [ne_eq, h2, not_false_eq_true, if_true, not_true_eq_false, if_false]
  · have e1 := read_start bytes
    have hne : overwrite [0, 0, 0, 0] (bytes.take 4) ≠ magic := by
      by_cases hl : 4 ≤ bytes.length
      · rw [overwrite_full _ _ (by simp; omega)]
        exact h1
      · exact overwrite_short_ne_magic _ (by simp; omega)
    refine ⟨Err.noLeadingMagic,
      { bytes := bytes, pos := (bytes.take 4).length,
        failed := decide ((bytes.take 4).length < 4) },
      self.file_size, Or.inl rfl, fun ext => ?_⟩
    simp only [ ParquetFile.initialize, e1]
    simp only [ne_eq, hne, not_false_eq_true, if_true]

/-- C1 at a file cut one byte before its end: "PAR1", a two-byte footer, its length and
"PAR". -/
theorem initialize_rejects_bad_magic_witness :
    ∃ (e : Err) (pf : IFStream) (fs : Int),
      (e = Err.noLeadingMagic ∨ e = Err.noTrailingMagic) ∧
      ∀ ext : Externals,
        ParquetFile.initialize ext {} (some [80, 65, 82, 49, 21, 0, 2, 0, 0, 0, 80, 65, 82]) =
          Outcome.thrown e { ({} : ParquetFile) with pfile := pf, file_size := fs } :=
  initialize_rejects_bad_magic {} [80, 65, 82, 49, 21, 0, 2, 0, 0, 0, 80, 65, 82]
    (Or.inr (by decide))

/-! ### What the page decoders leave unchanged -/

theorem Outcome.andThen_eq_ok {σ : Type} (o : Outcome σ) (f : σ → Outcome σ) (s' : σ) :
    o.andThen f = .ok s' ↔ ∃ s, o = .ok s ∧ f s = .ok s' := by
  cases o <;> simp [Outcome.andThen]

theorem ColumnRun.step_eq_ok (st st' : ColumnRun) (o : Outcome (ColumnScan × ResultColumn)) :
    st.step o = .ok st' ↔ ∃ r, o = .ok r ∧ st' = { st with cs := r.1, result_col := r.2 } := by
  cases o <;> simp [ColumnRun.step, eq_comm]

theorem Outcome.withCol_eq_ok (o : Outcome ColumnScan) (rc : ResultColumn)
    (r : ColumnScan × ResultColumn) :
    o.withCol rc = .ok r ↔ o = .ok r.1 ∧ r.2 = rc := by
  cases o <;> cases r <;> simp [Outcome.withCol, eq_comm]

theorem fill_values_plain_loop_frame (sz : Nat) (n : Nat) :
    ∀ (v : Int) (cs : ColumnScan) (rc : ResultColumn) (r : ColumnScan × ResultColumn),
      ColumnScan.fill_values_plain_loop sz n v cs rc = .ok r →
        r.1 = { cs with page_buf_ptr := r.1.page_buf_ptr } ∧
        r.2 = { rc with data := r.2.data } := by
  induction n with
  | zero =>
    intro v cs rc r h
    simp [ColumnScan.fill_values_plain_loop] at h
    subst h
    exact ⟨rfl, rfl⟩
  | succ n ih =>
    intro v cs rc r h
    simp only [ColumnScan.fill_values_plain_loop] at h
    split at h
    · simp at h
    · split at h
      · exact (by have := ih _ _ _ _ h; exact this)
      · split at h
        · simp at h
        · split at h
          · simp at h
          · exact (by have := ih _ _ _ _ h; exact this)

theorem plain_bool_loop_frame (n : Nat) :
    ∀ (v : Int) (bp : Nat) (cs : ColumnScan) (rc : ResultColumn) (r : ColumnScan × ResultColumn),
      ColumnScan.plain_bool_loop n v bp cs rc = .ok r →
        r.1 = { cs with page_buf_ptr := r.1.page_buf_ptr } ∧
        r.2 = { rc with data := r.2.data } := by
  induction n with
  | zero =>
    intro v bp cs rc r h
    simp [ColumnScan.plain_bool_loop] at h
    subst h
    exact ⟨rfl, rfl⟩
  | succ n ih =>
    intro v bp cs rc r h
    simp only [ColumnScan.plain_bool_loop] at h
    split at h
    · simp at h
    · split at h
      · exact (by have := ih _ _ _ _ _ h; exact this)
      · split at h
        · simp at h
        · split at h
          · simp at h
          · split at h
            · exact (by have := ih _ _ _ _ _ h; exact this)
            · exact (by have := ih _ _ _ _ _ h; exact this)

theorem plain_strings_loop_frame (k n : Nat) :
    ∀ (v : Int) (sl : Nat) (cs : ColumnScan) (rc : ResultColumn) (r : ColumnScan × ResultColumn),
      ColumnScan.plain_strings_loop k n v sl cs rc = .ok r →
        r.1 = { cs with page_buf_ptr := r.1.page_buf_ptr } ∧
        r.2 = { rc with data := r.2.data, string_heap_chunks := r.2.string_heap_chunks } := by
  induction n with
  | zero =>
    intro v sl cs rc r h
    simp [ColumnScan.plain_strings_loop] at h
    subst h
    exact ⟨rfl, rfl⟩
  | succ n ih =>
    intro v sl cs rc r h
    simp only [ColumnScan.plain_strings_loop] at h
    split at h
    · simp at h
    · split at h
      · exact (by have := ih _ _ _ _ _ h; exact this)
      · split at h
        · simp at h
        · rename_i sl' cs' hlr
          have hcs' : cs' = { cs with page_buf_ptr := cs'.page_buf_ptr } := by
            split at hlr
            · cases hrb : readBytes cs.page_buf cs.page_buf_ptr 4 with
              | none => simp [hrb] at hlr
              | some bs =>
                simp [hrb] at hlr
                rw [← hlr.2]
            · simp at hlr
              rw [← hlr.2]
          split at h
          · simp at h
          · split at h
            · simp at h
            · split at h
              · split at h
                · simp at h
                · have := ih _ _ _ _ _ h
                  refine ⟨?_, this.2⟩
                  rw [this.1]
                  rw [hcs']
              · simp at h

theorem fill_values_dict_loop_frame (offsets : List Nat) (n : Nat) :
    ∀ (v : Int) (cs : ColumnScan) (rc : ResultColumn) (r : ColumnScan × ResultColumn),
      ColumnScan.fill_values_dict_loop offsets n v cs rc = .ok r →
        r.1 = cs ∧ r.2 = { rc with data := r.2.data } := by
  induction n with
  | zero =>
    intro v cs rc r h
    simp [ColumnScan.fill_values_dict_loop] at h
    subst h
    exact ⟨rfl, rfl⟩
  | succ n ih =>
    intro v cs rc r h
    simp only [ColumnScan.fill_values_dict_loop] at h
    split at h
    · simp at h
    · split at h
      · split at h
        · split at h
          · simp at h
          · split at h
            · simp at h
            · exact (by have := ih _ _ _ _ h; exact this)
        · simp at h
      · exact (by have := ih _ _ _ _ h; exact this)

theorem dict_strings_loop_frame (offsets : List Nat) (n : Nat) :
    ∀ (v : Int) (cs : ColumnScan) (rc : ResultColumn) (r : ColumnScan × ResultColumn),
      ColumnScan.dict_strings_loop offsets n v cs rc = .ok r →
        r.1 = cs ∧ r.2 = { rc with data := r.2.data } := by
  induction n with
  | zero =>
    intro v cs rc r h
    simp [ColumnScan.dict_strings_loop] at h
    subst h
    exact ⟨rfl, rfl⟩
  | succ n ih =>
    intro v cs rc r h
    simp only [ColumnScan.dict_strings_loop] at h
    split at h
    · simp at h
    · split at h
      · split at h
        · split at h
          · simp at h
          · split at h
            · simp at h
            · exact (by have := ih _ _ _ _ h; exact this)
        · simp at h
      · split at h
        · simp at h
        · exact (by have := ih _ _ _ _ h; exact this)


theorem read_offsets_frame (ext : Externals) (cs : ColumnScan) (rc : ResultColumn)
    (r : ColumnScan × ResultColumn)
    (h : (cs.read_offsets ext rc).1 = .ok r) :
    r.1 = { cs with page_buf_ptr := cs.page_buf_ptr + 1 } ∧ r.2 = rc := by
  unfold ColumnScan.read_offsets at h
  simp only at h
  split at h
  · simp at h
  · split at h
    · simp at h
    · split at h
      · split at h
        · simp at h
        · split at h
          · split at h
            · simp at h
              subst h
              exact ⟨rfl, rfl⟩
            · simp at h
          · simp at h
          · simp at h
      · simp at h
        subst h
        exact ⟨rfl, rfl⟩

theorem scan_def_levels_frame (ext : Externals) (cs : ColumnScan) (rc : ResultColumn)
    (hdl : Bool) (r : ColumnScan × ResultColumn)
    (h : cs.scan_def_levels ext rc hdl = .ok r) :
    r.1 = { cs with page_buf_ptr := r.1.page_buf_ptr } ∧
    r.2 = { rc with defined := r.2.defined } := by
  unfold ColumnScan.scan_def_levels at h
  simp only at h
  split at h
  · split at h
    · split at h
      · simp at h
      · split at h
        · split at h
          · simp at h
          · simp at h
            subst h
            exact ⟨rfl, rfl⟩
        · split at h <;> simp at h
        · simp at h
    · simp at h
  · split at h
    · simp at h
    · split at h
      · simp at h
      · simp at h
        subst h
        exact ⟨rfl, rfl⟩

theorem scan_data_page_plain_frame (cs : ColumnScan) (rc : ResultColumn)
    (r : ColumnScan × ResultColumn)
    (h : cs.scan_data_page_plain rc = .ok r) :
    r.1 = { cs with page_buf_ptr := r.1.page_buf_ptr } ∧
    r.2 = { rc with data := r.2.data, string_heap_chunks := r.2.string_heap_chunks } := by
  unfold ColumnScan.scan_data_page_plain at h
  simp only at h
  split at h
  · have := plain_bool_loop_frame _ _ _ _ _ _ h
    exact ⟨this.1, by rw [this.2]⟩
  · have := fill_values_plain_loop_frame _ _ _ _ _ _ h
    exact ⟨this.1, by rw [this.2]⟩
  · have := fill_values_plain_loop_frame _ _ _ _ _ _ h
    exact ⟨this.1, by rw [this.2]⟩
  · have := fill_values_plain_loop_frame _ _ _ _ _ _ h
    exact ⟨this.1, by rw [this.2]⟩
  · have := fill_values_plain_loop_frame _ _ _ _ _ _ h
    exact ⟨this.1, by rw [this.2]⟩
  · have := fill_values_plain_loop_frame _ _ _ _ _ _ h
    exact ⟨this.1, by rw [this.2]⟩
  · split at h <;> split at h <;>
      first
      | (have hfr := plain_strings_loop_frame _ _ _ _ _ _ _ h
         exact ⟨hfr.1, by rw [hfr.2]⟩)
      | simp at h
  · split at h <;> split at h <;>
      first
      | (have hfr := plain_strings_loop_frame _ _ _ _ _ _ _ h
         exact ⟨hfr.1, by rw [hfr.2]⟩)
      | simp at h
  · simp at h

theorem scan_data_page_dict_frame (ext : Externals) (cs : ColumnScan) (rc : ResultColumn)
    (r : ColumnScan × ResultColumn)
    (h : cs.scan_data_page_dict ext rc = .ok r) :
    r.1 = { cs with page_buf_ptr := r.1.page_buf_ptr } ∧
    r.2 = { rc with data := r.2.data } := by
  unfold ColumnScan.scan_data_page_dict at h
  split at h
  · simp at h
  · simp only [Outcome.andThen_eq_ok] at h
    obtain ⟨st, h1, h2⟩ := h
    have f1 := read_offsets_frame ext cs rc st h1
    split at h2
    all_goals first
      | (have hfr := fill_values_dict_loop_frame _ _ _ _ _ _ h2
         rw [hfr.1, f1.1, hfr.2, f1.2]
         exact ⟨rfl, rfl⟩)
      | (have hfr := dict_strings_loop_frame _ _ _ _ _ _ h2
         rw [hfr.1, f1.1, hfr.2, f1.2]
         exact ⟨rfl, rfl⟩)
      | simp at h2

theorem scan_data_page_frame (ext : Externals) (cs : ColumnScan) (rc : ResultColumn)
    (hdl : Bool) (r : ColumnScan × ResultColumn)
    (h : cs.scan_data_page ext rc hdl = .ok r) :
    r.1 = { cs with
            page_buf_ptr := r.1.page_buf_ptr,
            defined_ptr := cs.defined_ptr + cs.page_header.data_page_header.num_values,
            page_start_row :=
              toU64 (cs.page_start_row + cs.page_header.data_page_header.num_values) } ∧
    r.2 = { rc with data := r.2.data, defined := r.2.defined,
                    string_heap_chunks := r.2.string_heap_chunks } := by
  unfold ColumnScan.scan_data_page at h
  split at h
  · simp at h
  · split at h
    · simp at h
    · simp only [Outcome.andThen_eq_ok] at h
      obtain ⟨st2, ⟨st1, h1, h2⟩, h3⟩ := h
      have f1 := scan_def_levels_frame ext cs rc hdl st1 h1
      simp at h3
      subst h3
      split at h2
      · have f2 := scan_data_page_dict_frame ext _ _ _ h2
        simp only
        rw [f2.1, f2.2, f1.1, f1.2]
        exact ⟨rfl, rfl⟩
      · have f2 := scan_data_page_dict_frame ext _ _ _ h2
        simp only
        rw [f2.1, f2.2, f1.1, f1.2]
        exact ⟨rfl, rfl⟩
      · have f2 := scan_data_page_plain_frame _ _ _ h2
        simp only
        rw [f2.1, f2.2, f1.1, f1.2]
        exact ⟨rfl, rfl⟩
      · simp at h2


theorem fill_dict_loop_frame (sz : Nat) (n : Nat) :
    ∀ (i : Nat) (cs cs' : ColumnScan),
      ColumnScan.fill_dict_loop sz n i cs = .ok cs' →
        cs' = { cs with page_buf_ptr := cs'.page_buf_ptr, dict := cs'.dict } := by
  induction n with
  | zero =>
    intro i cs cs' h
    simp [ColumnScan.fill_dict_loop] at h
    subst h
    rfl
  | succ n ih =>
    intro i cs cs' h
    simp only [ColumnScan.fill_dict_loop] at h
    split at h
    · split at h
      · have := ih _ _ _ h
        exact this
      · simp at h
    · simp at h

theorem fill_dict_frame (sz : Nat) (cs cs' : ColumnScan)
    (h : cs.fill_dict sz = .ok cs') :
    cs' = { cs with page_buf_ptr := cs'.page_buf_ptr, dict := cs'.dict } := by
  unfold ColumnScan.fill_dict at h
  simp only at h
  split at h
  · simp at h
  · have := fill_dict_loop_frame _ _ _ _ _ h
    exact this

theorem scan_dict_strings_frame (k n : Nat) :
    ∀ (i : Nat) (cs : ColumnScan) (rc : ResultColumn) (r : ColumnScan × ResultColumn),
      ColumnScan.scan_dict_strings k n i cs rc = .ok r →
        r.1 = { cs with page_buf_ptr := r.1.page_buf_ptr, dict := r.1.dict } ∧
        r.2 = { rc with string_heap_chunks := r.2.string_heap_chunks } := by
  induction n with
  | zero =>
    intro i cs rc r h
    simp [ColumnScan.scan_dict_strings] at h
    subst h
    exact ⟨rfl, rfl⟩
  | succ n ih =>
    intro i cs rc r h
    simp only [ColumnScan.scan_dict_strings] at h
    split at h
    · simp at h
    · split at h
      · simp at h
      · split at h
        · split at h
          · split at h
            · simp at h
            · have := ih _ _ _ _ h
              exact this
          · simp at h
        · simp at h

theorem scan_dict_page_frame (cs : ColumnScan) (rc : ResultColumn)
    (r : ColumnScan × ResultColumn)
    (h : cs.scan_dict_page rc = .ok r) :
    cs.seen_dict = false ∧
    r.1 = { cs with seen_dict := true, dict_size := r.1.dict_size,
                    page_buf_ptr := r.1.page_buf_ptr, dict := r.1.dict } ∧
    r.2 = { rc with string_heap_chunks := r.2.string_heap_chunks } := by
  unfold ColumnScan.scan_dict_page at h
  split at h
  · simp at h
  · split at h
    · split at h
      · simp at h
      · rename_i hs
        refine ⟨by simpa using hs, ?_⟩
        simp only at h
        split at h
        all_goals first
          | (rw [Outcome.withCol_eq_ok] at h
             have := fill_dict_frame _ _ _ h.1
             rw [this, h.2]
             exact ⟨rfl, rfl⟩)
          | (split at h
             · simp at h
             · split at h
               · simp at h
               · have := scan_dict_strings_frame _ _ _ _ _ _ h
                 rw [this.1, this.2]
                 exact ⟨rfl, rfl⟩)
          | simp at h
    · split at h
      · simp at h
      · rename_i hs
        refine ⟨by simpa using hs, ?_⟩
        simp only at h
        split at h
        all_goals first
          | (rw [Outcome.withCol_eq_ok] at h
             have := fill_dict_frame _ _ _ h.1
             rw [this, h.2]
             exact ⟨rfl, rfl⟩)
          | (split at h
             · simp at h
             · split at h
               · simp at h
               · have := scan_dict_strings_frame _ _ _ _ _ _ h
                 rw [this.1, this.2]
                 exact ⟨rfl, rfl⟩)
          | simp at h
    · simp at h


theorem select_page_buf_frame (ext : Externals) (codec : CompressionCodec) (st st' : ColumnRun)
    (h : select_page_buf ext codec st = .ok st') :
    st' = { st with cs := { st.cs with
              page_buf := st'.cs.page_buf, page_buf_ptr := st'.cs.page_buf_ptr,
              page_buf_len := st'.cs.page_buf_len,
              page_buf_end_ptr := st'.cs.page_buf_end_ptr } } := by
  unfold select_page_buf at h
  split at h
  · simp at h
    subst h
    rfl
  · split at h
    · simp at h
    · split at h
      · simp at h
      · split at h
        · simp at h
        · split at h
          · simp at h
          · split at h
            · simp at h
            · split at h
              · simp at h
              · simp at h
                subst h
                rfl
  · simp at h

/-- What one iteration of the page loop does to the cursor, to `seen_dict` and to
`page_start_row`, when it ends normally. -/
theorem scan_page_ok (ext : Externals) (codec : CompressionCodec) (hdl : Bool)
    (st st' : ColumnRun) (h : scan_page ext codec hdl st = .ok st') :
    ∃ buf ph consumed,
      readBytes st.chunk_buf st.chunk_ptr (toU32 st.bytes_to_read).toNat = some buf ∧
      ext.unpack_page_header buf = some (ph, consumed) ∧
      st'.chunk_buf = st.chunk_buf ∧ st'.pfile = st.pfile ∧
      st'.chunk_ptr = st.chunk_ptr + (st.bytes_to_read - toU32 st.bytes_to_read + (consumed : Int))
          + ph.compressed_page_size ∧
      st'.bytes_to_read = st.bytes_to_read -
          (st.bytes_to_read - toU32 st.bytes_to_read + (consumed : Int)) -
          ph.compressed_page_size ∧
      (ph.type = PageType.DICTIONARY_PAGE →
        st.cs.seen_dict = false ∧ st'.cs.seen_dict = true ∧
        st'.cs.page_start_row = st.cs.page_start_row) ∧
      (ph.type = PageType.DATA_PAGE →
        st'.cs.seen_dict = st.cs.seen_dict ∧
        st'.cs.page_start_row = toU64 (st.cs.page_start_row + ph.data_page_header.num_values)) ∧
      (ph.type ≠ PageType.DICTIONARY_PAGE → ph.type ≠ PageType.DATA_PAGE →
        st'.cs.seen_dict = st.cs.seen_dict ∧
        st'.cs.page_start_row = st.cs.page_start_row) := by
  unfold scan_page at h
  simp only at h
  split at h
  · simp at h
  · rename_i buf hbuf
    split at h
    · simp at h
    · rename_i ph consumed hph
      refine ⟨buf, ph, consumed, hbuf, hph, ?_⟩
      simp only [Outcome.andThen_eq_ok] at h
      obtain ⟨st3, ⟨st2, h2, h3⟩, h4⟩ := h
      have f2 := select_page_buf_frame ext codec _ _ h2
      simp only at f2
      simp at h4
      subst h4
      have hty : st2.cs.page_header = ph := by rw [f2]
      split at h3
      · rename_i hdict
        rw [ColumnRun.step_eq_ok] at h3
        obtain ⟨r, hr, h3⟩ := h3
        have f3 := scan_dict_page_frame _ _ _ hr
        subst h3
        rw [hty] at hdict
        refine ⟨by simp only; rw [f2], by simp only; rw [f2], by simp only,
          by simp only; rw [f2], ?_, ?_, ?_⟩
        · intro _
          refine ⟨?_, ?_, ?_⟩
          · have := f3.1
            rw [f2] at this
            simpa using this
          · simp only
            rw [f3.2.1]
          · simp only
            rw [f3.2.1, f2]
        · intro hd
          rw [hdict] at hd
          simp at hd
        · intro hd
          exact absurd hdict hd
      · rename_i hdata
        rw [ColumnRun.step_eq_ok] at h3
        obtain ⟨r, hr, h3⟩ := h3
        have f3 := scan_data_page_frame _ _ _ _ _ hr
        subst h3
        rw [hty] at hdata
        refine ⟨by simp only; rw [f2], by simp only; rw [f2], by simp only,
          by simp only; rw [f2], ?_, ?_, ?_⟩
        · intro hd
          rw [hdata] at hd
          simp at hd
        · intro _
          refine ⟨?_, ?_⟩
          · simp only
            rw [f3.1, f2]
          · simp only
            rw [f3.1, f2]
        · intro _ hd
          exact absurd hdata hd
      · simp at h3
      · rename_i hnd hnp hnv
        simp at h3
        subst h3
        rw [hty] at hnd hnp
        refine ⟨by simp only; rw [f2], by simp only; rw [f2], by simp only,
          by simp only; rw [f2], ?_, ?_, ?_⟩
        · intro hd
          exact absurd hd hnd
        · intro hd
          exact absurd hd hnp
        · intro _ _
          refine ⟨?_, ?_⟩
          · simp only
            rw [f2]
          · simp only
            rw [f2]

/-! ### The page loop -/

theorem scan_pages_zero_fuel (ext : Externals) (codec : CompressionCodec) (hdl : Bool)
    (st : ColumnRun) :
    scan_pages ext codec hdl 0 st = if 0 < st.bytes_to_read then none else some (.ok st) := by
  simp [scan_pages]

theorem scan_pages_succ (ext : Externals) (codec : CompressionCodec) (hdl : Bool) (fuel : Nat)
    (st : ColumnRun) :
    scan_pages ext codec hdl (fuel + 1) st =
      if 0 < st.bytes_to_read then
        match scan_page ext codec hdl st with
        | .ok st => scan_pages ext codec hdl fuel st
        | .thrown e st => some (.thrown e st)
        | .undefined => some .undefined
      else some (.ok st) := by
  simp [scan_pages]

theorem chunk_pages_done (ext : Externals) (buf : List Nat) (fuel : Nat) (ptr btr : Int)
    (h : ¬ 0 < btr) : chunk_pages ext buf fuel ptr btr = [] := by
  cases fuel <;> simp [chunk_pages, h]

theorem chunk_pages_zero (ext : Externals) (buf : List Nat) (ptr btr : Int) :
    chunk_pages ext buf 0 ptr btr = [] := by
  simp [chunk_pages]

/-- The pages after a page the loop got through are the pages from the cursor it left. -/
theorem chunk_pages_step (ext : Externals) (codec : CompressionCodec) (hdl : Bool)
    (st st' : ColumnRun) (h : scan_page ext codec hdl st = .ok st')
    (hb : 0 < st.bytes_to_read) (fuel : Nat) :
    ∃ ph, chunk_pages ext st.chunk_buf (fuel + 1) st.chunk_ptr st.bytes_to_read =
        ph :: chunk_pages ext st'.chunk_buf fuel st'.chunk_ptr st'.bytes_to_read ∧
      (ph.type = PageType.DICTIONARY_PAGE →
        st.cs.seen_dict = false ∧ st'.cs.seen_dict = true ∧
        st'.cs.page_start_row = st.cs.page_start_row) ∧
      (ph.type = PageType.DATA_PAGE →
        st'.cs.seen_dict = st.cs.seen_dict ∧
        st'.cs.page_start_row = toU64 (st.cs.page_start_row + ph.data_page_header.num_values)) ∧
      (ph.type ≠ PageType.DICTIONARY_PAGE → ph.type ≠ PageType.DATA_PAGE →
        st'.cs.seen_dict = st.cs.seen_dict ∧
        st'.cs.page_start_row = st.cs.page_start_row) := by
  obtain ⟨buf, ph, consumed, h1, h2, h3, _, h5, h6, h7⟩ := scan_page_ok ext codec hdl st st' h
  refine ⟨ph, ?_, h7⟩
  simp only [chunk_pages, hb, if_true, h1, h2, h3, h5, h6]

theorem scan_pages_frame (ext : Externals) (codec : CompressionCodec) (hdl : Bool) (fuel : Nat) :
    ∀ (st st' : ColumnRun), scan_pages ext codec hdl fuel st = some (.ok st') →
      st'.pfile = st.pfile ∧ st'.chunk_buf = st.chunk_buf := by
  induction fuel with
  | zero =>
    intro st st' h
    rw [scan_pages_zero_fuel] at h
    split at h
    · simp at h
    · simp at h
      subst h
      exact ⟨rfl, rfl⟩
  | succ fuel ih =>
    intro st st' h
    rw [scan_pages_succ] at h
    split at h
    · split at h
      · rename_i st1 h1
        obtain ⟨_, _, _, _, _, h3, h4, _⟩ := scan_page_ok ext codec hdl st st1 h1
        have := ih st1 st' h
        exact ⟨by rw [this.1, h4], by rw [this.2, h3]⟩
      · simp at h
      · simp at h
    · simp at h
      subst h
      exact ⟨rfl, rfl⟩

theorem toU64_range (x : Int) : 0 ≤ toU64 x ∧ toU64 x < two64 := by
  unfold toU64 two64
  omega

theorem toU64_add_toU64 (x y : Int) : toU64 (toU64 x + y) = toU64 (x + y) := by
  unfold toU64 two64
  omega

theorem toU64_of_range (x : Int) (h : 0 ≤ x ∧ x < two64) : toU64 x = x := by
  unfold toU64
  unfold two64 at *
  omega

theorem sum_num_values_cons (ph : PageHeader) (l : List PageHeader) :
    sum_num_values (ph :: l) = ph.data_page_header.num_values + sum_num_values l := by
  simp [sum_num_values]

/-- The row counter after the page loop is the sum of the `num_values` of the data pages
it went through, as a 64-bit unsigned number. -/
theorem scan_pages_page_start_row (ext : Externals) (codec : CompressionCodec) (hdl : Bool)
    (fuel : Nat) :
    ∀ (st st' : ColumnRun), scan_pages ext codec hdl fuel st = some (.ok st') →
      (0 ≤ st.cs.page_start_row ∧ st.cs.page_start_row < two64) →
      st'.cs.page_start_row =
        toU64 (st.cs.page_start_row +
          sum_num_values (data_pages
            (chunk_pages ext st.chunk_buf fuel st.chunk_ptr st.bytes_to_read))) := by
  induction fuel with
  | zero =>
    intro st st' h hr
    rw [scan_pages_zero_fuel] at h
    split at h
    · simp at h
    · simp at h
      subst h
      simp [chunk_pages_zero, data_pages, sum_num_values, toU64_of_range _ hr]
  | succ fuel ih =>
    intro st st' h hr
    rw [scan_pages_succ] at h
    split at h
    · rename_i hb
      split at h
      · rename_i st1 h1
        obtain ⟨ph, hcp, hd, hp, ho⟩ := chunk_pages_step ext codec hdl st st1 h1 hb fuel
        rw [hcp]
        by_cases hty : ph.type = PageType.DATA_PAGE
        · have hp' := hp hty
          have hr1 : 0 ≤ st1.cs.page_start_row ∧ st1.cs.page_start_row < two64 := by
            rw [hp'.2]
            exact toU64_range _
          rw [ih st1 st' h hr1, hp'.2, toU64_add_toU64]
          simp only [data_pages, List.filter_cons, hty, decide_True, if_true]
          rw [sum_num_values_cons, add_assoc]
        · have hps : st1.cs.page_start_row = st.cs.page_start_row := by
            by_cases htd : ph.type = PageType.DICTIONARY_PAGE
            · exact (hd htd).2.2
            · exact (ho htd hty).2
          have hr1 : 0 ≤ st1.cs.page_start_row ∧ st1.cs.page_start_row < two64 := by
            rw [hps]
            exact hr
          rw [ih st1 st' h hr1, hps]
          simp only [data_pages, List.filter_cons, hty, decide_False]
          rfl
      · simp at h
      · simp at h
    · rename_i hb
      simp at h
      subst h
      simp [chunk_pages_done _ _ _ _ _ hb, data_pages, sum_num_values, toU64_of_range _ hr]

/-- While the page loop keeps going, it has met at most one dictionary page, and none
if `seen_dict` was set at its start: this holds for the pages of a loop that ended
normally, and for the first `fuel` pages of a loop that has not ended after `fuel`
iterations. -/
theorem scan_pages_dict_pages (ext : Externals) (codec : CompressionCodec) (hdl : Bool)
    (fuel : Nat) :
    ∀ (st : ColumnRun) (fuel' : Nat),
      ((∃ st', scan_pages ext codec hdl fuel st = some (.ok st')) ∨
        (scan_pages ext codec hdl fuel st = none ∧ fuel' ≤ fuel)) →
      (dict_pages (chunk_pages ext st.chunk_buf fuel' st.chunk_ptr st.bytes_to_read)).length ≤
        if st.cs.seen_dict then 0 else 1 := by
  induction fuel with
  | zero =>
    intro st fuel' h
    rw [scan_pages_zero_fuel] at h
    by_cases hb : 0 < st.bytes_to_read
    · simp only [hb, if_true] at h
      rcases h with ⟨_, h⟩ | ⟨_, h⟩
      · simp at h
      · have : fuel' = 0 := by omega
        subst this
        simp [chunk_pages_zero, dict_pages]
    · simp [chunk_pages_done _ _ _ _ _ hb, dict_pages]
  | succ fuel ih =>
    intro st fuel' h
    rw [scan_pages_succ] at h
    by_cases hb : 0 < st.bytes_to_read
    · simp only [hb, if_true] at h
      cases fuel' with
      | zero => simp [chunk_pages_zero, dict_pages]
      | succ fuel' =>
        cases h1 : scan_page ext codec hdl st with
        | ok st1 =>
          rw [h1] at h
          simp only at h
          obtain ⟨ph, hcp, hd, hp, ho⟩ := chunk_pages_step ext codec hdl st st1 h1 hb fuel'
          rw [hcp]
          have hih := ih st1 fuel' (by
            rcases h with h | ⟨h, hf⟩
            · exact Or.inl h
            · exact Or.inr ⟨h, by omega⟩)
          by_cases htd : ph.type = PageType.DICTIONARY_PAGE
          · obtain ⟨hs, hs1, _⟩ := hd htd
            rw [hs1] at hih
            simp only [dict_pages, List.filter_cons, htd, decide_True, if_true,
              List.length_cons, hs] at hih ⊢
            simp only [Bool.false_eq_true, if_false]
            omega
          · have hs1 : st1.cs.seen_dict = st.cs.seen_dict := by
              by_cases hty : ph.type = PageType.DATA_PAGE
              · exact (hp hty).1
              · exact (ho htd hty).1
            rw [hs1] at hih
            simp only [dict_pages, List.filter_cons, htd, decide_False] at hih ⊢
            exact hih
        | thrown e st1 =>
          rw [h1] at h
          simp at h
        | undefined =>
          rw [h1] at h
          simp at h
    · simp [chunk_pages_done _ _ _ _ _ hb, dict_pages]

/-! ### The stream in `scan_column` -/

theorem seekg_same (f p : IFStream) (pos : Int) (hb : p.bytes = f.bytes)
    (hf : f.failed = false) (hp : p.failed = false) (h0 : 0 ≤ pos) :
    p.seekg pos = f.seekg pos := by
  cases f; cases p
  simp_all [IFStream.seekg]

theorem seekg_neg_read_failed (f : IFStream) (pos : Int) (n : Nat) (h0 : ¬ 0 ≤ pos) :
    ((f.seekg pos).read n).2.failed = true := by
  unfold IFStream.seekg
  by_cases hf : f.failed = true
  · simp [hf, IFStream.read]
  · simp [hf, h0, IFStream.read]

theorem read_failed_of_failed (f : IFStream) (n : Nat) (hf : f.failed = true) :
    (f.read n).2.failed = true := by
  simp [IFStream.read, hf]

theorem seekg_failed (f : IFStream) (pos : Int) (hf : f.failed = true) :
    (f.seekg pos).failed = true := by
  simp [IFStream.seekg, hf]

theorem seekg_bytes (f : IFStream) (pos : Int) : (f.seekg pos).bytes = f.bytes := by
  unfold IFStream.seekg
  split
  · rfl
  · split <;> rfl

theorem read_bytes (f : IFStream) (n : Nat) : (f.read n).2.bytes = f.bytes := by
  unfold IFStream.read
  split <;> rfl


theorem scan_column_ok_stream (ext : Externals) (fuel : Nat) (self : ParquetFile)
    (s : ScanState) (c : ResultColumn) (run : ColumnRun)
    (h : ParquetFile.scan_column ext fuel self s c = some (.ok run)) :
    ∀ p : IFStream, p.bytes = self.pfile.bytes → p.failed = false →
      ParquetFile.scan_column ext fuel { self with pfile := p } s c = some (.ok run) := by
  intro p hb hp
  unfold ParquetFile.scan_column at h ⊢
  cases hrg : self.file_meta_data.row_groups[s.row_group_idx]? with
  | none => simp [hrg] at h
  | some rg =>
    cases hchunk : rg.columns[c.id]? with
    | none => simp [hrg, hchunk] at h
    | some chunk =>
      simp only [hrg, hchunk] at h ⊢
      by_cases h1 : chunk.isset_file_path = true
      · simp [h1] at h
      · by_cases h2 : chunk.meta_data.path_in_schema.length ≠ 1
        · simp [h1, h2] at h
        · by_cases h3 : allocFails (toU64 chunk.meta_data.total_compressed_size) = true
          · simp [h1, h2, h3] at h
          · simp only [h1, h2, h3, if_false, Bool.false_eq_true] at h ⊢
            by_cases h0 : 0 ≤ chunk_start chunk
            · by_cases hf : self.pfile.failed = true
              · have := read_failed_of_failed _ chunk.meta_data.total_compressed_size.toNat
                  (seekg_failed self.pfile (chunk_start chunk) hf)
                simp [this] at h
              · rw [seekg_same self.pfile p (chunk_start chunk) hb (by simpa using hf) hp h0]
                exact h
            · have := seekg_neg_read_failed self.pfile (chunk_start chunk)
                chunk.meta_data.total_compressed_size.toNat h0
              simp [this] at h

/-! ### `scan_column` -/

/-- The state the page loop of `scan_column` starts from. -/
theorem scan_column_ok (ext : Externals) (fuel : Nat) (self : ParquetFile)
    (s : ScanState) (c : ResultColumn) (run : ColumnRun)
    (h : ParquetFile.scan_column ext fuel self s c = some (.ok run)) :
    ∃ rg chunk sch st',
      self.file_meta_data.row_groups[s.row_group_idx]? = some rg ∧
      rg.columns[c.id]? = some chunk ∧
      self.file_meta_data.schema[c.id + 1]? = some sch ∧
      ((self.pfile.seekg (chunk_start chunk)).read
          chunk.meta_data.total_compressed_size.toNat).2.failed = false ∧
      scan_pages ext chunk.meta_data.codec
          (decide (sch.repetition_type ≠ FieldRepetitionType.REQUIRED)) fuel
          (scan_column_locals
            ((self.pfile.seekg (chunk_start chunk)).read
              chunk.meta_data.total_compressed_size.toNat).2
            (self.chunk_bytes chunk) chunk.meta_data.total_compressed_size c) =
        some (.ok st') ∧
      run.pfile = st'.pfile ∧ run.chunk_buf = st'.chunk_buf ∧
      run.cs.page_start_row = st'.cs.page_start_row ∧
      run.cs.seen_dict = st'.cs.seen_dict := by
  unfold ParquetFile.scan_column at h
  cases hrg : self.file_meta_data.row_groups[s.row_group_idx]? with
  | none => simp [hrg] at h
  | some rg =>
    cases hchunk : rg.columns[c.id]? with
    | none => simp [hrg, hchunk] at h
    | some chunk =>
      simp only [hrg, hchunk] at h
      by_cases h1 : chunk.isset_file_path = true
      · simp [h1] at h
      · by_cases h2 : chunk.meta_data.path_in_schema.length ≠ 1
        · simp [h1, h2] at h
        · by_cases h3 : allocFails (toU64 chunk.meta_data.total_compressed_size) = true
          · simp [h1, h2, h3] at h
          · simp only [h1, h2, h3, if_false, Bool.false_eq_true] at h
            by_cases h4 : ((self.pfile.seekg (chunk_start chunk)).read
                chunk.meta_data.total_compressed_size.toNat).2.failed = true
            · simp [h4] at h
            · simp only [h4, if_false, Bool.false_eq_true] at h
              cases hsch : self.file_meta_data.schema[c.id + 1]? with
              | none => simp [hsch] at h
              | some sch =>
                simp only [hsch, Option.map_eq_some'] at h
                obtain ⟨o, ho, h⟩ := h
                cases o with
                | ok st' =>
                  simp only [Outcome.andThen] at h
                  rw [ColumnRun.step_eq_ok] at h
                  obtain ⟨r, hr, h⟩ := h
                  refine ⟨rg, chunk, sch, st', rfl, hchunk, rfl, by simpa using h4, ho, ?_⟩
                  subst h
                  unfold ColumnScan.cleanup at hr
                  split at hr
                  all_goals first
                    | (simp at hr
                       subst hr
                       exact ⟨rfl, rfl, rfl, rfl⟩)
                    | simp at hr
                | thrown e st' => simp [Outcome.andThen] at h
                | undefined => simp [Outcome.andThen] at h

theorem read_fst_eq_chunk_bytes (self : ParquetFile) (chunk : ColumnChunk) :
    ((self.pfile.seekg (chunk_start chunk)).read
        chunk.meta_data.total_compressed_size.toNat).1 = self.chunk_bytes chunk := rfl

/-- Once the page loop has ended, a larger budget finds the same pages. -/
theorem chunk_pages_stable (ext : Externals) (codec : CompressionCodec) (hdl : Bool)
    (fuel : Nat) :
    ∀ (st st' : ColumnRun) (fuel' : Nat),
      scan_pages ext codec hdl fuel st = some (.ok st') → fuel ≤ fuel' →
      chunk_pages ext st.chunk_buf fuel' st.chunk_ptr st.bytes_to_read =
        chunk_pages ext st.chunk_buf fuel st.chunk_ptr st.bytes_to_read := by
  induction fuel with
  | zero =>
    intro st st' fuel' h _
    rw [scan_pages_zero_fuel] at h
    split at h
    · simp at h
    · rename_i hb
      rw [chunk_pages_done _ _ _ _ _ hb, chunk_pages_done _ _ _ _ _ hb]
  | succ fuel ih =>
    intro st st' fuel' h hf
    rw [scan_pages_succ] at h
    by_cases hb : 0 < st.bytes_to_read
    · simp only [hb, if_true] at h
      cases fuel' with
      | zero => omega
      | succ fuel' =>
        cases h1 : scan_page ext codec hdl st with
        | ok st1 =>
          rw [h1] at h
          simp only at h
          obtain ⟨ph, hcp, _⟩ := chunk_pages_step ext codec hdl st st1 h1 hb fuel'
          obtain ⟨ph2, hcp2, _⟩ := chunk_pages_step ext codec hdl st st1 h1 hb fuel
          have e : ph = ph2 := by
            have a := hcp
            have b := hcp2
            simp only [chunk_pages, hb, if_true] at a b
            obtain ⟨buf, ph0, consumed, r1, r2, _⟩ := scan_page_ok ext codec hdl st st1 h1
            simp only [r1, r2] at a b
            simp at a b
            rw [← a.1, ← b.1]
          rw [hcp, hcp2, e, ih st1 st' fuel' h (by omega)]
        | thrown e st1 =>
          rw [h1] at h
          simp at h
        | undefined =>
          rw [h1] at h
          simp at h
    · rw [chunk_pages_done _ _ _ _ _ hb, chunk_pages_done _ _ _ _ _ hb]

/-- C6, amended. When `scan_column` scans a column chunk without error, the final value
of `page_start_row` is the sum of `data_page_header.num_values` over the data pages of
the chunk (the pages of type DATA_PAGE among those the loop walks through in the bytes of
the chunk), taken as a 64-bit unsigned number. The row group's `num_rows` does not occur:
`scan_column` never compares the two. -/
theorem scan_column_page_start_row (ext : Externals) (fuel : Nat) (self : ParquetFile)
    (s : ScanState) (c : ResultColumn) (run : ColumnRun) (rg : RowGroup) (chunk : ColumnChunk)
    (hrg : self.file_meta_data.row_groups[s.row_group_idx]? = some rg)
    (hchunk : rg.columns[c.id]? = some chunk)
    (h : ParquetFile.scan_column ext fuel self s c = some (.ok run)) :
    ∀ fuel', fuel ≤ fuel' →
      run.cs.page_start_row =
        toU64 (sum_num_values (data_pages
          (chunk_pages ext (self.chunk_bytes chunk) fuel' 0
            chunk.meta_data.total_compressed_size))) := by
  intro fuel' hf
  obtain ⟨rg', chunk', sch, st', h1, h2, _, _, h5, _, _, h8, _⟩ :=
    scan_column_ok ext fuel self s c run h
  rw [hrg] at h1
  cases h1
  rw [hchunk] at h2
  cases h2
  have := scan_pages_page_start_row ext _ _ fuel _ st' h5 (by simp [two64, scan_column_locals])
  have hst := chunk_pages_stable ext _ _ fuel _ st' fuel' h5 hf
  simp only [scan_column_locals] at this hst
  rw [h8, this, hst]
  simp

theorem scan_dict_page_seen (cs : ColumnScan) (rc : ResultColumn) (h : cs.seen_dict = true) :
    ∃ e, cs.scan_dict_page rc = .thrown e (cs, rc) := by
  unfold ColumnScan.scan_dict_page
  split
  · exact ⟨_, rfl⟩
  · split
    · simp [h]
    · simp [h]
    · exact ⟨_, rfl⟩

theorem scan_column_two_dict_pages (ext : Externals) (fuel fuel' : Nat) (self : ParquetFile)
    (s : ScanState) (c : ResultColumn) (rg : RowGroup) (chunk : ColumnChunk)
    (hrg : self.file_meta_data.row_groups[s.row_group_idx]? = some rg)
    (hchunk : rg.columns[c.id]? = some chunk)
    (hf : fuel' ≤ fuel)
    (h2 : 2 ≤ (dict_pages (chunk_pages ext (self.chunk_bytes chunk) fuel' 0
            chunk.meta_data.total_compressed_size)).length) :
    ParquetFile.scan_column ext fuel self s c = some .undefined ∨
    ∃ e st, ParquetFile.scan_column ext fuel self s c = some (.thrown e st) := by
  unfold ParquetFile.scan_column
  simp only [hrg, hchunk]
  split
  · exact Or.inr ⟨_, _, rfl⟩
  · split
    · exact Or.inr ⟨_, _, rfl⟩
    · split
      · exact Or.inr ⟨_, _, rfl⟩
      · split
        · exact Or.inr ⟨_, _, rfl⟩
        · split
          · exact Or.inl rfl
          · rename_i sch hsch
            rw [read_fst_eq_chunk_bytes]
            have hb := scan_pages_dict_pages ext chunk.meta_data.codec
              (decide (sch.repetition_type ≠ FieldRepetitionType.REQUIRED)) fuel
              (scan_column_locals
                ((self.pfile.seekg (chunk_start chunk)).read
                  chunk.meta_data.total_compressed_size.toNat).2
                (self.chunk_bytes chunk) chunk.meta_data.total_compressed_size c) fuel'
            simp only [scan_column_locals] at hb
            cases hsp : scan_pages ext chunk.meta_data.codec
              (decide (sch.repetition_type ≠ FieldRepetitionType.REQUIRED)) fuel
              (scan_column_locals
                ((self.pfile.seekg (chunk_start chunk)).read
                  chunk.meta_data.total_compressed_size.toNat).2
                (self.chunk_bytes chunk) chunk.meta_data.total_compressed_size c) with
            | none =>
              simp only [scan_column_locals] at hsp
              have := hb (Or.inr ⟨hsp, hf⟩)
              simp at this
              omega
            | some o =>
              cases o with
              | ok st' =>
                simp only [scan_column_locals] at hsp
                have := hb (Or.inl ⟨st', hsp⟩)
                simp at this
                omega
              | thrown e st' => exact Or.inr ⟨e, st', by simp [Outcome.andThen]⟩
              | undefined => exact Or.inl (by simp [Outcome.andThen])

/-- C7. `scan_dict_page` called while `seen_dict` is already true throws, whatever the
page header and the page content are, and leaves the scanner (its dictionary included)
and the result column exactly as they were. So a column chunk with two pages of type
DICTIONARY_PAGE among the pages its loop walks through makes `scan_column` throw (as
long as the scan of the pages before the second one stays inside the buffers). -/
theorem second_dictionary_page_is_rejected :
    (∀ (cs : ColumnScan) (rc : ResultColumn), cs.seen_dict = true →
      ∃ e, cs.scan_dict_page rc = Outcome.thrown e (cs, rc)) ∧
    (∀ (ext : Externals) (fuel fuel' : Nat) (self : ParquetFile) (s : ScanState)
        (c : ResultColumn) (rg : RowGroup) (chunk : ColumnChunk),
      self.file_meta_data.row_groups[s.row_group_idx]? = some rg →
      rg.columns[c.id]? = some chunk →
      fuel' ≤ fuel →
      2 ≤ (dict_pages (chunk_pages ext (self.chunk_bytes chunk) fuel' 0
            chunk.meta_data.total_compressed_size)).length →
      ParquetFile.scan_column ext fuel self s c ≠ some Outcome.undefined →
      ∃ e st, ParquetFile.scan_column ext fuel self s c = some (Outcome.thrown e st)) := by
  refine ⟨scan_dict_page_seen, ?_⟩
  intro ext fuel fuel' self s c rg chunk hrg hchunk hf h2 hdef
  rcases scan_column_two_dict_pages ext fuel fuel' self s c rg chunk hrg hchunk hf h2 with
    h | h
  · exact absurd h hdef
  · exact h

/-! ### `scan` -/

theorem scan_column_ok_pfile (ext : Externals) (fuel : Nat) (self : ParquetFile)
    (s : ScanState) (c : ResultColumn) (run : ColumnRun)
    (h : ParquetFile.scan_column ext fuel self s c = some (.ok run)) :
    run.pfile.bytes = self.pfile.bytes ∧ run.pfile.failed = false ∧
      self.pfile.failed = false := by
  obtain ⟨rg, chunk, sch, st', _, _, _, h4, h5, h6, _⟩ := scan_column_ok ext fuel self s c run h
  have f := scan_pages_frame ext _ _ fuel _ st' h5
  simp only [scan_column_locals] at f
  refine ⟨by rw [h6, f.1, read_bytes, seekg_bytes], by rw [h6, f.1, h4], ?_⟩
  by_contra hf
  have := read_failed_of_failed _ chunk.meta_data.total_compressed_size.toNat
    (seekg_failed self.pfile (chunk_start chunk) (by simpa using hf))
  rw [this] at h4
  simp at h4

theorem scan_cols_ok (ext : Externals) (fuel : Nat) (self : ParquetFile) (s : ScanState)
    (num_rows nrows : Int) :
    ∀ (todo done : List ResultColumn) (pfile : IFStream),
      pfile.bytes = self.pfile.bytes → (todo ≠ [] → pfile.failed = false) →
      (∀ c ∈ todo, ∃ c1 run,
        self.initialize_column c (toU64 num_rows) = .ok c1 ∧
        ParquetFile.scan_column ext fuel self s c1 = some (.ok run)) →
      ∃ st, scan_cols ext fuel self s num_rows nrows pfile done todo = some (.ok st) ∧
        st.s = s ∧ st.result.nrows = nrows ∧
        st.result.cols.length = done.length + todo.length := by
  intro todo
  induction todo with
  | nil =>
    intro done pfile _ _ _
    exact ⟨_, rfl, rfl, rfl, by simp⟩
  | cons c todo ih =>
    intro done pfile hb hf hall
    obtain ⟨c1, run, hi, hs⟩ := hall c (List.mem_cons_self _ _)
    have hs' := scan_column_ok_stream ext fuel self s c1 run hs pfile hb (hf (by simp))
    have hp := scan_column_ok_pfile ext fuel self s c1 run hs
    obtain ⟨st, h1, h2, h3, h4⟩ := ih (done ++ [run.result_col]) run.pfile hp.1
      (fun _ => hp.2.1) (fun c' hc' => hall c' (List.mem_cons_of_mem _ hc'))
    refine ⟨st, ?_, h2, h3, ?_⟩
    · simp only [scan_cols, hi, hs']
      exact h1
    · rw [h4]
      simp
      omega


/-- C2. While a row group is left (`row_group_idx` is below the number of row groups, so
that `row_groups[row_group_idx]` is a row group `rg`), if `initialize_column` and
`scan_column` succeed for every column of the result, `scan` returns true,
`result.nrows` is the `num_rows` of that row group, and `row_group_idx` has grown by
exactly one. -/
theorem scan_returns_next_row_group (ext : Externals) (fuel : Nat) (self : ParquetFile)
    (s : ScanState) (result : ResultChunk) (rg : RowGroup)
    (h : s.row_group_idx < self.file_meta_data.row_groups.length)
    (hrg : self.file_meta_data.row_groups[s.row_group_idx]? = some rg)
    (hcols : ∀ c ∈ result.cols, ∃ c1 run,
      self.initialize_column c (toU64 rg.num_rows) = Outcome.ok c1 ∧
      ParquetFile.scan_column ext fuel self s c1 = some (Outcome.ok run)) :
    ∃ st, ParquetFile.scan ext fuel self s result = some (Outcome.ok st) ∧
      st.ret = true ∧ st.result.nrows = rg.num_rows ∧
      st.s.row_group_idx = s.row_group_idx + 1 ∧
      st.result.cols.length = result.cols.length := by
  have hfail : result.cols ≠ [] → self.pfile.failed = false := by
    intro hne
    cases hc : result.cols with
    | nil => exact absurd hc hne
    | cons c tl =>
      obtain ⟨c1, run, _, hs⟩ := hcols c (by rw [hc]; exact List.mem_cons_self _ _)
      exact (scan_column_ok_pfile ext fuel self s c1 run hs).2.2
  obtain ⟨st, h1, h2, h3, h4⟩ := scan_cols_ok ext fuel self s rg.num_rows rg.num_rows
    result.cols [] self.pfile rfl hfail hcols
  refine ⟨{ st with s := { st.s with row_group_idx := st.s.row_group_idx + 1 }, ret := true },
    ?_, rfl, h3, by simp [h2], by simpa using h4⟩
  unfold ParquetFile.scan
  rw [if_neg (by omega), hrg]
  simp only [h1, Option.map_some', Outcome.andThen]

/-- C3. When no row group is left (`row_group_idx` is at or past the number of row
groups), `scan` returns false and sets `result.nrows` to 0; `row_group_idx`, the stream
and every column of the result (data, defined bitmap, string heap chunks) are as before.
-/
theorem scan_past_last_row_group (ext : Externals) (fuel : Nat) (self : ParquetFile)
    (s : ScanState) (result : ResultChunk)
    (h : self.file_meta_data.row_groups.length ≤ s.row_group_idx) :
    ParquetFile.scan ext fuel self s result =
      some (.ok { pfile := self.pfile, s := s,
                  result := { cols := result.cols, nrows := 0 }, ret := false }) := by
  unfold ParquetFile.scan
  rw [if_pos h]

/-! ### Data pages and the dictionary -/

theorem scan_def_levels_thrown (ext : Externals) (cs : ColumnScan) (rc : ResultColumn)
    (hdl : Bool) (e : Err) (r : ColumnScan × ResultColumn)
    (h : cs.scan_def_levels ext rc hdl = .thrown e r) :
    r.1 = { cs with page_buf_ptr := r.1.page_buf_ptr } ∧
    r.2 = { rc with defined := r.2.defined } := by
  unfold ColumnScan.scan_def_levels at h
  simp only at h
  split at h
  · split at h
    · split at h
      · simp at h
      · split at h
        · split at h <;> simp at h
        · split at h
          · simp at h
          · simp at h
            obtain ⟨_, h⟩ := h
            subst h
            exact ⟨rfl, rfl⟩
        · simp at h
    · simp at h
      obtain ⟨_, h⟩ := h
      subst h
      exact ⟨rfl, rfl⟩
  · split at h
    · simp at h
    · split at h <;> simp at h

/-- C8. A data page with encoding PLAIN_DICTIONARY or RLE_DICTIONARY that is scanned
while `seen_dict` is false makes `scan_data_page` throw (as long as decoding its
definition levels stays inside the buffers); at the throw the result value array is the
one before the call and `page_start_row` has not moved. -/
theorem scan_data_page_without_dictionary (ext : Externals) (cs : ColumnScan)
    (rc : ResultColumn) (has_def_levels : Bool)
    (henc : cs.page_header.data_page_header.encoding = Encoding.PLAIN_DICTIONARY ∨
            cs.page_header.data_page_header.encoding = Encoding.RLE_DICTIONARY)
    (hseen : cs.seen_dict = false)
    (hdef : cs.scan_def_levels ext rc has_def_levels ≠ Outcome.undefined) :
    ∃ e st, cs.scan_data_page ext rc has_def_levels = Outcome.thrown e st ∧
      st.2.data = rc.data ∧ st.1.page_start_row = cs.page_start_row ∧
      st.1.seen_dict = false ∧ st.1.dict = cs.dict := by
  unfold ColumnScan.scan_data_page
  split
  · exact ⟨_, _, rfl, rfl, rfl, hseen, rfl⟩
  · split
    · exact ⟨_, _, rfl, rfl, rfl, hseen, rfl⟩
    · cases h1 : cs.scan_def_levels ext rc has_def_levels with
      | ok st1 =>
        have f := scan_def_levels_frame ext cs rc has_def_levels st1 h1
        have hs : st1.1.seen_dict = false := by rw [f.1]; exact hseen
        have he : st1.1.page_header.data_page_header.encoding =
            cs.page_header.data_page_header.encoding := by rw [f.1]
        refine ⟨Err.missingDictPage, st1, ?_, by rw [f.2], by rw [f.1], hs, by rw [f.1]⟩
        simp only [Outcome.andThen]
        rw [he]
        rcases henc with henc | henc <;>
          simp [henc, ColumnScan.scan_data_page_dict, hs, Outcome.andThen]
      | thrown e st1 =>
        have f := scan_def_levels_thrown ext cs rc has_def_levels e st1 h1
        exact ⟨e, st1, by simp [Outcome.andThen], by rw [f.2], by rw [f.1],
          by rw [f.1]; exact hseen, by rw [f.1]⟩
      | undefined => exact absurd h1 hdef

/-! ### `read_checks` -/

theorem read_checks_leaves_iff (leaves : List SchemaElement) :
    read_checks_leaves leaves = true ↔
      ∀ e ∈ leaves, e.isset_type = true ∧ e.num_children ≤ 0 := by
  induction leaves with
  | nil => simp [read_checks_leaves]
  | cons a tl ih =>
    simp only [read_checks_leaves, List.mem_cons, forall_eq_or_imp]
    by_cases h1 : a.isset_type = true
    · by_cases h2 : 0 < a.num_children
      · simp [h1, h2]
      · simp [h1, h2, ih]
        omega
    · simp [h1]

/-- What `read_checks` accepts, in terms of the root and the leaves of the schema. -/
theorem read_checks_ok_iff (self : ParquetFile) (root : SchemaElement)
    (leaves : List SchemaElement)
    (hs : self.file_meta_data.schema = root :: leaves)
    (hlen : (self.file_meta_data.schema.length : Int) < 9223372036854775808)
    (hroot : is_int32 root.num_children) :
    self.read_checks = .ok self ↔
      (self.file_meta_data.isset_encryption_algorithm = false ∧ leaves ≠ [] ∧
        root.num_children = (leaves.length : Int) ∧
        ∀ e ∈ leaves, e.isset_type = true ∧ e.num_children ≤ 0) := by
  unfold is_int32 at hroot
  unfold ParquetFile.read_checks
  rw [hs] at hlen ⊢
  simp only [List.length_cons, Nat.cast_add, Nat.cast_one, add_sub_cancel_right] at hlen ⊢
  by_cases he : self.file_meta_data.isset_encryption_algorithm = true
  · simp [he]
  · have he' : self.file_meta_data.isset_encryption_algorithm = false := by simpa using he
    rw [if_neg he]
    by_cases hl : leaves = []
    · subst hl
      simp
    · have hpos : 0 < leaves.length := List.length_pos.mpr hl
      have h2 : ¬ (leaves.length + 1 < 2) := by omega
      rw [if_neg h2]
      have hcmp : toU64 root.num_children = toU64 (leaves.length : Int) ↔
          root.num_children = (leaves.length : Int) := by
        unfold toU64 two64
        omega
      by_cases hc : root.num_children = (leaves.length : Int)
      · rw [if_neg (not_not.mpr (hcmp.mpr hc))]
        by_cases hv : read_checks_leaves leaves = true
        · rw [if_pos hv]
          simp only [true_iff]
          exact ⟨he', hl, hc, (read_checks_leaves_iff leaves).mp hv⟩
        · rw [if_neg hv]
          have := (read_checks_leaves_iff leaves).not.mp hv
          constructor
          · intro h
            simp at h
          · intro h
            exact absurd h.2.2.2 this
      · rw [if_pos (hcmp.not.mpr hc)]
        constructor
        · intro h
          simp at h
        · intro h
          exact absurd h.2.2.1 hc

/-- What `read_checks` accepts, in terms of the positions of the schema. -/
theorem read_checks_accepts (self : ParquetFile)
    (hlen : (self.file_meta_data.schema.length : Int) < 9223372036854775808)
    (hroot : ∀ root, self.file_meta_data.schema[0]? = some root → is_int32 root.num_children) :
    (∃ pf, self.read_checks = Outcome.ok pf) ↔
      (self.file_meta_data.isset_encryption_algorithm = false ∧
        2 ≤ self.file_meta_data.schema.length ∧
        (∃ root, self.file_meta_data.schema[0]? = some root ∧
          root.num_children = (self.file_meta_data.schema.length : Int) - 1) ∧
        ∀ i e, 1 ≤ i → self.file_meta_data.schema[i]? = some e →
          e.isset_type = true ∧ e.num_children ≤ 0) := by
  cases hs : self.file_meta_data.schema with
  | nil =>
    simp [ParquetFile.read_checks, hs]
    split <;> simp
  | cons root leaves =>
    have hself : (∃ pf, self.read_checks = Outcome.ok pf) ↔ self.read_checks = Outcome.ok self := by
      constructor
      · rintro ⟨pf, h⟩
        rw [h]
        unfold ParquetFile.read_checks at h
        rw [hs] at h
        simp only at h
        split at h
        · simp at h
        · split at h
          · simp at h
          · split at h
            · simp at h
            · split at h
              · simp at h
                rw [h]
              · simp at h
      · intro h
        exact ⟨self, h⟩
    rw [hself, read_checks_ok_iff self root leaves hs hlen (hroot root (by simp [hs]))]
    simp only [List.length_cons, List.getElem?_cons_zero, Option.some.injEq, exists_eq_left',
      Nat.cast_add, Nat.cast_one, add_sub_cancel_right]
    constructor
    · rintro ⟨h1, h2, h3, h4⟩
      refine ⟨h1, ?_, h3, ?_⟩
      · have := List.length_pos.mpr h2
        omega
      · intro i e hi he
        obtain ⟨j, rfl⟩ : ∃ j, i = j + 1 := ⟨i - 1, by omega⟩
        rw [List.getElem?_cons_succ] at he
        exact h4 e (List.getElem?_mem he)
    · rintro ⟨h1, h2, h3, h4⟩
      refine ⟨h1, ?_, h3, ?_⟩
      · intro hnil
        subst hnil
        simp at h2
      · intro e he
        obtain ⟨j, hj⟩ := List.getElem?_of_mem he
        exact h4 (j + 1) e (by omega) (by rw [List.getElem?_cons_succ]; exact hj)

/-- C9, amended. For metadata as C++ can hold it (fewer than 2^63 schema elements, the
root's `num_children` an `int32_t`), `read_checks` succeeds if and only if
`file_meta_data` has no `encryption_algorithm` set, the schema has at least two elements,
`schema[0].num_children == len(schema) - 1`, and every schema element at index >= 1 has
its type set and `num_children` not above zero (the check is `num_children > 0`, so a
negative `num_children` passes). -/
theorem read_checks_succeeds_iff (self : ParquetFile)
    (hlen : (self.file_meta_data.schema.length : Int) < 9223372036854775808)
    (hroot : ∀ root, self.file_meta_data.schema[0]? = some root → is_int32 root.num_children) :
    (∃ pf, self.read_checks = Outcome.ok pf) ↔
      (self.file_meta_data.isset_encryption_algorithm = false ∧
        2 ≤ self.file_meta_data.schema.length ∧
        (∃ root, self.file_meta_data.schema[0]? = some root ∧
          root.num_children = (self.file_meta_data.schema.length : Int) - 1) ∧
        ∀ i e, 1 ≤ i → self.file_meta_data.schema[i]? = some e →
          e.isset_type = true ∧ e.num_children ≤ 0) :=
  read_checks_accepts self hlen hroot

/-- After a successful `initialize` the metadata is what the deserializer returned for
the footer, and the columns and `nrow` are built from it. -/
theorem initialize_ok (ext : Externals) (self pf : ParquetFile) (file : Option (List Nat))
    (h : ParquetFile.initialize ext self file = Outcome.ok pf) :
    ∃ footer n, ext.unpack_file_meta_data footer = some (pf.file_meta_data, n) ∧
      pf.columns = build_columns 1 (pf.file_meta_data.schema.drop 1) self.columns ∧
      pf.nrow = pf.file_meta_data.num_rows := by
  unfold ParquetFile.initialize at h
  cases file with
  | none => simp at h
  | some bytes =>
    simp only at h
    split at h
    · simp at h
    · split at h
      · simp at h
      · split at h
        · simp at h
        · split at h
          · simp at h
          · split at h
            · simp at h
            · split at h
              · simp at h
              · split at h
                · simp at h
                · rename_i fmd n hp
                  have h' := Outcome.ok.inj h
                  subst h'
                  exact ⟨_, n, hp, rfl, rfl⟩

theorem readAt_nat {α : Type} (mem : List α) (i : Nat) : readAt mem (i : Int) = mem[i]? := by
  simp [readAt]

theorem writeAt_nat {α : Type} (mem : List α) (i : Nat) (v : α) (h : i < mem.length) :
    writeAt mem (i : Int) v = some (mem.set i v) := by
  simp [writeAt, h]

theorem readBytes_nat (mem : List Nat) (p n : Nat) (h : p + n ≤ mem.length) :
    readBytes mem (p : Int) n = some ((mem.drop p).take n) := by
  simp [readBytes, h]

theorem toU64_nat (x : Nat) (h : (x : Int) < two64) : toU64 (x : Int) = (x : Int) := by
  unfold toU64
  unfold two64 at *
  omega

theorem take_succ_drop {α : Type} (l : List α) (a m : Nat) (d : α) (h : l[a]? = some d) :
    (l.drop a).take (m + 1) = d :: (l.drop (a + 1)).take m := by
  have hlt : a < l.length := by
    by_contra hc
    rw [List.getElem?_eq_none (by omega)] at h
    simp at h
  have hd : l[a] = d := by
    rw [List.getElem?_eq_getElem hlt] at h
    exact Option.some.inj h
  rw [List.drop_eq_getElem_cons hlt, List.take_succ_cons, hd]

/-- The loop of `fill_values_plain<T>` from position `vn` on, `m` positions to go: the
defined positions receive consecutive `sz`-byte values of the payload, nothing else
changes, and the cursor moves by `sz` for each defined position. -/
theorem fill_values_plain_loop_spec (sz : Nat) (hsz : 0 < sz) (m : Nat) :
    ∀ (vn dp psr ptr : Nat) (v : Int) (cs : ColumnScan) (rc : ResultColumn),
      v = (vn : Int) → cs.defined_ptr = (dp : Int) → cs.page_start_row = (psr : Int) →
      cs.page_buf_ptr = (ptr : Int) →
      dp + vn + m ≤ rc.defined.length →
      psr + vn + m ≤ rc.data.length → (rc.data.length : Int) ≤ two64 →
      ((rc.defined.drop (dp + vn)).take m).countP (fun d => decide (d ≠ 0)) * sz
        ≤ cs.page_buf.length - ptr →
      ∃ data',
        ColumnScan.fill_values_plain_loop sz m v cs rc =
          Outcome.ok
            ({ cs with page_buf_ptr := ((ptr +
                  ((rc.defined.drop (dp + vn)).take m).countP (fun d => decide (d ≠ 0)) * sz
                  : Nat) : Int) },
             { rc with data := data' }) ∧
        data'.length = rc.data.length ∧
        (∀ j, j < m → ∀ d, rc.defined[dp + vn + j]? = some d → d ≠ 0 →
          data'[psr + vn + j]? = some (Slot.raw ((cs.page_buf.drop
            (ptr + ((rc.defined.drop (dp + vn)).take j).countP (fun d => decide (d ≠ 0)) * sz)).take
              sz))) ∧
        (∀ j, j < m → rc.defined[dp + vn + j]? = some 0 →
          data'[psr + vn + j]? = rc.data[psr + vn + j]?) ∧
        (∀ r, r < psr + vn ∨ psr + vn + m ≤ r → data'[r]? = rc.data[r]?) := by
  induction m with
  | zero =>
    intro vn dp psr ptr v cs rc hv hdp hpsr hptr _ _ _ _
    refine ⟨rc.data, ?_, rfl, ?_, ?_, ?_⟩
    · simp [ColumnScan.fill_values_plain_loop, ← hptr]
    · intro j hj
      omega
    · intro j hj
      omega
    · intro r _
      rfl
  | succ m ih =>
    intro vn dp psr ptr v cs rc hv hdp hpsr hptr hD hR h64 hB
    have hlt : dp + vn < rc.defined.length := by omega
    have hget : rc.defined[dp + vn]? = some (rc.defined[dp + vn]) :=
      List.getElem?_eq_getElem hlt
    generalize hdv : rc.defined[dp + vn] = d at hget
    have htk : ∀ j, (rc.defined.drop (dp + vn)).take (j + 1) =
        d :: (rc.defined.drop (dp + (vn + 1))).take j :=
      fun j => take_succ_drop rc.defined (dp + vn) j d hget
    have hra : readAt rc.defined (cs.defined_ptr + v) = some d := by
      rw [hdp, hv, ← Nat.cast_add, readAt_nat, hget]
    have hv1 : v + 1 = ((vn + 1 : Nat) : Int) := by rw [hv]; push_cast; rfl
    simp only [ColumnScan.fill_values_plain_loop, hra]
    by_cases hd0 : d = 0
    · -- an undefined position
      rw [if_pos hd0]
      have hcnt : ((rc.defined.drop (dp + vn)).take (m + 1)).countP (fun d => decide (d ≠ 0)) =
          ((rc.defined.drop (dp + (vn + 1))).take m).countP (fun d => decide (d ≠ 0)) := by
        rw [htk m, List.countP_cons_of_neg]
        simp [hd0]
      obtain ⟨data', h1, h2, h3, h4, h5⟩ := ih (vn + 1) dp psr ptr (v + 1) cs rc hv1 hdp hpsr hptr
        (by omega) (by omega) h64 (by rw [← hcnt]; exact hB)
      refine ⟨data', ?_, h2, ?_, ?_, ?_⟩
      · rw [h1, hcnt]
      · intro j hj d' hd' hne
        cases j with
        | zero =>
          rw [Nat.add_zero, hget] at hd'
          exact absurd (hd0 ▸ (Option.some.inj hd').symm) hne
        | succ j =>
          have := h3 j (by omega) d' (by rw [← hd']; congr 1; omega) hne
          rw [show psr + vn + (j + 1) = psr + (vn + 1) + j by omega, this, htk j,
            List.countP_cons_of_neg]
          simp [hd0]
      · intro j hj hz
        cases j with
        | zero => exact h5 (psr + vn) (Or.inl (by omega))
        | succ j =>
          have := h4 j (by omega) (by rw [← hz]; congr 1; omega)
          rw [show psr + vn + (j + 1) = psr + (vn + 1) + j by omega, this]
      · intro r hr
        exact h5 r (by omega)
    · -- a defined position
      rw [if_neg hd0]
      have hcnt : ((rc.defined.drop (dp + vn)).take (m + 1)).countP (fun d => decide (d ≠ 0)) =
          ((rc.defined.drop (dp + (vn + 1))).take m).countP (fun d => decide (d ≠ 0)) + 1 := by
        rw [htk m, List.countP_cons_of_pos]
        simp [hd0]
      rw [hcnt] at hB
      have hrow : toU64 (cs.page_start_row + v) = ((psr + vn : Nat) : Int) := by
        rw [hpsr, hv, ← Nat.cast_add]
        apply toU64_nat
        have : ((psr + vn : Nat) : Int) < (rc.data.length : Int) := by
          exact_mod_cast (by omega : psr + vn < rc.data.length)
        omega
      have hrd : readBytes cs.page_buf cs.page_buf_ptr sz =
          some ((cs.page_buf.drop ptr).take sz) := by
        rw [hptr]
        apply readBytes_nat
        have : sz ≤ (((rc.defined.drop (dp + (vn + 1))).take m).countP
            (fun d => decide (d ≠ 0)) + 1) * sz := Nat.le_mul_of_pos_left _ (by omega)
        omega
      have hwr : writeAt rc.data ((psr + vn : Nat) : Int)
          (Slot.raw ((cs.page_buf.drop ptr).take sz)) =
          some (rc.data.set (psr + vn) (Slot.raw ((cs.page_buf.drop ptr).take sz))) :=
        writeAt_nat _ _ _ (by omega)
      simp only [hrow, hrd, hwr]
      obtain ⟨data', h1, h2, h3, h4, h5⟩ := ih (vn + 1) dp psr (ptr + sz) (v + 1)
        { cs with page_buf_ptr := cs.page_buf_ptr + (sz : Int) }
        { rc with data := rc.data.set (psr + vn) (Slot.raw ((cs.page_buf.drop ptr).take sz)) }
        hv1 hdp hpsr (by simp only; rw [hptr]; push_cast; rfl)
        (by simpa using (by omega : dp + (vn + 1) + m ≤ rc.defined.length))
        (by simp only [List.length_set]; omega)
        (by simpa using h64)
        (by
          simp only
          have : (((rc.defined.drop (dp + (vn + 1))).take m).countP
            (fun d => decide (d ≠ 0)) + 1) * sz = ((rc.defined.drop (dp + (vn + 1))).take m).countP
            (fun d => decide (d ≠ 0)) * sz + sz := by ring
          omega)
      simp only at h1 h2 h3 h4 h5
      refine ⟨data', ?_, ?_, ?_, ?_, ?_⟩
      · rw [h1, hcnt]
        have : ptr + sz + ((rc.defined.drop (dp + (vn + 1))).take m).countP
            (fun d => decide (d ≠ 0)) * sz = ptr + (((rc.defined.drop (dp + (vn + 1))).take m).countP
            (fun d => decide (d ≠ 0)) + 1) * sz := by ring
        rw [this]
      · rw [h2, List.length_set]
      · intro j hj d' hd' hne
        cases j with
        | zero =>
          rw [Nat.add_zero, h5 (psr + vn) (Or.inl (by omega))]
          simp only [List.take_zero, List.countP_nil, Nat.zero_mul, Nat.add_zero]
          rw [List.getElem?_set_self (by omega)]
        | succ j =>
          have := h3 j (by omega) d' (by rw [← hd']; congr 1; omega) hne
          rw [show psr + vn + (j + 1) = psr + (vn + 1) + j by omega, this, htk j,
            List.countP_cons_of_pos]
          · congr 3
            ring_nf
          · simp [hd0]
      · intro j hj hz
        cases j with
        | zero =>
          rw [Nat.add_zero, hget] at hz
          exact absurd (Option.some.inj hz) hd0
        | succ j =>
          have := h4 j (by omega) (by rw [← hz]; congr 1; omega)
          rw [show psr + vn + (j + 1) = psr + (vn + 1) + j by omega, this,
            List.getElem?_set_ne (by omega)]
      · intro r hr
        rw [h5 r (by omega), List.getElem?_set_ne (by omega)]


theorem defined_window_getElem? (cs : ColumnScan) (rc : ResultColumn) (n i : Nat) (h : i < n) :
    (defined_window cs rc n)[i]? = rc.defined[cs.defined_ptr.toNat + i]? := by
  simp [defined_window, List.getElem?_take, h]

theorem defined_rank_window (cs : ColumnScan) (rc : ResultColumn) (n i : Nat) (h : i ≤ n) :
    defined_rank (defined_window cs rc n) i =
      ((rc.defined.drop cs.defined_ptr.toNat).take i).countP (fun d => decide (d ≠ 0)) := by
  simp [defined_rank, defined_window, List.take_take, Nat.min_eq_left h]

/-- C4. A PLAIN data page of a fixed-width column with `num_values = n`, value size
`sz = sizeof(T)`: let `w` be the defined bytes of the page and `k` the number of its
defined positions. If rows `page_start_row .. page_start_row + n` exist in the result and
the payload holds at least `k * sz` bytes, `fill_values_plain` returns normally, has
stored in `result[page_start_row + i]`, for every defined position `i` (the j-th defined
one, `j = defined_rank w i`), the `sz` bytes at payload offset `j * sz`, has left every
other slot of the result array as it was, and has moved the page cursor by exactly
`k * sz` bytes. -/
theorem fill_values_plain_stores_defined (sz : Nat) (hsz : 0 < sz) (cs : ColumnScan)
    (rc : ResultColumn)
    (hdp : 0 ≤ cs.defined_ptr) (hpsr : 0 ≤ cs.page_start_row) (hptr : 0 ≤ cs.page_buf_ptr)
    (hD : cs.defined_ptr.toNat + cs.page_header.data_page_header.num_values.toNat
            ≤ rc.defined.length)
    (hR : cs.page_start_row.toNat + cs.page_header.data_page_header.num_values.toNat
            ≤ rc.data.length)
    (h64 : (rc.data.length : Int) ≤ two64)
    (hB : defined_rank
            (defined_window cs rc cs.page_header.data_page_header.num_values.toNat)
            cs.page_header.data_page_header.num_values.toNat * sz ≤ cs.payload.length) :
    ∃ data',
      cs.fill_values_plain sz rc =
        Outcome.ok
          ({ cs with page_buf_ptr := cs.page_buf_ptr +
                ((defined_rank
                  (defined_window cs rc cs.page_header.data_page_header.num_values.toNat)
                  cs.page_header.data_page_header.num_values.toNat * sz : Nat) : Int) },
           { rc with data := data' }) ∧
      data'.length = rc.data.length ∧
      (∀ i d, (defined_window cs rc cs.page_header.data_page_header.num_values.toNat)[i]? =
            some d → d ≠ 0 →
        data'[cs.page_start_row.toNat + i]? =
          some (Slot.raw (value_at cs.payload sz
            (defined_rank
              (defined_window cs rc cs.page_header.data_page_header.num_values.toNat) i)))) ∧
      (∀ r, (∀ i d, r = cs.page_start_row.toNat + i →
            (defined_window cs rc cs.page_header.data_page_header.num_values.toNat)[i]? =
              some d → d = 0) →
        data'[r]? = rc.data[r]?) := by
  generalize hn : cs.page_header.data_page_header.num_values.toNat = n at *
  have hpl : cs.payload = cs.page_buf.drop cs.page_buf_ptr.toNat := by
    simp [ColumnScan.payload, memFrom, hptr]
  have hk := defined_rank_window cs rc n n (le_refl n)
  rw [hk, hpl, List.length_drop] at hB
  obtain ⟨data', h1, h2, h3, h4, h5⟩ := fill_values_plain_loop_spec sz hsz n 0
    cs.defined_ptr.toNat cs.page_start_row.toNat cs.page_buf_ptr.toNat 0 cs rc rfl
    (Int.toNat_of_nonneg hdp).symm (Int.toNat_of_nonneg hpsr).symm
    (Int.toNat_of_nonneg hptr).symm (by simpa using hD) (by simpa using hR) h64
    (by
      simp only [Nat.add_zero]
      exact hB)
  simp only [Nat.add_zero] at h1 h3 h4 h5
  refine ⟨data', ?_, h2, ?_, ?_⟩
  · unfold ColumnScan.fill_values_plain
    rw [hn, h1, hk]
    congr 3
    push_cast
    rw [Int.toNat_of_nonneg hptr]
  · intro i d hi hne
    have hin : i < n := by
      by_contra hc
      have : (defined_window cs rc n).length ≤ i := by
        simp [defined_window]
        omega
      rw [List.getElem?_eq_none this] at hi
      simp at hi
    rw [defined_window_getElem? cs rc n i hin] at hi
    rw [h3 i hin d hi hne, defined_rank_window cs rc n i (le_of_lt hin), hpl]
    simp [value_at, List.drop_drop, Nat.add_comm]
  · intro r hr
    by_cases hlo : r < cs.page_start_row.toNat
    · exact h5 r (Or.inl hlo)
    · by_cases hhi : cs.page_start_row.toNat + n ≤ r
      · exact h5 r (Or.inr hhi)
      · obtain ⟨i, rfl⟩ : ∃ i, r = cs.page_start_row.toNat + i :=
          ⟨r - cs.page_start_row.toNat, by omega⟩
        have hin : i < n := by omega
        have hlt : cs.defined_ptr.toNat + i < rc.defined.length := by omega
        have hget := List.getElem?_eq_getElem hlt
        have hz := hr i _ rfl (by rw [defined_window_getElem? cs rc n i hin]; exact hget)
        rw [hz] at hget
        exact h4 i hin hget

/-! ### Dictionary-encoded values -/

/-- The loops of `fill_values_dict<T>` (`strings = false`) and of the BYTE_ARRAY case of
`scan_data_page_dict` (`strings = true`) from position `vn` on, `m` positions to go. -/
theorem dict_loops_spec (offsets : List Nat) (dict : List Slot) (strings : Bool) (m : Nat) :
    ∀ (vn dp psr : Nat) (v : Int) (cs : ColumnScan) (rc : ResultColumn),
      v = (vn : Int) → cs.defined_ptr = (dp : Int) → cs.page_start_row = (psr : Int) →
      cs.dict = some dict →
      dp + vn + m ≤ rc.defined.length →
      psr + vn + m ≤ rc.data.length → (rc.data.length : Int) ≤ two64 →
      (∀ j, j < m → ∀ d, rc.defined[dp + vn + j]? = some d → d ≠ 0 →
        ∃ o, offsets[vn + j]? = some o ∧ o < dict.length) →
      ∃ data',
        (if strings then ColumnScan.dict_strings_loop offsets m v cs rc
         else ColumnScan.fill_values_dict_loop offsets m v cs rc) =
          Outcome.ok (cs, { rc with data := data' }) ∧
        data'.length = rc.data.length ∧
        (∀ j, j < m → ∀ d, rc.defined[dp + vn + j]? = some d → d ≠ 0 →
          ∃ o, offsets[vn + j]? = some o ∧ o < dict.length ∧
            data'[psr + vn + j]? = dict[o]?) ∧
        (∀ j, j < m → rc.defined[dp + vn + j]? = some 0 →
          data'[psr + vn + j]? =
            if strings then some (Slot.ptr none) else rc.data[psr + vn + j]?) ∧
        (∀ r, r < psr + vn ∨ psr + vn + m ≤ r → data'[r]? = rc.data[r]?) := by
  induction m with
  | zero =>
    intro vn dp psr v cs rc _ _ _ _ _ _ _ _
    refine ⟨rc.data, ?_, rfl, ?_, ?_, ?_⟩
    · cases strings <;>
        simp [ColumnScan.fill_values_dict_loop, ColumnScan.dict_strings_loop]
    · intro j hj
      omega
    · intro j hj
      omega
    · intro r _
      rfl
  | succ m ih =>
    intro vn dp psr v cs rc hv hdp hpsr hdict hD hR h64 hO
    have hlt : dp + vn < rc.defined.length := by omega
    have hget : rc.defined[dp + vn]? = some (rc.defined[dp + vn]) :=
      List.getElem?_eq_getElem hlt
    generalize hdv : rc.defined[dp + vn] = d at hget
    have hra : readAt rc.defined (cs.defined_ptr + v) = some d := by
      rw [hdp, hv, ← Nat.cast_add, readAt_nat, hget]
    have hv1 : v + 1 = ((vn + 1 : Nat) : Int) := by rw [hv]; push_cast; rfl
    have hrow : toU64 (cs.page_start_row + v) = ((psr + vn : Nat) : Int) := by
      rw [hpsr, hv, ← Nat.cast_add]
      apply toU64_nat
      have : ((psr + vn : Nat) : Int) < (rc.data.length : Int) := by
        exact_mod_cast (by omega : psr + vn < rc.data.length)
      omega
    have hO' : ∀ j, j < m → ∀ d, rc.defined[dp + (vn + 1) + j]? = some d → d ≠ 0 →
        ∃ o, offsets[vn + 1 + j]? = some o ∧ o < dict.length := by
      intro j hj d' hd' hne
      have := hO (j + 1) (by omega) d' (by rw [← hd']; congr 1; omega) hne
      rw [show vn + (j + 1) = vn + 1 + j by omega] at this
      exact this
    by_cases hd0 : d = 0
    · -- an undefined position
      cases strings with
      | false =>
        obtain ⟨data', h1, h2, h3, h4, h5⟩ := ih (vn + 1) dp psr (v + 1) cs rc hv1 hdp hpsr hdict
          (by omega) (by omega) h64 hO'
        simp only [Bool.false_eq_true, if_false] at h1 h4 ⊢
        refine ⟨data', ?_, h2, ?_, ?_, ?_⟩
        · simp only [ColumnScan.fill_values_dict_loop, hra, hd0, ne_eq, not_true_eq_false,
            if_false]
          exact h1
        · intro j hj d' hd' hne
          cases j with
          | zero =>
            rw [Nat.add_zero, hget] at hd'
            exact absurd (hd0 ▸ (Option.some.inj hd').symm) hne
          | succ j =>
            have := h3 j (by omega) d' (by rw [← hd']; congr 1; omega) hne
            rw [show psr + vn + (j + 1) = psr + (vn + 1) + j by omega,
              show vn + (j + 1) = vn + 1 + j by omega]
            exact this
        · intro j hj hz
          cases j with
          | zero => exact h5 (psr + vn) (Or.inl (by omega))
          | succ j =>
            have := h4 j (by omega) (by rw [← hz]; congr 1; omega)
            rw [show psr + vn + (j + 1) = psr + (vn + 1) + j by omega, this]
        · intro r hr
          exact h5 r (by omega)
      | true =>
        have hwr : writeAt rc.data ((psr + vn : Nat) : Int) (Slot.ptr none) =
            some (rc.data.set (psr + vn) (Slot.ptr none)) := writeAt_nat _ _ _ (by omega)
        obtain ⟨data', h1, h2, h3, h4, h5⟩ := ih (vn + 1) dp psr (v + 1) cs
          { rc with data := rc.data.set (psr + vn) (Slot.ptr none) } hv1 hdp hpsr hdict
          (by simpa using (by omega : dp + (vn + 1) + m ≤ rc.defined.length))
          (by simp only [List.length_set]; omega) (by simpa using h64) hO'
        simp only [if_true] at h1 h2 h3 h4 h5 ⊢
        refine ⟨data', ?_, ?_, ?_, ?_, ?_⟩
        · simp only [ColumnScan.dict_strings_loop, hra, hd0, ne_eq, not_true_eq_false,
            if_false, hrow, hwr]
          exact h1
        · rw [h2, List.length_set]
        · intro j hj d' hd' hne
          cases j with
          | zero =>
            rw [Nat.add_zero, hget] at hd'
            exact absurd (hd0 ▸ (Option.some.inj hd').symm) hne
          | succ j =>
            have := h3 j (by omega) d' (by rw [← hd']; congr 1; omega) hne
            rw [show psr + vn + (j + 1) = psr + (vn + 1) + j by omega,
              show vn + (j + 1) = vn + 1 + j by omega]
            exact this
        · intro j hj hz
          cases j with
          | zero =>
            rw [Nat.add_zero, h5 (psr + vn) (Or.inl (by omega)),
              List.getElem?_set_self (by omega)]
          | succ j =>
            have := h4 j (by omega) (by rw [← hz]; congr 1; omega)
            rw [show psr + vn + (j + 1) = psr + (vn + 1) + j by omega, this]
        · intro r hr
          rw [h5 r (by omega), List.getElem?_set_ne (by omega)]
    · -- a defined position
      obtain ⟨o, ho, hol⟩ := hO 0 (by omega) d (by rw [Nat.add_zero]; exact hget) hd0
      rw [Nat.add_zero] at ho
      have hro : readAt offsets v = some o := by rw [hv, readAt_nat, ho]
      have hdg : Dictionary.get dict o = Except.ok (dict[o]) := by
        simp [Dictionary.get, List.getElem?_eq_getElem hol]
      have hwr : writeAt rc.data ((psr + vn : Nat) : Int) (dict[o]) =
          some (rc.data.set (psr + vn) (dict[o])) := writeAt_nat _ _ _ (by omega)
      obtain ⟨data', h1, h2, h3, h4, h5⟩ := ih (vn + 1) dp psr (v + 1) cs
        { rc with data := rc.data.set (psr + vn) (dict[o]) } hv1 hdp hpsr hdict
        (by simpa using (by omega : dp + (vn + 1) + m ≤ rc.defined.length))
        (by simp only [List.length_set]; omega) (by simpa using h64) hO'
      simp only at h1 h2 h3 h4 h5
      refine ⟨data', ?_, ?_, ?_, ?_, ?_⟩
      · cases strings with
        | false =>
          simp only [Bool.false_eq_true, if_false] at h1 ⊢
          simp only [ColumnScan.fill_values_dict_loop, hra, hd0, ne_eq, not_false_eq_true,
            if_true, hro, hdict, hdg, hrow, hwr]
          exact h1
        | true =>
          simp only [if_true] at h1 ⊢
          simp only [ColumnScan.dict_strings_loop, hra, hd0, ne_eq, not_false_eq_true,
            if_true, hro, hdict, hdg, hrow, hwr]
          exact h1
      · rw [h2, List.length_set]
      · intro j hj d' hd' hne
        cases j with
        | zero =>
          refine ⟨o, by rw [Nat.add_zero]; exact ho, hol, ?_⟩
          rw [Nat.add_zero, h5 (psr + vn) (Or.inl (by omega)),
            List.getElem?_set_self (by omega), List.getElem?_eq_getElem hol]
        | succ j =>
          have := h3 j (by omega) d' (by rw [← hd']; congr 1; omega) hne
          rw [show psr + vn + (j + 1) = psr + (vn + 1) + j by omega,
            show vn + (j + 1) = vn + 1 + j by omega]
          exact this
      · intro j hj hz
        cases j with
        | zero =>
          rw [Nat.add_zero, hget] at hz
          exact absurd (Option.some.inj hz) hd0
        | succ j =>
          have := h4 j (by omega) (by rw [← hz]; congr 1; omega)
          rw [show psr + vn + (j + 1) = psr + (vn + 1) + j by omega, this,
            List.getElem?_set_ne (by omega)]
      · intro r hr
        rw [h5 r (by omega), List.getElem?_set_ne (by omega)]


/-- C5. A dictionary-encoded data page (the encoding is not looked at by
`scan_data_page_dict`; `scan_data_page` calls it for PLAIN_DICTIONARY and RLE_DICTIONARY)
of an INT32, INT64, INT96, FLOAT, DOUBLE or BYTE_ARRAY column, scanned after a dictionary
page (`seen_dict`, dictionary `dict`): let `offs` be the decoded index array and `w` the
defined bytes of the page. If the rows of the page exist in the result and the index of
every defined position is below the dictionary size, then `scan_data_page_dict` returns
normally; for every defined position `i`, `result[page_start_row + i]` is
`dict[offs[i]]`; for every undefined position a fixed-width slot is unchanged and a
BYTE_ARRAY slot is the null pointer; and every slot outside
`[page_start_row, page_start_row + num_values)` is unchanged. -/
theorem scan_data_page_dict_stores_entries (ext : Externals) (cs : ColumnScan)
    (rc : ResultColumn) (dict : List Slot) (offs : List Nat) (st : ColumnScan × ResultColumn)
    (hseen : cs.seen_dict = true) (hdict : cs.dict = some dict)
    (hty : rc.col.type = PType.INT32 ∨ rc.col.type = PType.INT64 ∨ rc.col.type = PType.INT96 ∨
      rc.col.type = PType.FLOAT ∨ rc.col.type = PType.DOUBLE ∨ rc.col.type = PType.BYTE_ARRAY)
    (hoffs : cs.read_offsets ext rc = (Outcome.ok st, offs))
    (hdp : 0 ≤ cs.defined_ptr) (hpsr : 0 ≤ cs.page_start_row)
    (hD : cs.defined_ptr.toNat + cs.page_header.data_page_header.num_values.toNat
            ≤ rc.defined.length)
    (hR : cs.page_start_row.toNat + cs.page_header.data_page_header.num_values.toNat
            ≤ rc.data.length)
    (h64 : (rc.data.length : Int) ≤ two64)
    (hidx : ∀ (i d : Nat),
      (defined_window cs rc cs.page_header.data_page_header.num_values.toNat)[i]? = some d →
      d ≠ 0 → ∃ o, offs[i]? = some o ∧ o < dict.length) :
    ∃ data',
      cs.scan_data_page_dict ext rc =
        Outcome.ok ({ cs with page_buf_ptr := cs.page_buf_ptr + 1 }, { rc with data := data' }) ∧
      data'.length = rc.data.length ∧
      (∀ (i d : Nat),
        (defined_window cs rc cs.page_header.data_page_header.num_values.toNat)[i]? = some d →
        d ≠ 0 →
        ∃ o, offs[i]? = some o ∧ data'[cs.page_start_row.toNat + i]? = dict[o]?) ∧
      (∀ i : Nat,
        (defined_window cs rc cs.page_header.data_page_header.num_values.toNat)[i]? = some 0 →
        data'[cs.page_start_row.toNat + i]? =
          if rc.col.type = PType.BYTE_ARRAY then some (Slot.ptr none)
          else rc.data[cs.page_start_row.toNat + i]?) ∧
      (∀ r, r < cs.page_start_row.toNat ∨
          cs.page_start_row.toNat + cs.page_header.data_page_header.num_values.toNat ≤ r →
        data'[r]? = rc.data[r]?) := by
  have hfr := read_offsets_frame ext cs rc st (by rw [hoffs])
  generalize hn : cs.page_header.data_page_header.num_values.toNat = n at *
  have hwin : ∀ i, i < n → (defined_window cs rc n)[i]? = rc.defined[cs.defined_ptr.toNat + i]? :=
    fun i hi => defined_window_getElem? cs rc n i hi
  have hlen : ∀ i d, (defined_window cs rc n)[i]? = some d → i < n := by
    intro i d hi
    by_contra hc
    have : (defined_window cs rc n).length ≤ i := by
      simp [defined_window]
      omega
    rw [List.getElem?_eq_none this] at hi
    simp at hi
  have hst : st = ({ cs with page_buf_ptr := cs.page_buf_ptr + 1 }, rc) := by
    rw [← hfr.1, ← hfr.2]
  subst hst
  obtain ⟨data', h1, h2, h3, h4, h5⟩ := dict_loops_spec offs dict
    (decide (rc.col.type = PType.BYTE_ARRAY)) n 0 cs.defined_ptr.toNat cs.page_start_row.toNat 0
    { cs with page_buf_ptr := cs.page_buf_ptr + 1 } rc rfl
    (Int.toNat_of_nonneg hdp).symm (Int.toNat_of_nonneg hpsr).symm hdict
    (by simpa using hD) (by simpa using hR) h64
    (by
      intro j hj d hd hne
      simp only [Nat.add_zero, Nat.zero_add] at hd ⊢
      exact hidx j d (by rw [hwin j hj]; exact hd) hne)
  simp only [Nat.add_zero, Nat.zero_add] at h1 h3 h4 h5
  refine ⟨data', ?_, h2, ?_, ?_, ?_⟩
  · unfold ColumnScan.scan_data_page_dict
    have hns : (!cs.seen_dict) = false := by simp [hseen]
    rw [hns]
    simp only [Bool.false_eq_true, if_false, hoffs, Outcome.andThen]
    rcases hty with h | h | h | h | h | h <;>
      simp only [h, ColumnScan.fill_values_dict, hn] <;>
      simp only [h, decide_True, decide_False, if_true, if_false, Bool.false_eq_true,
        reduceCtorEq] at h1 <;>
      exact h1
  · intro i d hi hne
    have hin := hlen i d hi
    obtain ⟨o, ho, _, hd⟩ := h3 i hin d (by rw [← hwin i hin]; exact hi) hne
    exact ⟨o, ho, hd⟩
  · intro i hi
    have hin := hlen i 0 hi
    have := h4 i hin (by rw [← hwin i hin]; exact hi)
    rw [this]
    by_cases hb : rc.col.type = PType.BYTE_ARRAY <;> simp [hb]
  · intro r hr
    exact h5 r hr

/-! ### The column descriptors and the footer length -/

theorem build_columns_length (rest : List SchemaElement) :
    ∀ (k : Nat) (cols : List ParquetColumn),
      (build_columns k rest cols).length = cols.length + rest.length := by
  induction rest with
  | nil => intro k cols; simp [build_columns]
  | cons e tl ih =>
    intro k cols
    simp only [build_columns, ih, List.length_append, List.length_cons, List.length_nil]
    omega

theorem build_columns_old (rest : List SchemaElement) :
    ∀ (k : Nat) (cols : List ParquetColumn) (i : Nat), i < cols.length →
      (build_columns k rest cols)[i]? = cols[i]? := by
  induction rest with
  | nil => intro k cols i _; simp [build_columns]
  | cons e tl ih =>
    intro k cols i hi
    simp only [build_columns]
    rw [ih _ _ i (by simp; omega), List.getElem?_append_left hi]

theorem build_columns_new (rest : List SchemaElement) :
    ∀ (k : Nat) (cols : List ParquetColumn) (j : Nat) (e : SchemaElement),
      rest[j]? = some e →
      (build_columns k rest cols)[cols.length + j]? =
        some { id := k + j - 1, name := e.name, schema_element := e, type := e.type } := by
  induction rest with
  | nil => intro k cols j e h; simp at h
  | cons a tl ih =>
    intro k cols j e h
    simp only [build_columns]
    cases j with
    | zero =>
      simp only [List.getElem?_cons_zero, Option.some.injEq] at h
      subst h
      rw [build_columns_old _ _ _ _ (by simp)]
      simp
    | succ j =>
      rw [List.getElem?_cons_succ] at h
      have e2 : k + (j + 1) - 1 = k + 1 + j - 1 := by omega
      rw [e2]
      refine Eq.trans ?_ (ih (k + 1) (cols ++ [ParquetColumn.mk (k - 1) a.name a.type a]) j e h)
      congr 1
      simp only [List.length_append, List.length_cons, List.length_nil]
      omega

/-- C11. After `initialize` has succeeded on an object whose `columns` list was empty
(as in the constructor), the list has exactly `len(schema) - 1` entries (0 when the
schema is empty); for every `i`, the `i`-th descriptor has `id == i` and the name, the
type and the schema element of `schema[i + 1]`; and `nrow` is the `num_rows` of the
metadata. -/
theorem initialize_builds_columns (ext : Externals) (self pf : ParquetFile)
    (file : Option (List Nat))
    (h : ParquetFile.initialize ext self file = Outcome.ok pf)
    (hnew : self.columns = []) :
    pf.columns.length = pf.file_meta_data.schema.length - 1 ∧
    (∀ (i : Nat) (e : SchemaElement), pf.file_meta_data.schema[i + 1]? = some e →
      pf.columns[i]? = some { id := i, name := e.name, schema_element := e, type := e.type }) ∧
    pf.nrow = pf.file_meta_data.num_rows := by
  obtain ⟨_, _, _, h2, h3⟩ := initialize_ok ext self pf file h
  rw [hnew] at h2
  refine ⟨?_, ?_, h3⟩
  · rw [h2, build_columns_length]
    simp
  · intro i e he
    have := build_columns_new (pf.file_meta_data.schema.drop 1) 1 [] i e
      (by rw [List.getElem?_drop, Nat.add_comm]; exact he)
    rw [h2]
    simpa [Nat.add_comm] using this

theorem seek_tail8 (bytes : List Nat) (p : Nat) (h : 8 ≤ bytes.length) :
    (IFStream.seekg_end { bytes := bytes, pos := p, failed := false } (-8)) =
      { bytes := bytes, pos := bytes.length - 8, failed := false } := by
  have e : ((bytes.length : Int) + -8).toNat = bytes.length - 8 := by omega
  simp [IFStream.seekg_end, h, e]

/-- C12. A file of at least 8 bytes with "PAR1" at both ends whose four bytes before
the trailing magic are the little-endian number 0 makes `initialize` throw the
zero-footer-length exception. The state at the throw does not depend on the Thrift
deserializer `ext`, and `file_meta_data` and `columns` are untouched: no byte was
deserialized. -/
theorem initialize_rejects_zero_footer_length (self : ParquetFile) (bytes : List Nat)
    (hlen : 8 ≤ bytes.length)
    (h1 : bytes.take 4 = magic)
    (h2 : bytes.drop (bytes.length - 4) = magic)
    (h0 : leNat ((bytes.drop (bytes.length - 8)).take 4) = 0) :
    ∃ (pf : IFStream) (fs : Int),
      ∀ ext : Externals,
        ParquetFile.initialize ext self (some bytes) =
          Outcome.thrown Err.footerLengthZero { self with pfile := pf, file_size := fs } := by
  have hl4 : 4 ≤ bytes.length := by omega
  have hl2 : (bytes.drop (bytes.length - 4)).length = 4 := by simp; omega
  have e1 := read_start bytes
  rw [h1] at e1
  have e0 : overwrite [0, 0, 0, 0] magic = magic := rfl
  have e2 : overwrite magic (bytes.drop (bytes.length - 4)) = bytes.drop (bytes.length - 4) :=
    overwrite_full _ _ (by rw [hl2, magic_length])
  have e3 : decide (4 < 4) = false := rfl
  have hr2 : IFStream.read { bytes := bytes, pos := bytes.length - 4, failed := false } 4 =
      (bytes.drop (bytes.length - 4),
        { bytes := bytes, pos := bytes.length, failed := false }) := by
    have hl : (bytes.drop (bytes.length - 4)).length ≤ 4 := by simp; omega
    simp [IFStream.read, List.take_of_length_le hl]
    omega
  have hl3 : ((bytes.drop (bytes.length - 8)).take 4).length = 4 := by simp; omega
  have hr3 : IFStream.read { bytes := bytes, pos := bytes.length - 8, failed := false } 4 =
      ((bytes.drop (bytes.length - 8)).take 4,
        { bytes := bytes, pos := bytes.length - 4, failed := false }) := by
    simp [IFStream.read]
    omega
  have e4 : overwrite magic ((bytes.drop (bytes.length - 8)).take 4) =
      (bytes.drop (bytes.length - 8)).take 4 :=
    overwrite_full _ _ (by rw [hl3, magic_length])
  refine ⟨{ bytes := bytes, pos := bytes.length - 4, failed := false },
    (IFStream.seekg_end { bytes := bytes, pos := 4, failed := false } 0).tellg, fun ext => ?_⟩
  simp only [ ParquetFile.initialize, e1, magic_length, e0, e3, seek_tail bytes 4 hl4, hr2]
  have hc : toI32 ((leNat (overwrite (overwrite magic (bytes.drop (bytes.length - 4)))
      ((IFStream.seekg_end { bytes := bytes, pos := bytes.length, failed := false } (-8)).read
        4).1) : Nat) : Int) = 0 := by
    rw [seek_tail8 bytes bytes.length hlen, hr3, e2, h2, e4, h0]
    simp [toI32, two32]
  rw [if_neg (by simp), if_neg (by rw [e2, h2]; simp), if_pos hc,
    seek_tail8 bytes bytes.length hlen, hr3]

/-- The twelve-byte file "PAR1", four zero bytes, "PAR1". -/
theorem initialize_rejects_zero_footer_length_witness :
    ∃ (pf : IFStream) (fs : Int),
      ∀ ext : Externals,
        ParquetFile.initialize ext {} (some [80, 65, 82, 49, 0, 0, 0, 0, 80, 65, 82, 49]) =
          Outcome.thrown Err.footerLengthZero
            { ({} : ParquetFile) with pfile := pf, file_size := fs } :=
  initialize_rejects_zero_footer_length {} [80, 65, 82, 49, 0, 0, 0, 0, 80, 65, 82, 49]
    (by decide) (by decide) (by decide) (by decide)

/-! ### The chunk `scan_column` reads -/

/-- C13. When `scan_column` scans a chunk without error, the buffer it scanned is the
`total_compressed_size` bytes of the file that start at `dictionary_page_offset` when
that field is set and at least 4, and at `data_page_offset` in every other case; the
stream is left right behind these bytes. -/
theorem scan_column_reads_chunk (ext : Externals) (fuel : Nat) (self : ParquetFile)
    (s : ScanState) (c : ResultColumn) (run : ColumnRun) (rg : RowGroup) (chunk : ColumnChunk)
    (hrg : self.file_meta_data.row_groups[s.row_group_idx]? = some rg)
    (hchunk : rg.columns[c.id]? = some chunk)
    (h : ParquetFile.scan_column ext fuel self s c = some (Outcome.ok run)) :
    ∃ start : Nat,
      (chunk.meta_data.isset_dictionary_page_offset = true ∧
          4 ≤ chunk.meta_data.dictionary_page_offset →
        (start : Int) = chunk.meta_data.dictionary_page_offset) ∧
      (¬ (chunk.meta_data.isset_dictionary_page_offset = true ∧
          4 ≤ chunk.meta_data.dictionary_page_offset) →
        (start : Int) = chunk.meta_data.data_page_offset) ∧
      run.chunk_buf =
        (self.pfile.bytes.drop start).take chunk.meta_data.total_compressed_size.toNat ∧
      run.chunk_buf.length = chunk.meta_data.total_compressed_size.toNat ∧
      run.pfile.pos = start + chunk.meta_data.total_compressed_size.toNat := by
  obtain ⟨rg', chunk', sch, st', h1, h2, _, h4, h5, h6, h7, _⟩ :=
    scan_column_ok ext fuel self s c run h
  rw [hrg] at h1
  cases h1
  rw [hchunk] at h2
  cases h2
  have f := scan_pages_frame ext _ _ fuel _ st' h5
  simp only [scan_column_locals] at f
  have hnf : self.pfile.failed = false := (scan_column_ok_pfile ext fuel self s c run h).2.2
  have h0 : 0 ≤ chunk_start chunk := by
    by_contra hc
    have := seekg_neg_read_failed self.pfile (chunk_start chunk)
      chunk.meta_data.total_compressed_size.toNat hc
    rw [this] at h4
    simp at h4
  have hseek : self.pfile.seekg (chunk_start chunk) =
      { self.pfile with pos := (chunk_start chunk).toNat } := by
    simp [IFStream.seekg, hnf, h0]
  have hlen : ((self.pfile.bytes.drop (chunk_start chunk).toNat).take
      chunk.meta_data.total_compressed_size.toNat).length =
        chunk.meta_data.total_compressed_size.toNat := by
    rw [hseek] at h4
    simp only [IFStream.read, hnf, Bool.false_eq_true, if_false, decide_eq_false_iff_not,
      not_lt] at h4
    have := List.length_take_le chunk.meta_data.total_compressed_size.toNat
      (self.pfile.bytes.drop (chunk_start chunk).toNat)
    omega
  have hbuf : run.chunk_buf = (self.pfile.bytes.drop (chunk_start chunk).toNat).take
      chunk.meta_data.total_compressed_size.toNat := by
    rw [h7, f.2]
    unfold ParquetFile.chunk_bytes
    rw [hseek]
    simp [IFStream.read, hnf]
  refine ⟨(chunk_start chunk).toNat, ?_, ?_, hbuf, by rw [hbuf, hlen], ?_⟩
  · intro hd
    rw [Int.toNat_of_nonneg h0]
    unfold chunk_start
    rw [if_pos hd]
  · intro hd
    rw [Int.toNat_of_nonneg h0]
    unfold chunk_start
    rw [if_neg hd]
  · rw [h6, f.1, hseek]
    simp only [IFStream.read, hnf, Bool.false_eq_true, if_false]
    rw [hlen]

/-- C15. A column chunk that has `file_path` set, or whose `path_in_schema` does not
have exactly one element, makes `scan_column` throw; at the throw the stream is the one
before the call (nothing was sought or read) and the result column is untouched. -/
theorem scan_column_rejects_chunk (ext : Externals) (fuel : Nat) (self : ParquetFile)
    (s : ScanState) (c : ResultColumn) (rg : RowGroup) (chunk : ColumnChunk)
    (hrg : self.file_meta_data.row_groups[s.row_group_idx]? = some rg)
    (hchunk : rg.columns[c.id]? = some chunk)
    (h : chunk.isset_file_path = true ∨ chunk.meta_data.path_in_schema.length ≠ 1) :
    ∃ e, (e = Err.onlyInlined ∨ e = Err.onlyFlatFiles) ∧
      ParquetFile.scan_column ext fuel self s c =
        some (Outcome.thrown e { pfile := self.pfile, result_col := c }) := by
  unfold ParquetFile.scan_column
  simp only [hrg, hchunk]
  by_cases h1 : chunk.isset_file_path = true
  · exact ⟨_, Or.inl rfl, by rw [if_pos h1]⟩
  · rcases h with h | h
    · exact absurd h h1
    · exact ⟨_, Or.inr rfl, by rw [if_neg h1, if_pos h]⟩

/-! ### A header field does not matter to the decoders that do not read it -/

theorem fill_values_plain_loop_header (ph : PageHeader) (sz : Nat) (n : Nat) :
    ∀ (v : Int) (cs : ColumnScan) (rc : ResultColumn),
      ColumnScan.fill_values_plain_loop sz n v (cs.with_header ph) rc =
        (ColumnScan.fill_values_plain_loop sz n v cs rc).map
          (fun st => (st.1.with_header ph, st.2)) := by
  induction n with
  | zero =>
    intro v cs rc
    simp [ColumnScan.fill_values_plain_loop, Outcome.map]
  | succ n ih =>
    intro v cs rc
    simp only [ColumnScan.fill_values_plain_loop, ColumnScan.with_header]
    split
    · rfl
    · split
      · exact ih _ cs rc
      · split
        · rfl
        · split
          · rfl
          · exact ih _ { cs with page_buf_ptr := cs.page_buf_ptr + (sz : Int) } _

theorem plain_bool_loop_header (ph : PageHeader) (n : Nat) :
    ∀ (v : Int) (bp : Nat) (cs : ColumnScan) (rc : ResultColumn),
      ColumnScan.plain_bool_loop n v bp (cs.with_header ph) rc =
        (ColumnScan.plain_bool_loop n v bp cs rc).map
          (fun st => (st.1.with_header ph, st.2)) := by
  induction n with
  | zero =>
    intro v bp cs rc
    simp [ColumnScan.plain_bool_loop, Outcome.map]
  | succ n ih =>
    intro v bp cs rc
    simp only [ColumnScan.plain_bool_loop, ColumnScan.with_header]
    split
    · rfl
    · split
      · exact ih _ _ cs rc
      · split
        · rfl
        · split
          · rfl
          · split
            · exact ih _ _ { cs with page_buf_ptr := cs.page_buf_ptr + 1 } _
            · exact ih _ _ cs _

theorem plain_strings_loop_header (ph : PageHeader) (k n : Nat) :
    ∀ (v : Int) (sl : Nat) (cs : ColumnScan) (rc : ResultColumn),
      ColumnScan.plain_strings_loop k n v sl (cs.with_header ph) rc =
        (ColumnScan.plain_strings_loop k n v sl cs rc).map
          (fun st => (st.1.with_header ph, st.2)) := by
  induction n with
  | zero =>
    intro v sl cs rc
    simp [ColumnScan.plain_strings_loop, Outcome.map]
  | succ n ih =>
    intro v sl cs rc
    simp only [ColumnScan.plain_strings_loop, ColumnScan.with_header]
    split
    · rfl
    · split
      · exact ih _ _ cs rc
      · by_cases hty : rc.col.type = PType.BYTE_ARRAY
        · simp only [hty, if_true]
          cases hr : readBytes cs.page_buf cs.page_buf_ptr 4 with
          | none => rfl
          | some bs =>
            simp only [Option.map_some']
            split
            · rfl
            · split
              · rfl
              · split
                · split
                  · rfl
                  · exact ih _ _ { cs with page_buf_ptr := cs.page_buf_ptr + 4 + _ } _
                · rfl
        · simp only [hty, if_false]
          split
          · rfl
          · split
            · rfl
            · split
              · split
                · rfl
                · exact ih _ _ { cs with page_buf_ptr := cs.page_buf_ptr + _ } _
              · rfl

theorem fill_values_dict_loop_header (ph : PageHeader) (offs : List Nat) (n : Nat) :
    ∀ (v : Int) (cs : ColumnScan) (rc : ResultColumn),
      ColumnScan.fill_values_dict_loop offs n v (cs.with_header ph) rc =
        (ColumnScan.fill_values_dict_loop offs n v cs rc).map
          (fun st => (st.1.with_header ph, st.2)) := by
  induction n with
  | zero =>
    intro v cs rc
    simp [ColumnScan.fill_values_dict_loop, Outcome.map]
  | succ n ih =>
    intro v cs rc
    simp only [ColumnScan.fill_values_dict_loop, ColumnScan.with_header]
    split
    · rfl
    · split
      · split
        · split
          · rfl
          · split
            · rfl
            · exact ih _ cs _
        · rfl
      · exact ih _ cs rc

theorem dict_strings_loop_header (ph : PageHeader) (offs : List Nat) (n : Nat) :
    ∀ (v : Int) (cs : ColumnScan) (rc : ResultColumn),
      ColumnScan.dict_strings_loop offs n v (cs.with_header ph) rc =
        (ColumnScan.dict_strings_loop offs n v cs rc).map
          (fun st => (st.1.with_header ph, st.2)) := by
  induction n with
  | zero =>
    intro v cs rc
    simp [ColumnScan.dict_strings_loop, Outcome.map]
  | succ n ih =>
    intro v cs rc
    simp only [ColumnScan.dict_strings_loop, ColumnScan.with_header]
    split
    · rfl
    · split
      · split
        · split
          · rfl
          · split
            · rfl
            · exact ih _ cs _
        · rfl
      · split
        · rfl
        · exact ih _ cs _

theorem Outcome.map_andThen {σ : Type} (f : σ → σ) (o : Outcome σ) (k k' : σ → Outcome σ)
    (h : ∀ s, o = .ok s → k' (f s) = (k s).map f) :
    (o.map f).andThen k' = (o.andThen k).map f := by
  cases o with
  | ok s => simp [Outcome.map, Outcome.andThen, h s rfl]
  | thrown e s => simp [Outcome.map, Outcome.andThen]
  | undefined => simp [Outcome.map, Outcome.andThen]

theorem Outcome.map_andThen_andThen {σ : Type} (f : σ → σ) (o : Outcome σ)
    (k1 k1' k2 k2' : σ → Outcome σ)
    (h1 : ∀ s, o = .ok s → k1' (f s) = (k1 s).map f)
    (h2 : ∀ s, k2' (f s) = (k2 s).map f) :
    ((o.map f).andThen k1').andThen k2' = ((o.andThen k1).andThen k2).map f := by
  rw [Outcome.map_andThen f o k1 k1' h1]
  exact Outcome.map_andThen f _ k2 k2' (fun s _ => h2 s)

theorem scan_data_page_plain_def_enc (cs : ColumnScan) (rc : ResultColumn) (enc : Encoding) :
    (cs.with_header (cs.page_header.with_def_level_encoding enc)).scan_data_page_plain rc =
      (cs.scan_data_page_plain rc).map
        (fun st => (st.1.with_header (cs.page_header.with_def_level_encoding enc), st.2)) := by
  unfold ColumnScan.scan_data_page_plain ColumnScan.fill_values_plain
  simp only [ColumnScan.with_header, PageHeader.with_def_level_encoding]
  split
  · exact plain_bool_loop_header _ _ _ _ cs rc
  · exact fill_values_plain_loop_header _ _ _ _ cs rc
  · exact fill_values_plain_loop_header _ _ _ _ cs rc
  · exact fill_values_plain_loop_header _ _ _ _ cs rc
  · exact fill_values_plain_loop_header _ _ _ _ cs rc
  · exact fill_values_plain_loop_header _ _ _ _ cs rc
  · split <;> split <;> first | rfl | exact plain_strings_loop_header _ _ _ _ _ cs _
  · split <;> split <;> first | rfl | exact plain_strings_loop_header _ _ _ _ _ cs _
  · rfl

theorem read_offsets_def_enc (ext : Externals) (cs : ColumnScan) (rc : ResultColumn)
    (enc : Encoding) :
    (cs.with_header (cs.page_header.with_def_level_encoding enc)).read_offsets ext rc =
      ((cs.read_offsets ext rc).1.map
        (fun st => (st.1.with_header (cs.page_header.with_def_level_encoding enc), st.2)),
       (cs.read_offsets ext rc).2) := by
  unfold ColumnScan.read_offsets
  simp only [ColumnScan.with_header, PageHeader.with_def_level_encoding]
  split
  · rfl
  · split
    · rfl
    · split
      · split
        · rfl
        · split
          · split <;> rfl
          · rfl
          · rfl
      · rfl

theorem scan_data_page_dict_def_enc (ext : Externals) (cs : ColumnScan) (rc : ResultColumn)
    (enc : Encoding) :
    (cs.with_header (cs.page_header.with_def_level_encoding enc)).scan_data_page_dict ext rc =
      (cs.scan_data_page_dict ext rc).map
        (fun st => (st.1.with_header (cs.page_header.with_def_level_encoding enc), st.2)) := by
  unfold ColumnScan.scan_data_page_dict
  rw [read_offsets_def_enc]
  by_cases hs : cs.seen_dict = true
  · have h1 : (!(cs.with_header (cs.page_header.with_def_level_encoding enc)).seen_dict) =
        false := by simp [ColumnScan.with_header, hs]
    have h2 : (!cs.seen_dict) = false := by simp [hs]
    rw [h1, h2]
    simp only [Bool.false_eq_true, if_false]
    apply Outcome.map_andThen
    intro st hst
    have hph : st.1.page_header = cs.page_header := by
      rw [(read_offsets_frame ext cs rc st hst).1]
    have hfill : (st.1.with_header (cs.page_header.with_def_level_encoding enc)).fill_values_dict
        st.2 (cs.read_offsets ext rc).2 =
        (st.1.fill_values_dict st.2 (cs.read_offsets ext rc).2).map
          (fun st => (st.1.with_header (cs.page_header.with_def_level_encoding enc), st.2)) := by
      unfold ColumnScan.fill_values_dict
      rw [hph]
      exact fill_values_dict_loop_header _ _ _ _ st.1 st.2
    simp only []
    split
    · exact hfill
    · exact hfill
    · exact hfill
    · exact hfill
    · exact hfill
    · exact dict_strings_loop_header _ _ _ _ st.1 st.2
    · rfl
  · have h1 : (!(cs.with_header (cs.page_header.with_def_level_encoding enc)).seen_dict) =
        true := by simp [ColumnScan.with_header, hs]
    have h2 : (!cs.seen_dict) = true := by simp [hs]
    rw [h1, h2]
    rfl

theorem scan_def_levels_def_enc (ext : Externals) (cs : ColumnScan) (rc : ResultColumn)
    (enc : Encoding) :
    (cs.with_header (cs.page_header.with_def_level_encoding enc)).scan_def_levels ext rc false =
      (cs.scan_def_levels ext rc false).map
        (fun st => (st.1.with_header (cs.page_header.with_def_level_encoding enc), st.2)) := by
  unfold ColumnScan.scan_def_levels
  simp only [ColumnScan.with_header, PageHeader.with_def_level_encoding, Bool.false_eq_true,
    if_false]
  split
  · rfl
  · split <;> rfl


theorem scan_data_page_def_enc (ext : Externals) (cs : ColumnScan) (rc : ResultColumn)
    (enc : Encoding) :
    (cs.with_header (cs.page_header.with_def_level_encoding enc)).scan_data_page ext rc false =
      (cs.scan_data_page ext rc false).map
        (fun st => (st.1.with_header (cs.page_header.with_def_level_encoding enc), st.2)) := by
  unfold ColumnScan.scan_data_page
  rw [scan_def_levels_def_enc]
  have e1 : (cs.with_header (cs.page_header.with_def_level_encoding enc)).page_header =
      cs.page_header.with_def_level_encoding enc := rfl
  have e2 : (cs.page_header.with_def_level_encoding enc).isset_data_page_header =
      cs.page_header.isset_data_page_header := rfl
  have e3 : (cs.page_header.with_def_level_encoding enc).isset_dictionary_page_header =
      cs.page_header.isset_dictionary_page_header := rfl
  have e4 : (cs.page_header.with_def_level_encoding enc).isset_data_page_header_v2 =
      cs.page_header.isset_data_page_header_v2 := rfl
  have e5 : (cs.page_header.with_def_level_encoding enc).data_page_header.num_values =
      cs.page_header.data_page_header.num_values := rfl
  rw [e1, e2, e3, e4, e5]
  split
  · rfl
  · split
    · rfl
    · simp only []
      apply Outcome.map_andThen_andThen
      · intro st hst
        have hph : st.1.page_header = cs.page_header := by
          rw [(scan_def_levels_frame ext cs rc false st hst).1]
        have hd := scan_data_page_dict_def_enc ext st.1 st.2 enc
        have hp := scan_data_page_plain_def_enc st.1 st.2 enc
        rw [hph] at hd hp
        simp only [ColumnScan.with_header, PageHeader.with_def_level_encoding] at hd hp ⊢
        rw [hph]
        split <;> first | exact hd | exact hp | rfl
      · intro st
        rfl

/-! ### Encodings the reader does not have -/

/-- C16. A data page whose `data_page_header.encoding` is not PLAIN, PLAIN_DICTIONARY or
RLE_DICTIONARY makes `scan_data_page` throw (as long as decoding its definition levels
stays inside the buffers); at the throw the result value array is the one before the
call, and `page_start_row` and `defined_ptr` have not moved. -/
theorem scan_data_page_unsupported_encoding (ext : Externals) (cs : ColumnScan)
    (rc : ResultColumn) (has_def_levels : Bool)
    (h1 : cs.page_header.data_page_header.encoding ≠ Encoding.PLAIN)
    (h2 : cs.page_header.data_page_header.encoding ≠ Encoding.PLAIN_DICTIONARY)
    (h3 : cs.page_header.data_page_header.encoding ≠ Encoding.RLE_DICTIONARY)
    (hdef : cs.scan_def_levels ext rc has_def_levels ≠ Outcome.undefined) :
    ∃ e st, cs.scan_data_page ext rc has_def_levels = Outcome.thrown e st ∧
      st.2.data = rc.data ∧ st.1.page_start_row = cs.page_start_row ∧
      st.1.defined_ptr = cs.defined_ptr := by
  unfold ColumnScan.scan_data_page
  split
  · exact ⟨_, _, rfl, rfl, rfl, rfl⟩
  · split
    · exact ⟨_, _, rfl, rfl, rfl, rfl⟩
    · cases hd : cs.scan_def_levels ext rc has_def_levels with
      | ok st1 =>
        have f := scan_def_levels_frame ext cs rc has_def_levels st1 hd
        have he : st1.1.page_header.data_page_header.encoding =
            cs.page_header.data_page_header.encoding := by rw [f.1]
        refine ⟨Err.dataPageEncoding, st1, ?_, by rw [f.2], by rw [f.1], by rw [f.1]⟩
        simp only [Outcome.andThen]
        rw [he]
        cases henc : cs.page_header.data_page_header.encoding <;>
          first
          | exact absurd henc h1
          | exact absurd henc h2
          | exact absurd henc h3
          | rfl
      | thrown e st1 =>
        have f := scan_def_levels_thrown ext cs rc has_def_levels e st1 hd
        exact ⟨e, st1, by simp [Outcome.andThen], by rw [f.2], by rw [f.1], by rw [f.1]⟩
      | undefined => exact absurd hd hdef

/-- C17. A dictionary page whose `dictionary_page_header.encoding` is neither PLAIN nor
PLAIN_DICTIONARY makes `scan_dict_page` throw; at the throw the scanner (`seen_dict` and
the dictionary included) and the result column are the ones before the call. -/
theorem scan_dict_page_unsupported_encoding (cs : ColumnScan) (rc : ResultColumn)
    (h1 : cs.page_header.dictionary_page_header.encoding ≠ Encoding.PLAIN)
    (h2 : cs.page_header.dictionary_page_header.encoding ≠ Encoding.PLAIN_DICTIONARY) :
    ∃ e, (e = Err.dictPageHeaderMismatch ∨ e = Err.dictPageEncoding) ∧
      cs.scan_dict_page rc = Outcome.thrown e (cs, rc) := by
  unfold ColumnScan.scan_dict_page
  split
  · exact ⟨_, Or.inl rfl, rfl⟩
  · split
    · rename_i heq
      exact absurd heq h1
    · rename_i heq
      exact absurd heq h2
    · exact ⟨_, Or.inr rfl, rfl⟩

/-- C18. `scan_column` passes `has_def_levels = (repetition_type != REQUIRED)` to
`scan_data_page`. With `has_def_levels` set, a data page whose
`definition_level_encoding` is not RLE makes `scan_data_page` throw, and at the throw
the scanner and the result column (defined bytes and values) are the ones before the
call. With `has_def_levels` not set, `scan_data_page` does not look at
`definition_level_encoding`: with any other value `enc` in that field it does the same,
the field of the header apart. -/
theorem scan_data_page_def_level_encoding :
    (∀ (ext : Externals) (cs : ColumnScan) (rc : ResultColumn),
      cs.page_header.data_page_header.definition_level_encoding ≠ Encoding.RLE →
      ∃ e, cs.scan_data_page ext rc true = Outcome.thrown e (cs, rc)) ∧
    (∀ (ext : Externals) (cs : ColumnScan) (rc : ResultColumn) (enc : Encoding),
      (cs.with_header (cs.page_header.with_def_level_encoding enc)).scan_data_page ext rc false =
        (cs.scan_data_page ext rc false).map
          (fun st => (st.1.with_header (cs.page_header.with_def_level_encoding enc), st.2))) := by
  refine ⟨?_, scan_data_page_def_enc⟩
  intro ext cs rc hne
  unfold ColumnScan.scan_data_page
  split
  · exact ⟨_, rfl⟩
  · split
    · exact ⟨_, rfl⟩
    · refine ⟨Err.defLevelEncoding, ?_⟩
      unfold ColumnScan.scan_def_levels
      cases henc : cs.page_header.data_page_header.definition_level_encoding <;>
        first
        | exact absurd henc hne
        | rfl

/-! ### The defined bytes of a REQUIRED column -/

theorem Outcome.satisfies_mono {σ : Type} (o : Outcome σ) (p q : σ → Prop)
    (h : o.satisfies p) (hpq : ∀ s, p s → q s) : o.satisfies q := by
  cases o with
  | ok s => exact hpq s h
  | thrown e s => exact hpq s h
  | undefined => trivial

theorem Outcome.satisfies_andThen {σ : Type} (o : Outcome σ) (k : σ → Outcome σ)
    (p : σ → Prop) (h : o.satisfies p) (hk : ∀ s, p s → (k s).satisfies p) :
    (o.andThen k).satisfies p := by
  cases o with
  | ok s => exact hk s h
  | thrown e s => exact h
  | undefined => trivial

theorem fill_values_plain_loop_defined (sz : Nat) (n : Nat) :
    ∀ (v : Int) (cs : ColumnScan) (rc : ResultColumn),
      (ColumnScan.fill_values_plain_loop sz n v cs rc).satisfies
        (fun st => st.2.defined = rc.defined) := by
  induction n with
  | zero =>
    intro v cs rc
    simp [ColumnScan.fill_values_plain_loop, Outcome.satisfies]
  | succ n ih =>
    intro v cs rc
    simp only [ColumnScan.fill_values_plain_loop]
    split
    · trivial
    · split
      · exact ih _ cs rc
      · split
        · trivial
        · split
          · trivial
          · exact ih _ _ { rc with data := _ }

theorem plain_bool_loop_defined (n : Nat) :
    ∀ (v : Int) (bp : Nat) (cs : ColumnScan) (rc : ResultColumn),
      (ColumnScan.plain_bool_loop n v bp cs rc).satisfies
        (fun st => st.2.defined = rc.defined) := by
  induction n with
  | zero =>
    intro v bp cs rc
    simp [ColumnScan.plain_bool_loop, Outcome.satisfies]
  | succ n ih =>
    intro v bp cs rc
    simp only [ColumnScan.plain_bool_loop]
    split
    · trivial
    · split
      · exact ih _ _ cs rc
      · split
        · trivial
        · split
          · trivial
          · split
            · exact ih _ _ _ { rc with data := _ }
            · exact ih _ _ _ { rc with data := _ }

theorem plain_strings_loop_defined (k n : Nat) :
    ∀ (v : Int) (sl : Nat) (cs : ColumnScan) (rc : ResultColumn),
      (ColumnScan.plain_strings_loop k n v sl cs rc).satisfies
        (fun st => st.2.defined = rc.defined) := by
  induction n with
  | zero =>
    intro v sl cs rc
    simp [ColumnScan.plain_strings_loop, Outcome.satisfies]
  | succ n ih =>
    intro v sl cs rc
    simp only [ColumnScan.plain_strings_loop]
    split
    · trivial
    · split
      · exact ih _ _ cs rc
      · split
        · trivial
        · split
          · rfl
          · split
            · trivial
            · split
              · split
                · trivial
                · exact ih _ _ _ { rc with data := _, string_heap_chunks := _ }
              · trivial

theorem fill_values_dict_loop_defined (offs : List Nat) (n : Nat) :
    ∀ (v : Int) (cs : ColumnScan) (rc : ResultColumn),
      (ColumnScan.fill_values_dict_loop offs n v cs rc).satisfies
        (fun st => st.2.defined = rc.defined) := by
  induction n with
  | zero =>
    intro v cs rc
    simp [ColumnScan.fill_values_dict_loop, Outcome.satisfies]
  | succ n ih =>
    intro v cs rc
    simp only [ColumnScan.fill_values_dict_loop]
    split
    · trivial
    · split
      · split
        · split
          · rfl
          · split
            · trivial
            · exact ih _ cs { rc with data := _ }
        · trivial
      · exact ih _ cs rc

theorem dict_strings_loop_defined (offs : List Nat) (n : Nat) :
    ∀ (v : Int) (cs : ColumnScan) (rc : ResultColumn),
      (ColumnScan.dict_strings_loop offs n v cs rc).satisfies
        (fun st => st.2.defined = rc.defined) := by
  induction n with
  | zero =>
    intro v cs rc
    simp [ColumnScan.dict_strings_loop, Outcome.satisfies]
  | succ n ih =>
    intro v cs rc
    simp only [ColumnScan.dict_strings_loop]
    split
    · trivial
    · split
      · split
        · split
          · rfl
          · split
            · trivial
            · exact ih _ cs { rc with data := _ }
        · trivial
      · split
        · trivial
        · exact ih _ cs { rc with data := _ }

theorem scan_data_page_plain_defined (cs : ColumnScan) (rc : ResultColumn) :
    (cs.scan_data_page_plain rc).satisfies (fun st => st.2.defined = rc.defined) := by
  unfold ColumnScan.scan_data_page_plain ColumnScan.fill_values_plain
  simp only []
  split
  · exact plain_bool_loop_defined _ _ _ cs rc
  · exact fill_values_plain_loop_defined _ _ _ cs rc
  · exact fill_values_plain_loop_defined _ _ _ cs rc
  · exact fill_values_plain_loop_defined _ _ _ cs rc
  · exact fill_values_plain_loop_defined _ _ _ cs rc
  · exact fill_values_plain_loop_defined _ _ _ cs rc
  · split <;> split <;>
      first
      | rfl
      | exact plain_strings_loop_defined _ _ _ _ cs { rc with string_heap_chunks := _ }
  · split <;> split <;>
      first
      | rfl
      | exact plain_strings_loop_defined _ _ _ _ cs { rc with string_heap_chunks := _ }
  · rfl

theorem read_offsets_defined (ext : Externals) (cs : ColumnScan) (rc : ResultColumn) :
    (cs.read_offsets ext rc).1.satisfies (fun st => st.2.defined = rc.defined) := by
  unfold ColumnScan.read_offsets
  simp only []
  split
  · rfl
  · split
    · trivial
    · split
      · split
        · trivial
        · split
          · split
            · rfl
            · trivial
          · rfl
          · trivial
      · rfl

theorem scan_data_page_dict_defined (ext : Externals) (cs : ColumnScan) (rc : ResultColumn) :
    (cs.scan_data_page_dict ext rc).satisfies (fun st => st.2.defined = rc.defined) := by
  unfold ColumnScan.scan_data_page_dict
  split
  · rfl
  · apply Outcome.satisfies_andThen _ _ _ (read_offsets_defined ext cs rc)
    intro st hst
    have hfill : (st.1.fill_values_dict st.2 (cs.read_offsets ext rc).2).satisfies
        (fun st => st.2.defined = rc.defined) := by
      unfold ColumnScan.fill_values_dict
      exact Outcome.satisfies_mono _ _ _ (fill_values_dict_loop_defined _ _ _ st.1 st.2)
        (fun s hs => hs.trans hst)
    split
    · exact hfill
    · exact hfill
    · exact hfill
    · exact hfill
    · exact hfill
    · exact Outcome.satisfies_mono _ _ _ (dict_strings_loop_defined _ _ _ st.1 st.2)
        (fun s hs => hs.trans hst)
    · exact hst

theorem writeRange_spec (mem : List Nat) (p : Nat) (vs : List Nat)
    (h : p + vs.length ≤ mem.length) :
    ∃ mem', writeRange mem (p : Int) vs = some mem' ∧ mem'.length = mem.length ∧
      (∀ i, i < vs.length → mem'[p + i]? = vs[i]?) ∧
      (∀ r, r < p ∨ p + vs.length ≤ r → mem'[r]? = mem[r]?) := by
  refine ⟨mem.take p ++ vs ++ mem.drop (p + vs.length), ?_, ?_, ?_, ?_⟩
  · simp [writeRange, h]
  · simp
    omega
  · intro i hi
    rw [List.append_assoc, List.getElem?_append_right (by simp)]
    simp only [List.length_take]
    rw [Nat.min_eq_left (by omega), Nat.add_sub_cancel_left, List.getElem?_append_left hi]
  · intro r hr
    rcases hr with hr | hr
    · rw [List.append_assoc, List.getElem?_append_left (by simp; omega), List.getElem?_take]
      simp [hr]
    · rw [List.getElem?_append_right (by simp; omega)]
      simp only [List.length_append, List.length_take]
      rw [Nat.min_eq_left (by omega), List.getElem?_drop]
      congr 1
      omega

/-- C19. A data page of a REQUIRED column (`has_def_levels` not set) with
`num_values = n >= 0`, scanned with `defined_ptr` at row `page_start_row` of the defined
bytes (where `scan_column` keeps it) and the rows of the page inside them: the
definition-level part of `scan_data_page` leaves the scanner as it is (no page byte is
consumed) and stores `defined'`, in which byte `page_start_row + i` is 1 for every
`i < n` and every byte outside that range is the one before the call; and the defined
bytes are `defined'` when `scan_data_page` returns or throws after that part. -/
theorem scan_data_page_required_defined (ext : Externals) (cs : ColumnScan)
    (rc : ResultColumn)
    (hflags : cs.page_header.isset_data_page_header = true ∧
      cs.page_header.isset_dictionary_page_header = false ∧
      cs.page_header.isset_data_page_header_v2 = false)
    (hn : 0 ≤ cs.page_header.data_page_header.num_values)
    (hinv : cs.defined_ptr = cs.page_start_row) (hpsr : 0 ≤ cs.page_start_row)
    (hD : cs.page_start_row.toNat + cs.page_header.data_page_header.num_values.toNat
            ≤ rc.defined.length) :
    ∃ defined',
      cs.scan_def_levels ext rc false = Outcome.ok (cs, { rc with defined := defined' }) ∧
      defined'.length = rc.defined.length ∧
      (∀ i, i < cs.page_header.data_page_header.num_values.toNat →
        defined'[cs.page_start_row.toNat + i]? = some 1) ∧
      (∀ r, r < cs.page_start_row.toNat ∨
          cs.page_start_row.toNat + cs.page_header.data_page_header.num_values.toNat ≤ r →
        defined'[r]? = rc.defined[r]?) ∧
      (cs.scan_data_page ext rc false).satisfies (fun st => st.2.defined = defined') := by
  obtain ⟨defined', h1, h2, h3, h4⟩ := writeRange_spec rc.defined cs.page_start_row.toNat
    (List.replicate cs.page_header.data_page_header.num_values.toNat 1)
    (by simpa using hD)
  rw [Int.toNat_of_nonneg hpsr, ← hinv] at h1
  have hdl : cs.scan_def_levels ext rc false =
      Outcome.ok (cs, { rc with defined := defined' }) := by
    unfold ColumnScan.scan_def_levels
    simp only [Bool.false_eq_true, if_false, not_lt.mpr hn, h1]
  refine ⟨defined', hdl, h2, ?_, ?_, ?_⟩
  · intro i hi
    rw [h3 i (by simpa using hi)]
    simp [hi]
  · intro r hr
    exact h4 r (by simpa using hr)
  · unfold ColumnScan.scan_data_page
    simp only [hflags.1, hflags.2.1, hflags.2.2, Bool.not_true, Bool.or_false,
      Bool.false_eq_true, if_false, hdl]
    apply Outcome.satisfies_andThen
    · simp only [Outcome.andThen]
      split
      · exact scan_data_page_dict_defined ext cs _
      · exact scan_data_page_dict_defined ext cs _
      · exact scan_data_page_plain_defined cs _
      · rfl
    · intro st hst
      exact hst

/-- `scan_column` starts with `defined_ptr` at row `page_start_row = 0` of the defined
bytes, and a data page moves both by `num_values`. -/
theorem scan_data_page_keeps_defined_ptr (ext : Externals) (cs : ColumnScan)
    (rc : ResultColumn) (hdl : Bool) (r : ColumnScan × ResultColumn)
    (h : cs.scan_data_page ext rc hdl = .ok r)
    (hinv : cs.defined_ptr = cs.page_start_row) (hpsr : 0 ≤ cs.page_start_row)
    (hn : 0 ≤ cs.page_header.data_page_header.num_values)
    (h64 : cs.page_start_row + cs.page_header.data_page_header.num_values < two64) :
    r.1.defined_ptr = r.1.page_start_row := by
  have f := (scan_data_page_frame ext cs rc hdl r h).1
  rw [f]
  simp only [hinv]
  exact (toU64_of_range _ ⟨by omega, h64⟩).symm

/-! ### REPEATED columns -/

theorem set_repetition_type_length (r : FieldRepetitionType) (l : List SchemaElement) :
    ∀ i, (set_repetition_type r i l).length = l.length := by
  induction l with
  | nil => intro i; simp [set_repetition_type]
  | cons e tl ih =>
    intro i
    cases i with
    | zero => simp [set_repetition_type]
    | succ i => simp [set_repetition_type, ih]

theorem set_repetition_type_getElem? (r : FieldRepetitionType) (l : List SchemaElement) :
    ∀ i, (set_repetition_type r i l)[i]? =
      (l[i]?).map (fun e => { e with repetition_type := r }) := by
  induction l with
  | nil => intro i; simp [set_repetition_type]
  | cons e tl ih =>
    intro i
    cases i with
    | zero => simp [set_repetition_type]
    | succ i => simp [set_repetition_type, ih]

theorem read_checks_leaves_set_repetition_type (r : FieldRepetitionType)
    (l : List SchemaElement) :
    ∀ i, read_checks_leaves (set_repetition_type r i l) = read_checks_leaves l := by
  induction l with
  | nil => intro i; simp [set_repetition_type]
  | cons e tl ih =>
    intro i
    cases i with
    | zero => simp [set_repetition_type, read_checks_leaves]
    | succ i => simp [set_repetition_type, read_checks_leaves, ih]

/-- C20, amended. A leaf column with `repetition_type` REPEATED is not rejected for
that: `read_checks` does not look at `repetition_type`, and `scan_column` only asks
whether it is REQUIRED. On a file whose column `c` is REPEATED, `read_checks` succeeds
or fails, and the scan of that column ends, exactly as on the same file with the column
OPTIONAL. -/
theorem repeated_column_scanned_as_optional (ext : Externals) (fuel : Nat)
    (self : ParquetFile) (s : ScanState) (c : ResultColumn) (sch : SchemaElement)
    (hsch : self.file_meta_data.schema[c.id + 1]? = some sch)
    (hrep : sch.repetition_type = FieldRepetitionType.REPEATED) :
    (self.with_repetition_type (c.id + 1) FieldRepetitionType.OPTIONAL).read_checks.isOk =
        self.read_checks.isOk ∧
      ParquetFile.scan_column ext fuel
          (self.with_repetition_type (c.id + 1) FieldRepetitionType.OPTIONAL) s c =
        ParquetFile.scan_column ext fuel self s c := by
  constructor
  · unfold ParquetFile.read_checks ParquetFile.with_repetition_type
    simp only [set_repetition_type_length]
    cases hs : self.file_meta_data.schema with
    | nil => simp [hs] at hsch
    | cons root leaves =>
      simp only [set_repetition_type, read_checks_leaves_set_repetition_type]
      split
      · rfl
      · split
        · rfl
        · split
          · rfl
          · split <;> rfl
  · unfold ParquetFile.scan_column ParquetFile.with_repetition_type
    simp only [set_repetition_type_getElem?, hsch, Option.map_some', hrep]
    rfl

/-! ### A page inside the loop of `scan_column` -/

theorem scan_page_eq (ext : Externals) (codec : CompressionCodec) (hdl : Bool)
    (st : ColumnRun) (buf : List Nat) (ph : PageHeader) (consumed : Nat)
    (hread : readBytes st.chunk_buf st.chunk_ptr (toU32 st.bytes_to_read).toNat = some buf)
    (hunpack : ext.unpack_page_header buf = some (ph, consumed)) :
    scan_page ext codec hdl st =
      ((select_page_buf ext codec (after_header st ph consumed)).andThen fun st =>
        match st.cs.page_header.type with
        | .DICTIONARY_PAGE => st.step (st.cs.scan_dict_page st.result_col)
        | .DATA_PAGE => st.step (st.cs.scan_data_page ext st.result_col hdl)
        | .DATA_PAGE_V2 => .thrown .v2DataPage st
        | _ => .ok st).andThen fun st' =>
          .ok { st' with
                chunk_ptr := (after_header st ph consumed).chunk_ptr + ph.compressed_page_size,
                bytes_to_read := st'.bytes_to_read - ph.compressed_page_size } := by
  unfold scan_page
  simp only [hread, hunpack]
  rfl

theorem scan_pages_at_page (ext : Externals) (codec : CompressionCodec) (hdl : Bool)
    (e : Err) (st st' : ColumnRun) (k : Nat) :
    ∀ (st0 : ColumnRun) (fuel : Nat), k < fuel →
      scan_pages_upto ext codec hdl k st0 = some st →
      0 < st.bytes_to_read →
      scan_page ext codec hdl st = Outcome.thrown e st' →
      scan_pages ext codec hdl fuel st0 = some (Outcome.thrown e st') := by
  induction k with
  | zero =>
    intro st0 fuel hf hp hb hs
    simp only [scan_pages_upto, Option.some.injEq] at hp
    subst hp
    obtain ⟨f, rfl⟩ : ∃ f, fuel = f + 1 := ⟨fuel - 1, by omega⟩
    rw [scan_pages_succ, if_pos hb, hs]
  | succ k ih =>
    intro st0 fuel hf hp hb hs
    obtain ⟨f, rfl⟩ : ∃ f, fuel = f + 1 := ⟨fuel - 1, by omega⟩
    simp only [scan_pages_upto] at hp
    split at hp
    · rename_i hb0
      rw [scan_pages_succ, if_pos hb0]
      split at hp
      · rename_i st1 h1
        rw [h1]
        exact ih st1 f (by omega) hp hb hs
      · simp at hp
    · simp at hp

theorem scan_column_eq_loop (ext : Externals) (fuel : Nat) (self : ParquetFile)
    (s : ScanState) (c : ResultColumn) (codec : CompressionCodec) (hdl : Bool)
    (st0 : ColumnRun) (h : self.page_loop s c = some (codec, hdl, st0)) :
    ParquetFile.scan_column ext fuel self s c =
      (scan_pages ext codec hdl fuel st0).map fun o =>
        o.andThen fun st => st.step (st.cs.cleanup st.result_col) := by
  unfold ParquetFile.page_loop at h
  unfold ParquetFile.scan_column
  cases hrg : self.file_meta_data.row_groups[s.row_group_idx]? with
  | none => simp [hrg] at h
  | some rg =>
    cases hchunk : rg.columns[c.id]? with
    | none => simp [hrg, hchunk] at h
    | some chunk =>
      simp only [hrg, hchunk] at h ⊢
      by_cases hc : chunk.isset_file_path = true ∨ chunk.meta_data.path_in_schema.length ≠ 1 ∨
          allocFails (toU64 chunk.meta_data.total_compressed_size) = true
      · rw [if_pos hc] at h
        simp at h
      · rw [if_neg hc] at h
        simp only [not_or, Bool.not_eq_true, Decidable.not_not] at hc
        by_cases hf : ((self.pfile.seekg (chunk_start chunk)).read
            chunk.meta_data.total_compressed_size.toNat).2.failed = true
        · simp [hf] at h
        · simp only [hf, Bool.false_eq_true, if_false] at h
          cases hsch : self.file_meta_data.schema[c.id + 1]? with
          | none => simp [hsch] at h
          | some sch =>
            simp only [hsch, Option.some.injEq, Prod.mk.injEq] at h
            obtain ⟨h1, h2, h3⟩ := h
            subst h1 h2 h3
            simp only [hc.1, hc.2.1, hc.2.2, hf, Bool.false_eq_true, if_false, ne_eq,
              not_true_eq_false]

theorem scan_column_at_page (ext : Externals) (fuel : Nat) (self : ParquetFile)
    (s : ScanState) (c : ResultColumn) (codec : CompressionCodec) (hdl : Bool)
    (st0 st st' : ColumnRun) (k : Nat) (e : Err)
    (hloop : self.page_loop s c = some (codec, hdl, st0))
    (hk : scan_pages_upto ext codec hdl k st0 = some st) (hfuel : k < fuel)
    (hb : 0 < st.bytes_to_read)
    (hs : scan_page ext codec hdl st = Outcome.thrown e st') :
    ParquetFile.scan_column ext fuel self s c = some (Outcome.thrown e st') := by
  rw [scan_column_eq_loop ext fuel self s c codec hdl st0 hloop,
    scan_pages_at_page ext codec hdl e st st' k st0 fuel hfuel hk hb hs]
  rfl

/-- C22, amended. A page of a SNAPPY chunk (reached by the page loop of `scan_column`
after `k` pages) whose payload does not decompress makes `scan_column` throw, with the
result column untouched by that page. The byte count of a payload that does decompress
is not compared with `uncompressed_page_size`: the decompressed bytes become the page
buffer and `page_buf_len` is taken from the header, whatever the two are. -/
theorem snappy_page_failure (ext : Externals) (fuel : Nat) (self : ParquetFile)
    (s : ScanState) (c : ResultColumn) (hdl : Bool) (st0 st : ColumnRun) (k : Nat)
    (buf : List Nat) (ph : PageHeader) (consumed : Nat) (input : List Nat) (n : Nat)
    (hloop : self.page_loop s c = some (CompressionCodec.SNAPPY, hdl, st0))
    (hk : scan_pages_upto ext CompressionCodec.SNAPPY hdl k st0 = some st)
    (hfuel : k < fuel) (hb : 0 < st.bytes_to_read)
    (hread : readBytes st.chunk_buf st.chunk_ptr (toU32 st.bytes_to_read).toNat = some buf)
    (hunpack : ext.unpack_page_header buf = some (ph, consumed))
    (hcps : 0 ≤ ph.compressed_page_size)
    (hin : readBytes st.chunk_buf (after_header st ph consumed).chunk_ptr
      ph.compressed_page_size.toNat = some input)
    (hlen : ext.snappy_GetUncompressedLength input = some n)
    (halloc : allocFails (toU64 ((n : Int) + 1)) = false) :
    (ext.snappy_RawUncompress input = none →
      ParquetFile.scan_column ext fuel self s c =
        some (Outcome.thrown Err.decompressionFailure (after_header st ph consumed))) ∧
    (∀ out, ext.snappy_RawUncompress input = some out → out.length ≤ n + 1 →
      select_page_buf ext CompressionCodec.SNAPPY (after_header st ph consumed) =
        Outcome.ok { after_header st ph consumed with
          cs := { (after_header st ph consumed).cs with
            page_buf := out
            page_buf_ptr := 0
            page_buf_len := toU64 ph.uncompressed_page_size
            page_buf_end_ptr := ph.uncompressed_page_size } }) := by
  have hsel : ∀ r, ext.snappy_RawUncompress input = r →
      select_page_buf ext CompressionCodec.SNAPPY (after_header st ph consumed) =
        match r with
        | none => Outcome.thrown Err.decompressionFailure (after_header st ph consumed)
        | some out =>
          if n + 1 < out.length then Outcome.undefined
          else Outcome.ok { after_header st ph consumed with
            cs := { (after_header st ph consumed).cs with
              page_buf := out
              page_buf_ptr := 0
              page_buf_len := toU64 ph.uncompressed_page_size
              page_buf_end_ptr := ph.uncompressed_page_size } } := by
    intro r hr
    have h1 : (after_header st ph consumed).cs.page_header = ph := rfl
    have h2 : (after_header st ph consumed).chunk_buf = st.chunk_buf := rfl
    simp only [select_page_buf, h1, h2, not_lt.mpr hcps, if_false, hin, hlen, halloc,
      Bool.false_eq_true, hr]
  constructor
  · intro hnone
    apply scan_column_at_page ext fuel self s c CompressionCodec.SNAPPY hdl st0 st _ k _ hloop hk
      hfuel hb
    rw [scan_page_eq ext _ hdl st buf ph consumed hread hunpack, hsel none hnone]
    rfl
  · intro out hout hl
    rw [hsel (some out) hout]
    simp only [not_lt.mpr hl, if_false]

/-- C23. A page of type DATA_PAGE_V2 (reached by the page loop of `scan_column` after
`k` pages, in a chunk whose codec gives a page buffer for it) makes `scan_column` throw.
At the throw the result column (values and defined bytes), `page_start_row`,
`defined_ptr` and the dictionary are the ones before the page. -/
theorem data_page_v2_is_rejected (ext : Externals) (fuel : Nat) (self : ParquetFile)
    (s : ScanState) (c : ResultColumn) (codec : CompressionCodec) (hdl : Bool)
    (st0 st st2 : ColumnRun) (k : Nat) (buf : List Nat) (ph : PageHeader) (consumed : Nat)
    (hloop : self.page_loop s c = some (codec, hdl, st0))
    (hk : scan_pages_upto ext codec hdl k st0 = some st)
    (hfuel : k < fuel) (hb : 0 < st.bytes_to_read)
    (hread : readBytes st.chunk_buf st.chunk_ptr (toU32 st.bytes_to_read).toNat = some buf)
    (hunpack : ext.unpack_page_header buf = some (ph, consumed))
    (hty : ph.type = PageType.DATA_PAGE_V2)
    (hsel : select_page_buf ext codec (after_header st ph consumed) = Outcome.ok st2) :
    ParquetFile.scan_column ext fuel self s c = some (Outcome.thrown Err.v2DataPage st2) ∧
      st2.result_col = st.result_col ∧
      st2.cs.page_start_row = st.cs.page_start_row ∧
      st2.cs.defined_ptr = st.cs.defined_ptr ∧
      st2.cs.seen_dict = st.cs.seen_dict ∧ st2.cs.dict = st.cs.dict := by
  have f := select_page_buf_frame ext codec _ _ hsel
  have hph : st2.cs.page_header = ph := by rw [f]; rfl
  refine ⟨?_, by rw [f]; rfl, by rw [f]; rfl, by rw [f]; rfl, by rw [f]; rfl, by rw [f]; rfl⟩
  apply scan_column_at_page ext fuel self s c codec hdl st0 st _ k _ hloop hk hfuel hb
  rw [scan_page_eq ext codec hdl st buf ph consumed hread hunpack, hsel]
  simp only [Outcome.andThen, hph, hty]

/-- C26. One iteration of the three string loops, on a string of declared length `len`
(for BYTE_ARRAY the 4-byte prefix at the cursor, for FIXED_LEN_BYTE_ARRAY the length
`str_len` the loop carries). When the cursor behind the prefix plus `len` is above
`page_buf_end_ptr`, the loop throws with the result column as it was, so no byte of the
string is in the heap chunk. When it is not above, the check passes: the string is
copied (while the copy stays inside the page buffer and the heap chunk) and the loop
goes on with the next position. -/
theorem string_length_check :
    -- the loop of `scan_dict_page` over a BYTE_ARRAY dictionary
    (∀ (k n dict_index : Nat) (cs : ColumnScan) (rc : ResultColumn) (lenBytes : List Nat),
      readBytes cs.page_buf cs.page_buf_ptr 4 = some lenBytes →
      (cs.page_buf_ptr + 4 + (leNat lenBytes : Int) > cs.page_buf_end_ptr →
        ColumnScan.scan_dict_strings k (n + 1) dict_index cs rc =
          Outcome.thrown Err.stringLengthExceedsPayload
            ({ cs with page_buf_ptr := cs.page_buf_ptr + 4 }, rc)) ∧
      (cs.page_buf_ptr + 4 + (leNat lenBytes : Int) ≤ cs.page_buf_end_ptr →
        ∀ (d : List Slot) (chunk chunk' : HeapChunk) (str : List Nat),
          cs.dict = some d → rc.string_heap_chunks[k]? = some chunk →
          readBytes cs.page_buf (cs.page_buf_ptr + 4) (leNat lenBytes) = some str →
          dict_index < d.length → chunk.push str = some chunk' →
          ColumnScan.scan_dict_strings k (n + 1) dict_index cs rc =
            ColumnScan.scan_dict_strings k n (dict_index + 1)
              { cs with
                dict := some (d.set dict_index (Slot.ptr (some ⟨k, chunk.bytes.length⟩)))
                page_buf_ptr := cs.page_buf_ptr + 4 + (leNat lenBytes : Int) }
              { rc with string_heap_chunks := rc.string_heap_chunks.set k chunk' })) ∧
    -- the loop of `scan_data_page_plain` at a defined position of a BYTE_ARRAY column
    (∀ (k n : Nat) (v : Int) (sl : Nat) (cs : ColumnScan) (rc : ResultColumn)
        (d : Nat) (lenBytes : List Nat),
      rc.col.type = PType.BYTE_ARRAY →
      readAt rc.defined (cs.defined_ptr + v) = some d → d ≠ 0 →
      readBytes cs.page_buf cs.page_buf_ptr 4 = some lenBytes →
      (cs.page_buf_ptr + 4 + (leNat lenBytes : Int) > cs.page_buf_end_ptr →
        ColumnScan.plain_strings_loop k (n + 1) v sl cs rc =
          Outcome.thrown Err.stringLengthExceedsPayload
            ({ cs with page_buf_ptr := cs.page_buf_ptr + 4 }, rc)) ∧
      (cs.page_buf_ptr + 4 + (leNat lenBytes : Int) ≤ cs.page_buf_end_ptr →
        ∀ (chunk chunk' : HeapChunk) (str : List Nat) (data : List Slot),
          rc.string_heap_chunks[k]? = some chunk →
          writeAt rc.data (toU64 (cs.page_start_row + v))
            (Slot.ptr (some ⟨k, chunk.bytes.length⟩)) = some data →
          readBytes cs.page_buf (cs.page_buf_ptr + 4) (leNat lenBytes) = some str →
          chunk.push str = some chunk' →
          ColumnScan.plain_strings_loop k (n + 1) v sl cs rc =
            ColumnScan.plain_strings_loop k n (v + 1) (leNat lenBytes)
              { cs with page_buf_ptr := cs.page_buf_ptr + 4 + (leNat lenBytes : Int) }
              { rc with
                data := data
                string_heap_chunks := rc.string_heap_chunks.set k chunk' })) ∧
    -- the same loop at a defined position of a FIXED_LEN_BYTE_ARRAY column
    (∀ (k n : Nat) (v : Int) (sl : Nat) (cs : ColumnScan) (rc : ResultColumn) (d : Nat),
      rc.col.type ≠ PType.BYTE_ARRAY →
      readAt rc.defined (cs.defined_ptr + v) = some d → d ≠ 0 →
      (cs.page_buf_ptr + (sl : Int) > cs.page_buf_end_ptr →
        ColumnScan.plain_strings_loop k (n + 1) v sl cs rc =
          Outcome.thrown Err.stringLengthExceedsPayload (cs, rc)) ∧
      (cs.page_buf_ptr + (sl : Int) ≤ cs.page_buf_end_ptr →
        ∀ (chunk chunk' : HeapChunk) (str : List Nat) (data : List Slot),
          rc.string_heap_chunks[k]? = some chunk →
          writeAt rc.data (toU64 (cs.page_start_row + v))
            (Slot.ptr (some ⟨k, chunk.bytes.length⟩)) = some data →
          readBytes cs.page_buf cs.page_buf_ptr sl = some str →
          chunk.push str = some chunk' →
          ColumnScan.plain_strings_loop k (n + 1) v sl cs rc =
            ColumnScan.plain_strings_loop k n (v + 1) sl
              { cs with page_buf_ptr := cs.page_buf_ptr + (sl : Int) }
              { rc with
                data := data
                string_heap_chunks := rc.string_heap_chunks.set k chunk' })) := by
  refine ⟨?_, ?_, ?_⟩
  · intro k n dict_index cs rc lenBytes hlen
    constructor
    · intro hgt
      simp only [ColumnScan.scan_dict_strings, hlen, hgt, if_true]
    · intro hle d chunk chunk' str hd hch hstr hidx hpush
      simp only [ColumnScan.scan_dict_strings, hlen, not_lt.mpr hle, gt_iff_lt, if_false, hd, hch,
        hstr, hidx, if_true, hpush]
  · intro k n v sl cs rc d lenBytes hty hdef hd0 hlen
    constructor
    · intro hgt
      simp only [ColumnScan.plain_strings_loop, hdef, hd0, if_false, hty, if_true, hlen,
        Option.map_some', hgt]
    · intro hle chunk chunk' str data hch hwr hstr hpush
      simp only [ColumnScan.plain_strings_loop, hdef, hd0, if_false, hty, if_true, hlen,
        Option.map_some', not_lt.mpr hle, gt_iff_lt, hch, hwr, hstr, hpush]
  · intro k n v sl cs rc d hty hdef hd0
    constructor
    · intro hgt
      simp only [ColumnScan.plain_strings_loop, hdef, hd0, if_false, hty, hgt, if_true]
    · intro hle chunk chunk' str data hch hwr hstr hpush
      simp only [ColumnScan.plain_strings_loop, hdef, hd0, if_false, hty, not_lt.mpr hle,
        gt_iff_lt, hch, hwr, hstr, hpush]

/-! ### Strings -/

theorem strings_end_ge (ba : Bool) (strs : List (List Nat)) :
    ∀ p : Int, p ≤ strings_end ba p strs := by
  induction strs with
  | nil => intro p; exact le_refl p
  | cons s rest ih =>
    intro p
    simp only [strings_end]
    have h := ih (p + (if ba = true then 4 else 0) + (s.length : Int))
    cases ba
    · simp only [Bool.false_eq_true, if_false] at h ⊢
      omega
    · simp only [if_true] at h ⊢
      omega

theorem set_getElem?_same {α : Type} (l : List α) (k : Nat) (a : α) (h : l[k]? = some a) :
    l.set k a = l := by
  apply List.ext_getElem?
  intro r
  by_cases hr : k = r
  · subst hr
    have hlt : k < l.length := by
      by_contra hc
      rw [List.getElem?_eq_none (by omega)] at h
      simp at h
    rw [List.getElem?_set_self hlt, h]
  · rw [List.getElem?_set_ne hr]

theorem strings_at_byte_array (sl sl' : Nat) (mem : List Nat) (strs : List (List Nat)) :
    ∀ p : Int, strings_at true sl mem p strs = strings_at true sl' mem p strs := by
  induction strs with
  | nil => intro p; rfl
  | cons s rest ih =>
    intro p
    simp only [strings_at, if_true]
    rw [ih]

theorem heap_offset_zero (strs : List (List Nat)) : heap_offset strs 0 = 0 := by
  simp [heap_offset, heap_bytes]

theorem heap_offset_succ (s : List Nat) (rest : List (List Nat)) (j : Nat) :
    heap_offset (s :: rest) (j + 1) = s.length + 1 + heap_offset rest j := by
  simp [heap_offset, heap_bytes]
  omega

/-- The loop of `fill_dict<T>` from entry `i` on, `n` entries to go: the entries receive
consecutive `sz`-byte values of the payload. -/
theorem fill_dict_loop_spec (sz : Nat) (hsz : 0 < sz) (n : Nat) :
    ∀ (i ptr : Nat) (cs : ColumnScan) (d : List Slot),
      cs.page_buf_ptr = (ptr : Int) → cs.dict = some d → i + n ≤ d.length →
      n * sz ≤ cs.page_buf.length - ptr →
      ∃ d', ColumnScan.fill_dict_loop sz n i cs =
          Outcome.ok { cs with page_buf_ptr := ((ptr + n * sz : Nat) : Int), dict := some d' } ∧
        d'.length = d.length ∧
        (∀ j, j < n → d'[i + j]? = some (Slot.raw ((cs.page_buf.drop (ptr + j * sz)).take sz))) ∧
        (∀ r, r < i ∨ i + n ≤ r → d'[r]? = d[r]?) := by
  induction n with
  | zero =>
    intro i ptr cs d hptr hd _ _
    refine ⟨d, ?_, rfl, ?_, ?_⟩
    · simp [ColumnScan.fill_dict_loop, ← hptr, ← hd]
    · intro j hj
      omega
    · intro r _
      rfl
  | succ n ih =>
    intro i ptr cs d hptr hd hi hB
    have hmul : (n + 1) * sz = n * sz + sz := by ring
    have hle : sz ≤ (n + 1) * sz := Nat.le_mul_of_pos_left _ (by omega)
    have hrd : readBytes cs.page_buf cs.page_buf_ptr sz =
        some ((cs.page_buf.drop ptr).take sz) := by
      rw [hptr]
      exact readBytes_nat _ _ _ (by omega)
    obtain ⟨d', h1, h2, h3, h4⟩ := ih (i + 1) (ptr + sz)
      { cs with page_buf_ptr := cs.page_buf_ptr + (sz : Int),
                dict := some (d.set i (Slot.raw ((cs.page_buf.drop ptr).take sz))) }
      (d.set i (Slot.raw ((cs.page_buf.drop ptr).take sz)))
      (by simp only; rw [hptr]; push_cast; rfl) rfl
      (by simp only [List.length_set]; omega) (by simp only; omega)
    simp only at h1 h3
    refine ⟨d', ?_, ?_, ?_, ?_⟩
    · simp only [ColumnScan.fill_dict_loop, hrd, hd, show i < d.length by omega, if_true]
      rw [h1]
      congr 3
      omega
    · rw [h2, List.length_set]
    · intro j hj
      cases j with
      | zero =>
        rw [Nat.add_zero, h4 i (Or.inl (by omega)), List.getElem?_set_self (by omega)]
        simp
      | succ j =>
        have := h3 j (by omega)
        rw [show i + (j + 1) = i + 1 + j by omega, this]
        congr 4
        ring
    · intro r hr
      rw [h4 r (by omega), List.getElem?_set_ne (by omega)]

/-- The loop of `scan_dict_page` over a BYTE_ARRAY dictionary from entry `i` on: the
strings go to heap chunk `k` one after the other, each followed by a NUL byte, and the
entries point to them. -/
theorem scan_dict_strings_spec (k : Nat) (strs : List (List Nat)) :
    ∀ (i : Nat) (cs : ColumnScan) (rc : ResultColumn) (d : List Slot) (chunk : HeapChunk),
      strings_at true 0 cs.page_buf cs.page_buf_ptr strs = true →
      strings_end true cs.page_buf_ptr strs ≤ cs.page_buf_end_ptr →
      cs.dict = some d → i + strs.length ≤ d.length →
      rc.string_heap_chunks[k]? = some chunk →
      chunk.bytes.length + (heap_bytes strs).length ≤ chunk.capacity →
      ∃ d', ColumnScan.scan_dict_strings k strs.length i cs rc =
          Outcome.ok
            ({ cs with page_buf_ptr := strings_end true cs.page_buf_ptr strs, dict := some d' },
             { rc with string_heap_chunks :=
                rc.string_heap_chunks.set k { chunk with bytes := chunk.bytes ++ heap_bytes strs } }) ∧
        d'.length = d.length ∧
        (∀ j, j < strs.length →
          d'[i + j]? = some (Slot.ptr (some ⟨k, chunk.bytes.length + heap_offset strs j⟩))) ∧
        (∀ r, r < i ∨ i + strs.length ≤ r → d'[r]? = d[r]?) := by
  induction strs with
  | nil =>
    intro i cs rc d chunk _ _ hd _ hch _
    refine ⟨d, ?_, rfl, ?_, ?_⟩
    · have hset : rc.string_heap_chunks.set k { chunk with bytes := chunk.bytes ++ heap_bytes [] }
          = rc.string_heap_chunks := by
        simp only [heap_bytes, List.append_nil]
        exact set_getElem?_same _ _ _ hch
      simp only [List.length_nil, ColumnScan.scan_dict_strings, strings_end, hset, ← hd]
    · intro j hj
      simp at hj
    · intro r _
      rfl
  | cons s rest ih =>
    intro i cs rc d chunk hat hend hd hi hch hcap
    simp only [strings_at, if_true, Bool.and_eq_true, decide_eq_true_eq] at hat
    obtain ⟨⟨hlb, hstr⟩, hrest⟩ := hat
    simp only [Option.map_eq_some'] at hlb
    obtain ⟨lb, hlb, hlen⟩ := hlb
    simp only [strings_end, if_true] at hend
    have hge := strings_end_ge true rest (cs.page_buf_ptr + 4 + (s.length : Int))
    have hck : ¬ (cs.page_buf_ptr + 4 + (s.length : Int) > cs.page_buf_end_ptr) := by
      omega
    simp only [List.length_cons] at hi
    simp only [heap_bytes, List.length_append, List.length_cons, List.length_nil] at hcap
    have hpush : chunk.push s = some { chunk with bytes := chunk.bytes ++ s ++ [0] } := by
      simp only [HeapChunk.push]
      rw [if_pos (by omega)]
    have hklt : k < rc.string_heap_chunks.length := by
      by_contra hc
      rw [List.getElem?_eq_none (by omega)] at hch
      simp at hch
    obtain ⟨d', h1, h2, h3, h4⟩ := ih (i + 1)
      { cs with
        dict := some (d.set i (Slot.ptr (some ⟨k, chunk.bytes.length⟩)))
        page_buf_ptr := cs.page_buf_ptr + 4 + (s.length : Int) }
      { rc with string_heap_chunks :=
          rc.string_heap_chunks.set k { chunk with bytes := chunk.bytes ++ s ++ [0] } }
      (d.set i (Slot.ptr (some ⟨k, chunk.bytes.length⟩)))
      { chunk with bytes := chunk.bytes ++ s ++ [0] }
      hrest hend rfl (by simp only [List.length_set]; omega)
      (by simp only; rw [List.getElem?_set_self hklt])
      (by simp only [List.length_append, List.length_cons, List.length_nil]; omega)
    simp only at h1 h3
    refine ⟨d', ?_, ?_, ?_, ?_⟩
    · simp only [List.length_cons, ColumnScan.scan_dict_strings, hlb, hck, if_false, hd, hch, hlen,
        hstr, show i < d.length by omega, if_true, hpush]
      rw [h1]
      simp only [strings_end, if_true, heap_bytes, List.set_set, List.append_assoc, if_neg hck]
    · rw [h2, List.length_set]
    · intro j hj
      cases j with
      | zero =>
        rw [Nat.add_zero, h4 i (Or.inl (by omega)), List.getElem?_set_self (by omega),
          heap_offset_zero, Nat.add_zero]
      | succ j =>
        simp only [List.length_cons] at hj
        have := h3 j (by omega)
        rw [show i + (j + 1) = i + 1 + j by omega, this, heap_offset_succ]
        simp only [List.length_append, List.length_cons, List.length_nil]
        congr 4
        omega
    · intro r hr
      simp only [List.length_cons] at hr
      rw [h4 r (by omega), List.getElem?_set_ne (by omega)]
theorem defined_rank_zero (w : List Nat) : defined_rank w 0 = 0 := by
  simp [defined_rank]

theorem defined_rank_drop_succ (l : List Nat) (a j d : Nat) (h : l[a]? = some d) :
    defined_rank (l.drop a) (j + 1) =
      (if d = 0 then 0 else 1) + defined_rank (l.drop (a + 1)) j := by
  unfold defined_rank
  rw [take_succ_drop l a j d h]
  by_cases hd : d = 0
  · rw [List.countP_cons_of_neg _ _ (by simp [hd])]
    simp [hd]
  · rw [List.countP_cons_of_pos _ _ (by simp [hd])]
    simp [hd]
    omega


/-- The BYTE_ARRAY / FIXED_LEN_BYTE_ARRAY loop of `scan_data_page_plain` from position `vn`
on, `m` positions to go: the strings `strs` of the payload go to heap chunk `k` one after
the other, each followed by a NUL byte, and the defined positions point to them. -/
theorem plain_strings_loop_spec (k : Nat) (ba : Bool) (m : Nat) :
    ∀ (sl : Nat) (strs : List (List Nat)) (vn dp psr : Nat) (v : Int) (cs : ColumnScan)
      (rc : ResultColumn) (chunk : HeapChunk),
      v = (vn : Int) → cs.defined_ptr = (dp : Int) → cs.page_start_row = (psr : Int) →
      ba = decide (rc.col.type = PType.BYTE_ARRAY) →
      dp + vn + m ≤ rc.defined.length →
      psr + vn + m ≤ rc.data.length → (rc.data.length : Int) ≤ two64 →
      strs.length = defined_rank (rc.defined.drop (dp + vn)) m →
      strings_at ba sl cs.page_buf cs.page_buf_ptr strs = true →
      strings_end ba cs.page_buf_ptr strs ≤ cs.page_buf_end_ptr →
      rc.string_heap_chunks[k]? = some chunk →
      chunk.bytes.length + (heap_bytes strs).length ≤ chunk.capacity →
      ∃ data',
        ColumnScan.plain_strings_loop k m v sl cs rc =
          Outcome.ok
            ({ cs with page_buf_ptr := strings_end ba cs.page_buf_ptr strs },
             { rc with
               data := data'
               string_heap_chunks :=
                 rc.string_heap_chunks.set k { chunk with bytes := chunk.bytes ++ heap_bytes strs } }) ∧
        data'.length = rc.data.length ∧
        (∀ j, j < m → ∀ d, rc.defined[dp + vn + j]? = some d → d ≠ 0 →
          data'[psr + vn + j]? = some (Slot.ptr (some ⟨k, chunk.bytes.length +
            heap_offset strs (defined_rank (rc.defined.drop (dp + vn)) j)⟩))) ∧
        (∀ j, j < m → rc.defined[dp + vn + j]? = some 0 →
          data'[psr + vn + j]? = rc.data[psr + vn + j]?) ∧
        (∀ r, r < psr + vn ∨ psr + vn + m ≤ r → data'[r]? = rc.data[r]?) := by
  induction m with
  | zero =>
    intro sl strs vn dp psr v cs rc chunk hv hdp hpsr hba _ _ _ hlen hat hend hch hcap
    rw [defined_rank_zero] at hlen
    have hnil : strs = [] := List.length_eq_zero.mp hlen
    subst hnil
    refine ⟨rc.data, ?_, rfl, ?_, ?_, ?_⟩
    · have hset : rc.string_heap_chunks.set k { chunk with bytes := chunk.bytes ++ heap_bytes [] }
          = rc.string_heap_chunks := by
        simp only [heap_bytes, List.append_nil]
        exact set_getElem?_same _ _ _ hch
      simp only [ColumnScan.plain_strings_loop, strings_end, hset]
    · intro j hj
      omega
    · intro j hj
      omega
    · intro r _
      rfl
  | succ m ih =>
    intro sl strs vn dp psr v cs rc chunk hv hdp hpsr hba hD hR h64 hlen hat hend hch hcap
    have hlt : dp + vn < rc.defined.length := by omega
    have hget : rc.defined[dp + vn]? = some (rc.defined[dp + vn]) :=
      List.getElem?_eq_getElem hlt
    generalize hdv : rc.defined[dp + vn] = d at hget
    have hrk : ∀ j, defined_rank (rc.defined.drop (dp + vn)) (j + 1) =
        (if d = 0 then 0 else 1) + defined_rank (rc.defined.drop (dp + (vn + 1))) j :=
      fun j => defined_rank_drop_succ rc.defined (dp + vn) j d hget
    have hra : readAt rc.defined (cs.defined_ptr + v) = some d := by
      rw [hdp, hv, ← Nat.cast_add, readAt_nat, hget]
    have hv1 : v + 1 = ((vn + 1 : Nat) : Int) := by rw [hv]; push_cast; rfl
    simp only [ColumnScan.plain_strings_loop, hra]
    by_cases hd0 : d = 0
    · -- an undefined position
      rw [if_pos hd0]
      simp only [hd0, if_true, Nat.zero_add] at hrk
      rw [hrk m] at hlen
      obtain ⟨data', h1, h2, h3, h4, h5⟩ := ih sl strs (vn + 1) dp psr (v + 1) cs rc chunk hv1 hdp
        hpsr hba (by omega) (by omega) h64 hlen hat hend hch hcap
      refine ⟨data', h1, h2, ?_, ?_, ?_⟩
      · intro j hj d' hd' hne
        cases j with
        | zero =>
          rw [Nat.add_zero, hget] at hd'
          exact absurd (hd0 ▸ (Option.some.inj hd').symm) hne
        | succ j =>
          have := h3 j (by omega) d' (by rw [← hd']; congr 1; omega) hne
          rw [show psr + vn + (j + 1) = psr + (vn + 1) + j by omega, this, hrk j]
      · intro j hj hz
        cases j with
        | zero => exact h5 (psr + vn) (Or.inl (by omega))
        | succ j =>
          have := h4 j (by omega) (by rw [← hz]; congr 1; omega)
          rw [show psr + vn + (j + 1) = psr + (vn + 1) + j by omega, this]
      · intro r hr
        exact h5 r (by omega)
    · -- a defined position
      rw [if_neg hd0]
      simp only [hd0, if_false] at hrk
      rw [hrk m] at hlen
      cases strs with
      | nil =>
        simp only [List.length_nil] at hlen
        omega
      | cons s rest =>
        simp only [List.length_cons] at hlen
        have hrow : toU64 (cs.page_start_row + v) = ((psr + vn : Nat) : Int) := by
          rw [hpsr, hv, ← Nat.cast_add]
          apply toU64_nat
          have : ((psr + vn : Nat) : Int) < (rc.data.length : Int) := by
            exact_mod_cast (by omega : psr + vn < rc.data.length)
          omega
        have hwr : writeAt rc.data ((psr + vn : Nat) : Int)
            (Slot.ptr (some ⟨k, chunk.bytes.length⟩)) =
            some (rc.data.set (psr + vn) (Slot.ptr (some ⟨k, chunk.bytes.length⟩))) :=
          writeAt_nat _ _ _ (by omega)
        simp only [heap_bytes, List.length_append, List.length_cons, List.length_nil] at hcap
        have hpush : chunk.push s = some { chunk with bytes := chunk.bytes ++ s ++ [0] } := by
          simp only [HeapChunk.push]
          rw [if_pos (by omega)]
        have hklt : k < rc.string_heap_chunks.length := by
          by_contra hc
          rw [List.getElem?_eq_none (by omega)] at hch
          simp at hch
        have hstep : ∀ (sl' : Nat) (p' : Int) (cs1 : ColumnScan),
            cs1 = { cs with page_buf_ptr := p' } →
            strings_at ba sl' cs.page_buf p' rest = true →
            strings_end ba p' rest ≤ cs.page_buf_end_ptr →
            strings_end ba cs.page_buf_ptr (s :: rest) = strings_end ba p' rest →
            ∃ data',
              ColumnScan.plain_strings_loop k m (v + 1) sl' cs1
                { rc with
                  data := rc.data.set (psr + vn) (Slot.ptr (some ⟨k, chunk.bytes.length⟩))
                  string_heap_chunks :=
                    rc.string_heap_chunks.set k { chunk with bytes := chunk.bytes ++ s ++ [0] } } =
                Outcome.ok
                  ({ cs with page_buf_ptr := strings_end ba cs.page_buf_ptr (s :: rest) },
                   { rc with
                     data := data'
                     string_heap_chunks :=
                       rc.string_heap_chunks.set k
                         { chunk with bytes := chunk.bytes ++ heap_bytes (s :: rest) } }) ∧
              data'.length = rc.data.length ∧
              (∀ j, j < m + 1 → ∀ d, rc.defined[dp + vn + j]? = some d → d ≠ 0 →
                data'[psr + vn + j]? = some (Slot.ptr (some ⟨k, chunk.bytes.length +
                  heap_offset (s :: rest) (defined_rank (rc.defined.drop (dp + vn)) j)⟩))) ∧
              (∀ j, j < m + 1 → rc.defined[dp + vn + j]? = some 0 →
                data'[psr + vn + j]? = rc.data[psr + vn + j]?) ∧
              (∀ r, r < psr + vn ∨ psr + vn + (m + 1) ≤ r → data'[r]? = rc.data[r]?) := by
          intro sl' p' cs1 hcs1 hat' hend' hse
          subst hcs1
          obtain ⟨data', h1, h2, h3, h4, h5⟩ := ih sl' rest (vn + 1) dp psr (v + 1)
            { cs with page_buf_ptr := p' }
            { rc with
              data := rc.data.set (psr + vn) (Slot.ptr (some ⟨k, chunk.bytes.length⟩))
              string_heap_chunks :=
                rc.string_heap_chunks.set k { chunk with bytes := chunk.bytes ++ s ++ [0] } }
            { chunk with bytes := chunk.bytes ++ s ++ [0] }
            hv1 hdp hpsr hba
            (by simpa using (by omega : dp + (vn + 1) + m ≤ rc.defined.length))
            (by simp only [List.length_set]; omega)
            (by simpa using h64)
            (by simp only; omega)
            hat' hend'
            (by simp only; rw [List.getElem?_set_self hklt])
            (by simp only [List.length_append, List.length_cons, List.length_nil]; omega)
          simp only at h1 h2 h3 h4 h5
          refine ⟨data', ?_, ?_, ?_, ?_, ?_⟩
          · rw [h1, hse]
            simp only [heap_bytes, List.set_set, List.append_assoc]
          · rw [h2, List.length_set]
          · intro j hj d' hd' hne
            cases j with
            | zero =>
              rw [Nat.add_zero, h5 (psr + vn) (Or.inl (by omega)), defined_rank_zero,
                heap_offset_zero, Nat.add_zero]
              exact List.getElem?_set_self (by omega)
            | succ j =>
              have := h3 j (by omega) d' (by rw [← hd']; congr 1; omega) hne
              rw [show psr + vn + (j + 1) = psr + (vn + 1) + j by omega, this, hrk j,
                Nat.add_comm 1, heap_offset_succ]
              simp only [List.length_append, List.length_cons, List.length_nil]
              congr 4
              omega
          · intro j hj hz
            cases j with
            | zero =>
              rw [Nat.add_zero, hget] at hz
              exact absurd (Option.some.inj hz) hd0
            | succ j =>
              have := h4 j (by omega) (by rw [← hz]; congr 1; omega)
              rw [show psr + vn + (j + 1) = psr + (vn + 1) + j by omega, this,
                List.getElem?_set_ne (by omega)]
          · intro r hr
            rw [h5 r (by omega), List.getElem?_set_ne (by omega)]
        cases ba with
        | true =>
          have hty : rc.col.type = PType.BYTE_ARRAY := by
            simpa using hba.symm
          simp only [strings_at, if_true, Bool.and_eq_true, decide_eq_true_eq] at hat
          obtain ⟨⟨hlb, hstr⟩, hrest⟩ := hat
          simp only [Option.map_eq_some'] at hlb
          obtain ⟨lb, hlb, hll⟩ := hlb
          simp only [strings_end, if_true] at hend
          have hge := strings_end_ge true rest (cs.page_buf_ptr + 4 + (s.length : Int))
          have hck : ¬ (cs.page_buf_ptr + 4 + (s.length : Int) > cs.page_buf_end_ptr) := by
            omega
          obtain ⟨data', h1, hrest'⟩ := hstep s.length (cs.page_buf_ptr + 4 + (s.length : Int)) _
            rfl ((strings_at_byte_array sl s.length _ rest _).symm.trans hrest) hend
            (by simp only [strings_end, if_true])
          refine ⟨data', ?_, hrest'⟩
          simp only [hty, if_true, hlb, Option.map_some', hll, if_neg hck, hch, hrow, hwr, hstr,
            hpush]
          rw [← h1]
        | false =>
          have hty : ¬ rc.col.type = PType.BYTE_ARRAY := by
            simpa using hba.symm
          simp only [strings_at, Bool.false_eq_true, if_false, Bool.and_eq_true,
            decide_eq_true_eq] at hat
          obtain ⟨⟨hsl, hstr⟩, hrest⟩ := hat
          subst hsl
          simp only [strings_end, Bool.false_eq_true, if_false, Int.add_zero] at hend
          have hge := strings_end_ge false rest (cs.page_buf_ptr + (s.length : Int))
          have hck : ¬ (cs.page_buf_ptr + (s.length : Int) > cs.page_buf_end_ptr) := by
            omega
          obtain ⟨data', h1, hrest'⟩ := hstep s.length (cs.page_buf_ptr + (s.length : Int)) _ rfl
            hrest hend (by simp only [strings_end, Bool.false_eq_true, if_false, Int.add_zero])
          refine ⟨data', ?_, hrest'⟩
          simp only [hty, if_false, if_neg hck, hch, hrow, hwr, hstr, hpush]
          rw [← h1]

theorem heap_offset_step (strs : List (List Nat)) :
    ∀ (j : Nat) (s : List Nat), strs[j]? = some s →
      heap_offset strs (j + 1) = heap_offset strs j + s.length + 1 := by
  induction strs with
  | nil =>
    intro j s h
    simp at h
  | cons s0 rest ih =>
    intro j s h
    cases j with
    | zero =>
      simp only [List.getElem?_cons_zero, Option.some.injEq] at h
      subst h
      rw [heap_offset_succ, heap_offset_zero, heap_offset_zero]
      omega
    | succ j =>
      simp only [List.getElem?_cons_succ] at h
      rw [heap_offset_succ, heap_offset_succ, ih j s h]
      omega

theorem heap_bytes_at (strs : List (List Nat)) :
    ∀ (j : Nat) (s : List Nat), strs[j]? = some s →
      ((heap_bytes strs).drop (heap_offset strs j)).take (s.length + 1) = s ++ [0] := by
  induction strs with
  | nil =>
    intro j s h
    simp at h
  | cons s0 rest ih =>
    intro j s h
    cases j with
    | zero =>
      simp only [List.getElem?_cons_zero, Option.some.injEq] at h
      subst h
      rw [heap_offset_zero, List.drop_zero]
      simp only [heap_bytes, List.append_assoc]
      rw [← List.append_assoc, List.take_left' (by simp)]
    | succ j =>
      simp only [List.getElem?_cons_succ] at h
      rw [heap_offset_succ]
      simp only [heap_bytes]
      rw [List.drop_append_eq_append_drop]
      have h1 : (s0 ++ [0]).length = s0.length + 1 := by simp
      rw [List.drop_eq_nil_of_le (by rw [h1]; omega), h1, List.nil_append,
        show s0.length + 1 + heap_offset rest j - (s0.length + 1) = heap_offset rest j by omega]
      exact ih j s h

theorem heap_bytes_length (ba : Bool) (strs : List (List Nat)) :
    ∀ p : Int, ((heap_bytes strs).length : Int) + (if ba then 4 else 0) * (strs.length : Int) =
      strings_end ba p strs - p + (strs.length : Int) := by
  induction strs with
  | nil =>
    intro p
    simp [heap_bytes, strings_end]
  | cons s rest ih =>
    intro p
    have h := ih (p + (if ba = true then 4 else 0) + (s.length : Int))
    simp only [heap_bytes, strings_end, List.length_append, List.length_cons, List.length_nil]
    push_cast
    cases ba
    · simp only [Bool.false_eq_true, if_false] at h ⊢
      omega
    · simp only [if_true] at h ⊢
      omega

theorem defined_rank_le (w : List Nat) (i : Nat) : defined_rank w i ≤ i := by
  unfold defined_rank
  exact le_trans (List.countP_le_length _) (List.length_take_le i w)

/-- C27. A PLAIN data page of a BYTE_ARRAY (`ba = true`) or FIXED_LEN_BYTE_ARRAY
(`ba = false`) column with `num_values = n`: let `w` be the defined bytes of the page, and
let the payload hold from the cursor on the strings `strs`, one for each defined position
(BYTE_ARRAY: the length in 4 little-endian bytes, then the bytes; FIXED_LEN_BYTE_ARRAY:
`type_length` bytes), all of them before the end of the page, so that every length check
passes. If the rows of the page exist in the result and `uncompressed_page_size` is at
least the number of bytes from the cursor to the end of the page, `scan_data_page_plain`
returns normally with one new heap chunk `heap` and: the slot of every defined position `i`
(the j-th defined one, `j = defined_rank w i`) points to offset `heap_offset strs j` of
the chunk, where the bytes of the j-th string of the payload are, followed by a NUL byte;
the next string starts right behind that NUL byte, so the ranges of the strings do not
overlap; and every other slot of the result, those of the undefined positions among them,
is left as it was. -/
theorem plain_strings_page (ba : Bool) (strs : List (List Nat)) (cs : ColumnScan)
    (rc : ResultColumn)
    (hty : rc.col.type = (if ba then PType.BYTE_ARRAY else PType.FIXED_LEN_BYTE_ARRAY))
    (hdp : 0 ≤ cs.defined_ptr) (hpsr : 0 ≤ cs.page_start_row)
    (hD : cs.defined_ptr.toNat + cs.page_header.data_page_header.num_values.toNat
            ≤ rc.defined.length)
    (hR : cs.page_start_row.toNat + cs.page_header.data_page_header.num_values.toNat
            ≤ rc.data.length)
    (h64 : (rc.data.length : Int) ≤ two64)
    (hnv : 0 ≤ cs.page_header.data_page_header.num_values)
    (halloc : cs.page_header.uncompressed_page_size +
        cs.page_header.data_page_header.num_values < 9223372036854775808)
    (hlen : strs.length = defined_rank
        (defined_window cs rc cs.page_header.data_page_header.num_values.toNat)
        cs.page_header.data_page_header.num_values.toNat)
    (hat : strings_at ba (toU32 cs.type_len).toNat cs.page_buf cs.page_buf_ptr strs = true)
    (hend : strings_end ba cs.page_buf_ptr strs ≤ cs.page_buf_end_ptr)
    (hroom : cs.page_buf_end_ptr - cs.page_buf_ptr ≤ cs.page_header.uncompressed_page_size) :
    ∃ data' heap,
      cs.scan_data_page_plain rc =
        Outcome.ok
          ({ cs with page_buf_ptr := strings_end ba cs.page_buf_ptr strs },
           { rc with data := data', string_heap_chunks := rc.string_heap_chunks ++ [heap] }) ∧
      heap.bytes = heap_bytes strs ∧
      data'.length = rc.data.length ∧
      (∀ i d, (defined_window cs rc cs.page_header.data_page_header.num_values.toNat)[i]? =
            some d → d ≠ 0 →
        ∃ s, strs[defined_rank
              (defined_window cs rc cs.page_header.data_page_header.num_values.toNat) i]? =
            some s ∧
          data'[cs.page_start_row.toNat + i]? =
            some (Slot.ptr (some ⟨rc.string_heap_chunks.length,
              heap_offset strs (defined_rank
                (defined_window cs rc cs.page_header.data_page_header.num_values.toNat) i)⟩)) ∧
          (heap.bytes.drop (heap_offset strs (defined_rank
              (defined_window cs rc cs.page_header.data_page_header.num_values.toNat) i))).take
            (s.length + 1) = s ++ [0]) ∧
      (∀ j s, strs[j]? = some s →
        heap_offset strs (j + 1) = heap_offset strs j + s.length + 1) ∧
      (∀ r, (∀ i d, r = cs.page_start_row.toNat + i →
            (defined_window cs rc cs.page_header.data_page_header.num_values.toNat)[i]? =
              some d → d = 0) →
        data'[r]? = rc.data[r]?) := by
  generalize hn : cs.page_header.data_page_header.num_values.toNat = n at *
  have hk := defined_rank_window cs rc n n (le_refl n)
  have hkk : ∀ i, i ≤ n → defined_rank (defined_window cs rc n) i =
      defined_rank (rc.defined.drop cs.defined_ptr.toNat) i := by
    intro i hi
    rw [defined_rank_window cs rc n i hi]
    rfl
  rw [hkk n (le_refl n)] at hlen
  have hge := strings_end_ge ba strs cs.page_buf_ptr
  have hlb := heap_bytes_length ba strs cs.page_buf_ptr
  have hrl := defined_rank_le (rc.defined.drop cs.defined_ptr.toNat) n
  have hnn : (n : Int) = cs.page_header.data_page_header.num_values := by
    rw [← hn]
    exact Int.toNat_of_nonneg hnv
  have hups : 0 ≤ cs.page_header.uncompressed_page_size := by omega
  -- the heap chunk of the page and its capacity
  have hcapacity : ∃ cap : Nat,
      (if rc.col.type = PType.FIXED_LEN_BYTE_ARRAY then
        toU64 (toU64 cs.page_header.uncompressed_page_size +
          toU64 cs.page_header.data_page_header.num_values)
       else toU64 cs.page_header.uncompressed_page_size) = (cap : Int) ∧
      (heap_bytes strs).length ≤ cap ∧ (cap : Int) < 9223372036854775808 := by
    cases ba with
    | true =>
      simp only [if_true] at hty hlb
      refine ⟨cs.page_header.uncompressed_page_size.toNat, ?_, ?_, ?_⟩
      · rw [hty]
        simp only [reduceCtorEq, if_false]
        rw [toU64_of_range _ ⟨hups, by unfold two64; omega⟩, Int.toNat_of_nonneg hups]
      · omega
      · omega
    | false =>
      simp only [Bool.false_eq_true, if_false] at hty hlb
      refine ⟨(cs.page_header.uncompressed_page_size +
        cs.page_header.data_page_header.num_values).toNat, ?_, ?_, ?_⟩
      · rw [hty]
        simp only [if_true]
        rw [toU64_of_range _ ⟨hups, by unfold two64; omega⟩,
          toU64_of_range _ ⟨hnv, by unfold two64; omega⟩,
          toU64_of_range _ ⟨by omega, by unfold two64; omega⟩, Int.toNat_of_nonneg (by omega)]
      · omega
      · omega
  obtain ⟨cap, hcap1, hcap2, hcap3⟩ := hcapacity
  obtain ⟨data', h1, h2, h3, h4, h5⟩ := plain_strings_loop_spec rc.string_heap_chunks.length ba n
    (toU32 cs.type_len).toNat strs 0 cs.defined_ptr.toNat cs.page_start_row.toNat 0 cs
    { rc with string_heap_chunks := rc.string_heap_chunks ++ [{ capacity := cap, bytes := [] }] }
    { capacity := cap, bytes := [] } rfl
    (Int.toNat_of_nonneg hdp).symm (Int.toNat_of_nonneg hpsr).symm
    (by
      cases ba
      · simp only [Bool.false_eq_true, if_false] at hty
        simp [hty]
      · simp only [if_true] at hty
        simp [hty])
    (by simpa using hD) (by simpa using hR) h64 (by simpa using hlen) hat hend
    (by simp) (by simpa using hcap2)
  simp only [Nat.add_zero, List.length_nil, Nat.zero_add, List.nil_append] at h1 h3 h4 h5
  refine ⟨data', { capacity := cap, bytes := heap_bytes strs }, ?_, rfl, h2, ?_,
    heap_offset_step strs, ?_⟩
  · unfold ColumnScan.scan_data_page_plain
    have hnf : allocFails (cap : Int) = false := by
      simp only [allocFails, decide_eq_false_iff_not, not_le]
      exact hcap3
    cases ba with
    | true =>
      simp only [if_true] at hty
      rw [hty] at hcap1
      simp only [reduceCtorEq, if_true, if_false] at hcap1
      simp only [hty, reduceCtorEq, if_true, hcap1, hnf, Bool.false_eq_true, if_false, hn,
        Int.toNat_ofNat] at h1 ⊢
      rw [h1]
      simp
    | false =>
      simp only [Bool.false_eq_true, if_false] at hty
      rw [hty] at hcap1
      simp only [reduceCtorEq, if_true, if_false] at hcap1
      simp only [hty, reduceCtorEq, if_true, hcap1, hnf, Bool.false_eq_true, if_false, hn,
        Int.toNat_ofNat] at h1 ⊢
      rw [h1]
      simp
  · intro i d hi hne
    have hin : i < n := by
      by_contra hc
      have : (defined_window cs rc n).length ≤ i := by
        simp [defined_window]
        omega
      rw [List.getElem?_eq_none this] at hi
      simp at hi
    rw [defined_window_getElem? cs rc n i hin] at hi
    have hlt : defined_rank (defined_window cs rc n) i < strs.length := by
      rw [hkk i (le_of_lt hin), hlen]
      have hlt2 : cs.defined_ptr.toNat + i < rc.defined.length := by omega
      have hsucc := defined_rank_drop_succ rc.defined (cs.defined_ptr.toNat + i) 0 d hi
      rw [defined_rank_zero, if_neg hne] at hsucc
      -- the rank grows at a defined position
      have hmono : defined_rank (rc.defined.drop cs.defined_ptr.toNat) (i + 1) ≤
          defined_rank (rc.defined.drop cs.defined_ptr.toNat) n := by
        unfold defined_rank
        have : (rc.defined.drop cs.defined_ptr.toNat).take (i + 1) =
            ((rc.defined.drop cs.defined_ptr.toNat).take n).take (i + 1) := by
          rw [List.take_take, Nat.min_eq_left (by omega)]
        rw [this]
        exact List.Sublist.countP_le _ (List.take_sublist _ _)
      have hstep : defined_rank (rc.defined.drop cs.defined_ptr.toNat) (i + 1) =
          defined_rank (rc.defined.drop cs.defined_ptr.toNat) i + 1 := by
        unfold defined_rank
        rw [List.take_succ, List.countP_append, List.getElem?_drop, hi]
        simp [hne]
      omega
    obtain ⟨s, hs⟩ : ∃ s, strs[defined_rank (defined_window cs rc n) i]? = some s :=
      ⟨_, List.getElem?_eq_getElem hlt⟩
    refine ⟨s, hs, ?_, heap_bytes_at strs _ s hs⟩
    rw [h3 i hin d hi hne, hkk i (le_of_lt hin)]
  · intro r hr
    by_cases hlo : r < cs.page_start_row.toNat
    · exact h5 r (Or.inl hlo)
    · by_cases hhi : cs.page_start_row.toNat + n ≤ r
      · exact h5 r (Or.inr hhi)
      · obtain ⟨i, rfl⟩ : ∃ i, r = cs.page_start_row.toNat + i :=
          ⟨r - cs.page_start_row.toNat, by omega⟩
        have hin : i < n := by omega
        have hlt : cs.defined_ptr.toNat + i < rc.defined.length := by omega
        have hget := List.getElem?_eq_getElem hlt
        have hz := hr i _ rfl (by rw [defined_window_getElem? cs rc n i hin]; exact hget)
        rw [hz] at hget
        exact h4 i hin hget

/-- C21, amended. `scan_dict_page` on a first dictionary page (header of a dictionary
page, encoding PLAIN or PLAIN_DICTIONARY, `0 ≤ num_values`):
for a column of type BOOLEAN, INT32, INT64, INT96, FLOAT or DOUBLE whose payload holds
`num_values` values it returns normally with a dictionary of `num_values` entries, entry
`j` being the `sizeof(T)` bytes at payload offset `j * sizeof(T)`;
for a BYTE_ARRAY column whose payload holds the `num_values` strings `strs` before the
end of the page (and `uncompressed_page_size` covers the page) it returns normally with a
dictionary of `num_values` entries, entry `j` pointing to string `j`, NUL-terminated, in a
new heap chunk;
for a FIXED_LEN_BYTE_ARRAY column, and for a type value that names no type, it throws
"Unsupported type for dictionary". -/
theorem scan_dict_page_builds_dictionary :
    (∀ (cs : ColumnScan) (rc : ResultColumn),
      cs.page_header.isset_data_page_header = false →
      cs.page_header.isset_dictionary_page_header = true →
      (cs.page_header.dictionary_page_header.encoding = Encoding.PLAIN ∨
        cs.page_header.dictionary_page_header.encoding = Encoding.PLAIN_DICTIONARY) →
      cs.seen_dict = false →
      (rc.col.type = PType.BOOLEAN ∨ rc.col.type = PType.INT32 ∨ rc.col.type = PType.INT64 ∨
        rc.col.type = PType.INT96 ∨ rc.col.type = PType.FLOAT ∨ rc.col.type = PType.DOUBLE) →
      0 ≤ cs.page_header.dictionary_page_header.num_values →
      cs.page_header.dictionary_page_header.num_values < 9223372036854775808 →
      0 ≤ cs.page_buf_ptr →
      cs.page_header.dictionary_page_header.num_values.toNat * slot_size rc.col.type
        ≤ cs.payload.length →
      ∃ d,
        cs.scan_dict_page rc =
          Outcome.ok
            ({ cs with
               seen_dict := true
               dict_size := cs.page_header.dictionary_page_header.num_values
               dict := some d
               page_buf_ptr := cs.page_buf_ptr +
                 ((cs.page_header.dictionary_page_header.num_values.toNat *
                    slot_size rc.col.type : Nat) : Int) }, rc) ∧
        d.length = cs.page_header.dictionary_page_header.num_values.toNat ∧
        ∀ j, j < cs.page_header.dictionary_page_header.num_values.toNat →
          d[j]? = some (Slot.raw (value_at cs.payload (slot_size rc.col.type) j))) ∧
    (∀ (cs : ColumnScan) (rc : ResultColumn) (strs : List (List Nat)),
      cs.page_header.isset_data_page_header = false →
      cs.page_header.isset_dictionary_page_header = true →
      (cs.page_header.dictionary_page_header.encoding = Encoding.PLAIN ∨
        cs.page_header.dictionary_page_header.encoding = Encoding.PLAIN_DICTIONARY) →
      cs.seen_dict = false →
      rc.col.type = PType.BYTE_ARRAY →
      0 ≤ cs.page_header.dictionary_page_header.num_values →
      cs.page_header.dictionary_page_header.num_values < 9223372036854775808 →
      strs.length = cs.page_header.dictionary_page_header.num_values.toNat →
      strings_at true 0 cs.page_buf cs.page_buf_ptr strs = true →
      strings_end true cs.page_buf_ptr strs ≤ cs.page_buf_end_ptr →
      cs.page_buf_end_ptr - cs.page_buf_ptr ≤ cs.page_header.uncompressed_page_size →
      cs.page_header.uncompressed_page_size < 9223372036854775808 →
      ∃ d heap,
        cs.scan_dict_page rc =
          Outcome.ok
            ({ cs with
               seen_dict := true
               dict_size := cs.page_header.dictionary_page_header.num_values
               dict := some d
               page_buf_ptr := strings_end true cs.page_buf_ptr strs },
             { rc with string_heap_chunks := rc.string_heap_chunks ++ [heap] }) ∧
        heap.bytes = heap_bytes strs ∧
        d.length = cs.page_header.dictionary_page_header.num_values.toNat ∧
        ∀ j s, strs[j]? = some s →
          d[j]? = some (Slot.ptr (some ⟨rc.string_heap_chunks.length, heap_offset strs j⟩)) ∧
          (heap.bytes.drop (heap_offset strs j)).take (s.length + 1) = s ++ [0]) ∧
    (∀ (cs : ColumnScan) (rc : ResultColumn),
      cs.page_header.isset_data_page_header = false →
      cs.page_header.isset_dictionary_page_header = true →
      (cs.page_header.dictionary_page_header.encoding = Encoding.PLAIN ∨
        cs.page_header.dictionary_page_header.encoding = Encoding.PLAIN_DICTIONARY) →
      cs.seen_dict = false →
      (rc.col.type = PType.FIXED_LEN_BYTE_ARRAY ∨ ∃ v, rc.col.type = PType.other v) →
      cs.scan_dict_page rc =
        Outcome.thrown Err.dictUnsupportedType
          ({ cs with
             seen_dict := true
             dict_size := toU64 cs.page_header.dictionary_page_header.num_values }, rc)) := by
  refine ⟨?_, ?_, ?_⟩
  · intro cs rc hf1 hf2 henc hseen hty h0 hlt hptr hB
    generalize hsz : slot_size rc.col.type = sz at *
    generalize hn : cs.page_header.dictionary_page_header.num_values.toNat = n at *
    have hnn : (n : Int) = cs.page_header.dictionary_page_header.num_values := by
      rw [← hn]
      exact Int.toNat_of_nonneg h0
    have hu : toU64 cs.page_header.dictionary_page_header.num_values =
        cs.page_header.dictionary_page_header.num_values :=
      toU64_of_range _ ⟨h0, by unfold two64; omega⟩
    have hpl : cs.payload = cs.page_buf.drop cs.page_buf_ptr.toNat := by
      simp [ColumnScan.payload, memFrom, hptr]
    rw [hpl, List.length_drop] at hB
    have hnf : allocFails (toU64 cs.page_header.dictionary_page_header.num_values) = false := by
      rw [hu]
      simp only [allocFails, decide_eq_false_iff_not, not_le]
      exact hlt
    have hsz0 : 0 < sz := by
      rcases hty with hty | hty | hty | hty | hty | hty <;>
        (rw [hty] at hsz
         rw [← hsz]
         decide)
    obtain ⟨d, h1, h2, h3, _⟩ := fill_dict_loop_spec sz hsz0 n 0 cs.page_buf_ptr.toNat
      { cs with
        seen_dict := true
        dict_size := toU64 cs.page_header.dictionary_page_header.num_values
        dict := some (List.replicate n (Slot.raw (List.replicate sz 0))) }
      (List.replicate n (Slot.raw (List.replicate sz 0)))
      (Int.toNat_of_nonneg hptr).symm rfl (by simp) hB
    simp only [Nat.zero_add, List.length_replicate] at h1 h2 h3
    have hfill : ColumnScan.fill_dict sz
        { cs with
          seen_dict := true
          dict_size := toU64 cs.page_header.dictionary_page_header.num_values } =
        Outcome.ok
          { cs with
            seen_dict := true
            dict_size := cs.page_header.dictionary_page_header.num_values
            dict := some d
            page_buf_ptr := cs.page_buf_ptr + ((n * sz : Nat) : Int) } := by
      unfold ColumnScan.fill_dict
      simp only [hnf, Bool.false_eq_true, if_false, hn]
      have e : ((cs.page_buf_ptr.toNat + n * sz : Nat) : Int) =
          cs.page_buf_ptr + ((n * sz : Nat) : Int) := by
        push_cast
        rw [Int.toNat_of_nonneg hptr]
      rw [h1, e, hu]
    refine ⟨d, ?_, h2, ?_⟩
    · unfold ColumnScan.scan_dict_page
      simp only [hf1, hf2, hseen, Bool.not_true, Bool.or_self, Bool.false_eq_true, if_false]
      rcases henc with henc | henc <;> rcases hty with hty | hty | hty | hty | hty | hty <;>
        (rw [hty] at hsz
         simp only [slot_size] at hsz
         subst hsz
         simp only [henc, hty, hfill, Outcome.withCol])
    · intro j hj
      rw [h3 j hj, hpl]
      simp [value_at, List.drop_drop, Nat.add_comm]
  · intro cs rc strs hf1 hf2 henc hseen hty h0 hlt hlen hat hend hroom hups
    have hu : toU64 cs.page_header.dictionary_page_header.num_values =
        cs.page_header.dictionary_page_header.num_values :=
      toU64_of_range _ ⟨h0, by unfold two64; omega⟩
    have hge := strings_end_ge true strs cs.page_buf_ptr
    have hlb := heap_bytes_length true strs cs.page_buf_ptr
    simp only [if_true] at hlb
    have hups0 : 0 ≤ cs.page_header.uncompressed_page_size := by omega
    have hu2 : toU64 cs.page_header.uncompressed_page_size =
        cs.page_header.uncompressed_page_size :=
      toU64_of_range _ ⟨hups0, by unfold two64; omega⟩
    have hnf1 : allocFails (toU64 cs.page_header.uncompressed_page_size) = false := by
      rw [hu2]
      simp only [allocFails, decide_eq_false_iff_not, not_le]
      exact hups
    have hnf2 : allocFails (toU64 cs.page_header.dictionary_page_header.num_values) = false := by
      rw [hu]
      simp only [allocFails, decide_eq_false_iff_not, not_le]
      exact hlt
    have hn2 : (toU64 cs.page_header.dictionary_page_header.num_values).toNat = strs.length := by
      rw [hu, hlen]
    obtain ⟨d, h1, h2, h3, _⟩ := scan_dict_strings_spec rc.string_heap_chunks.length strs 0
      { cs with
        seen_dict := true
        dict_size := toU64 cs.page_header.dictionary_page_header.num_values
        dict := some (List.replicate strs.length (Slot.ptr none)) }
      { rc with string_heap_chunks := rc.string_heap_chunks ++
          [{ capacity := cs.page_header.uncompressed_page_size.toNat, bytes := [] }] }
      (List.replicate strs.length (Slot.ptr none))
      { capacity := cs.page_header.uncompressed_page_size.toNat, bytes := [] }
      hat hend rfl (by simp) (by simp)
      (by
        simp only [List.length_nil, Nat.zero_add]
        omega)
    simp only [Nat.zero_add, List.length_replicate, List.length_nil, List.nil_append] at h1 h2 h3
    refine ⟨d, { capacity := cs.page_header.uncompressed_page_size.toNat,
                 bytes := heap_bytes strs }, ?_, rfl, by rw [h2, hlen], ?_⟩
    · unfold ColumnScan.scan_dict_page
      simp only [hf1, hf2, hseen, Bool.not_true, Bool.or_self, Bool.false_eq_true, if_false]
      rcases henc with henc | henc <;>
        (simp only [henc, hty, hnf1, hnf2, Bool.false_eq_true, if_false, hn2]
         rw [h1]
         simp [hu])
    · intro j s hs
      have hj : j < strs.length := by
        by_contra hc
        rw [List.getElem?_eq_none (by omega)] at hs
        simp at hs
      exact ⟨h3 j hj, heap_bytes_at strs j s hs⟩
  · intro cs rc hf1 hf2 henc hseen hty
    unfold ColumnScan.scan_dict_page
    simp only [hf1, hf2, hseen, Bool.not_true, Bool.or_self, Bool.false_eq_true, if_false]
    rcases henc with henc | henc <;> rcases hty with hty | ⟨v, hty⟩ <;>
      simp only [henc, hty]

/-! ### BOOLEAN values -/

/-- The BOOLEAN loop of `scan_data_page_plain` from position `vn` on, `m` positions to go,
the bit cursor at bit `bp` of byte `ptr`: the defined positions receive consecutive bits,
the others are skipped. -/
theorem plain_bool_loop_spec (m : Nat) :
    ∀ (vn dp psr ptr bp : Nat) (v : Int) (cs : ColumnScan) (rc : ResultColumn),
      v = (vn : Int) → cs.defined_ptr = (dp : Int) → cs.page_start_row = (psr : Int) →
      cs.page_buf_ptr = (ptr : Int) → bp < 8 →
      dp + vn + m ≤ rc.defined.length →
      psr + vn + m ≤ rc.data.length → (rc.data.length : Int) ≤ two64 →
      (bp + defined_rank (rc.defined.drop (dp + vn)) m + 7) / 8 ≤ cs.page_buf.length - ptr →
      ∃ data',
        ColumnScan.plain_bool_loop m v bp cs rc =
          Outcome.ok
            ({ cs with page_buf_ptr :=
                ((ptr + (bp + defined_rank (rc.defined.drop (dp + vn)) m) / 8 : Nat) : Int) },
             { rc with data := data' }) ∧
        data'.length = rc.data.length ∧
        (∀ j, j < m → ∀ d, rc.defined[dp + vn + j]? = some d → d ≠ 0 →
          data'[psr + vn + j]? = some (Slot.raw
            [(cs.page_buf.getD (ptr + (bp + defined_rank (rc.defined.drop (dp + vn)) j) / 8) 0 /
              2 ^ ((bp + defined_rank (rc.defined.drop (dp + vn)) j) % 8)) % 2])) ∧
        (∀ j, j < m → rc.defined[dp + vn + j]? = some 0 →
          data'[psr + vn + j]? = rc.data[psr + vn + j]?) ∧
        (∀ r, r < psr + vn ∨ psr + vn + m ≤ r → data'[r]? = rc.data[r]?) := by
  induction m with
  | zero =>
    intro vn dp psr ptr bp v cs rc hv hdp hpsr hptr hbp _ _ _ _
    refine ⟨rc.data, ?_, rfl, ?_, ?_, ?_⟩
    · have h0 : ptr + (bp + 0) / 8 = ptr := by omega
      rw [defined_rank_zero, h0, ← hptr]
      rfl
    · intro j hj
      omega
    · intro j hj
      omega
    · intro r _
      rfl
  | succ m ih =>
    intro vn dp psr ptr bp v cs rc hv hdp hpsr hptr hbp hD hR h64 hB
    have hlt : dp + vn < rc.defined.length := by omega
    have hget : rc.defined[dp + vn]? = some (rc.defined[dp + vn]) :=
      List.getElem?_eq_getElem hlt
    generalize hdv : rc.defined[dp + vn] = d at hget
    have hrk : ∀ j, defined_rank (rc.defined.drop (dp + vn)) (j + 1) =
        (if d = 0 then 0 else 1) + defined_rank (rc.defined.drop (dp + (vn + 1))) j :=
      fun j => defined_rank_drop_succ rc.defined (dp + vn) j d hget
    have hra : readAt rc.defined (cs.defined_ptr + v) = some d := by
      rw [hdp, hv, ← Nat.cast_add, readAt_nat, hget]
    have hv1 : v + 1 = ((vn + 1 : Nat) : Int) := by rw [hv]; push_cast; rfl
    simp only [ColumnScan.plain_bool_loop, hra]
    by_cases hd0 : d = 0
    · -- an undefined position
      rw [if_pos hd0]
      simp only [hd0, if_true, Nat.zero_add] at hrk
      rw [hrk m] at hB
      obtain ⟨data', h1, h2, h3, h4, h5⟩ := ih (vn + 1) dp psr ptr bp (v + 1) cs rc hv1 hdp hpsr
        hptr hbp (by omega) (by omega) h64 hB
      refine ⟨data', ?_, h2, ?_, ?_, ?_⟩
      · rw [h1, hrk m]
      · intro j hj d' hd' hne
        cases j with
        | zero =>
          rw [Nat.add_zero, hget] at hd'
          exact absurd (hd0 ▸ (Option.some.inj hd').symm) hne
        | succ j =>
          have := h3 j (by omega) d' (by rw [← hd']; congr 1; omega) hne
          rw [show psr + vn + (j + 1) = psr + (vn + 1) + j by omega, this, hrk j]
      · intro j hj hz
        cases j with
        | zero => exact h5 (psr + vn) (Or.inl (by omega))
        | succ j =>
          have := h4 j (by omega) (by rw [← hz]; congr 1; omega)
          rw [show psr + vn + (j + 1) = psr + (vn + 1) + j by omega, this]
      · intro r hr
        exact h5 r (by omega)
    · -- a defined position
      rw [if_neg hd0]
      simp only [hd0, if_false] at hrk
      rw [hrk m] at hB
      have hrow : toU64 (cs.page_start_row + v) = ((psr + vn : Nat) : Int) := by
        rw [hpsr, hv, ← Nat.cast_add]
        apply toU64_nat
        have : ((psr + vn : Nat) : Int) < (rc.data.length : Int) := by
          exact_mod_cast (by omega : psr + vn < rc.data.length)
        omega
      have hplt : ptr < cs.page_buf.length := by omega
      have hrd : readAt cs.page_buf cs.page_buf_ptr = some (cs.page_buf.getD ptr 0) := by
        rw [hptr, readAt_nat, List.getD_eq_getElem?_getD, List.getElem?_eq_getElem hplt]
        rfl
      generalize hb : cs.page_buf.getD ptr 0 = b at hrd
      have hwr : writeAt rc.data ((psr + vn : Nat) : Int) (Slot.raw [(b / 2 ^ bp) % 2]) =
          some (rc.data.set (psr + vn) (Slot.raw [(b / 2 ^ bp) % 2])) :=
        writeAt_nat _ _ _ (by omega)
      simp only [hrow, hrd, hwr]
      have hzero : ∀ r : Nat, r < psr + vn + 1 →
          (rc.data.set (psr + vn) (Slot.raw [(b / 2 ^ bp) % 2]))[psr + vn]? =
            some (Slot.raw [(b / 2 ^ bp) % 2]) := fun _ _ =>
        List.getElem?_set_self (by omega)
      by_cases h8 : bp + 1 = 8
      · rw [if_pos h8]
        obtain ⟨data', h1, h2, h3, h4, h5⟩ := ih (vn + 1) dp psr (ptr + 1) 0 (v + 1)
          { cs with page_buf_ptr := cs.page_buf_ptr + 1 }
          { rc with data := rc.data.set (psr + vn) (Slot.raw [(b / 2 ^ bp) % 2]) }
          hv1 hdp hpsr (by simp only; rw [hptr]; push_cast; rfl) (by omega)
          (by simpa using (by omega : dp + (vn + 1) + m ≤ rc.defined.length))
          (by simp only [List.length_set]; omega)
          (by simpa using h64)
          (by simp only; omega)
        simp only at h1 h2 h3 h4 h5
        refine ⟨data', ?_, ?_, ?_, ?_, ?_⟩
        · rw [h1, hrk m]
          congr 3
          omega
        · rw [h2, List.length_set]
        · intro j hj d' hd' hne
          cases j with
          | zero =>
            rw [Nat.add_zero, h5 (psr + vn) (Or.inl (by omega)), hzero 0 (by omega),
              defined_rank_zero]
            have e1 : ptr + (bp + 0) / 8 = ptr := by omega
            have e2 : (bp + 0) % 8 = bp := by omega
            rw [e1, e2, hb]
          | succ j =>
            have := h3 j (by omega) d' (by rw [← hd']; congr 1; omega) hne
            rw [show psr + vn + (j + 1) = psr + (vn + 1) + j by omega, this, hrk j]
            have e1 : ptr + 1 + (0 + defined_rank (rc.defined.drop (dp + (vn + 1))) j) / 8 =
                ptr + (bp + (1 + defined_rank (rc.defined.drop (dp + (vn + 1))) j)) / 8 := by
              omega
            have e2 : (0 + defined_rank (rc.defined.drop (dp + (vn + 1))) j) % 8 =
                (bp + (1 + defined_rank (rc.defined.drop (dp + (vn + 1))) j)) % 8 := by
              omega
            rw [e1, e2]
        · intro j hj hz
          cases j with
          | zero =>
            rw [Nat.add_zero, hget] at hz
            exact absurd (Option.some.inj hz) hd0
          | succ j =>
            have := h4 j (by omega) (by rw [← hz]; congr 1; omega)
            rw [show psr + vn + (j + 1) = psr + (vn + 1) + j by omega, this,
              List.getElem?_set_ne (by omega)]
        · intro r hr
          rw [h5 r (by omega), List.getElem?_set_ne (by omega)]
      · rw [if_neg h8]
        obtain ⟨data', h1, h2, h3, h4, h5⟩ := ih (vn + 1) dp psr ptr (bp + 1) (v + 1)
          cs
          { rc with data := rc.data.set (psr + vn) (Slot.raw [(b / 2 ^ bp) % 2]) }
          hv1 hdp hpsr hptr (by omega)
          (by simpa using (by omega : dp + (vn + 1) + m ≤ rc.defined.length))
          (by simp only [List.length_set]; omega)
          (by simpa using h64)
          (by simp only; omega)
        simp only at h1 h2 h3 h4 h5
        refine ⟨data', ?_, ?_, ?_, ?_, ?_⟩
        · rw [h1, hrk m]
          congr 3
          omega
        · rw [h2, List.length_set]
        · intro j hj d' hd' hne
          cases j with
          | zero =>
            rw [Nat.add_zero, h5 (psr + vn) (Or.inl (by omega)), hzero 0 (by omega),
              defined_rank_zero]
            have e1 : ptr + (bp + 0) / 8 = ptr := by omega
            have e2 : (bp + 0) % 8 = bp := by omega
            rw [e1, e2, hb]
          | succ j =>
            have := h3 j (by omega) d' (by rw [← hd']; congr 1; omega) hne
            rw [show psr + vn + (j + 1) = psr + (vn + 1) + j by omega, this, hrk j]
            have e1 : ptr + (bp + 1 + defined_rank (rc.defined.drop (dp + (vn + 1))) j) / 8 =
                ptr + (bp + (1 + defined_rank (rc.defined.drop (dp + (vn + 1))) j)) / 8 := by
              omega
            have e2 : (bp + 1 + defined_rank (rc.defined.drop (dp + (vn + 1))) j) % 8 =
                (bp + (1 + defined_rank (rc.defined.drop (dp + (vn + 1))) j)) % 8 := by
              omega
            rw [e1, e2]
        · intro j hj hz
          cases j with
          | zero =>
            rw [Nat.add_zero, hget] at hz
            exact absurd (Option.some.inj hz) hd0
          | succ j =>
            have := h4 j (by omega) (by rw [← hz]; congr 1; omega)
            rw [show psr + vn + (j + 1) = psr + (vn + 1) + j by omega, this,
              List.getElem?_set_ne (by omega)]
        · intro r hr
          rw [h5 r (by omega), List.getElem?_set_ne (by omega)]

/-- C28. A PLAIN data page of a BOOLEAN column with `num_values = n`: let `w` be the
defined bytes of the page and `k` the number of its defined positions. If the rows
`page_start_row .. page_start_row + n` exist in the result and the payload holds the
`(k + 7) / 8` bytes of `k` bits, `scan_data_page_plain` returns normally and has stored in
`result[page_start_row + i]`, for every defined position `i` (the j-th defined one,
`j = defined_rank w i`, counted from 0), bit `j mod 8` of payload byte `j / 8`, bit 0 being
the least significant one. A position that is not defined takes no bit (it does not count
in `defined_rank`) and its slot, like every other slot of the result, is left as it
was. -/
theorem plain_boolean_page_bits (cs : ColumnScan) (rc : ResultColumn)
    (hty : rc.col.type = PType.BOOLEAN)
    (hdp : 0 ≤ cs.defined_ptr) (hpsr : 0 ≤ cs.page_start_row) (hptr : 0 ≤ cs.page_buf_ptr)
    (hD : cs.defined_ptr.toNat + cs.page_header.data_page_header.num_values.toNat
            ≤ rc.defined.length)
    (hR : cs.page_start_row.toNat + cs.page_header.data_page_header.num_values.toNat
            ≤ rc.data.length)
    (h64 : (rc.data.length : Int) ≤ two64)
    (hB : (defined_rank
            (defined_window cs rc cs.page_header.data_page_header.num_values.toNat)
            cs.page_header.data_page_header.num_values.toNat + 7) / 8 ≤ cs.payload.length) :
    ∃ data',
      cs.scan_data_page_plain rc =
        Outcome.ok
          ({ cs with page_buf_ptr := cs.page_buf_ptr +
                ((defined_rank
                  (defined_window cs rc cs.page_header.data_page_header.num_values.toNat)
                  cs.page_header.data_page_header.num_values.toNat / 8 : Nat) : Int) },
           { rc with data := data' }) ∧
      data'.length = rc.data.length ∧
      (∀ i d, (defined_window cs rc cs.page_header.data_page_header.num_values.toNat)[i]? =
            some d → d ≠ 0 →
        data'[cs.page_start_row.toNat + i]? =
          some (Slot.raw
            [(cs.payload.getD
                (defined_rank
                  (defined_window cs rc cs.page_header.data_page_header.num_values.toNat) i / 8)
                0 /
              2 ^ (defined_rank
                  (defined_window cs rc cs.page_header.data_page_header.num_values.toNat) i % 8))
              % 2])) ∧
      (∀ r, (∀ i d, r = cs.page_start_row.toNat + i →
            (defined_window cs rc cs.page_header.data_page_header.num_values.toNat)[i]? =
              some d → d = 0) →
        data'[r]? = rc.data[r]?) := by
  generalize hn : cs.page_header.data_page_header.num_values.toNat = n at *
  have hpl : cs.payload = cs.page_buf.drop cs.page_buf_ptr.toNat := by
    simp [ColumnScan.payload, memFrom, hptr]
  have hk := defined_rank_window cs rc n n (le_refl n)
  have hkk : defined_rank (defined_window cs rc n) n =
      defined_rank (rc.defined.drop cs.defined_ptr.toNat) n := by
    rw [hk]
    rfl
  rw [hkk, hpl, List.length_drop] at hB
  obtain ⟨data', h1, h2, h3, h4, h5⟩ := plain_bool_loop_spec n 0
    cs.defined_ptr.toNat cs.page_start_row.toNat cs.page_buf_ptr.toNat 0 0 cs rc rfl
    (Int.toNat_of_nonneg hdp).symm (Int.toNat_of_nonneg hpsr).symm
    (Int.toNat_of_nonneg hptr).symm (by decide) (by simpa using hD) (by simpa using hR) h64
    (by
      simp only [Nat.add_zero, Nat.zero_add]
      omega)
  simp only [Nat.add_zero, Nat.zero_add] at h1 h3 h4 h5
  refine ⟨data', ?_, h2, ?_, ?_⟩
  · unfold ColumnScan.scan_data_page_plain
    simp only [hty]
    rw [hn, h1, hkk]
    congr 3
    push_cast
    rw [Int.toNat_of_nonneg hptr]
  · intro i d hi hne
    have hin : i < n := by
      by_contra hc
      have : (defined_window cs rc n).length ≤ i := by
        simp [defined_window]
        omega
      rw [List.getElem?_eq_none this] at hi
      simp at hi
    rw [defined_window_getElem? cs rc n i hin] at hi
    have hrk : defined_rank (defined_window cs rc n) i =
        defined_rank (rc.defined.drop cs.defined_ptr.toNat) i := by
      rw [defined_rank_window cs rc n i (le_of_lt hin)]
      rfl
    rw [h3 i hin d hi hne, hrk, hpl]
    simp [List.getD_eq_getElem?_getD, List.getElem?_drop]
  · intro r hr
    by_cases hlo : r < cs.page_start_row.toNat
    · exact h5 r (Or.inl hlo)
    · by_cases hhi : cs.page_start_row.toNat + n ≤ r
      · exact h5 r (Or.inr hhi)
      · obtain ⟨i, rfl⟩ : ∃ i, r = cs.page_start_row.toNat + i :=
          ⟨r - cs.page_start_row.toNat, by omega⟩
        have hin : i < n := by omega
        have hlt : cs.defined_ptr.toNat + i < rc.defined.length := by omega
        have hget := List.getElem?_eq_getElem hlt
        have hz := hr i _ rfl (by rw [defined_window_getElem? cs rc n i hin]; exact hget)
        rw [hz] at hget
        exact h4 i hin hget

/-! ### Scanning a row group again -/

theorem fill_values_plain_loop_dict (d : Option (List Slot)) (sz : Nat) (n : Nat) :
    ∀ (v : Int) (cs : ColumnScan) (rc rc' : ResultColumn), rc' = { rc with dict := d } →
      ColumnScan.fill_values_plain_loop sz n v cs rc' =
        (ColumnScan.fill_values_plain_loop sz n v cs rc).map
          (fun st => (st.1, { st.2 with dict := d })) := by
  induction n with
  | zero =>
    intro v cs rc rc' h
    subst h
    simp [ColumnScan.fill_values_plain_loop, Outcome.map]
  | succ n ih =>
    intro v cs rc rc' h
    subst h
    simp only [ColumnScan.fill_values_plain_loop]
    split
    · rfl
    · split
      · exact ih _ cs rc _ rfl
      · split
        · rfl
        · split
          · rfl
          · exact ih _ _ _ _ rfl

theorem plain_bool_loop_dict (d : Option (List Slot)) (n : Nat) :
    ∀ (v : Int) (bp : Nat) (cs : ColumnScan) (rc rc' : ResultColumn), rc' = { rc with dict := d } →
      ColumnScan.plain_bool_loop n v bp cs rc' =
        (ColumnScan.plain_bool_loop n v bp cs rc).map
          (fun st => (st.1, { st.2 with dict := d })) := by
  induction n with
  | zero =>
    intro v bp cs rc rc' h
    subst h
    simp [ColumnScan.plain_bool_loop, Outcome.map]
  | succ n ih =>
    intro v bp cs rc rc' h
    subst h
    simp only [ColumnScan.plain_bool_loop]
    split
    · rfl
    · split
      · exact ih _ _ cs rc _ rfl
      · split
        · rfl
        · split
          · rfl
          · split
            · exact ih _ _ _ _ _ rfl
            · exact ih _ _ cs _ _ rfl

theorem plain_strings_loop_dict (d : Option (List Slot)) (k n : Nat) :
    ∀ (v : Int) (sl : Nat) (cs : ColumnScan) (rc rc' : ResultColumn), rc' = { rc with dict := d } →
      ColumnScan.plain_strings_loop k n v sl cs rc' =
        (ColumnScan.plain_strings_loop k n v sl cs rc).map
          (fun st => (st.1, { st.2 with dict := d })) := by
  induction n with
  | zero =>
    intro v sl cs rc rc' h
    subst h
    simp [ColumnScan.plain_strings_loop, Outcome.map]
  | succ n ih =>
    intro v sl cs rc rc' h
    subst h
    simp only [ColumnScan.plain_strings_loop]
    split
    · rfl
    · split
      · exact ih _ _ cs rc _ rfl
      · by_cases hty : rc.col.type = PType.BYTE_ARRAY
        · simp only [hty, if_true]
          cases hr : readBytes cs.page_buf cs.page_buf_ptr 4 with
          | none => rfl
          | some bs =>
            simp only [Option.map_some']
            split
            · rfl
            · split
              · rfl
              · split
                · split
                  · rfl
                  · exact ih _ _ _ _ _ rfl
                · rfl
        · simp only [hty, if_false]
          split
          · rfl
          · split
            · rfl
            · split
              · split
                · rfl
                · exact ih _ _ _ _ _ rfl
              · rfl

theorem fill_values_dict_loop_dict (d : Option (List Slot)) (offs : List Nat) (n : Nat) :
    ∀ (v : Int) (cs : ColumnScan) (rc rc' : ResultColumn), rc' = { rc with dict := d } →
      ColumnScan.fill_values_dict_loop offs n v cs rc' =
        (ColumnScan.fill_values_dict_loop offs n v cs rc).map
          (fun st => (st.1, { st.2 with dict := d })) := by
  induction n with
  | zero =>
    intro v cs rc rc' h
    subst h
    simp [ColumnScan.fill_values_dict_loop, Outcome.map]
  | succ n ih =>
    intro v cs rc rc' h
    subst h
    simp only [ColumnScan.fill_values_dict_loop]
    split
    · rfl
    · split
      · split
        · split
          · rfl
          · split
            · rfl
            · exact ih _ cs _ _ rfl
        · rfl
      · exact ih _ cs rc _ rfl

theorem dict_strings_loop_dict (d : Option (List Slot)) (offs : List Nat) (n : Nat) :
    ∀ (v : Int) (cs : ColumnScan) (rc rc' : ResultColumn), rc' = { rc with dict := d } →
      ColumnScan.dict_strings_loop offs n v cs rc' =
        (ColumnScan.dict_strings_loop offs n v cs rc).map
          (fun st => (st.1, { st.2 with dict := d })) := by
  induction n with
  | zero =>
    intro v cs rc rc' h
    subst h
    simp [ColumnScan.dict_strings_loop, Outcome.map]
  | succ n ih =>
    intro v cs rc rc' h
    subst h
    simp only [ColumnScan.dict_strings_loop]
    split
    · rfl
    · split
      · split
        · split
          · rfl
          · split
            · rfl
            · exact ih _ cs _ _ rfl
        · rfl
      · split
        · rfl
        · exact ih _ cs _ _ rfl

theorem scan_dict_strings_dict (d : Option (List Slot)) (k n : Nat) :
    ∀ (i : Nat) (cs : ColumnScan) (rc rc' : ResultColumn), rc' = { rc with dict := d } →
      ColumnScan.scan_dict_strings k n i cs rc' =
        (ColumnScan.scan_dict_strings k n i cs rc).map
          (fun st => (st.1, { st.2 with dict := d })) := by
  induction n with
  | zero =>
    intro i cs rc rc' h
    subst h
    simp [ColumnScan.scan_dict_strings, Outcome.map]
  | succ n ih =>
    intro i cs rc rc' h
    subst h
    simp only [ColumnScan.scan_dict_strings]
    split
    · rfl
    · split
      · rfl
      · split
        · split
          · split
            · rfl
            · exact ih _ _ _ _ rfl
          · rfl
        · rfl

theorem withCol_dict (d : Option (List Slot)) (o : Outcome ColumnScan) (rc : ResultColumn) :
    o.withCol { rc with dict := d } =
      (o.withCol rc).map (fun st => (st.1, { st.2 with dict := d })) := by
  cases o <;> rfl

theorem scan_dict_page_dict (d : Option (List Slot)) (cs : ColumnScan) (rc : ResultColumn) :
    cs.scan_dict_page { rc with dict := d } =
      (cs.scan_dict_page rc).map (fun st => (st.1, { st.2 with dict := d })) := by
  unfold ColumnScan.scan_dict_page
  simp only []
  split
  · rfl
  · split
    · split
      · rfl
      · split
        · exact withCol_dict d _ rc
        · exact withCol_dict d _ rc
        · exact withCol_dict d _ rc
        · exact withCol_dict d _ rc
        · exact withCol_dict d _ rc
        · exact withCol_dict d _ rc
        · split
          · rfl
          · split
            · rfl
            · exact scan_dict_strings_dict d _ _ _ _ _ _ rfl
        · rfl
    · split
      · rfl
      · split
        · exact withCol_dict d _ rc
        · exact withCol_dict d _ rc
        · exact withCol_dict d _ rc
        · exact withCol_dict d _ rc
        · exact withCol_dict d _ rc
        · exact withCol_dict d _ rc
        · split
          · rfl
          · split
            · rfl
            · exact scan_dict_strings_dict d _ _ _ _ _ _ rfl
        · rfl
    · rfl

theorem scan_data_page_plain_dict (d : Option (List Slot)) (cs : ColumnScan)
    (rc : ResultColumn) :
    cs.scan_data_page_plain { rc with dict := d } =
      (cs.scan_data_page_plain rc).map (fun st => (st.1, { st.2 with dict := d })) := by
  unfold ColumnScan.scan_data_page_plain ColumnScan.fill_values_plain
  simp only []
  split
  · exact plain_bool_loop_dict d _ _ _ cs rc _ rfl
  · exact fill_values_plain_loop_dict d _ _ _ cs rc _ rfl
  · exact fill_values_plain_loop_dict d _ _ _ cs rc _ rfl
  · exact fill_values_plain_loop_dict d _ _ _ cs rc _ rfl
  · exact fill_values_plain_loop_dict d _ _ _ cs rc _ rfl
  · exact fill_values_plain_loop_dict d _ _ _ cs rc _ rfl
  · (repeat' split) <;> first | rfl | exact plain_strings_loop_dict d _ _ _ _ cs _ _ rfl
  · (repeat' split) <;> first | rfl | exact plain_strings_loop_dict d _ _ _ _ cs _ _ rfl
  · rfl

theorem read_offsets_dict (d : Option (List Slot)) (ext : Externals) (cs : ColumnScan)
    (rc : ResultColumn) :
    cs.read_offsets ext { rc with dict := d } =
      ((cs.read_offsets ext rc).1.map (fun st => (st.1, { st.2 with dict := d })),
       (cs.read_offsets ext rc).2) := by
  unfold ColumnScan.read_offsets
  simp only []
  split
  · rfl
  · split
    · rfl
    · split
      · split
        · rfl
        · split
          · split <;> rfl
          · rfl
          · rfl
      · rfl

theorem scan_data_page_dict_dict (d : Option (List Slot)) (ext : Externals) (cs : ColumnScan)
    (rc : ResultColumn) :
    cs.scan_data_page_dict ext { rc with dict := d } =
      (cs.scan_data_page_dict ext rc).map (fun st => (st.1, { st.2 with dict := d })) := by
  unfold ColumnScan.scan_data_page_dict
  rw [read_offsets_dict]
  split
  · rfl
  · simp only []
    apply Outcome.map_andThen
    intro st _
    simp only []
    split
    · exact fill_values_dict_loop_dict d _ _ _ st.1 st.2 _ rfl
    · exact fill_values_dict_loop_dict d _ _ _ st.1 st.2 _ rfl
    · exact fill_values_dict_loop_dict d _ _ _ st.1 st.2 _ rfl
    · exact fill_values_dict_loop_dict d _ _ _ st.1 st.2 _ rfl
    · exact fill_values_dict_loop_dict d _ _ _ st.1 st.2 _ rfl
    · exact dict_strings_loop_dict d _ _ _ st.1 st.2 _ rfl
    · rfl

theorem scan_def_levels_dict (d : Option (List Slot)) (ext : Externals) (cs : ColumnScan)
    (rc : ResultColumn) (hdl : Bool) :
    cs.scan_def_levels ext { rc with dict := d } hdl =
      (cs.scan_def_levels ext rc hdl).map (fun st => (st.1, { st.2 with dict := d })) := by
  unfold ColumnScan.scan_def_levels
  simp only []
  split
  · split
    · split
      · rfl
      · split
        · split <;> rfl
        · split <;> rfl
        · rfl
    · rfl
  · split
    · rfl
    · split <;> rfl

theorem scan_data_page_dict_commutes (d : Option (List Slot)) (ext : Externals)
    (cs : ColumnScan) (rc : ResultColumn) (hdl : Bool) :
    cs.scan_data_page ext { rc with dict := d } hdl =
      (cs.scan_data_page ext rc hdl).map (fun st => (st.1, { st.2 with dict := d })) := by
  unfold ColumnScan.scan_data_page
  rw [scan_def_levels_dict]
  split
  · rfl
  · split
    · rfl
    · simp only []
      apply Outcome.map_andThen_andThen
      · intro st _
        simp only []
        split
        · exact scan_data_page_dict_dict d ext st.1 st.2
        · exact scan_data_page_dict_dict d ext st.1 st.2
        · exact scan_data_page_plain_dict d st.1 st.2
        · rfl
      · intro st
        rfl

theorem select_page_buf_dict (d : Option (List Slot)) (ext : Externals)
    (codec : CompressionCodec) (st : ColumnRun) :
    select_page_buf ext codec (st.with_dict d) =
      (select_page_buf ext codec st).map (fun st => st.with_dict d) := by
  unfold select_page_buf
  simp only [ColumnRun.with_dict]
  split
  · rfl
  · split
    · rfl
    · split
      · rfl
      · split
        · rfl
        · split
          · rfl
          · split
            · rfl
            · split <;> rfl
  · rfl

theorem step_dict (d : Option (List Slot)) (st : ColumnRun)
    (o : Outcome (ColumnScan × ResultColumn)) :
    (st.with_dict d).step (o.map (fun st => (st.1, { st.2 with dict := d }))) =
      (st.step o).map (fun st => st.with_dict d) := by
  cases o <;> rfl

theorem scan_page_dict (d : Option (List Slot)) (ext : Externals) (codec : CompressionCodec)
    (hdl : Bool) (st : ColumnRun) :
    scan_page ext codec hdl (st.with_dict d) =
      (scan_page ext codec hdl st).map (fun st => st.with_dict d) := by
  cases hread : readBytes st.chunk_buf st.chunk_ptr (toU32 st.bytes_to_read).toNat with
  | none =>
    have hread' : readBytes (st.with_dict d).chunk_buf (st.with_dict d).chunk_ptr
        (toU32 (st.with_dict d).bytes_to_read).toNat = none := hread
    unfold scan_page
    simp only [hread, hread']
    rfl
  | some buf =>
    have hread' : readBytes (st.with_dict d).chunk_buf (st.with_dict d).chunk_ptr
        (toU32 (st.with_dict d).bytes_to_read).toNat = some buf := hread
    cases hunpack : ext.unpack_page_header buf with
    | none =>
      unfold scan_page
      simp only [hread, hread', hunpack]
      rfl
    | some r =>
      obtain ⟨ph, consumed⟩ := r
      rw [scan_page_eq ext codec hdl st buf ph consumed hread hunpack,
        scan_page_eq ext codec hdl (st.with_dict d) buf ph consumed hread' hunpack]
      have ha : after_header (st.with_dict d) ph consumed =
          (after_header st ph consumed).with_dict d := rfl
      rw [ha, select_page_buf_dict]
      apply Outcome.map_andThen_andThen
      · intro st1 _
        have h1 : (st1.with_dict d).cs = st1.cs := rfl
        have h2 : (st1.with_dict d).result_col = { st1.result_col with dict := d } := rfl
        simp only [h1, h2]
        split
        · rw [scan_dict_page_dict]
          exact step_dict d st1 _
        · rw [scan_data_page_dict_commutes]
          exact step_dict d st1 _
        · rfl
        · rfl
      · intro st1
        rfl

theorem scan_pages_dict (d : Option (List Slot)) (ext : Externals) (codec : CompressionCodec)
    (hdl : Bool) (fuel : Nat) :
    ∀ st : ColumnRun, scan_pages ext codec hdl fuel (st.with_dict d) =
      (scan_pages ext codec hdl fuel st).map (Outcome.map (fun st => st.with_dict d)) := by
  induction fuel with
  | zero =>
    intro st
    rw [scan_pages_zero_fuel, scan_pages_zero_fuel]
    have hb : (st.with_dict d).bytes_to_read = st.bytes_to_read := rfl
    rw [hb]
    split <;> rfl
  | succ fuel ih =>
    intro st
    rw [scan_pages_succ, scan_pages_succ, scan_page_dict]
    have hb : (st.with_dict d).bytes_to_read = st.bytes_to_read := rfl
    rw [hb]
    split
    · cases hsp : scan_page ext codec hdl st with
      | ok st1 =>
        simp only [Outcome.map]
        exact ih st1
      | thrown e st1 => rfl
      | undefined => rfl
    · rfl

theorem page_loop_dict (d : Option (List Slot)) (self : ParquetFile) (s : ScanState)
    (c : ResultColumn) :
    self.page_loop s { c with dict := d } =
      (self.page_loop s c).map (fun r => (r.1, r.2.1, r.2.2.with_dict d)) := by
  unfold ParquetFile.page_loop
  simp only []
  split
  · rfl
  · split
    · rfl
    · split
      · rfl
      · split
        · rfl
        · split <;> rfl

theorem page_loop_of_ok (ext : Externals) (fuel : Nat) (self : ParquetFile)
    (s : ScanState) (c : ResultColumn) (run : ColumnRun)
    (h : ParquetFile.scan_column ext fuel self s c = some (.ok run)) :
    ∃ codec hdl st0, self.page_loop s c = some (codec, hdl, st0) := by
  unfold ParquetFile.scan_column at h
  unfold ParquetFile.page_loop
  cases hrg : self.file_meta_data.row_groups[s.row_group_idx]? with
  | none => simp [hrg] at h
  | some rg =>
    cases hchunk : rg.columns[c.id]? with
    | none => simp [hrg, hchunk] at h
    | some chunk =>
      simp only [hrg, hchunk] at h ⊢
      by_cases h1 : chunk.isset_file_path = true
      · simp [h1] at h
      · by_cases h2 : chunk.meta_data.path_in_schema.length ≠ 1
        · simp [h1, h2] at h
        · by_cases h3 : allocFails (toU64 chunk.meta_data.total_compressed_size) = true
          · simp [h1, h2, h3] at h
          · simp only [h1, h2, h3, if_false, Bool.false_eq_true] at h
            by_cases h4 : ((self.pfile.seekg (chunk_start chunk)).read
                chunk.meta_data.total_compressed_size.toNat).2.failed = true
            · simp [h4] at h
            · cases hsch : self.file_meta_data.schema[c.id + 1]? with
              | none => simp [h4, hsch] at h
              | some sch =>
                simp only [h1, h2, h3, h4, or_self, if_false, Bool.false_eq_true]
                exact ⟨_, _, _, rfl⟩

/-- A column that `scan_column` has scanned is scanned to the same result when its `dict`
is the one the scan left in it: `scan_column` does not read the `dict` of the result
column, and `cleanup` stores the dictionary of a byte-array column there or leaves the
`dict` of another column as it was. -/
theorem scan_column_again (ext : Externals) (fuel : Nat) (self : ParquetFile)
    (s : ScanState) (c : ResultColumn) (run : ColumnRun)
    (h : ParquetFile.scan_column ext fuel self s c = some (.ok run)) :
    ParquetFile.scan_column ext fuel self s { c with dict := run.result_col.dict } =
      some (.ok run) := by
  obtain ⟨codec, hdl, st0, hloop⟩ := page_loop_of_ok ext fuel self s c run h
  have hloop' : self.page_loop s { c with dict := run.result_col.dict } =
      some (codec, hdl, st0.with_dict run.result_col.dict) := by
    rw [page_loop_dict, hloop]
    rfl
  rw [scan_column_eq_loop ext fuel self s c codec hdl st0 hloop] at h
  rw [scan_column_eq_loop ext fuel self s _ codec hdl _ hloop', scan_pages_dict]
  cases hp : scan_pages ext codec hdl fuel st0 with
  | none => simp [hp] at h
  | some o =>
    rw [hp] at h
    simp only [Option.map_some', Option.some.injEq] at h ⊢
    cases o with
    | thrown e st1 => simp [Outcome.andThen] at h
    | undefined => simp [Outcome.andThen] at h
    | ok st1 =>
      simp only [Outcome.andThen, Outcome.map] at h ⊢
      have h1 : (st1.with_dict run.result_col.dict).cs = st1.cs := rfl
      have h2 : (st1.with_dict run.result_col.dict).result_col =
          { st1.result_col with dict := run.result_col.dict } := rfl
      rw [h1, h2]
      unfold ColumnScan.cleanup at h ⊢
      simp only [] at h ⊢
      split at h
      all_goals first
        | (simp only [ColumnRun.step, Outcome.ok.injEq] at h
           subst h
           rfl)
        | simp [ColumnRun.step] at h

theorem scan_page_col (ext : Externals) (codec : CompressionCodec) (hdl : Bool)
    (st st' : ColumnRun) (h : scan_page ext codec hdl st = .ok st') :
    st'.result_col.id = st.result_col.id ∧ st'.result_col.col = st.result_col.col := by
  unfold scan_page at h
  simp only at h
  split at h
  · simp at h
  · split at h
    · simp at h
    · simp only [Outcome.andThen_eq_ok] at h
      obtain ⟨st3, ⟨st2, h2, h3⟩, h4⟩ := h
      have f2 := select_page_buf_frame ext codec _ _ h2
      simp only at f2
      simp at h4
      subst h4
      split at h3
      · rw [ColumnRun.step_eq_ok] at h3
        obtain ⟨r, hr, h3⟩ := h3
        have f3 := (scan_dict_page_frame _ _ _ hr).2.2
        subst h3
        simp only
        rw [f3, f2]
        exact ⟨rfl, rfl⟩
      · rw [ColumnRun.step_eq_ok] at h3
        obtain ⟨r, hr, h3⟩ := h3
        have f3 := (scan_data_page_frame _ _ _ _ _ hr).2
        subst h3
        simp only
        rw [f3, f2]
        exact ⟨rfl, rfl⟩
      · simp at h3
      · simp at h3
        subst h3
        simp only
        rw [f2]
        exact ⟨rfl, rfl⟩

theorem scan_pages_col (ext : Externals) (codec : CompressionCodec) (hdl : Bool) (fuel : Nat) :
    ∀ (st st' : ColumnRun), scan_pages ext codec hdl fuel st = some (.ok st') →
      st'.result_col.id = st.result_col.id ∧ st'.result_col.col = st.result_col.col := by
  induction fuel with
  | zero =>
    intro st st' h
    rw [scan_pages_zero_fuel] at h
    split at h
    · simp at h
    · simp at h
      subst h
      exact ⟨rfl, rfl⟩
  | succ fuel ih =>
    intro st st' h
    rw [scan_pages_succ] at h
    split at h
    · cases hsp : scan_page ext codec hdl st with
      | ok st1 =>
        rw [hsp] at h
        have f1 := scan_page_col ext codec hdl st st1 hsp
        have f2 := ih st1 st' h
        exact ⟨f2.1.trans f1.1, f2.2.trans f1.2⟩
      | thrown e st1 =>
        rw [hsp] at h
        simp at h
      | undefined =>
        rw [hsp] at h
        simp at h
    · simp at h
      subst h
      exact ⟨rfl, rfl⟩

theorem page_loop_col (self : ParquetFile) (s : ScanState) (c : ResultColumn)
    (codec : CompressionCodec) (hdl : Bool) (st0 : ColumnRun)
    (h : self.page_loop s c = some (codec, hdl, st0)) : st0.result_col = c := by
  unfold ParquetFile.page_loop at h
  simp only [] at h
  split at h
  · simp at h
  · split at h
    · simp at h
    · split at h
      · simp at h
      · split at h
        · simp at h
        · split at h
          · simp at h
          · simp only [Option.some.injEq, Prod.mk.injEq] at h
            rw [← h.2.2]
            rfl

theorem scan_column_col (ext : Externals) (fuel : Nat) (self : ParquetFile)
    (s : ScanState) (c : ResultColumn) (run : ColumnRun)
    (h : ParquetFile.scan_column ext fuel self s c = some (.ok run)) :
    run.result_col.id = c.id ∧ run.result_col.col = c.col := by
  obtain ⟨codec, hdl, st0, hloop⟩ := page_loop_of_ok ext fuel self s c run h
  have h0 := page_loop_col self s c codec hdl st0 hloop
  rw [scan_column_eq_loop ext fuel self s c codec hdl st0 hloop] at h
  cases hp : scan_pages ext codec hdl fuel st0 with
  | none => simp [hp] at h
  | some o =>
    rw [hp] at h
    simp only [Option.map_some', Option.some.injEq] at h
    cases o with
    | thrown e st1 => simp [Outcome.andThen] at h
    | undefined => simp [Outcome.andThen] at h
    | ok st1 =>
      have f1 := scan_pages_col ext codec hdl fuel st0 st1 hp
      rw [h0] at f1
      simp only [Outcome.andThen] at h
      unfold ColumnScan.cleanup at h
      split at h
      all_goals first
        | (simp only [ColumnRun.step, Outcome.ok.injEq] at h
           subst h
           exact f1)
        | simp [ColumnRun.step] at h

theorem initialize_column_again (self : ParquetFile) (c c1 c' : ResultColumn) (n : Int)
    (h : self.initialize_column c n = .ok c1) (hid : c'.id = c.id) (hcol : c'.col = c.col) :
    self.initialize_column c' n = .ok { c1 with dict := c'.dict } := by
  cases c
  cases c'
  simp only at hid hcol
  subst hid hcol
  unfold ParquetFile.initialize_column at h ⊢
  simp only [] at h ⊢
  by_cases ha : allocFails n = true
  · simp [ha] at h
  · simp only [ha, if_false] at h ⊢
    split at h <;> rename_i hty <;> (try simp only [hty]) <;> (repeat' (split at h)) <;>
      first
        | (simp at h
           done)
        | (simp only [Outcome.ok.injEq] at h
           subst h
           simp [*])

theorem scan_cols_pfile (ext : Externals) (fuel : Nat) (self : ParquetFile) (s : ScanState)
    (num_rows nrows : Int) (p0 : IFStream) :
    ∀ (todo done : List ResultColumn) (pfile : IFStream),
      scan_cols ext fuel { self with pfile := p0 } s num_rows nrows pfile done todo =
        scan_cols ext fuel self s num_rows nrows pfile done todo := by
  intro todo
  induction todo with
  | nil =>
    intro done pfile
    rfl
  | cons c todo ih =>
    intro done pfile
    have hi : ParquetFile.initialize_column { self with pfile := p0 } c (toU64 num_rows) =
        self.initialize_column c (toU64 num_rows) := rfl
    simp only [scan_cols, hi]
    split
    · split
      · rfl
      · exact ih _ _
      · rfl
      · rfl
    · rfl
    · rfl

/-- The loop over the columns of `scan`, run again on the columns it has produced: every
column is sized and scanned as before. -/
theorem scan_cols_again (ext : Externals) (fuel : Nat) (self : ParquetFile) (s : ScanState)
    (num_rows nrows : Int) :
    ∀ (todo done : List ResultColumn) (pfile : IFStream) (st : ScanRun),
      scan_cols ext fuel self s num_rows nrows pfile done todo = some (.ok st) →
      ∃ outs,
        st = { pfile := st.pfile, s := s, result := { cols := done ++ outs, nrows := nrows } } ∧
        outs.length = todo.length ∧
        st.pfile.bytes = pfile.bytes ∧
        (todo ≠ [] → st.pfile.failed = false) ∧
        (todo = [] → st.pfile = pfile) ∧
        ∀ (done' : List ResultColumn) (q : IFStream),
          q.bytes = pfile.bytes → (todo ≠ [] → q.failed = false) →
          scan_cols ext fuel self s num_rows nrows q done' outs =
            some (.ok { pfile := if todo = [] then q else st.pfile, s := s,
                        result := { cols := done' ++ outs, nrows := nrows } }) := by
  intro todo
  induction todo with
  | nil =>
    intro done pfile st h
    simp only [scan_cols, Option.some.injEq, Outcome.ok.injEq] at h
    subst h
    refine ⟨[], by simp, rfl, rfl, fun hne => absurd rfl hne, fun _ => rfl, ?_⟩
    intro done' q _ _
    simp [scan_cols]
  | cons c todo ih =>
    intro done pfile st h
    simp only [scan_cols] at h
    cases hi : self.initialize_column c (toU64 num_rows) with
    | thrown e c1 =>
      rw [hi] at h
      simp at h
    | undefined =>
      rw [hi] at h
      simp at h
    | ok c1 =>
      rw [hi] at h
      simp only at h
      cases hs : ParquetFile.scan_column ext fuel { self with pfile := pfile } s c1 with
      | none =>
        rw [hs] at h
        simp at h
      | some o =>
        rw [hs] at h
        cases o with
        | thrown e run => simp at h
        | undefined => simp at h
        | ok run =>
          simp only at h
          obtain ⟨outs, h1, h2, h3, h4, h5, h6⟩ := ih (done ++ [run.result_col]) run.pfile st h
          have hp := scan_column_ok_pfile ext fuel { self with pfile := pfile } s c1 run hs
          have hc := scan_column_col ext fuel { self with pfile := pfile } s c1 run hs
          have hfinal : st.pfile.failed = false := by
            by_cases ht : todo = []
            · rw [h5 ht]
              exact hp.2.1
            · exact h4 ht
          refine ⟨run.result_col :: outs, ?_, by simp [h2], h3.trans hp.1, fun _ => hfinal,
            fun hne => absurd hne (by simp), ?_⟩
          · rw [h1]
            simp
          · intro done' q hq hqf
            have hq0 := hqf (by simp)
            have hc1 : c1.id = c.id ∧ c1.col = c.col := by
              have hci := initialize_column_again self c c1 c (toU64 num_rows) hi rfl rfl
              rw [hi] at hci
              simp only [Outcome.ok.injEq] at hci
              unfold ParquetFile.initialize_column at hi
              simp only [] at hi
              split at hi
              · simp at hi
              · split at hi
                all_goals first
                  | (simp at hi
                     done)
                  | ((repeat' (split at hi)) <;>
                      first
                        | (simp at hi
                           done)
                        | (simp only [Outcome.ok.injEq] at hi
                           subst hi
                           exact ⟨rfl, rfl⟩))
            have hi2 := initialize_column_again self c c1 run.result_col (toU64 num_rows) hi
              (hc.1.trans hc1.1) (hc.2.trans hc1.2)
            have hs2 := scan_column_again ext fuel { self with pfile := pfile } s c1 run hs
            have hs3 := scan_column_ok_stream ext fuel { self with pfile := pfile } s _ run hs2
              q hq hq0
            have h7 := h6 (done' ++ [run.result_col]) run.pfile rfl (fun _ => hp.2.1)
            simp only [scan_cols, hi2]
            rw [hs3]
            simp only
            rw [h7]
            have hpf : (if todo = [] then run.pfile else st.pfile) = st.pfile := by
              by_cases ht : todo = []
              · rw [if_pos ht, h5 ht]
              · rw [if_neg ht]
            rw [hpf]
            simp

/-- C29. When `scan` has returned normally for a row group index, a second call with
`row_group_idx` set back to that index, on the result chunk and the stream the first call
left, returns normally with the very same objects: the same return value, the same
`nrows`, and in every column the same defined bytes, the same value array (what is not
written in one call is not written in the other), the same string heap chunks and the
same dictionary. This holds as well past the last row group, where both calls return
false. -/
theorem scan_twice_same (ext : Externals) (fuel : Nat) (self : ParquetFile) (s : ScanState)
    (result : ResultChunk) (run : ScanRun)
    (h : ParquetFile.scan ext fuel self s result = some (Outcome.ok run)) :
    ParquetFile.scan ext fuel { self with pfile := run.pfile }
        { run.s with row_group_idx := s.row_group_idx } run.result =
      some (Outcome.ok run) := by
  unfold ParquetFile.scan at h ⊢
  simp only [] at h ⊢
  by_cases hlast : self.file_meta_data.row_groups.length ≤ s.row_group_idx
  · rw [if_pos hlast] at h
    rw [if_pos hlast]
    simp only [Option.some.injEq, Outcome.ok.injEq] at h
    subst h
    rfl
  · rw [if_neg hlast] at h
    rw [if_neg hlast]
    cases hrg : self.file_meta_data.row_groups[s.row_group_idx]? with
    | none =>
      rw [hrg] at h
      simp at h
    | some rg =>
      rw [hrg] at h
      simp only [Option.map_eq_some'] at h
      obtain ⟨o, ho, h⟩ := h
      cases o with
      | thrown e st => simp [Outcome.andThen] at h
      | undefined => simp [Outcome.andThen] at h
      | ok st =>
        simp only [Outcome.andThen, Outcome.ok.injEq] at h
        obtain ⟨outs, h1, h2, h3, h4, h5, h6⟩ :=
          scan_cols_again ext fuel self s rg.num_rows rg.num_rows result.cols [] self.pfile st ho
        have h7 := h6 [] st.pfile h3 h4
        have hpf : (if result.cols = [] then st.pfile else st.pfile) = st.pfile := by
          split <;> rfl
        rw [hpf] at h7
        subst h
        simp only [scan_cols_pfile]
        have hcols : st.result.cols = outs := by
          rw [h1]
          simp
        rw [hcols, h7]
        simp only [Option.map_some', Outcome.andThen, Option.some.injEq, Outcome.ok.injEq]
        rw [h1]

/-! ### The RLE round trip -/

theorem read_write_unsigned_varint (fuel : Nat) :
    ∀ (v : Nat) (rest : List Nat), v < 128 ^ (fuel + 1) →
      read_unsigned_varint (fuel + 1) (write_unsigned_varint (fuel + 1) v ++ rest) =
        some (v, rest) := by
  induction fuel with
  | zero =>
    intro v rest h
    have hv : v < 128 := by simpa using h
    simp [write_unsigned_varint, read_unsigned_varint, hv]
  | succ fuel ih =>
    intro v rest h
    by_cases hv : v < 128
    · simp [write_unsigned_varint, read_unsigned_varint, hv]
    · have h1 : v / 128 < 128 ^ (fuel + 1) := by
        rw [Nat.div_lt_iff_lt_mul (by decide)]
        rw [pow_succ] at h
        exact h
      have h2 : ¬ (v % 128 + 128 < 128) := by omega
      have h3 := ih (v / 128) rest h1
      rw [write_unsigned_varint, if_neg hv, List.cons_append, read_unsigned_varint, if_neg h2, h3]
      simp only [Option.some.injEq, Prod.mk.injEq, and_true]
      omega

theorem leBytes_length (w : Nat) : ∀ v, (leBytes w v).length = w := by
  induction w with
  | zero => intro v; rfl
  | succ w ih => intro v; simp [leBytes, ih]

theorem leNat_leBytes (w : Nat) : ∀ v, v < 256 ^ w → leNat (leBytes w v) = v := by
  induction w with
  | zero =>
    intro v h
    simp at h
    simp [leBytes, leNat, h]
  | succ w ih =>
    intro v h
    have h1 : v / 256 < 256 ^ w := by
      rw [Nat.div_lt_iff_lt_mul (by decide)]
      rw [pow_succ] at h
      exact h
    simp only [leBytes, leNat, ih (v / 256) h1]
    omega

theorem bit_pack_lt (bw : Nat) (vs : List Nat) (h : ∀ v ∈ vs, v < 2 ^ bw) :
    bit_pack bw vs < 2 ^ (bw * vs.length) := by
  induction vs with
  | nil => simp [bit_pack]
  | cons v vs ih =>
    have h1 := h v (List.mem_cons_self _ _)
    have h2 := ih (fun u hu => h u (List.mem_cons_of_mem _ hu))
    simp only [bit_pack, List.length_cons]
    have e : 2 ^ (bw * (vs.length + 1)) = 2 ^ bw * 2 ^ (bw * vs.length) := by
      rw [Nat.mul_succ, pow_add, Nat.mul_comm]
    rw [e]
    have h3 : bit_pack bw vs + 1 ≤ 2 ^ (bw * vs.length) := h2
    calc v + 2 ^ bw * bit_pack bw vs < 2 ^ bw + 2 ^ bw * bit_pack bw vs := by omega
      _ = 2 ^ bw * (bit_pack bw vs + 1) := by ring
      _ ≤ 2 ^ bw * 2 ^ (bw * vs.length) := Nat.mul_le_mul_left _ h3

theorem bit_pack_get (bw : Nat) (vs : List Nat) (h : ∀ v ∈ vs, v < 2 ^ bw) :
    ∀ i, i < vs.length → (bit_pack bw vs / 2 ^ (bw * i)) % 2 ^ bw = vs.getD i 0 := by
  induction vs with
  | nil =>
    intro i hi
    simp at hi
  | cons v vs ih =>
    intro i hi
    have h1 := h v (List.mem_cons_self _ _)
    have hpos : 0 < 2 ^ bw := Nat.pow_pos (by decide)
    cases i with
    | zero =>
      simp only [bit_pack, Nat.mul_zero, pow_zero, Nat.div_one, List.getD_cons_zero]
      rw [Nat.add_mul_mod_self_left]
      exact Nat.mod_eq_of_lt h1
    | succ i =>
      simp only [bit_pack, List.getD_cons_succ]
      have e : 2 ^ (bw * (i + 1)) = 2 ^ bw * 2 ^ (bw * i) := by
        rw [Nat.mul_succ, pow_add, Nat.mul_comm]
      rw [e, ← Nat.div_div_eq_div_mul, Nat.add_mul_div_left _ _ hpos, Nat.div_eq_of_lt h1,
        Nat.zero_add]
      exact ih (fun u hu => h u (List.mem_cons_of_mem _ hu)) i (by simpa using hi)

theorem bit_pack_zeros (bw : Nat) (vs : List Nat) (k : Nat) :
    bit_pack bw (vs ++ List.replicate k 0) = bit_pack bw vs := by
  induction vs with
  | nil =>
    induction k with
    | zero => rfl
    | succ k ih =>
      simp only [List.nil_append] at ih
      simp [List.replicate_succ, bit_pack, ih]
  | cons v vs ih =>
    rw [List.cons_append]
    simp only [bit_pack]
    rw [ih]

theorem range_map_getD (vs : List Nat) :
    (List.range vs.length).map (fun i => vs.getD i 0) = vs := by
  apply List.ext_getElem
  · simp
  · intro i h1 h2
    simp only [List.getElem_map, List.getElem_range, List.getD_eq_getElem?_getD]
    rw [List.getElem?_eq_getElem (by simpa using h1)]
    rfl

theorem take_run_eq_replicate (x : Nat) (rest : List Nat) :
    (x :: rest).take (1 + (rest.takeWhile (fun y => decide (y = x))).length) =
      List.replicate (1 + (rest.takeWhile (fun y => decide (y = x))).length) x := by
  have h : ∀ l : List Nat, l.take (l.takeWhile (fun y => decide (y = x))).length =
      List.replicate (l.takeWhile (fun y => decide (y = x))).length x := by
    intro l
    induction l with
    | nil => rfl
    | cons a l ih =>
      by_cases ha : a = x
      · subst ha
        simp only [List.takeWhile_cons, decide_True, if_true, List.length_cons, List.take_succ_cons,
          List.replicate_succ, ih]
      · simp [List.takeWhile_cons, ha]
  rw [Nat.add_comm, List.take_succ_cons, List.replicate_succ, h rest]

theorem pow_bit_width_le (bw : Nat) : 2 ^ bw ≤ 256 ^ ((bw + 7) / 8) := by
  have e : (256 : Nat) = 2 ^ 8 := by norm_num
  rw [e, ← pow_mul]
  exact Nat.pow_le_pow_right (by decide) (by omega)

/-- The decoder reads back what the encoder has written: `rle_runs` on the runs of
`rle_bp_runs` gives the values. -/
theorem rle_runs_rle_bp_runs (bw : Nat) (fe : Nat) :
    ∀ (xs : List Nat) (fd : Nat), xs.length ≤ fe → xs.length < fd → xs.length < 2 ^ 31 →
      (∀ x ∈ xs, x < 2 ^ bw) →
      rle_runs bw fd (rle_bp_runs bw fe xs) xs.length = some xs := by
  induction fe with
  | zero =>
    intro xs fd h1 h2 _ _
    have hnil : xs = [] := List.length_eq_zero.mp (by omega)
    subst hnil
    cases fd with
    | zero => simp at h2
    | succ fd => simp [rle_runs]
  | succ fe ih =>
    intro xs fd h1 h2 h3 h4
    cases fd with
    | zero => omega
    | succ fd =>
      cases xs with
      | nil => simp [rle_runs]
      | cons x rest =>
        have hx : x < 2 ^ bw := h4 x (List.mem_cons_self _ _)
        have hn0 : ¬ ((x :: rest).length = 0) := by simp
        have htw : (rest.takeWhile (fun y => decide (y = x))).length ≤ rest.length :=
          (List.takeWhile_sublist _).length_le
        simp only [List.length_cons] at h1 h2 h3
        generalize hr : 1 + (rest.takeWhile (fun y => decide (y = x))).length = r
        have hrn : r ≤ rest.length + 1 := by omega
        have hr1 : 1 ≤ r := by omega
        by_cases h8 : 8 ≤ r
        · -- an RLE run
          have henc : rle_bp_runs bw (fe + 1) (x :: rest) =
              write_unsigned_varint 5 (2 * r) ++ (leBytes ((bw + 7) / 8) x ++
                rle_bp_runs bw fe ((x :: rest).drop r)) := by
            simp only [rle_bp_runs, hr, h8, if_true, List.append_assoc]
          have hvar := read_write_unsigned_varint 4 (2 * r)
            (leBytes ((bw + 7) / 8) x ++ rle_bp_runs bw fe ((x :: rest).drop r))
            (by
              have : (128 : Nat) ^ (4 + 1) = 34359738368 := by norm_num
              have : (2 : Nat) ^ 31 = 2147483648 := by norm_num
              omega)
          have hrec := ih ((x :: rest).drop r) fd
            (by simp only [List.length_drop, List.length_cons]; omega)
            (by simp only [List.length_drop, List.length_cons]; omega)
            (by simp only [List.length_drop, List.length_cons]; omega)
            (fun y hy => h4 y (List.mem_of_mem_drop hy))
          simp only [List.length_drop, List.length_cons] at hrec
          have hval : leNat (leBytes ((bw + 7) / 8) x) = x :=
            leNat_leBytes _ x (lt_of_lt_of_le hx (pow_bit_width_le bw))
          have hk : min (2 * r / 2) (rest.length + 1) = r := by omega
          have hsplit : List.replicate r x ++ (x :: rest).drop r = x :: rest := by
            rw [← hr, ← take_run_eq_replicate, List.take_append_drop]
          rw [henc, rle_runs, if_neg hn0, hvar]
          simp only [Nat.mul_mod_right, if_true, List.length_append, leBytes_length,
            List.drop_left' (leBytes_length _ _), List.take_left' (leBytes_length _ _),
            hval, List.length_cons, hk, hrec]
          rw [if_neg (by omega)]
          simp only [hsplit]
        · -- a bit-packed group
          generalize hg : (x :: rest).take 8 = group
          have hgl : group.length = min 8 (rest.length + 1) := by
            rw [← hg]
            simp
            omega
          have hgv : ∀ v ∈ group, v < 2 ^ bw := by
            intro v hv
            rw [← hg] at hv
            exact h4 v (List.mem_of_mem_take hv)
          have hP : bit_pack bw (group ++ List.replicate (8 - group.length) 0) =
              bit_pack bw group := bit_pack_zeros bw group _
          have henc : rle_bp_runs bw (fe + 1) (x :: rest) =
              write_unsigned_varint 5 3 ++ (leBytes bw (bit_pack bw group) ++
                rle_bp_runs bw fe ((x :: rest).drop 8)) := by
            simp only [rle_bp_runs, hr, h8, if_false, hg, hP, List.append_assoc]
          have hvar := read_write_unsigned_varint 4 3
            (leBytes bw (bit_pack bw group) ++ rle_bp_runs bw fe ((x :: rest).drop 8))
            (by norm_num)
          have hrec := ih ((x :: rest).drop 8) fd
            (by simp only [List.length_drop, List.length_cons]; omega)
            (by simp only [List.length_drop, List.length_cons]; omega)
            (by simp only [List.length_drop, List.length_cons]; omega)
            (fun y hy => h4 y (List.mem_of_mem_drop hy))
          simp only [List.length_drop, List.length_cons] at hrec
          have hlt : bit_pack bw group < 256 ^ bw := by
            have e : (256 : Nat) = 2 ^ 8 := by norm_num
            have h5 := bit_pack_lt bw group hgv
            rw [e, ← pow_mul, Nat.mul_comm 8 bw]
            exact lt_of_lt_of_le h5 (Nat.pow_le_pow_right (by decide)
              (Nat.mul_le_mul_left _ (by omega)))
          have hval : leNat (leBytes bw (bit_pack bw group)) = bit_pack bw group :=
            leNat_leBytes _ _ hlt
          have hk : min (3 / 2 * 8) (rest.length + 1) = group.length := by omega
          have hvals : (List.range group.length).map
              (fun i => (bit_pack bw group / 2 ^ (bw * i)) % 2 ^ bw) = group := by
            conv_rhs => rw [← range_map_getD group]
            apply List.map_congr_left
            intro i hi
            exact bit_pack_get bw group hgv i (by simpa using hi)
          have hsplit : group ++ (x :: rest).drop 8 = x :: rest := by
            rw [← hg, List.take_append_drop]
          have hnb : 3 / 2 * bw = bw := by omega
          rw [henc, rle_runs, if_neg hn0, hvar]
          simp only [show (3 : Nat) % 2 = 0 ↔ False by decide, if_false, hnb,
            List.length_append, leBytes_length,
            List.drop_left' (leBytes_length _ _), List.take_left' (leBytes_length _ _),
            hval, List.length_cons, hk]
          rw [if_neg (by omega)]
          rw [hvals]
          have hsub : rest.length + 1 - group.length = rest.length + 1 - 8 := by omega
          rw [hsub, hrec]
          simp only [hsplit]

theorem toU32_toNat_lt (bw : Nat) (x : Int) (h0 : 0 ≤ x) (h1 : x < 2 ^ bw)
    (h2 : x < 2147483648) : (toU32 x).toNat < 2 ^ bw := by
  have e : toU32 x = x := by
    unfold toU32 two32
    omega
  rw [e]
  have h3 : ((x.toNat : Nat) : Int) < ((2 ^ bw : Nat) : Int) := by
    rw [Int.toNat_of_nonneg h0]
    exact_mod_cast h1
  exact_mod_cast h3

theorem toI32_toU32_toNat (x : Int) (h0 : 0 ≤ x) (h2 : x < 2147483648) :
    toI32 (((toU32 x).toNat : Nat) : Int) = x := by
  have e : toU32 x = x := by
    unfold toU32 two32
    omega
  rw [e, Int.toNat_of_nonneg h0]
  unfold toI32 two32
  omega

theorem map_toI32_toU32 (xs : List Int) (h : ∀ x ∈ xs, 0 ≤ x ∧ x < 2147483648) :
    (xs.map (fun v => (toU32 v).toNat)).map (fun (v : Nat) => toI32 (v : Int)) = xs := by
  induction xs with
  | nil => rfl
  | cons x xs ih =>
    obtain ⟨h0, h2⟩ := h x (List.mem_cons_self _ _)
    rw [List.map_cons, List.map_cons, ih (fun y hy => h y (List.mem_cons_of_mem _ hy)),
      toI32_toU32_toNat x h0 h2]

/-- C30. For a bit width `bw ≤ 32` and R integers `xs` with `0 ≤ xs[i] < 2 ^ bw` (fewer
than 2^31 of them, the length of an R vector being an `int` here), with an output buffer
that holds the encoded bytes (`MaxRleBpSize` is a safe upper bound),
`nanoparquet_rle_encode_int(xs, bw)` returns bytes which `nanoparquet_rle_decode_int`
with the same bit width, `includes_length = false` and `length = |xs|` decodes to
`xs`. -/
theorem rle_encode_decode_round_trip (MaxRleBpSize : List Int → Nat → Nat) (bw : Nat)
    (xs : List Int) (hbw : bw ≤ 32)
    (hxs : ∀ x ∈ xs, 0 ≤ x ∧ x < 2 ^ bw ∧ x < 2147483648)
    (hlen : xs.length < 2 ^ 31)
    (hsafe : (RleBpEncode xs bw).length ≤ MaxRleBpSize xs bw) :
    ∃ bytes, nanoparquet_rle_encode_int MaxRleBpSize xs (bw : Int) = RCall.value bytes ∧
      nanoparquet_rle_decode_int rle_get_batch bytes (bw : Int) false (xs.length : Int) =
        RCall.value xs := by
  have h31 : (2 : Nat) ^ 31 = 2147483648 := by norm_num
  have hb1 : toU32 (bw : Int) = (bw : Int) := by
    unfold toU32 two32
    omega
  have hb2 : (toU32 (bw : Int) % 256).toNat = bw := by
    rw [hb1]
    omega
  have hb3 : (toU32 (bw : Int)).toNat = bw := by
    rw [hb1]
    omega
  have hn1 : toU32 (xs.length : Int) = (xs.length : Int) := by
    unfold toU32 two32
    omega
  refine ⟨RleBpEncode xs bw, ?_, ?_⟩
  · unfold nanoparquet_rle_encode_int
    simp only [hb2]
    rw [if_neg (by omega)]
  · -- the values the encoder sees, and what the decoder gives back for them
    have hvals : ∀ x ∈ xs.map (fun v => (toU32 v).toNat), x < 2 ^ bw := by
      intro y hy
      simp only [List.mem_map] at hy
      obtain ⟨x, hx, rfl⟩ := hy
      obtain ⟨h0, h1, h2⟩ := hxs x hx
      exact toU32_toNat_lt bw x h0 h1 h2
    have hback := map_toI32_toU32 xs (fun x hx => ⟨(hxs x hx).1, (hxs x hx).2.2⟩)
    unfold nanoparquet_rle_decode_int
    simp only [Bool.false_eq_true, if_false, hb3, hn1, Int.toNat_ofNat]
    unfold rle_get_batch
    by_cases h0 : bw = 0
    · subst h0
      have hz : xs = List.replicate xs.length 0 := by
        apply List.ext_getElem
        · simp
        · intro i h1 h2
          obtain ⟨ha, hb, _⟩ := hxs xs[i] (List.getElem_mem _)
          simp only [pow_zero] at hb
          simp only [List.getElem_replicate]
          omega
      simp only [if_true, Int.toNat_ofNat, List.length_replicate, List.map_replicate]
      have ht : toI32 ((0 : Nat) : Int) = 0 := by decide
      rw [ht]
      exact congrArg RCall.value hz.symm
    · have hrt := rle_runs_rle_bp_runs bw xs.length (xs.map (fun v => (toU32 v).toNat))
        (xs.length + 1) (by simp) (by simp) (by simpa using hlen) hvals
      simp only [List.length_map] at hrt
      have htake : (RleBpEncode xs bw).take (RleBpEncode xs bw).length = RleBpEncode xs bw :=
        List.take_length _
      simp only [h0, if_false, Int.toNat_ofNat, htake]
      unfold RleBpEncode
      rw [hrt]
      simp only [List.length_map, if_true, hback]

/-! ### Data pages, failed scans, bit width 0 and the end of the page loop -/

theorem scan_cols_thrown (ext : Externals) (fuel : Nat) (self : ParquetFile) (s : ScanState)
    (num_rows nrows : Int) (e : Err) (st : ScanRun) :
    ∀ (todo : List ResultColumn) (pfile : IFStream) (done : List ResultColumn),
      scan_cols ext fuel self s num_rows nrows pfile done todo = some (.thrown e st) →
      st.s = s ∧ st.ret = false ∧
      ∃ ran before c c' after,
        todo = before ++ c :: after ∧ ran.length = before.length ∧
        st.result.cols = done ++ ran ++ c' :: after ∧
        (self.initialize_column c (toU64 num_rows) = .thrown e c' ∨
         ∃ pf c1 run, self.initialize_column c (toU64 num_rows) = .ok c1 ∧
           ParquetFile.scan_column ext fuel { self with pfile := pf } s c1 =
             some (.thrown e run) ∧
           c' = run.result_col) := by
  intro todo
  induction todo with
  | nil =>
    intro pfile done h
    simp [scan_cols] at h
  | cons c todo ih =>
    intro pfile done h
    simp only [scan_cols] at h
    cases hi : self.initialize_column c (toU64 num_rows) with
    | ok c1 =>
      rw [hi] at h
      simp only at h
      cases hs : ParquetFile.scan_column ext fuel { self with pfile := pfile } s c1 with
      | none => rw [hs] at h; simp at h
      | some o =>
        rw [hs] at h
        cases o with
        | ok st1 =>
          simp only at h
          obtain ⟨h1, h2, ran, before, c0, c', after, h3, h4, h5, h6⟩ := ih _ _ h
          refine ⟨h1, h2, st1.result_col :: ran, c :: before, c0, c', after, ?_, ?_, ?_, h6⟩
          · rw [h3]; rfl
          · simp [h4]
          · rw [h5]; simp
        | thrown e1 st1 =>
          simp only [Option.some.injEq, Outcome.thrown.injEq] at h
          obtain ⟨he, hst⟩ := h
          subst he
          subst hst
          exact ⟨rfl, rfl, [], [], c, st1.result_col, todo, rfl, rfl, by simp,
            Or.inr ⟨pfile, c1, st1, hi, hs, rfl⟩⟩
        | undefined => simp at h
    | thrown e1 c1 =>
      rw [hi] at h
      simp only [Option.some.injEq, Outcome.thrown.injEq] at h
      obtain ⟨he, hst⟩ := h
      subst he
      subst hst
      exact ⟨rfl, rfl, [], [], c, c1, todo, rfl, rfl, by simp, Or.inl hi⟩
    | undefined =>
      rw [hi] at h
      simp at h

/-- C31. A call of `scan_data_page` that returns normally on a page of `num_values = n`
leaves `page_start_row` at its old value plus `n` (in the 64-bit unsigned arithmetic of the
field, so exactly `n` more when that sum is in range) and `defined_ptr` exactly `n` further,
whatever the encoding, the definition levels and the collaborators are; `seen_dict`, the
dictionary and its size are what they were. -/
theorem scan_data_page_advances_by_num_values (ext : Externals) (cs : ColumnScan)
    (rc : ResultColumn) (has_def_levels : Bool) (r : ColumnScan × ResultColumn)
    (h : cs.scan_data_page ext rc has_def_levels = .ok r) :
    r.1.page_start_row =
      toU64 (cs.page_start_row + cs.page_header.data_page_header.num_values) ∧
    (0 ≤ cs.page_start_row + cs.page_header.data_page_header.num_values →
      cs.page_start_row + cs.page_header.data_page_header.num_values < two64 →
      r.1.page_start_row = cs.page_start_row + cs.page_header.data_page_header.num_values) ∧
    r.1.defined_ptr = cs.defined_ptr + cs.page_header.data_page_header.num_values ∧
    r.1.seen_dict = cs.seen_dict ∧ r.1.dict = cs.dict ∧ r.1.dict_size = cs.dict_size := by
  have f := (scan_data_page_frame ext cs rc has_def_levels r h).1
  have h1 : r.1.page_start_row =
      toU64 (cs.page_start_row + cs.page_header.data_page_header.num_values) := by
    rw [f]
  refine ⟨h1, fun h0 hlt => ?_, by rw [f], by rw [f], by rw [f], by rw [f]⟩
  rw [h1]
  exact toU64_of_range _ ⟨h0, hlt⟩

/-- C36. When `ParquetFile::scan` ends with an exception, the scan state is the one it
was called with, so `row_group_idx` has not moved and a retry addresses the same row
group. The exception comes from `initialize_column` or from `scan_column` on one column
`c` of the result; the columns behind `c` are the ones the caller passed, and no column
was added or removed. -/
theorem scan_failure_keeps_row_group (ext : Externals) (fuel : Nat) (self : ParquetFile)
    (s : ScanState) (result : ResultChunk) (e : Err) (st : ScanRun)
    (h : self.scan ext fuel s result = some (.thrown e st)) :
    st.s = s ∧ st.s.row_group_idx = s.row_group_idx ∧ st.ret = false ∧
    (∀ result', self.scan ext fuel st.s result' = self.scan ext fuel s result') ∧
    ∃ row_group ran before c c' after,
      self.file_meta_data.row_groups[s.row_group_idx]? = some row_group ∧
      result.cols = before ++ c :: after ∧ ran.length = before.length ∧
      st.result.cols = ran ++ c' :: after ∧
      (self.initialize_column c (toU64 row_group.num_rows) = .thrown e c' ∨
       ∃ pf c1 run, self.initialize_column c (toU64 row_group.num_rows) = .ok c1 ∧
         ParquetFile.scan_column ext fuel { self with pfile := pf } s c1 =
           some (.thrown e run) ∧
         c' = run.result_col) := by
  unfold ParquetFile.scan at h
  split at h
  · simp at h
  · cases hrg : self.file_meta_data.row_groups[s.row_group_idx]? with
    | none => rw [hrg] at h; simp at h
    | some row_group =>
      rw [hrg] at h
      simp only at h
      cases hc : scan_cols ext fuel self s row_group.num_rows row_group.num_rows self.pfile []
          result.cols with
      | none => rw [hc] at h; simp at h
      | some o =>
        rw [hc] at h
        cases o with
        | ok st1 => simp [Outcome.andThen] at h
        | undefined => simp [Outcome.andThen] at h
        | thrown e1 st1 =>
          simp only [Option.map_some', Outcome.andThen, Option.some.injEq,
            Outcome.thrown.injEq] at h
          obtain ⟨he, hst⟩ := h
          subst he
          subst hst
          obtain ⟨h1, h2, ran, before, c, c', after, h3, h4, h5, h6⟩ :=
            scan_cols_thrown ext fuel self s _ _ _ _ _ _ _ hc
          refine ⟨h1, by rw [h1], h2, fun _ => by rw [h1], row_group, ran, before, c, c', after,
            rfl, h3, h4, ?_, h6⟩
          rw [h5]
          simp

theorem read_offsets_width_zero (ext : Externals) (cs : ColumnScan) (rc : ResultColumn)
    (hwidth : readAt cs.page_buf cs.page_buf_ptr = some 0)
    (hnv : 0 ≤ cs.page_header.data_page_header.num_values)
    (hnv32 : cs.page_header.data_page_header.num_values < 2147483648) :
    cs.read_offsets ext rc =
      (Outcome.ok ({ cs with page_buf_ptr := cs.page_buf_ptr + 1 }, rc),
       List.replicate cs.page_header.data_page_header.num_values.toNat 0) := by
  have halloc : allocFails (toU64 cs.page_header.data_page_header.num_values) = false := by
    rw [toU64_of_range _ ⟨hnv, by unfold two64; omega⟩]
    unfold allocFails
    simp only [decide_eq_false_iff_not, not_le]
    omega
  unfold ColumnScan.read_offsets
  simp only [halloc, hwidth, Bool.false_eq_true, if_false, Nat.lt_irrefl]

/-- C32, amended. A dictionary-encoded data page whose payload starts with the bit-width
byte 0, scanned after a dictionary page with a non-empty dictionary `dict`. For an INT32,
INT64, INT96, FLOAT, DOUBLE or BYTE_ARRAY column, the rows of the page being in the
result: `scan_data_page_dict` returns normally, with the same outcome whatever the
collaborators are (no decoder is run); the cursor has moved by exactly one byte; every
defined position of the page has received entry 0 of the dictionary; an undefined position
is unchanged (fixed width) or the null pointer (BYTE_ARRAY); the rows outside the page are
unchanged. For a column of any other type (BOOLEAN, FIXED_LEN_BYTE_ARRAY, a type value
that names no type): `scan_data_page_dict` throws "Unsupported Parquet type", whatever the
collaborators are, with the cursor behind the bit-width byte and the result column as it
was. -/
theorem bit_width_zero_page (cs : ColumnScan) (rc : ResultColumn) (dict : List Slot)
    (hseen : cs.seen_dict = true) (hdict : cs.dict = some dict) (hne : dict ≠ [])
    (hwidth : readAt cs.page_buf cs.page_buf_ptr = some 0)
    (hnv : 0 ≤ cs.page_header.data_page_header.num_values)
    (hnv32 : cs.page_header.data_page_header.num_values < 2147483648) :
    ((rc.col.type = PType.INT32 ∨ rc.col.type = PType.INT64 ∨ rc.col.type = PType.INT96 ∨
        rc.col.type = PType.FLOAT ∨ rc.col.type = PType.DOUBLE ∨
        rc.col.type = PType.BYTE_ARRAY) →
      0 ≤ cs.defined_ptr → 0 ≤ cs.page_start_row →
      cs.defined_ptr.toNat + cs.page_header.data_page_header.num_values.toNat
        ≤ rc.defined.length →
      cs.page_start_row.toNat + cs.page_header.data_page_header.num_values.toNat
        ≤ rc.data.length →
      (rc.data.length : Int) ≤ two64 →
      ∃ data',
        (∀ ext : Externals, cs.scan_data_page_dict ext rc =
          Outcome.ok ({ cs with page_buf_ptr := cs.page_buf_ptr + 1 },
                      { rc with data := data' })) ∧
        data'.length = rc.data.length ∧
        (∀ (i d : Nat),
          (defined_window cs rc cs.page_header.data_page_header.num_values.toNat)[i]? = some d →
          d ≠ 0 → data'[cs.page_start_row.toNat + i]? = some (dict.head hne)) ∧
        (∀ i : Nat,
          (defined_window cs rc cs.page_header.data_page_header.num_values.toNat)[i]? = some 0 →
          data'[cs.page_start_row.toNat + i]? =
            if rc.col.type = PType.BYTE_ARRAY then some (Slot.ptr none)
            else rc.data[cs.page_start_row.toNat + i]?) ∧
        (∀ r, r < cs.page_start_row.toNat ∨
            cs.page_start_row.toNat + cs.page_header.data_page_header.num_values.toNat ≤ r →
          data'[r]? = rc.data[r]?)) ∧
    (¬ (rc.col.type = PType.INT32 ∨ rc.col.type = PType.INT64 ∨ rc.col.type = PType.INT96 ∨
        rc.col.type = PType.FLOAT ∨ rc.col.type = PType.DOUBLE ∨
        rc.col.type = PType.BYTE_ARRAY) →
      ∀ ext : Externals, cs.scan_data_page_dict ext rc =
        Outcome.thrown Err.dictDataUnsupportedType
          ({ cs with page_buf_ptr := cs.page_buf_ptr + 1 }, rc)) := by
  have hro := fun ext => read_offsets_width_zero ext cs rc hwidth hnv hnv32
  have hns : (!cs.seen_dict) = false := by simp [hseen]
  refine ⟨fun hty hdp hpsr hD hR h64 => ?_, fun hty ext => ?_⟩
  · generalize hn : cs.page_header.data_page_header.num_values.toNat = n at *
    have hwin : ∀ i, i < n →
        (defined_window cs rc n)[i]? = rc.defined[cs.defined_ptr.toNat + i]? :=
      fun i hi => defined_window_getElem? cs rc n i hi
    have hlen : ∀ i d, (defined_window cs rc n)[i]? = some d → i < n := by
      intro i d hi
      by_contra hc
      have : (defined_window cs rc n).length ≤ i := by
        simp [defined_window]
        omega
      rw [List.getElem?_eq_none this] at hi
      simp at hi
    have hpos : 0 < dict.length := List.length_pos.mpr hne
    have hhead : dict[0]? = some (dict.head hne) := by
      cases dict with
      | nil => exact absurd rfl hne
      | cons a l => simp
    obtain ⟨data', h1, h2, h3, h4, h5⟩ := dict_loops_spec (List.replicate n 0) dict
      (decide (rc.col.type = PType.BYTE_ARRAY)) n 0 cs.defined_ptr.toNat
      cs.page_start_row.toNat 0
      { cs with page_buf_ptr := cs.page_buf_ptr + 1 } rc rfl
      (Int.toNat_of_nonneg hdp).symm (Int.toNat_of_nonneg hpsr).symm hdict
      (by simpa using hD) (by simpa using hR) h64
      (by
        intro j hj d _ _
        refine ⟨0, ?_, hpos⟩
        rw [Nat.zero_add, List.getElem?_replicate]
        simp [hj])
    simp only [Nat.add_zero, Nat.zero_add] at h1 h3 h4 h5
    refine ⟨data', ?_, h2, ?_, ?_, ?_⟩
    · intro ext
      unfold ColumnScan.scan_data_page_dict
      rw [hns]
      simp only [Bool.false_eq_true, if_false, hro ext, Outcome.andThen]
      rcases hty with h | h | h | h | h | h <;>
        simp only [h, ColumnScan.fill_values_dict, hn] <;>
        simp only [h, decide_True, decide_False, if_true, if_false, Bool.false_eq_true,
          reduceCtorEq] at h1 <;>
        exact h1
    · intro i d hi hne0
      have hin := hlen i d hi
      obtain ⟨o, ho, _, hd⟩ := h3 i hin d (by rw [← hwin i hin]; exact hi) hne0
      rw [List.getElem?_replicate] at ho
      simp only [hin, if_true, Option.some.injEq] at ho
      subst ho
      rw [hd, hhead]
    · intro i hi
      have hin := hlen i 0 hi
      have := h4 i hin (by rw [← hwin i hin]; exact hi)
      rw [this]
      by_cases hb : rc.col.type = PType.BYTE_ARRAY <;> simp [hb]
    · intro r hr
      exact h5 r hr
  · unfold ColumnScan.scan_data_page_dict
    rw [hns]
    simp only [Bool.false_eq_true, if_false, hro ext, Outcome.andThen]
    cases h : rc.col.type <;> simp only [h, reduceCtorEq, or_self, or_false, or_true,
      false_or, true_or, not_true_eq_false, not_false_eq_true] at hty ⊢

theorem read_unsigned_varint_length :
    ∀ (fuel : Nat) (bytes : List Nat) (v : Nat) (rest : List Nat),
      read_unsigned_varint fuel bytes = some (v, rest) → rest.length < bytes.length := by
  intro fuel
  induction fuel with
  | zero => intro bytes v rest h; simp [read_unsigned_varint] at h
  | succ fuel ih =>
    intro bytes v rest h
    cases bytes with
    | nil => simp [read_unsigned_varint] at h
    | cons b tl =>
      simp only [read_unsigned_varint] at h
      split at h
      · simp only [Option.some.injEq, Prod.mk.injEq] at h
        obtain ⟨_, rfl⟩ := h
        simp
      · split at h
        · rename_i v1 rest1 hr
          simp only [Option.some.injEq, Prod.mk.injEq] at h
          obtain ⟨_, rfl⟩ := h
          have := ih _ _ _ hr
          simp only [List.length_cons]
          omega
        · simp at h

theorem read_zigzag_varint_length (bytes : List Nat) (v : Int) (rest : List Nat)
    (h : read_zigzag_varint bytes = some (v, rest)) : rest.length < bytes.length := by
  unfold read_zigzag_varint at h
  split at h
  · rename_i v1 rest1 hr
    simp only [Option.some.injEq, Prod.mk.injEq] at h
    obtain ⟨_, rfl⟩ := h
    exact read_unsigned_varint_length _ _ _ _ hr
  · simp at h

/-- The Thrift reader of the worked examples never gives back more bytes than it was
given, and reading the fields of a struct takes at least the stop byte. -/
theorem thrift_read_length :
    ∀ (fuel : Nat) (mode : TMode) (bytes : List Nat) (v : TValue) (rest : List Nat),
      thrift_read fuel mode bytes = some (v, rest) →
      rest.length ≤ bytes.length ∧
      (∀ id, mode = TMode.fields id → rest.length < bytes.length) := by
  intro fuel
  induction fuel with
  | zero => intro mode bytes v rest h; simp [thrift_read] at h
  | succ fuel ih =>
    intro mode bytes v rest h
    cases mode with
    | value type =>
      refine ⟨?_, fun id hid => by cases hid⟩
      simp only [thrift_read] at h
      split at h
      · simp only [Option.some.injEq, Prod.mk.injEq] at h
        obtain ⟨_, rfl⟩ := h
        exact le_refl _
      · split at h
        · simp only [Option.some.injEq, Prod.mk.injEq] at h
          obtain ⟨_, rfl⟩ := h
          exact le_refl _
        · split at h
          · split at h
            · simp only [Option.some.injEq, Prod.mk.injEq] at h
              obtain ⟨_, rfl⟩ := h
              simp
            · simp at h
          · split at h
            · split at h
              · rename_i v1 rest1 hr
                simp only [Option.some.injEq, Prod.mk.injEq] at h
                obtain ⟨_, rfl⟩ := h
                exact Nat.le_of_lt (read_zigzag_varint_length _ _ _ hr)
              · simp at h
            · split at h
              · split at h
                · simp only [Option.some.injEq, Prod.mk.injEq] at h
                  obtain ⟨_, rfl⟩ := h
                  simp
                · simp at h
              · split at h
                · split at h
                  · rename_i len rest1 hr
                    split at h
                    · simp only [Option.some.injEq, Prod.mk.injEq] at h
                      obtain ⟨_, rfl⟩ := h
                      have := read_unsigned_varint_length _ _ _ _ hr
                      simp only [List.length_drop]
                      omega
                    · simp at h
                  · simp at h
                · split at h
                  · split at h
                    · simp at h
                    · rename_i hd tl
                      split at h
                      · split at h
                        · rename_i n rest1 hr
                          have h1 := read_unsigned_varint_length _ _ _ _ hr
                          have h2 := (ih _ _ _ _ h).1
                          simp only [List.length_cons]
                          omega
                        · simp at h
                      · have h2 := (ih _ _ _ _ h).1
                        simp only [List.length_cons]
                        omega
                  · split at h
                    · exact (ih _ _ _ _ h).1
                    · simp at h
    | fields last_id =>
      simp only [thrift_read] at h
      have key : rest.length < bytes.length := by
        split at h
        · simp at h
        · rename_i hd tl
          split at h
          · simp only [Option.some.injEq, Prod.mk.injEq] at h
            obtain ⟨_, rfl⟩ := h
            simp
          · split at h
            · simp at h
            · rename_i id rest1 hhead
              have hr1 : rest1.length ≤ tl.length := by
                split at hhead
                · split at hhead
                  · rename_i id2 rest2 hz
                    simp only [Option.some.injEq, Prod.mk.injEq] at hhead
                    obtain ⟨_, rfl⟩ := hhead
                    exact Nat.le_of_lt (read_zigzag_varint_length _ _ _ hz)
                  · simp at hhead
                · simp only [Option.some.injEq, Prod.mk.injEq] at hhead
                  obtain ⟨_, rfl⟩ := hhead
                  exact le_refl _
              split at h
              · simp at h
              · rename_i v1 rest2 hv
                have h2 := (ih _ _ _ _ hv).1
                split at h
                · rename_i fs rest3 hf
                  simp only [Option.some.injEq, Prod.mk.injEq] at h
                  obtain ⟨_, rfl⟩ := h
                  have h3 := (ih _ _ _ _ hf).1
                  simp only [List.length_cons]
                  omega
                · simp at h
      exact ⟨Nat.le_of_lt key, fun _ _ => key⟩
    | elems type count =>
      refine ⟨?_, fun id hid => by cases hid⟩
      simp only [thrift_read] at h
      split at h
      · simp only [Option.some.injEq, Prod.mk.injEq] at h
        obtain ⟨_, rfl⟩ := h
        exact le_refl _
      · split at h
        · simp at h
        · rename_i v1 rest1 hv
          have h2 := (ih _ _ _ _ hv).1
          split at h
          · rename_i vs rest2 hl
            simp only [Option.some.injEq, Prod.mk.injEq] at h
            obtain ⟨_, rfl⟩ := h
            have h3 := (ih _ _ _ _ hl).1
            omega
          · simp at h

/-- The page header reader of the worked examples takes at least one byte and no more
than it was given. -/
theorem parse_page_header_consumed (buf : List Nat) (ph : PageHeader) (c : Nat)
    (h : parse_page_header buf = some (ph, c)) : 1 ≤ c ∧ c ≤ buf.length := by
  unfold parse_page_header at h
  split at h
  · rename_i v rest hr
    have hl := (thrift_read_length _ _ _ _ _ hr).2 0 rfl
    cases ho : PageHeader.ofThrift v with
    | none => rw [ho] at h; simp at h
    | some p =>
      rw [ho] at h
      simp only [Option.map_some', Option.some.injEq, Prod.mk.injEq] at h
      obtain ⟨_, rfl⟩ := h
      omega
  · simp at h

/-- One iteration of the page loop that returns normally, on a page whose header was
read with at least one byte and declares `compressed_page_size >= 0`: the cursor moves
forward and `bytes_to_read` goes down by at least one. -/
theorem scan_page_decreases (ext : Externals) (codec : CompressionCodec) (hdl : Bool)
    (st st' : ColumnRun) (n : Nat)
    (hthrift : ∀ buf ph c, ext.unpack_page_header buf = some (ph, c) → 1 ≤ c)
    (hb : 0 < st.bytes_to_read) (hn : st.bytes_to_read ≤ (n : Int))
    (hcps : ∀ ph ∈ chunk_pages ext st.chunk_buf n st.chunk_ptr st.bytes_to_read,
      0 ≤ ph.compressed_page_size)
    (h : scan_page ext codec hdl st = .ok st') :
    st'.bytes_to_read < st.bytes_to_read ∧ st.chunk_ptr < st'.chunk_ptr ∧
    ∃ n', n = n' + 1 ∧ st'.bytes_to_read ≤ (n' : Int) ∧
      ∀ ph ∈ chunk_pages ext st'.chunk_buf n' st'.chunk_ptr st'.bytes_to_read,
        0 ≤ ph.compressed_page_size := by
  obtain ⟨buf, ph, consumed, h1, h2, h3, _, h5, h6, _⟩ := scan_page_ok ext codec hdl st st' h
  obtain ⟨n', rfl⟩ : ∃ n', n = n' + 1 := ⟨n - 1, by omega⟩
  have hc := hthrift buf ph consumed h2
  have hpages : chunk_pages ext st.chunk_buf (n' + 1) st.chunk_ptr st.bytes_to_read =
      ph :: chunk_pages ext st'.chunk_buf n' st'.chunk_ptr st'.bytes_to_read := by
    simp only [chunk_pages, hb, if_true, h1, h2, h3, h5, h6]
  rw [hpages] at hcps
  have hph : 0 ≤ ph.compressed_page_size := hcps ph (List.mem_cons_self _ _)
  have hu : toU32 st.bytes_to_read ≤ st.bytes_to_read := by
    unfold toU32 two32
    omega
  have hlt : st'.bytes_to_read < st.bytes_to_read := by
    rw [h6]
    omega
  refine ⟨hlt, ?_, n', rfl, ?_, fun p hp => hcps p (List.mem_cons_of_mem _ hp)⟩
  · rw [h5]
    omega
  · push_cast at hn
    omega

/-- The page loop ends within `n` iterations when `bytes_to_read <= n`. -/
theorem scan_pages_terminates (ext : Externals) (codec : CompressionCodec) (hdl : Bool)
    (hthrift : ∀ buf ph c, ext.unpack_page_header buf = some (ph, c) → 1 ≤ c) :
    ∀ (n : Nat) (st : ColumnRun), st.bytes_to_read ≤ (n : Int) →
      (∀ ph ∈ chunk_pages ext st.chunk_buf n st.chunk_ptr st.bytes_to_read,
        0 ≤ ph.compressed_page_size) →
      ∃ o, ∀ fuel, n ≤ fuel → scan_pages ext codec hdl fuel st = some o := by
  intro n
  induction n with
  | zero =>
    intro st hn _
    refine ⟨.ok st, fun fuel _ => ?_⟩
    have hb : ¬ 0 < st.bytes_to_read := by
      simp only [Nat.cast_zero] at hn
      omega
    cases fuel <;> simp [scan_pages, hb]
  | succ n ih =>
    intro st hn hcps
    by_cases hb : 0 < st.bytes_to_read
    · cases hs : scan_page ext codec hdl st with
      | ok st' =>
        obtain ⟨_, _, n', hn', hle, hc'⟩ :=
          scan_page_decreases ext codec hdl st st' (n + 1) hthrift hb hn hcps hs
        have hnn : n' = n := by omega
        subst hnn
        obtain ⟨o, ho⟩ := ih st' hle hc'
        refine ⟨o, fun fuel hf => ?_⟩
        obtain ⟨f, rfl⟩ : ∃ f, fuel = f + 1 := ⟨fuel - 1, by omega⟩
        rw [scan_pages_succ, if_pos hb, hs]
        exact ho f (by omega)
      | thrown e st' =>
        refine ⟨.thrown e st', fun fuel hf => ?_⟩
        obtain ⟨f, rfl⟩ : ∃ f, fuel = f + 1 := ⟨fuel - 1, by omega⟩
        rw [scan_pages_succ, if_pos hb, hs]
      | undefined =>
        refine ⟨.undefined, fun fuel hf => ?_⟩
        obtain ⟨f, rfl⟩ : ∃ f, fuel = f + 1 := ⟨fuel - 1, by omega⟩
        rw [scan_pages_succ, if_pos hb, hs]
    · refine ⟨.ok st, fun fuel _ => ?_⟩
      cases fuel <;> simp [scan_pages, hb]

/-- After `k` iterations of the page loop, `k` is at most the `bytes_to_read` the loop
started with, and the rest of the chunk is as the start was. -/
theorem scan_pages_upto_bound (ext : Externals) (codec : CompressionCodec) (hdl : Bool)
    (hthrift : ∀ buf ph c, ext.unpack_page_header buf = some (ph, c) → 1 ≤ c) :
    ∀ (k n : Nat) (st st1 : ColumnRun), st.bytes_to_read ≤ (n : Int) →
      (∀ ph ∈ chunk_pages ext st.chunk_buf n st.chunk_ptr st.bytes_to_read,
        0 ≤ ph.compressed_page_size) →
      scan_pages_upto ext codec hdl k st = some st1 →
      k ≤ n ∧ st1.bytes_to_read ≤ ((n - k : Nat) : Int) ∧
      ∀ ph ∈ chunk_pages ext st1.chunk_buf (n - k) st1.chunk_ptr st1.bytes_to_read,
        0 ≤ ph.compressed_page_size := by
  intro k
  induction k with
  | zero =>
    intro n st st1 hn hcps h
    simp only [scan_pages_upto, Option.some.injEq] at h
    subst h
    exact ⟨Nat.zero_le _, hn, hcps⟩
  | succ k ih =>
    intro n st st1 hn hcps h
    simp only [scan_pages_upto] at h
    split at h
    · rename_i hb
      split at h
      · rename_i st' hs
        obtain ⟨_, _, n', hn', hle, hc'⟩ :=
          scan_page_decreases ext codec hdl st st' n hthrift hb hn hcps hs
        subst hn'
        obtain ⟨h1, h2, h3⟩ := ih n' st' st1 hle hc' h
        rw [Nat.add_sub_add_right]
        exact ⟨by omega, h2, h3⟩
      · simp at h
    · simp at h

theorem page_loop_bytes_to_read (self : ParquetFile) (s : ScanState) (c : ResultColumn)
    (codec : CompressionCodec) (hdl : Bool) (st : ColumnRun)
    (h : self.page_loop s c = some (codec, hdl, st)) :
    ∃ rg chunk, self.file_meta_data.row_groups[s.row_group_idx]? = some rg ∧
      rg.columns[c.id]? = some chunk ∧
      st.bytes_to_read = chunk.meta_data.total_compressed_size ∧
      st.chunk_buf = self.chunk_bytes chunk ∧ st.chunk_ptr = 0 := by
  unfold ParquetFile.page_loop at h
  cases hrg : self.file_meta_data.row_groups[s.row_group_idx]? with
  | none => simp [hrg] at h
  | some rg =>
    cases hchunk : rg.columns[c.id]? with
    | none => simp [hrg, hchunk] at h
    | some chunk =>
      simp only [hrg, hchunk] at h
      refine ⟨rg, chunk, rfl, hchunk, ?_⟩
      split at h
      · simp at h
      · split at h
        · simp at h
        · split at h
          · simp at h
          · simp only [Option.some.injEq, Prod.mk.injEq] at h
            obtain ⟨_, _, rfl⟩ := h
            exact ⟨rfl, rfl, rfl⟩

/-- C37. The page loop of `scan_column` on a chunk whose page headers all declare
`compressed_page_size >= 0`, with a Thrift deserializer that takes at least one byte for
a header: the loop ends (by a normal end, an exception or a fault) within
`total_compressed_size` iterations, so that `scan_column` gives its outcome with that much
fuel or more; and after any number `k` of iterations, `k` is at most
`total_compressed_size`, and a further iteration that returns normally leaves the cursor
further and `bytes_to_read` strictly smaller. -/
theorem page_loop_terminates (ext : Externals) (self : ParquetFile) (s : ScanState)
    (c : ResultColumn) (codec : CompressionCodec) (hdl : Bool) (st : ColumnRun)
    (hloop : self.page_loop s c = some (codec, hdl, st))
    (hthrift : ∀ buf ph n, ext.unpack_page_header buf = some (ph, n) → 1 ≤ n)
    (hcps : ∀ ph ∈ chunk_pages ext st.chunk_buf st.bytes_to_read.toNat st.chunk_ptr
        st.bytes_to_read, 0 ≤ ph.compressed_page_size) :
    (∃ rg chunk, self.file_meta_data.row_groups[s.row_group_idx]? = some rg ∧
      rg.columns[c.id]? = some chunk ∧
      st.bytes_to_read = chunk.meta_data.total_compressed_size) ∧
    (∃ o, ∀ fuel, st.bytes_to_read.toNat ≤ fuel →
      scan_pages ext codec hdl fuel st = some o) ∧
    (∃ o, ∀ fuel, st.bytes_to_read.toNat ≤ fuel →
      ParquetFile.scan_column ext fuel self s c = some o) ∧
    (∀ k st1, scan_pages_upto ext codec hdl k st = some st1 →
      k ≤ st.bytes_to_read.toNat ∧
      ∀ st2, 0 < st1.bytes_to_read → scan_page ext codec hdl st1 = .ok st2 →
        st2.bytes_to_read < st1.bytes_to_read ∧ st1.chunk_ptr < st2.chunk_ptr) := by
  have hn : st.bytes_to_read ≤ (st.bytes_to_read.toNat : Int) := Int.self_le_toNat _
  obtain ⟨rg, chunk, h1, h2, h3, _⟩ := page_loop_bytes_to_read self s c codec hdl st hloop
  obtain ⟨o, ho⟩ := scan_pages_terminates ext codec hdl hthrift _ st hn hcps
  refine ⟨⟨rg, chunk, h1, h2, h3⟩, ⟨o, ho⟩,
    ⟨o.andThen fun st => st.step (st.cs.cleanup st.result_col), fun fuel hf => ?_⟩,
    fun k st1 hk => ?_⟩
  · rw [scan_column_eq_loop ext fuel self s c codec hdl st hloop, ho fuel hf]
    rfl
  · obtain ⟨hk1, hk2, hk3⟩ := scan_pages_upto_bound ext codec hdl hthrift k _ st st1 hn hcps hk
    refine ⟨hk1, fun st2 hb hs => ?_⟩
    obtain ⟨hd1, hd2, _⟩ := scan_page_decreases ext codec hdl st1 st2 _ hthrift hb hk2 hk3 hs
    exact ⟨hd1, hd2⟩

/-! ### The statements on the worked examples -/

set_option maxRecDepth 100000

/-- The scan of the first row group of `file_plain_int32`: the file has one column, its
`initialize_column` and `scan_column` succeed, and `scan` returns true with 5 rows. -/
theorem scan_returns_next_row_group_witness :
    (first_row_group file_plain_int32).num_rows = 5 ∧
    ∃ st, ParquetFile.scan spec_ext 10 (opened file_plain_int32) {}
        ((opened file_plain_int32).initialize_result {}) = some (Outcome.ok st) ∧
      st.ret = true ∧ st.result.nrows = (first_row_group file_plain_int32).num_rows ∧
      st.s.row_group_idx = ({} : ScanState).row_group_idx + 1 ∧
      st.result.cols.length = ((opened file_plain_int32).initialize_result {}).cols.length :=
  ⟨by decide!,
   scan_returns_next_row_group spec_ext 10 (opened file_plain_int32) {}
    ((opened file_plain_int32).initialize_result {}) (first_row_group file_plain_int32)
    (by decide!) (by decide!)
    (by
      intro c hc
      have hcols : ((opened file_plain_int32).initialize_result {}).cols =
          [(((opened file_plain_int32).initialize_result {}).cols).headD {}] := by decide!
      rw [hcols] at hc
      rw [List.mem_singleton] at hc
      subst hc
      exact ⟨first_column file_plain_int32,
        (((ParquetFile.scan_column spec_ext 10 (opened file_plain_int32) {}
            (first_column file_plain_int32)).getD Outcome.undefined).getD
          (scan_column_locals {} [] 0 {})),
        by decide!, by decide!⟩)⟩

/-- A second call of `scan` on `file_plain_int32`, which has one row group. -/
theorem scan_past_last_row_group_witness :
    ParquetFile.scan spec_ext 10 (opened file_plain_int32) { row_group_idx := 1 }
        ((opened file_plain_int32).initialize_result {}) =
      some (Outcome.ok
        { pfile := (opened file_plain_int32).pfile
          s := { row_group_idx := 1 }
          result := { cols := ((opened file_plain_int32).initialize_result {}).cols, nrows := 0 }
          ret := false }) :=
  scan_past_last_row_group spec_ext 10 (opened file_plain_int32) { row_group_idx := 1 }
    ((opened file_plain_int32).initialize_result {}) (by decide!)

/-- The values 10, 20, 30 of `plain_page_cs` go to the rows 0, 2 and 3; row 1 stays as it
was and the cursor moves by 12 bytes. -/
theorem fill_values_plain_stores_defined_witness :
    ∃ data',
      plain_page_cs.fill_values_plain 4 optional_int32_rc =
        Outcome.ok ({ plain_page_cs with page_buf_ptr := 12 },
                    { optional_int32_rc with data := data' }) ∧
      data'.length = 4 ∧
      data'[0]? = some (Slot.raw [10, 0, 0, 0]) ∧
      data'[1]? = some Slot.uninit ∧
      data'[2]? = some (Slot.raw [20, 0, 0, 0]) ∧
      data'[3]? = some (Slot.raw [30, 0, 0, 0]) := by
  obtain ⟨data', h1, h2, h3, h4⟩ :=
    fill_values_plain_stores_defined 4 (by decide) plain_page_cs optional_int32_rc
      (by decide!) (by decide!) (by decide!) (by decide!) (by decide!) (by decide!) (by decide!)
  refine ⟨data', h1, h2, h3 0 1 (by decide!) (by decide), ?_, h3 2 1 (by decide!) (by decide),
    h3 3 1 (by decide!) (by decide)⟩
  rw [h4 1]
  · decide!
  · intro i d hi hd
    have hi1 : i = 1 := by
      have : (1 : Nat) = 0 + i := hi
      omega
    subst hi1
    have h0 : (defined_window plain_page_cs optional_int32_rc
        plain_page_cs.page_header.data_page_header.num_values.toNat)[1]? = some 0 := by decide!
    rw [h0] at hd
    exact (Option.some.inj hd).symm

/-- The page of `dict_data_cs`: the decoded indices are 0, 0, 1, 1 (position 1 is not
defined), the rows 0, 2 and 3 get the entries 10, 20, 20, row 1 stays as it was. -/
theorem scan_data_page_dict_stores_entries_witness :
    (dict_data_cs.read_offsets spec_ext optional_int32_rc).2 = [0, 0, 1, 1] ∧
    ∃ data',
      dict_data_cs.scan_data_page_dict spec_ext optional_int32_rc =
        Outcome.ok ({ dict_data_cs with page_buf_ptr := 1 },
                    { optional_int32_rc with data := data' }) ∧
      data'.length = 4 ∧
      data'[0]? = some (Slot.raw [10, 0, 0, 0]) ∧
      data'[1]? = some Slot.uninit ∧
      data'[2]? = some (Slot.raw [20, 0, 0, 0]) ∧
      data'[3]? = some (Slot.raw [20, 0, 0, 0]) := by
  have hw : defined_window dict_data_cs optional_int32_rc
      dict_data_cs.page_header.data_page_header.num_values.toNat = [1, 0, 1, 1] := by decide!
  obtain ⟨data', h1, h2, h3, h4, _⟩ :=
    scan_data_page_dict_stores_entries spec_ext dict_data_cs optional_int32_rc
      [Slot.raw [10, 0, 0, 0], Slot.raw [20, 0, 0, 0]] [0, 0, 1, 1]
      ({ dict_data_cs with page_buf_ptr := 1 }, optional_int32_rc)
      (by decide!) (by decide!) (Or.inl (by decide!)) (by decide!)
      (by decide!) (by decide!) (by decide!) (by decide!) (by decide!)
      (by
        rw [hw]
        intro i d hi hd
        match i, hi with
        | 0, _ => exact ⟨0, by decide, by decide⟩
        | 1, hi =>
          have : d = 0 := by
            have h := Option.some.inj hi
            exact h.symm
          exact absurd this hd
        | 2, _ => exact ⟨1, by decide, by decide⟩
        | 3, _ => exact ⟨1, by decide, by decide⟩
        | n + 4, hi => simp at hi)
  refine ⟨by decide!, data', h1, h2, ?_, ?_, ?_, ?_⟩
  · obtain ⟨o, ho, hd⟩ := h3 0 1 (by decide!) (by decide)
    have ho' : o = 0 := (Option.some.inj ho).symm
    subst ho'
    exact hd
  · exact (h4 1 (by decide!)).trans (by decide!)
  · obtain ⟨o, ho, hd⟩ := h3 2 1 (by decide!) (by decide)
    have ho' : o = 1 := (Option.some.inj ho).symm
    subst ho'
    exact hd
  · obtain ⟨o, ho, hd⟩ := h3 3 1 (by decide!) (by decide)
    have ho' : o = 1 := (Option.some.inj ho).symm
    subst ho'
    exact hd

/-- On `file_plain_int32` the final `page_start_row` is the `num_values` of its one data
page, 5. -/
theorem scan_column_page_start_row_witness :
    ParquetFile.scan_column spec_ext 10 (opened file_plain_int32) {}
        (first_column file_plain_int32) =
      some (Outcome.ok (first_column_run file_plain_int32)) ∧
    (first_column_run file_plain_int32).cs.page_start_row =
      toU64 (sum_num_values (data_pages (first_chunk_pages file_plain_int32))) ∧
    toU64 (sum_num_values (data_pages (first_chunk_pages file_plain_int32))) = 5 :=
  ⟨by decide!,
   scan_column_page_start_row spec_ext 10 (opened file_plain_int32) {}
    (first_column file_plain_int32) (first_column_run file_plain_int32)
    (first_row_group file_plain_int32) (first_chunk file_plain_int32)
    (by decide!) (by decide!) (by decide!) 10 (Nat.le_refl 10),
   by decide!⟩

/-- C6 fails on `file_short_page`: `scan_column` scans its chunk without error, the one
data page of the chunk has `num_values = 3`, which is the final `page_start_row`, and the
row group's `num_rows` is 5. -/
theorem scan_column_ignores_num_rows :
    ParquetFile.scan_column spec_ext 10 (opened file_short_page) {}
        (first_column file_short_page) =
      some (Outcome.ok (first_column_run file_short_page)) ∧
    (first_chunk_pages file_short_page).map (fun ph => ph.type) = [PageType.DATA_PAGE] ∧
    sum_num_values (data_pages (first_chunk_pages file_short_page)) = 3 ∧
    (first_column_run file_short_page).cs.page_start_row = 3 ∧
    (first_row_group file_short_page).num_rows = 5 := by
  refine ⟨?_, ?_, ?_, ?_, ?_⟩ <;> decide!

/-- A scanner that has seen a dictionary page rejects another one, and `scan_column`
throws on the chunk of `file_two_dict_pages`, which has two dictionary pages. -/
theorem second_dictionary_page_is_rejected_witness :
    (∃ e, dict_data_cs.scan_dict_page optional_int32_rc =
      Outcome.thrown e (dict_data_cs, optional_int32_rc)) ∧
    (dict_pages (first_chunk_pages file_two_dict_pages)).length = 2 ∧
    ∃ e st, ParquetFile.scan_column spec_ext 10 (opened file_two_dict_pages) {}
      (first_column file_two_dict_pages) = some (Outcome.thrown e st) :=
  ⟨second_dictionary_page_is_rejected.1 dict_data_cs optional_int32_rc (by decide!),
   by decide!,
   second_dictionary_page_is_rejected.2 spec_ext 10 10 (opened file_two_dict_pages) {}
    (first_column file_two_dict_pages) (first_row_group file_two_dict_pages)
    (first_chunk file_two_dict_pages) (by decide!) (by decide!) (Nat.le_refl 10) (by decide!)
    (by decide!)⟩

/-- The data page of `no_dict_cs`: the header passes the checks of `scan_data_page`, the
definition levels 1, 0, 1, 1 are decoded into the defined bytes (the cursor is behind
them, at offset 6), and then the missing dictionary makes `scan_data_page` throw "Missing
dictionary page": no slot of the value array is written and `page_start_row` is still
0. -/
theorem scan_data_page_without_dictionary_witness :
    no_dict_cs.page_header.isset_data_page_header = true ∧
    no_dict_cs.page_header.isset_dictionary_page_header = false ∧
    no_dict_cs.page_header.isset_data_page_header_v2 = false ∧
    ∃ st, no_dict_cs.scan_data_page spec_ext blank_int32_rc true =
        Outcome.thrown Err.missingDictPage st ∧
      st.1.page_buf_ptr = 6 ∧ st.2.defined = [1, 0, 1, 1] ∧
      st.2.data = blank_int32_rc.data ∧ st.2.data = List.replicate 4 Slot.uninit ∧
      st.1.page_start_row = 0 ∧
      st.1.seen_dict = false ∧ st.1.dict = none := by
  obtain ⟨e, st, h1, h2, h3, h4, h5⟩ :=
    scan_data_page_without_dictionary spec_ext no_dict_cs blank_int32_rc true
      (Or.inr (by decide!)) (by decide!) (by decide!)
  have h0 : no_dict_cs.scan_data_page spec_ext blank_int32_rc true =
      Outcome.thrown Err.missingDictPage
        ({ no_dict_cs with page_buf_ptr := 6 },
         { blank_int32_rc with defined := [1, 0, 1, 1] }) := by decide!
  rw [h0] at h1
  simp only [Outcome.thrown.injEq] at h1
  obtain ⟨he, hst⟩ := h1
  subst he
  refine ⟨by decide!, by decide!, by decide!, st, h0.trans (by rw [hst]), ?_, ?_, h2,
    h2.trans (by decide!), h3.trans (by decide!), h4, h5.trans (by decide!)⟩
  · rw [← hst]
  · rw [← hst]

/-- The metadata of `file_plain_int32` passes `read_checks` and has the four properties. -/
theorem read_checks_succeeds_iff_witness :
    (∃ pf, (opened file_plain_int32).read_checks = Outcome.ok pf) ∧
    ((opened file_plain_int32).file_meta_data.isset_encryption_algorithm = false ∧
      2 ≤ (opened file_plain_int32).file_meta_data.schema.length ∧
      (∃ root, (opened file_plain_int32).file_meta_data.schema[0]? = some root ∧
        root.num_children = ((opened file_plain_int32).file_meta_data.schema.length : Int) - 1) ∧
      ∀ i e, 1 ≤ i → (opened file_plain_int32).file_meta_data.schema[i]? = some e →
        e.isset_type = true ∧ e.num_children ≤ 0) :=
  ⟨⟨opened file_plain_int32, by decide!⟩,
   (read_checks_succeeds_iff (opened file_plain_int32) (by decide!)
     (by
       intro root h
       have h0 : (opened file_plain_int32).file_meta_data.schema[0]? =
           some ((opened file_plain_int32).file_meta_data.schema.headD {}) := by decide!
       rw [h0] at h
       rw [← Option.some.inj h]
       decide!)).mp ⟨opened file_plain_int32, by decide!⟩⟩

/-- C9 fails on `file_negative_children`: the leaf of its schema has `num_children = -1`,
and `read_checks` succeeds. -/
theorem read_checks_accepts_negative_children :
    (opened file_negative_children).file_meta_data.schema.map
        (fun e => (e.isset_type, e.num_children)) = [(false, 1), (true, -1)] ∧
    (∃ pf, (opened file_negative_children).read_checks = Outcome.ok pf) ∧
    ¬ (∀ i e, 1 ≤ i → (opened file_negative_children).file_meta_data.schema[i]? = some e →
        e.isset_type = true ∧ e.num_children = 0) := by
  refine ⟨by decide!, ⟨opened file_negative_children, by decide!⟩, fun h => ?_⟩
  have h1 := (h 1 (((opened file_negative_children).file_meta_data.schema[1]?).getD {})
    (Nat.le_refl 1) (by decide!)).2
  exact absurd h1 (by decide!)

/-- The column descriptors of `file_plain_int32`: one column `a` of type INT32 with id 0,
and 5 rows. -/
theorem initialize_builds_columns_witness :
    (opened file_plain_int32).columns.map (fun c => (c.id, c.name, c.type)) =
      [(0, "a", PType.INT32)] ∧
    (opened file_plain_int32).columns.length =
      (opened file_plain_int32).file_meta_data.schema.length - 1 ∧
    (∀ (i : Nat) (e : SchemaElement),
      (opened file_plain_int32).file_meta_data.schema[i + 1]? = some e →
      (opened file_plain_int32).columns[i]? =
        some { id := i, name := e.name, schema_element := e, type := e.type }) ∧
    (opened file_plain_int32).nrow = (opened file_plain_int32).file_meta_data.num_rows :=
  ⟨by decide!,
   initialize_builds_columns spec_ext {} (opened file_plain_int32) (some file_plain_int32)
    (by decide!) rfl⟩

/-- The chunk of `file_dict_offset` is read from `dictionary_page_offset = 4`, not from
`data_page_offset = 25`: the buffer is the 47 bytes of the file from offset 4 on. -/
theorem scan_column_reads_chunk_witness :
    (first_column_run file_dict_offset).chunk_buf = (file_dict_offset.drop 4).take 47 ∧
    ∃ start : Nat,
      ((first_chunk file_dict_offset).meta_data.isset_dictionary_page_offset = true ∧
          4 ≤ (first_chunk file_dict_offset).meta_data.dictionary_page_offset →
        (start : Int) = (first_chunk file_dict_offset).meta_data.dictionary_page_offset) ∧
      (¬ ((first_chunk file_dict_offset).meta_data.isset_dictionary_page_offset = true ∧
          4 ≤ (first_chunk file_dict_offset).meta_data.dictionary_page_offset) →
        (start : Int) = (first_chunk file_dict_offset).meta_data.data_page_offset) ∧
      (first_column_run file_dict_offset).chunk_buf =
        ((opened file_dict_offset).pfile.bytes.drop start).take
          (first_chunk file_dict_offset).meta_data.total_compressed_size.toNat ∧
      (first_column_run file_dict_offset).chunk_buf.length =
        (first_chunk file_dict_offset).meta_data.total_compressed_size.toNat ∧
      (first_column_run file_dict_offset).pfile.pos =
        start + (first_chunk file_dict_offset).meta_data.total_compressed_size.toNat :=
  ⟨by decide!,
   scan_column_reads_chunk spec_ext 10 (opened file_dict_offset) {}
    (first_column file_dict_offset) (first_column_run file_dict_offset)
    (first_row_group file_dict_offset) (first_chunk file_dict_offset)
    (by decide!) (by decide!) (by decide!)⟩

/-- The chunk of `file_external_chunk` has `file_path` set: `scan_column` throws with
the stream where it was. -/
theorem scan_column_rejects_chunk_witness :
    ∃ e, (e = Err.onlyInlined ∨ e = Err.onlyFlatFiles) ∧
      ParquetFile.scan_column spec_ext 10 (opened file_external_chunk) {}
        (first_column file_external_chunk) =
      some (Outcome.thrown e
        { pfile := (opened file_external_chunk).pfile,
          result_col := first_column file_external_chunk }) :=
  scan_column_rejects_chunk spec_ext 10 (opened file_external_chunk) {}
    (first_column file_external_chunk) (first_row_group file_external_chunk)
    (first_chunk file_external_chunk) (by decide!) (by decide!) (Or.inl (by decide!))

/-- The page of `delta_page_cs`, encoding DELTA_BINARY_PACKED. -/
theorem scan_data_page_unsupported_encoding_witness :
    ∃ e st, delta_page_cs.scan_data_page spec_ext int32_rc false = Outcome.thrown e st ∧
      st.2.data = int32_rc.data ∧ st.1.page_start_row = delta_page_cs.page_start_row ∧
      st.1.defined_ptr = delta_page_cs.defined_ptr :=
  scan_data_page_unsupported_encoding spec_ext delta_page_cs int32_rc false
    (by decide!) (by decide!) (by decide!) (by decide!)

/-- The dictionary page of `rle_dict_page_cs`, encoding RLE. -/
theorem scan_dict_page_unsupported_encoding_witness :
    ∃ e, (e = Err.dictPageHeaderMismatch ∨ e = Err.dictPageEncoding) ∧
      rle_dict_page_cs.scan_dict_page int32_rc =
        Outcome.thrown e (rle_dict_page_cs, int32_rc) :=
  scan_dict_page_unsupported_encoding rle_dict_page_cs int32_rc (by decide!) (by decide!)

/-- The page of `bit_packed_levels_cs` is rejected with definition levels; the page of
`required_page_cs` is scanned in the same way when its header says BIT_PACKED. -/
theorem scan_data_page_def_level_encoding_witness :
    (∃ e, bit_packed_levels_cs.scan_data_page spec_ext int32_rc true =
      Outcome.thrown e (bit_packed_levels_cs, int32_rc)) ∧
    (required_page_cs.scan_data_page spec_ext int32_rc false).isOk = true ∧
    (required_page_cs.with_header
        (required_page_cs.page_header.with_def_level_encoding Encoding.BIT_PACKED)).scan_data_page
        spec_ext int32_rc false =
      (required_page_cs.scan_data_page spec_ext int32_rc false).map
        (fun st => (st.1.with_header
          (required_page_cs.page_header.with_def_level_encoding Encoding.BIT_PACKED), st.2)) :=
  ⟨scan_data_page_def_level_encoding.1 spec_ext bit_packed_levels_cs int32_rc (by decide!),
   by decide!,
   scan_data_page_def_level_encoding.2 spec_ext required_page_cs int32_rc Encoding.BIT_PACKED⟩

/-- The page of `required_page_cs` (3 values from row 1 on) in a column of 5 rows: the
defined bytes become 1, 1, 1, 1, 0 and the cursor stays at the start of the page. -/
theorem scan_data_page_required_defined_witness :
    required_page_cs.scan_def_levels spec_ext int32_rc false =
      Outcome.ok (required_page_cs, { int32_rc with defined := [1, 1, 1, 1, 0] }) ∧
    (required_page_cs.scan_data_page spec_ext int32_rc false).satisfies
      (fun st => st.2.defined = [1, 1, 1, 1, 0]) := by
  obtain ⟨defined', h1, _, _, _, h5⟩ :=
    scan_data_page_required_defined spec_ext required_page_cs int32_rc
      ⟨by decide!, by decide!, by decide!⟩ (by decide!) (by decide!) (by decide!) (by decide!)
  have h0 : required_page_cs.scan_def_levels spec_ext int32_rc false =
      Outcome.ok (required_page_cs, { int32_rc with defined := [1, 1, 1, 1, 0] }) := by decide!
  have hd : defined' = [1, 1, 1, 1, 0] := by
    rw [h0] at h1
    have h2 := congrArg (fun st => st.2.defined) (Outcome.ok.inj h1)
    exact h2.symm
  rw [hd] at h5
  exact ⟨h0, h5⟩

/-- C20 fails on `file_repeated`: its column is REPEATED, `read_checks` succeeds, and
`scan` returns the row group with the values 10, 20, 30 in the rows 0, 2 and 3. -/
theorem repeated_column_is_scanned :
    (opened file_repeated).file_meta_data.schema.map (fun e => e.repetition_type) =
      [FieldRepetitionType.REQUIRED, FieldRepetitionType.REPEATED] ∧
    (opened file_repeated).read_checks = Outcome.ok (opened file_repeated) ∧
    (ParquetFile.scan_column spec_ext 10 (opened file_repeated) {}
        (first_column file_repeated)).map (fun o => o.isOk) = some true ∧
    (ParquetFile.scan spec_ext 10 (opened file_repeated) {}
        ((opened file_repeated).initialize_result {})).map
      (fun o => (o.isOk, (o.getD {}).ret,
        (o.getD {}).result.cols.map (fun c => (c.data, c.defined)))) =
      some (true, true,
        [([Slot.raw [10, 0, 0, 0], Slot.uninit, Slot.raw [20, 0, 0, 0], Slot.raw [30, 0, 0, 0]],
          [1, 0, 1, 1])]) := by
  refine ⟨?_, ?_, ?_, ?_⟩ <;> decide!

/-- The column of `file_repeated` is scanned as in the same file with the column
OPTIONAL. -/
theorem repeated_column_scanned_as_optional_witness :
    ((opened file_repeated).with_repetition_type
        ((first_column file_repeated).id + 1) FieldRepetitionType.OPTIONAL).read_checks.isOk =
      (opened file_repeated).read_checks.isOk ∧
    ParquetFile.scan_column spec_ext 10
        ((opened file_repeated).with_repetition_type
          ((first_column file_repeated).id + 1) FieldRepetitionType.OPTIONAL) {}
        (first_column file_repeated) =
      ParquetFile.scan_column spec_ext 10 (opened file_repeated) {}
        (first_column file_repeated) :=
  repeated_column_scanned_as_optional spec_ext 10 (opened file_repeated) {}
    (first_column file_repeated)
    (((opened file_repeated).file_meta_data.schema[1]?).getD {})
    (by decide!) (by decide!)

/-- C21 fails on a FIXED_LEN_BYTE_ARRAY column: `scan_dict_page` throws on the first
dictionary page, a PLAIN page with 2 values of 4 bytes. -/
theorem scan_dict_page_rejects_fixed_len_byte_array :
    flba_rc.col.type = PType.FIXED_LEN_BYTE_ARRAY ∧
    flba_dict_cs.seen_dict = false ∧
    flba_dict_cs.page_header.dictionary_page_header.encoding = Encoding.PLAIN ∧
    flba_dict_cs.page_header.dictionary_page_header.num_values = 2 ∧
    flba_dict_cs.payload.length = 8 ∧
    flba_dict_cs.scan_dict_page flba_rc =
      Outcome.thrown Err.dictUnsupportedType
        ({ flba_dict_cs with seen_dict := true, dict_size := 2 }, flba_rc) := by
  refine ⟨?_, ?_, ?_, ?_, ?_, ?_⟩ <;> decide!

/-- The dictionary page of `int96_dict_cs` gives the two values of 12 bytes, the one of
`string_dict_cs` gives pointers to "hi" and "!" in a new heap chunk, and the one of
`flba_dict_cs` makes `scan_dict_page` throw. -/
theorem scan_dict_page_builds_dictionary_witness :
    (∃ d, int96_dict_cs.scan_dict_page int96_rc =
        Outcome.ok ({ int96_dict_cs with
          seen_dict := true, dict_size := 2, dict := some d, page_buf_ptr := 24 }, int96_rc) ∧
      d.length = 2 ∧
      d[0]? = some (Slot.raw [1, 2, 3, 4, 5, 6, 7, 8, 9, 10, 11, 12]) ∧
      d[1]? = some (Slot.raw [13, 14, 15, 16, 17, 18, 19, 20, 21, 22, 23, 24])) ∧
    (∃ d heap, string_dict_cs.scan_dict_page byte_array_rc =
        Outcome.ok ({ string_dict_cs with
          seen_dict := true, dict_size := 2, dict := some d, page_buf_ptr := 11 },
          { byte_array_rc with string_heap_chunks := [heap] }) ∧
      heap.bytes = [104, 105, 0, 33, 0] ∧
      d.length = 2 ∧
      d[0]? = some (Slot.ptr (some ⟨0, 0⟩)) ∧ d[1]? = some (Slot.ptr (some ⟨0, 3⟩))) ∧
    flba_dict_cs.scan_dict_page flba_rc =
      Outcome.thrown Err.dictUnsupportedType
        ({ flba_dict_cs with seen_dict := true, dict_size := 2 }, flba_rc) := by
  refine ⟨?_, ?_, ?_⟩
  · obtain ⟨d, h1, h2, h3⟩ := scan_dict_page_builds_dictionary.1 int96_dict_cs int96_rc
      (by decide!) (by decide!) (Or.inl (by decide!)) (by decide!)
      (Or.inr (Or.inr (Or.inr (Or.inl (by decide!))))) (by decide!) (by decide!) (by decide!)
      (by decide!)
    exact ⟨d, h1, h2, (h3 0 (by decide!)).trans (by decide!),
      (h3 1 (by decide!)).trans (by decide!)⟩
  · obtain ⟨d, heap, h1, h2, h3, h4⟩ := scan_dict_page_builds_dictionary.2.1 string_dict_cs
      byte_array_rc [[104, 105], [33]]
      (by decide!) (by decide!) (Or.inl (by decide!)) (by decide!) (by decide!) (by decide!)
      (by decide!) (by decide!) (by decide!) (by decide!) (by decide!) (by decide!)
    exact ⟨d, heap, h1, h2.trans (by decide!), h3,
      (h4 0 [104, 105] (by decide!)).1.trans (by decide!),
      (h4 1 [33] (by decide!)).1.trans (by decide!)⟩
  · exact scan_dict_page_builds_dictionary.2.2 flba_dict_cs flba_rc
      (by decide!) (by decide!) (Or.inl (by decide!)) (by decide!) (Or.inl (by decide!))

/-- A string of 2 bytes with 1 byte left in the page makes the dictionary loop and the
PLAIN loop of a BYTE_ARRAY column throw, a string of 4 bytes with 3 bytes left makes the
loop of a FIXED_LEN_BYTE_ARRAY column throw, with the result column as it was; with the
4 bytes in the page the check passes and the loop goes on with the next position. -/
theorem string_length_check_witness :
    ColumnScan.scan_dict_strings 0 2 0 { string_dict_cs with page_buf_end_ptr := 5 }
        byte_array_rc =
      Outcome.thrown Err.stringLengthExceedsPayload
        ({ string_dict_cs with page_buf_end_ptr := 5, page_buf_ptr := 4 }, byte_array_rc) ∧
    ColumnScan.plain_strings_loop 0 3 0 0 { string_page_cs with page_buf_end_ptr := 5 }
        byte_array_rc =
      Outcome.thrown Err.stringLengthExceedsPayload
        ({ string_page_cs with page_buf_end_ptr := 5, page_buf_ptr := 4 }, byte_array_rc) ∧
    ColumnScan.plain_strings_loop 0 2 0 4 { flba_page_cs with page_buf_end_ptr := 3 } flba_rc =
      Outcome.thrown Err.stringLengthExceedsPayload
        ({ flba_page_cs with page_buf_end_ptr := 3 }, flba_rc) ∧
    ColumnScan.plain_strings_loop 0 2 0 4 flba_page_cs
        { flba_rc with string_heap_chunks := [{ capacity := 10 }] } =
      ColumnScan.plain_strings_loop 0 1 1 4 { flba_page_cs with page_buf_ptr := 4 }
        { flba_rc with
          data := [Slot.ptr (some ⟨0, 0⟩), Slot.uninit]
          string_heap_chunks := [{ capacity := 10, bytes := [222, 173, 190, 239, 0] }] } :=
  ⟨(string_length_check.1 0 1 0 { string_dict_cs with page_buf_end_ptr := 5 } byte_array_rc
      [2, 0, 0, 0] (by decide!)).1 (by decide!),
   (string_length_check.2.1 0 2 0 0 { string_page_cs with page_buf_end_ptr := 5 }
      byte_array_rc 1 [2, 0, 0, 0] (by decide!) (by decide!) (by decide) (by decide!)).1
      (by decide!),
   (string_length_check.2.2 0 1 0 4 { flba_page_cs with page_buf_end_ptr := 3 } flba_rc 1
      (by decide!) (by decide!) (by decide)).1 (by decide!),
   (string_length_check.2.2 0 1 0 4 flba_page_cs
      { flba_rc with string_heap_chunks := [{ capacity := 10 }] } 1
      (by decide!) (by decide!) (by decide)).2 (by decide!)
      { capacity := 10 } { capacity := 10, bytes := [222, 173, 190, 239, 0] }
      [222, 173, 190, 239] [Slot.ptr (some ⟨0, 0⟩), Slot.uninit]
      (by decide!) (by decide!) (by decide!) (by decide!)⟩

/-- The page of `flba_page_cs` stores the strings de ad be ef and ca fe ba be at the
offsets 0 and 5 of a new heap chunk, each followed by a NUL byte; the page of
`string_page_cs` stores "hi" and "!" for the rows 0 and 2 at the offsets 0 and 3 and
leaves row 1, which is not defined, as it was. -/
theorem plain_strings_page_witness :
    (∃ data' heap,
      flba_page_cs.scan_data_page_plain flba_rc =
        Outcome.ok ({ flba_page_cs with page_buf_ptr := 8 },
          { flba_rc with data := data', string_heap_chunks := [heap] }) ∧
      heap.bytes = [222, 173, 190, 239, 0, 202, 254, 186, 190, 0] ∧
      data'[0]? = some (Slot.ptr (some ⟨0, 0⟩)) ∧
      data'[1]? = some (Slot.ptr (some ⟨0, 5⟩))) ∧
    (∃ data' heap,
      string_page_cs.scan_data_page_plain byte_array_rc =
        Outcome.ok ({ string_page_cs with page_buf_ptr := 11 },
          { byte_array_rc with data := data', string_heap_chunks := [heap] }) ∧
      heap.bytes = [104, 105, 0, 33, 0] ∧
      data'[0]? = some (Slot.ptr (some ⟨0, 0⟩)) ∧
      data'[1]? = some Slot.uninit ∧
      data'[2]? = some (Slot.ptr (some ⟨0, 3⟩))) := by
  constructor
  · obtain ⟨data', heap, h1, h2, _, h4, _, _⟩ := plain_strings_page false
      [[222, 173, 190, 239], [202, 254, 186, 190]] flba_page_cs flba_rc
      (by decide!) (by decide!) (by decide!) (by decide!) (by decide!) (by decide!) (by decide!)
      (by decide!) (by decide!) (by decide!) (by decide!) (by decide!)
    obtain ⟨_, _, h5, _⟩ := h4 0 1 (by decide!) (by decide)
    obtain ⟨_, _, h6, _⟩ := h4 1 1 (by decide!) (by decide)
    exact ⟨data', heap, h1, h2.trans (by decide!), h5.trans (by decide!),
      h6.trans (by decide!)⟩
  · obtain ⟨data', heap, h1, h2, _, h4, _, h7⟩ := plain_strings_page true
      [[104, 105], [33]] string_page_cs byte_array_rc
      (by decide!) (by decide!) (by decide!) (by decide!) (by decide!) (by decide!) (by decide!)
      (by decide!) (by decide!) (by decide!) (by decide!) (by decide!)
    obtain ⟨_, _, h5, _⟩ := h4 0 1 (by decide!) (by decide)
    obtain ⟨_, _, h6, _⟩ := h4 2 1 (by decide!) (by decide)
    refine ⟨data', heap, h1, h2.trans (by decide!), h5.trans (by decide!), ?_,
      h6.trans (by decide!)⟩
    rw [h7 1]
    · decide!
    · intro i d hi hd
      have hi1 : i = 1 := by
        have : (1 : Nat) = 0 + i := hi
        omega
      subst hi1
      have h0 : (defined_window string_page_cs byte_array_rc
          string_page_cs.page_header.data_page_header.num_values.toNat)[1]? = some 0 := by
        decide!
      rw [h0] at hd
      exact (Option.some.inj hd).symm

/-- The page of `bool_page_cs`: the rows 0 and 2 to 9 get the bits 0 to 8 of the payload,
row 1, which is not defined, takes no bit and stays as it was, and the cursor moves by the
one byte that is used up. -/
theorem plain_boolean_page_bits_witness :
    ∃ data',
      bool_page_cs.scan_data_page_plain bool_rc =
        Outcome.ok ({ bool_page_cs with page_buf_ptr := 1 }, { bool_rc with data := data' }) ∧
      data'.length = 10 ∧
      data'[0]? = some (Slot.raw [1]) ∧
      data'[1]? = some Slot.uninit ∧
      data'[2]? = some (Slot.raw [0]) ∧
      data'[3]? = some (Slot.raw [1]) ∧
      data'[8]? = some (Slot.raw [1]) ∧
      data'[9]? = some (Slot.raw [1]) := by
  obtain ⟨data', h1, h2, h3, h4⟩ := plain_boolean_page_bits bool_page_cs bool_rc
    (by decide!) (by decide!) (by decide!) (by decide!) (by decide!) (by decide!) (by decide!)
    (by decide!)
  refine ⟨data', h1, h2, (h3 0 1 (by decide!) (by decide)).trans (by decide!), ?_,
    (h3 2 1 (by decide!) (by decide)).trans (by decide!),
    (h3 3 1 (by decide!) (by decide)).trans (by decide!),
    (h3 8 1 (by decide!) (by decide)).trans (by decide!),
    (h3 9 1 (by decide!) (by decide)).trans (by decide!)⟩
  rw [h4 1]
  · decide!
  · intro i d hi hd
    have hi1 : i = 1 := by
      have : (1 : Nat) = 0 + i := hi
      omega
    subst hi1
    have h0 : (defined_window bool_page_cs bool_rc
        bool_page_cs.page_header.data_page_header.num_values.toNat)[1]? = some 0 := by
      decide!
    rw [h0] at hd
    exact (Option.some.inj hd).symm

/-- C22 fails on `file_snappy_mismatch`: the payload of its page decompresses to 20
bytes, the page header says `uncompressed_page_size = 24`, and `scan_column` returns
normally with the five values of the page in the result. -/
theorem scan_column_accepts_snappy_size_mismatch :
    (first_chunk file_snappy_mismatch).meta_data.codec = CompressionCodec.SNAPPY ∧
    (header_at (first_page_loop file_snappy_mismatch)).1.uncompressed_page_size = 24 ∧
    (snappy_raw_uncompress
        (((opened file_snappy_mismatch).chunk_bytes (first_chunk file_snappy_mismatch)).drop
          17)).map List.length = some 20 ∧
    ParquetFile.scan_column spec_ext_snappy 10 (opened file_snappy_mismatch) {}
        (first_column file_snappy_mismatch) =
      some (Outcome.ok (column_run_with spec_ext_snappy file_snappy_mismatch)) ∧
    (column_run_with spec_ext_snappy file_snappy_mismatch).result_col.data =
      [Slot.raw [1, 0, 0, 0], Slot.raw [2, 0, 0, 0], Slot.raw [3, 0, 0, 0],
       Slot.raw [4, 0, 0, 0], Slot.raw [5, 0, 0, 0]] := by
  refine ⟨?_, ?_, ?_, ?_, ?_⟩ <;> decide!

/-- The page of `file_snappy_bad` does not decompress: `scan_column` throws on it. -/
theorem snappy_page_failure_witness :
    ParquetFile.scan_column spec_ext_snappy 10 (opened file_snappy_bad) {}
        (first_column file_snappy_bad) =
      some (Outcome.thrown Err.decompressionFailure
        (after_header (first_page_loop file_snappy_bad)
          (header_at (first_page_loop file_snappy_bad)).1 17)) :=
  (snappy_page_failure spec_ext_snappy 10 (opened file_snappy_bad) {}
    (first_column file_snappy_bad) false (first_page_loop file_snappy_bad)
    (first_page_loop file_snappy_bad) 0
    ((opened file_snappy_bad).chunk_bytes (first_chunk file_snappy_bad))
    (header_at (first_page_loop file_snappy_bad)).1 17 [20, 76, 1, 2, 3] 20
    (by decide!) rfl (by decide) (by decide!) (by decide!) (by decide!) (by decide!) (by decide!)
    (by decide!) (by decide!)).1 (by decide!)

/-- The second page of `file_v2_page` is a DATA_PAGE_V2 page: `scan_column` throws on it,
with the two values of the first page in the result and `page_start_row` behind them. -/
theorem data_page_v2_is_rejected_witness :
    ∃ st2, ParquetFile.scan_column spec_ext 10 (opened file_v2_page) {}
        (first_column file_v2_page) = some (Outcome.thrown Err.v2DataPage st2) ∧
      st2.result_col.data = [Slot.raw [1, 0, 0, 0], Slot.raw [2, 0, 0, 0]] ∧
      st2.result_col.defined = [1, 1] ∧
      st2.cs.page_start_row = 2 := by
  obtain ⟨h1, h2, h3, _⟩ := data_page_v2_is_rejected spec_ext 10 (opened file_v2_page) {}
    (first_column file_v2_page) CompressionCodec.UNCOMPRESSED false
    (first_page_loop file_v2_page)
    ((scan_pages_upto spec_ext CompressionCodec.UNCOMPRESSED false 1
      (first_page_loop file_v2_page)).getD {})
    ((select_page_buf spec_ext CompressionCodec.UNCOMPRESSED
      (after_header ((scan_pages_upto spec_ext CompressionCodec.UNCOMPRESSED false 1
        (first_page_loop file_v2_page)).getD {})
        (header_at ((scan_pages_upto spec_ext CompressionCodec.UNCOMPRESSED false 1
          (first_page_loop file_v2_page)).getD {})).1 9)).getD {})
    1 [21, 6, 21, 0, 21, 0, 92, 0, 0]
    (header_at ((scan_pages_upto spec_ext CompressionCodec.UNCOMPRESSED false 1
      (first_page_loop file_v2_page)).getD {})).1 9
    (by decide!) (by decide!) (by decide) (by decide!) (by decide!) (by decide!) (by decide!)
    (by decide!)
  exact ⟨_, h1, by rw [h2]; decide!, by rw [h2]; decide!, h3.trans (by decide!)⟩

/-- The first row group of `file_strings` scanned twice: the first call returns true
with 3 rows, the strings "hi" and "!" in a heap chunk and the rows 0 and 2 pointing to
them; the second call, with `row_group_idx` back at 0, returns the same. -/
theorem scan_twice_same_witness :
    ParquetFile.scan spec_ext 10 (opened file_strings) {}
        ((opened file_strings).initialize_result {}) =
      some (Outcome.ok (first_scan file_strings)) ∧
    (first_scan file_strings).ret = true ∧
    (first_scan file_strings).s.row_group_idx = 1 ∧
    (first_scan file_strings).result.nrows = 3 ∧
    (first_scan file_strings).result.cols.map (fun c => c.defined) = [[1, 0, 1]] ∧
    (first_scan file_strings).result.cols.map (fun c => c.data) =
      [[Slot.ptr (some ⟨0, 0⟩), Slot.ptr none, Slot.ptr (some ⟨0, 3⟩)]] ∧
    (first_scan file_strings).result.cols.map (fun c => c.string_heap_chunks.map (fun h => h.bytes)) =
      [[[104, 105, 0, 33, 0]]] ∧
    ParquetFile.scan spec_ext 10
        { opened file_strings with pfile := (first_scan file_strings).pfile }
        { row_group_idx := 0 } (first_scan file_strings).result =
      some (Outcome.ok (first_scan file_strings)) :=
  ⟨by decide!, by decide!, by decide!, by decide!, by decide!, by decide!, by decide!,
   scan_twice_same spec_ext 10 (opened file_strings) {}
     ((opened file_strings).initialize_result {}) (first_scan file_strings) (by decide!)⟩

/-- Nine times 1, then 2 and 3, with bit width 2 and a buffer of 8 bytes for each value:
the encoder writes an RLE run (header 18, value 1) and a bit-packed group (header 3, the
two bytes of 2 + 4 * 3), and the decoder gives the eleven values back. -/
theorem rle_encode_decode_round_trip_witness :
    nanoparquet_rle_encode_int (fun x bw => x.length * (bw + 6))
        [1, 1, 1, 1, 1, 1, 1, 1, 1, 2, 3] 2 = RCall.value [18, 1, 3, 14, 0] ∧
    nanoparquet_rle_decode_int rle_get_batch [18, 1, 3, 14, 0] 2 false 11 =
      RCall.value [1, 1, 1, 1, 1, 1, 1, 1, 1, 2, 3] := by
  obtain ⟨bytes, h1, h2⟩ := rle_encode_decode_round_trip (fun x bw => x.length * (bw + 6)) 2
    [1, 1, 1, 1, 1, 1, 1, 1, 1, 2, 3] (by decide) (by decide!) (by decide!) (by decide!)
  have h3 : nanoparquet_rle_encode_int (fun x bw => x.length * (bw + 6))
      [1, 1, 1, 1, 1, 1, 1, 1, 1, 2, 3] 2 = RCall.value [18, 1, 3, 14, 0] := by decide!
  have hb : bytes = [18, 1, 3, 14, 0] := by
    have h4 : nanoparquet_rle_encode_int (fun x bw => x.length * (bw + 6))
        [1, 1, 1, 1, 1, 1, 1, 1, 1, 2, 3] ((2 : Nat) : Int) = RCall.value [18, 1, 3, 14, 0] := h3
    rw [h1] at h4
    exact RCall.value.inj h4
  subst hb
  exact ⟨h3, h2⟩

/-- The page of `required_page_cs`, 3 values scanned from row 1 on: `page_start_row` and
`defined_ptr` go from 1 to 4, and there is still no dictionary. -/
theorem scan_data_page_advances_by_num_values_witness :
    (required_page_cs.scan_data_page spec_ext int32_rc false).isOk = true ∧
    ((required_page_cs.scan_data_page spec_ext int32_rc false).getD
      (required_page_cs, int32_rc)).1.page_start_row = 4 ∧
    ((required_page_cs.scan_data_page spec_ext int32_rc false).getD
      (required_page_cs, int32_rc)).1.defined_ptr = 4 ∧
    ((required_page_cs.scan_data_page spec_ext int32_rc false).getD
      (required_page_cs, int32_rc)).1.seen_dict = false ∧
    ((required_page_cs.scan_data_page spec_ext int32_rc false).getD
      (required_page_cs, int32_rc)).1.dict = none := by
  obtain ⟨_, h2, h3, h4, h5, _⟩ :=
    scan_data_page_advances_by_num_values spec_ext required_page_cs int32_rc false
      ((required_page_cs.scan_data_page spec_ext int32_rc false).getD
        (required_page_cs, int32_rc)) (by decide!)
  exact ⟨by decide!, (h2 (by decide!) (by decide!)).trans (by decide!), h3.trans (by decide!),
    h4.trans (by decide!), h5.trans (by decide!)⟩

/-- On `file_bad_first_column` the scan of column `a` ends with "v2 data page format is
not supported":
the scan state is still at row group 0, column `a` holds the two values scanned before the
exception, and column `b` is as the caller passed it, without buffers. -/
theorem scan_failure_keeps_row_group_witness :
    ParquetFile.scan spec_ext 10 (opened file_bad_first_column) {}
        ((opened file_bad_first_column).initialize_result {}) =
      some (Outcome.thrown Err.v2DataPage
        (thrown_state (ParquetFile.scan spec_ext 10 (opened file_bad_first_column) {}
          ((opened file_bad_first_column).initialize_result {})) {})) ∧
    (thrown_state (ParquetFile.scan spec_ext 10 (opened file_bad_first_column) {}
        ((opened file_bad_first_column).initialize_result {})) {}).s = {} ∧
    (thrown_state (ParquetFile.scan spec_ext 10 (opened file_bad_first_column) {}
        ((opened file_bad_first_column).initialize_result {})) {}).s.row_group_idx = 0 ∧
    (thrown_state (ParquetFile.scan spec_ext 10 (opened file_bad_first_column) {}
        ((opened file_bad_first_column).initialize_result {})) {}).result.cols.map
        (fun c => c.data) =
      [[Slot.raw [1, 0, 0, 0], Slot.raw [2, 0, 0, 0]], []] ∧
    ((opened file_bad_first_column).initialize_result {}).cols.map (fun c => c.data) =
      [[], []] := by
  have h0 : ParquetFile.scan spec_ext 10 (opened file_bad_first_column) {}
        ((opened file_bad_first_column).initialize_result {}) =
      some (Outcome.thrown Err.v2DataPage
        (thrown_state (ParquetFile.scan spec_ext 10 (opened file_bad_first_column) {}
          ((opened file_bad_first_column).initialize_result {})) {})) := by decide!
  obtain ⟨h1, h2, _⟩ :=
    scan_failure_keeps_row_group spec_ext 10 (opened file_bad_first_column) {}
      ((opened file_bad_first_column).initialize_result {}) Err.v2DataPage _ h0
  exact ⟨h0, h1, h2, by decide!, by decide!⟩

/-- C32 fails on `file_bool_dict`: the column is BOOLEAN, its dictionary page is accepted
(the dictionary is the one value `true`), the data page is dictionary-encoded with the
bit-width byte 0, and `scan_column` ends with "Unsupported Parquet type" behind that
byte: no row has received a value. -/
theorem boolean_bit_width_zero_page_is_rejected :
    (first_column file_bool_dict).col.type = PType.BOOLEAN ∧
    (first_chunk_pages file_bool_dict).map (fun ph => ph.type) =
      [PageType.DICTIONARY_PAGE, PageType.DATA_PAGE] ∧
    (first_chunk_pages file_bool_dict).map (fun ph => ph.data_page_header.encoding) =
      [Encoding.PLAIN, Encoding.RLE_DICTIONARY] ∧
    ParquetFile.scan_column spec_ext 10 (opened file_bool_dict) {}
        (first_column file_bool_dict) =
      some (Outcome.thrown Err.dictDataUnsupportedType
        (thrown_state (ParquetFile.scan_column spec_ext 10 (opened file_bool_dict) {}
          (first_column file_bool_dict)) {})) ∧
    (thrown_state (ParquetFile.scan_column spec_ext 10 (opened file_bool_dict) {}
        (first_column file_bool_dict)) {}).cs.seen_dict = true ∧
    (thrown_state (ParquetFile.scan_column spec_ext 10 (opened file_bool_dict) {}
        (first_column file_bool_dict)) {}).cs.dict = some [Slot.raw [1]] ∧
    readAt (thrown_state (ParquetFile.scan_column spec_ext 10 (opened file_bool_dict) {}
        (first_column file_bool_dict)) {}).cs.page_buf
      ((thrown_state (ParquetFile.scan_column spec_ext 10 (opened file_bool_dict) {}
        (first_column file_bool_dict)) {}).cs.page_buf_ptr - 1) = some 0 ∧
    (thrown_state (ParquetFile.scan_column spec_ext 10 (opened file_bool_dict) {}
        (first_column file_bool_dict)) {}).result_col.data = [Slot.uninit, Slot.uninit] := by
  refine ⟨?_, ?_, ?_, ?_, ?_, ?_, ?_, ?_⟩ <;> decide!

/-- The page of `width_zero_cs`. On an INT32 column of 4 rows of which 0, 2 and 3 are
defined: whatever the collaborators are, the rows 0, 2 and 3 get the dictionary entry 7,
row 1 stays as it was, and the cursor is behind the bit-width byte. On a BOOLEAN and on a
FIXED_LEN_BYTE_ARRAY column: "Unsupported Parquet type", the cursor behind the bit-width
byte, the column as it was. -/
theorem bit_width_zero_page_witness :
    (∃ data',
      (∀ ext : Externals, width_zero_cs.scan_data_page_dict ext optional_int32_rc =
        Outcome.ok ({ width_zero_cs with page_buf_ptr := 1 },
                    { optional_int32_rc with data := data' })) ∧
      data'[0]? = some (Slot.raw [7, 0, 0, 0]) ∧
      data'[1]? = some Slot.uninit ∧
      data'[2]? = some (Slot.raw [7, 0, 0, 0]) ∧
      data'[3]? = some (Slot.raw [7, 0, 0, 0])) ∧
    bool_rc.col.type = PType.BOOLEAN ∧
    (∀ ext : Externals, width_zero_cs.scan_data_page_dict ext bool_rc =
      Outcome.thrown Err.dictDataUnsupportedType
        ({ width_zero_cs with page_buf_ptr := 1 }, bool_rc)) ∧
    flba_rc.col.type = PType.FIXED_LEN_BYTE_ARRAY ∧
    (∀ ext : Externals, width_zero_cs.scan_data_page_dict ext flba_rc =
      Outcome.thrown Err.dictDataUnsupportedType
        ({ width_zero_cs with page_buf_ptr := 1 }, flba_rc)) := by
  obtain ⟨data', h1, _, h3, h4, _⟩ :=
    (bit_width_zero_page width_zero_cs optional_int32_rc [Slot.raw [7, 0, 0, 0]]
      (by decide!) (by decide!) (by decide) (by decide!) (by decide!) (by decide!)).1
      (Or.inl (by decide!)) (by decide!) (by decide!) (by decide!) (by decide!) (by decide!)
  have hb := (bit_width_zero_page width_zero_cs bool_rc [Slot.raw [7, 0, 0, 0]]
      (by decide!) (by decide!) (by decide) (by decide!) (by decide!) (by decide!)).2
      (by decide!)
  have hf := (bit_width_zero_page width_zero_cs flba_rc [Slot.raw [7, 0, 0, 0]]
      (by decide!) (by decide!) (by decide) (by decide!) (by decide!) (by decide!)).2
      (by decide!)
  exact ⟨⟨data', h1, h3 0 1 (by decide!) (by decide), (h4 1 (by decide!)).trans (by decide!),
    h3 2 1 (by decide!) (by decide), h3 3 1 (by decide!) (by decide)⟩,
    by decide!, hb, by decide!, hf⟩

/-- On `file_plain_int32` (a chunk of 37 bytes): the headers of the chunk declare
`compressed_page_size >= 0`, and `scan_column` gives its outcome with every fuel from 37
on. -/
theorem page_loop_terminates_witness :
    (first_page_loop file_plain_int32).bytes_to_read = 37 ∧
    ∃ o, ∀ fuel, 37 ≤ fuel →
      ParquetFile.scan_column spec_ext fuel (opened file_plain_int32) {}
        (first_column file_plain_int32) = some o := by
  have e : (first_page_loop file_plain_int32).bytes_to_read.toNat = 37 := by decide!
  obtain ⟨_, _, ⟨o, ho⟩, _⟩ :=
    page_loop_terminates spec_ext (opened file_plain_int32) {} (first_column file_plain_int32)
      CompressionCodec.UNCOMPRESSED false (first_page_loop file_plain_int32) (by decide!)
      (fun buf ph n h => (parse_page_header_consumed buf ph n h).1) (by decide!)
  exact ⟨by decide!, o, fun fuel hf => ho fuel (by rw [e]; exact hf)⟩

/-- C33 on `file_heap_overrun`: the chunk is UNCOMPRESSED, the header of its BYTE_ARRAY
dictionary page says `uncompressed_page_size = 1` and `compressed_page_size = 6`, the
payload is the string "hi" behind its length. The heap chunk has room for 1 byte, the
string and its NUL take 3: the copy leaves the chunk, which the model records as an
undefined outcome of `scan_column`. -/
theorem dictionary_strings_overrun_heap_chunk :
    (first_chunk file_heap_overrun).meta_data.codec = CompressionCodec.UNCOMPRESSED ∧
    (first_column file_heap_overrun).col.type = PType.BYTE_ARRAY ∧
    (header_at (first_page_loop file_heap_overrun)).1.type = PageType.DICTIONARY_PAGE ∧
    (header_at (first_page_loop file_heap_overrun)).1.uncompressed_page_size = 1 ∧
    (header_at (first_page_loop file_heap_overrun)).1.compressed_page_size = 6 ∧
    (first_page_loop file_heap_overrun).chunk_buf.drop 13 = [2, 0, 0, 0, 104, 105] ∧
    HeapChunk.push { capacity := 1, bytes := [] } [104, 105] = none ∧
    ParquetFile.scan_column spec_ext 10 (opened file_heap_overrun) {}
        (first_column file_heap_overrun) = some Outcome.undefined := by
  refine ⟨?_, ?_, ?_, ?_, ?_, ?_, ?_, ?_⟩ <;> decide!

/-- C34 on `file_oversized_page`: behind the page header 8 bytes of the chunk are left,
the header says `compressed_page_size = 100`; `scan_column` does not fail, it returns
normally with the values 1 and 2, the end of the page buffer it handed to the decoder
being at offset 119 of a chunk buffer of 27 bytes. On `file_oversized_page_read`, whose
header declares 25 values, the decoder reads behind the chunk buffer (an undefined outcome
in the model). -/
theorem oversized_page_is_scanned :
    (first_page_loop file_oversized_page).chunk_buf.length = 27 ∧
    (header_at (first_page_loop file_oversized_page)).2 = 19 ∧
    (header_at (first_page_loop file_oversized_page)).1.compressed_page_size = 100 ∧
    ParquetFile.scan_column spec_ext 10 (opened file_oversized_page) {}
        (first_column file_oversized_page) =
      some (Outcome.ok (first_column_run file_oversized_page)) ∧
    (first_column_run file_oversized_page).result_col.data =
      [Slot.raw [1, 0, 0, 0], Slot.raw [2, 0, 0, 0]] ∧
    (first_column_run file_oversized_page).cs.page_buf_end_ptr = 119 ∧
    (first_column_run file_oversized_page).cs.page_buf.length = 27 ∧
    (first_column_run file_oversized_page).bytes_to_read = -92 ∧
    ParquetFile.scan_column spec_ext 10 (opened file_oversized_page_read) {}
        (first_column file_oversized_page_read) = some Outcome.undefined := by
  refine ⟨?_, ?_, ?_, ?_, ?_, ?_, ?_, ?_, ?_⟩ <;> decide!

/-- C35 on two files. `file_plain_int32` has 103 bytes: `read_page_header(100)` asks the
stream for 4294967295 bytes (`103 - 100 - 4` converted to `uint32_t`), gets the last 3
bytes of the file, trailing magic included, and ends with "End of file while reading".
`file_long_page` has 2052 bytes: `read_page_header(4)` asks for 2048 bytes, reads up to
the last byte of the file (offset 2051, behind offset `file_size - 4 = 2048`), and returns
the header and its length 20. -/
theorem read_page_header_reads_the_trailing_bytes :
    (opened file_plain_int32).file_size = 103 ∧
    (opened file_plain_int32).read_page_header spec_ext 100 =
      Outcome.thrown Err.eofWhileReading
        { pfile := { bytes := file_plain_int32, pos := 103, failed := true }
          len := 4294967295
          tmp_buf := [65, 82, 49] } ∧
    (opened file_long_page).file_size = 2052 ∧
    read_page_header_len 2052 4 = 2048 ∧
    ((opened file_long_page).read_page_header spec_ext 4).isOk = true ∧
    (((opened file_long_page).read_page_header spec_ext 4).getD {}).len = 2048 ∧
    (((opened file_long_page).read_page_header spec_ext 4).getD {}).tmp_buf.length = 2048 ∧
    (((opened file_long_page).read_page_header spec_ext 4).getD {}).pfile.pos = 2052 ∧
    (((opened file_long_page).read_page_header spec_ext 4).getD {}).tmp_buf.drop 2044 =
      [80, 65, 82, 49] ∧
    (((opened file_long_page).read_page_header spec_ext 4).getD {}).ph_size = 20 := by
  refine ⟨?_, ?_, ?_, ?_, ?_, ?_, ?_, ?_, ?_, ?_⟩ <;> decide!

/-- C38 on `file_short_payload` and `short_dict_cs`. The first page of the file declares
2 INT32 values and has a payload of 4 bytes: `scan_column` returns normally, and row 1
holds the 4 bytes behind the end of the page, which are the first bytes 21 2 21 0 of the
next page header. The dictionary page of `short_dict_cs` declares 2 values and has 4
bytes: `scan_dict_page` returns normally with a second entry taken from behind the end of
the page, the cursor at 8 with `page_buf_end_ptr = 4`. -/
theorem fixed_width_values_read_behind_page_end :
    (first_chunk_pages file_short_payload).map (fun ph => ph.compressed_page_size) = [4, 0] ∧
    (first_chunk_pages file_short_payload).map (fun ph => ph.data_page_header.num_values) =
      [2, 0] ∧
    ParquetFile.scan_column spec_ext 10 (opened file_short_payload) {}
        (first_column file_short_payload) =
      some (Outcome.ok (first_column_run file_short_payload)) ∧
    (first_column_run file_short_payload).result_col.data =
      [Slot.raw [1, 0, 0, 0], Slot.raw [21, 2, 21, 0]] ∧
    short_dict_cs.scan_dict_page int32_rc =
      Outcome.ok ({ short_dict_cs with
          seen_dict := true, dict_size := 2, page_buf_ptr := 8,
          dict := some [Slot.raw [1, 0, 0, 0], Slot.raw [21, 2, 21, 0]] }, int32_rc) ∧
    short_dict_cs.page_buf_end_ptr = 4 := by
  refine ⟨?_, ?_, ?_, ?_, ?_, ?_⟩ <;> decide!

/-- C39 on the input 16 0 0 0 3 5 with `includes_length = TRUE` and bit width 1: the
decoder is given the 2 bytes behind the length prefix and the length 6 of the whole
input (shown by a batch function that returns the two lengths it is given); the decoder
of the worked examples, asked for 16 values, reads behind the end of the input. -/
theorem rle_decode_int_passes_whole_length :
    nanoparquet_rle_decode_int
        (fun mem len _ _ => Decoded.values [mem.length, len.toNat])
        [2, 0, 0, 0, 3, 5] 1 true 0 = RCall.value [2, 6] ∧
    nanoparquet_rle_decode_int rle_get_batch [16, 0, 0, 0, 3, 5] 1 true 0 =
      RCall.undefined := by
  refine ⟨?_, ?_⟩ <;> decide!

end nanoparquet
